import Mathlib

/-!
# nirc: the byte source (`Decoder`) and the NIR deserializer

A shallow embedding of `src/lib/Decoder.cc`, `src/lib/Deserializer.cc` and
`src/lib/File.cc`, followed by theorems about them.

Conventions of the embedding.

* Bytes are `UInt8`; the source of a `Decoder` is a `List UInt8`.
* `int64_t` quantities are `Int`s kept in `[-2^63, 2^63)` by `wrap64`; `uint64_t`
  and `std::size_t` quantities are `Nat`s below `2^64`.
* `Result<T>` is `Except DecoderError T`; a member function of `Decoder` returns its
  result together with the decoder it leaves behind.
* Loops that consume the source are written with a fuel argument; the entry points
  supply `remaining + 1`, which the loop can never exhaust.
* The recursive decoders (`symbol`, `type_`, `value`, `next`) take a bound on the depth of
  the recursion; `File.from_contents` supplies the length of the source plus one, which is
  enough since every level consumes a byte (`File.from_contents_complete`).
-/

namespace nir

/-! ## Machine arithmetic -/

/-- Two's complement reduction of an integer to `int64_t`. -/
def wrap64 (x : Int) : Int := (x + 2 ^ 63) % 2 ^ 64 - 2 ^ 63

/-- Two's complement reduction of an integer to the 32-bit `int`. -/
def wrap32 (x : Int) : Int := (x + 2 ^ 31) % 2 ^ 32 - 2 ^ 31

/-- Left shift `a << s` of an `int64_t`. C++20 defines it for `s < 64` as the product
`a * 2^s` reduced modulo `2^64`. For `s ≥ 64` the language leaves it undefined; the model
takes the count modulo 64, as the x86-64 and AArch64 shift instructions do. -/
def shl64 (a : Int) (s : Nat) : Int := wrap64 (a * 2 ^ (s % 64))

/-- Right shift `a >> s` of an `int64_t`: arithmetic (rounds toward negative infinity). -/
def sar64 (a : Int) (s : Nat) : Int := a >>> (s % 64)

/-- Left shift `1 << s` where `1` is the literal of type `int` (32 bits): the result has
the type of the promoted left operand, `int`, whatever the type of the count. C++20
defines it for `s < 32`. For `s ≥ 32` the language leaves it undefined; the model takes
the count modulo 32, as the 32-bit shift instructions of x86-64 and AArch64 do. -/
def int_one_shl (s : Nat) : Int := wrap32 (2 ^ (s % 32))

/-- Bitwise or of two `int64_t`, through their unsigned 64-bit representations. -/
def or64 (a b : Int) : Int :=
  wrap64 (((a % 2 ^ 64).toNat ||| (b % 2 ^ 64).toNat : Nat) : Int)

/-- Conversion of an `int64_t` to `uint64_t`. -/
def to_u64 (a : Int) : Nat := (a % 2 ^ 64).toNat

/-! ## Decoder -/

/-- The order in which bytes are read (`std::endian`). -/
inductive Endian where
  | little
  | big
deriving DecidableEq, Repr

/-- The byte order of the host (`std::endian::native`). The model takes a little-endian
host; `numeric` does not depend on the choice (see `reassemble_host_independent`). -/
def Endian.native : Endian := Endian.little

/-- An error that occurred during decoding: the offset and a description. -/
structure DecoderError where
  offset : Nat
  diagnostic : String
deriving DecidableEq, Repr

deriving instance DecidableEq for Except

/-- `Result<T>`: a value or an error. -/
abbrev Result (α : Type) := Except DecoderError α

/-- A helper to decode information from an array of bytes. -/
structure Decoder where
  source : List UInt8
  position : Nat
  byte_order : Endian
deriving DecidableEq, Repr

namespace Decoder

/-- The decoder `d` moved forward by `n` bytes. -/
def advanced (d : Decoder) (n : Nat) : Decoder := { d with position := d.position + n }

/-- `source_size()`. -/
def source_size (d : Decoder) : Nat := d.source.length

/-- `current_position()`. -/
def current_position (d : Decoder) : Nat := d.position

/-- `is_empty()`: the current position equals the size of the source. -/
def is_empty (d : Decoder) : Bool := d.current_position == d.source_size

/-- `fail<T>(d)`: a decoding failure at the current position. -/
def fail {α : Type} (d : Decoder) (msg : String) : Result α :=
  Except.error ⟨d.position, msg⟩

/-- The value of the object whose representation in host order `host` is `bytes`. -/
def reassemble (host : Endian) (bytes : List UInt8) : Nat :=
  match host with
  | Endian.little => bytes.foldr (fun b acc => b.toNat + 256 * acc) 0
  | Endian.big => bytes.foldl (fun acc b => 256 * acc + b.toNat) 0

/-- The template `numeric<T>` for an unsigned `T` of `width` bytes, on a host of byte
order `host`: copies `width` bytes, reverses them when the decoder's byte order is not
the host's, and reinterprets them as a `T`. -/
def numeric_on (host : Endian) (width : Nat) (d : Decoder) : Result Nat × Decoder :=
  if d.position + width > d.source.length then
    (Except.error ⟨d.position, "not enough bytes"⟩, d)
  else
    let bytes := (d.source.drop d.position).take width
    let bytes := if d.byte_order ≠ host then bytes.reverse else bytes
    (Except.ok (reassemble host bytes), { d with position := d.position + width })

/-- The template `numeric<T>` on the host of the model. -/
def numeric (width : Nat) (d : Decoder) : Result Nat × Decoder :=
  numeric_on Endian.native width d

/-- Reinterpretation of an unsigned value of `bits` bits as two's complement. -/
def to_signed (bits : Nat) (n : Nat) : Int :=
  if n < 2 ^ (bits - 1) then (n : Int) else (n : Int) - 2 ^ bits

/-- `peek()`: the next byte as an `int8_t`, without consuming it. -/
def peek (d : Decoder) : Option Int :=
  if d.position < d.source.length then
    (d.source.get? d.position).map (fun b => to_signed 8 b.toNat)
  else none

/-- `u8()`. -/
def u8 (d : Decoder) : Result Nat × Decoder := numeric 1 d

/-- `i8()`. -/
def i8 (d : Decoder) : Result Int × Decoder :=
  let r := numeric 1 d
  (r.1.map (to_signed 8), r.2)

/-- `u32()`. -/
def u32 (d : Decoder) : Result Nat × Decoder := numeric 4 d

/-- `i32()`. -/
def i32 (d : Decoder) : Result Int × Decoder :=
  let r := numeric 4 d
  (r.1.map (to_signed 32), r.2)

/-- `f32()`: the 32 bits read, as the pattern of the `float`. -/
def f32 (d : Decoder) : Result Nat × Decoder := numeric 4 d

/-- `f64()`: the 64 bits read, as the pattern of the `double`. -/
def f64 (d : Decoder) : Result Nat × Decoder := numeric 8 d

/-- The loop of `signed_leb128`, entered with the accumulated `value` and `shift`. -/
def signed_leb128_loop : Nat → Decoder → Int → Nat → Result Int × Decoder
  | 0, d, _, _ => (d.fail "ill-formed signed LEB128", d)
  | fuel + 1, d, value, shift =>
    match d.u8 with
    | (Except.error _, d1) => (d1.fail "ill-formed signed LEB128", d1)
    | (Except.ok b, d1) =>
      let slice : Int := ((b &&& 0x7f : Nat) : Int)
      if (shift == 63 && slice != 0 && slice != 0x7f) ||
         (decide (shift > 63) && slice != (if value < 0 then 0x7f else 0x00)) then
        (d1.fail "signed LEB128 too big for a 64-bit signed integer", d1)
      else
        let value := or64 value (shl64 slice shift)
        let shift := shift + 7
        if ((b &&& 0x80) >>> 7) == 0 then
          if decide (shift < 64) && ((b &&& 0x40) != 0) then
            (Except.ok (or64 value (wrap32 (-(int_one_shl shift)))), d1)
          else
            (Except.ok value, d1)
        else
          signed_leb128_loop fuel d1 value shift

/-- `signed_leb128()`: reads a signed integer in little endian base 128. -/
def signed_leb128 (d : Decoder) : Result Int × Decoder :=
  signed_leb128_loop (d.source.length - d.position + 1) d 0 0

/-- The loop of `unsigned_leb128`, entered with the accumulated `value` and `shift`. -/
def unsigned_leb128_loop : Nat → Decoder → Int → Nat → Result Nat × Decoder
  | 0, d, _, _ => (d.fail "ill-formed unsigned LEB128", d)
  | fuel + 1, d, value, shift =>
    match d.u8 with
    | (Except.error _, d1) => (d1.fail "ill-formed unsigned LEB128", d1)
    | (Except.ok b, d1) =>
      let slice : Int := ((b &&& 0x7f : Nat) : Int)
      if (shift == 63 && sar64 (shl64 slice shift) shift != slice) ||
         (decide (shift > 63) && slice != 0) then
        (d1.fail "unsigned LEB128 too big for a 64-bit unsigned integer", d1)
      else
        let value := wrap64 (value + shl64 slice shift)
        if (b >>> 7) == 0 then
          (Except.ok (to_u64 value), d1)
        else
          unsigned_leb128_loop fuel d1 value (shift + 7)

/-- `unsigned_leb128()`: reads an unsigned integer in little endian base 128. -/
def unsigned_leb128 (d : Decoder) : Result Nat × Decoder :=
  unsigned_leb128_loop (d.source.length - d.position + 1) d 0 0

/-- `bytes(n, o)`: reads up to `n` bytes and returns them (the source writes them to `o`
and returns their number). -/
def bytes (n : Nat) (d : Decoder) : List UInt8 × Decoder :=
  let r := (d.source.drop d.position).take n
  (r, { d with position := d.position + r.length })

end Decoder

/-! ## Standard LEB128 encodings (the producer's side) -/

/-- The minimal unsigned LEB128 encoding of `n`, with `fuel` bounding the number of
continuation bytes. -/
def uleb128_go : Nat → Nat → List UInt8
  | 0, n => [UInt8.ofNat (n % 128)]
  | fuel + 1, n =>
    if n < 128 then [UInt8.ofNat n]
    else UInt8.ofNat (n % 128 + 128) :: uleb128_go fuel (n / 128)

/-- The standard (minimal) unsigned LEB128 encoding of `n`. -/
def uleb128 (n : Nat) : List UInt8 := uleb128_go n n

/-- The minimal signed LEB128 encoding of `v`, with `fuel` bounding the number of
continuation bytes. -/
def sleb128_go : Nat → Int → List UInt8
  | 0, v => [UInt8.ofNat (v % 128).toNat]
  | fuel + 1, v =>
    if -64 ≤ v ∧ v < 64 then [UInt8.ofNat (v % 128).toNat]
    else UInt8.ofNat ((v % 128).toNat + 128) :: sleb128_go fuel (v / 128)

/-- The standard (minimal) signed LEB128 encoding of `v`. -/
def sleb128 (v : Int) : List UInt8 := sleb128_go v.natAbs v

/-- A terminated LEB128 group: every byte but the last has the continuation bit. -/
def terminated_group : List UInt8 → Bool
  | [] => false
  | [b] => decide (b.toNat < 128)
  | b :: c :: bs => decide (128 ≤ b.toNat) && terminated_group (c :: bs)

/-- The mathematical value of an unsigned LEB128 group. -/
def group_value : List UInt8 → Nat
  | [] => 0
  | b :: bs => b.toNat % 128 + 128 * group_value bs


/-! ## The IR data model (`Symbol.hh`, `Type.hh`, `Value.hh`, `Next.hh`, `Operation.hh`,
`Instruction.hh`, `Attribute.hh`, `AttributeSet.hh`, `Definition.hh`)

`std::string` is a sequence of bytes; `std::vector<T>` and `std::vector<indirect<T>>`
are lists; `std::optional<T>` is `Option T`. -/

/-- The contents of a `std::string`. -/
abbrev Bytes := List UInt8

/-- The signature of a symbol: its mangled name. -/
structure Signature where
  mangled_name : Bytes
deriving DecidableEq, Repr

namespace symbol

/-- A top-level symbol. -/
structure Top where
  id : Bytes
deriving DecidableEq, Repr

/-- A member of some top-level symbol having its own signature. -/
structure Member where
  top : Top
  signature : Signature
deriving DecidableEq, Repr

end symbol

/-- The identifier of a type or method: `variant<None, Top, Member>`. -/
inductive Symbol where
  | none
  | top (t : symbol.Top)
  | member (m : symbol.Member)
deriving DecidableEq, Repr

namespace Symbol

/-- `as<symbol::Top>()`. -/
def as_top : Symbol → Option symbol.Top
  | top t => some t
  | _ => Option.none

/-- `as<symbol::Member>()`. -/
def as_member : Symbol → Option symbol.Member
  | member m => some m
  | _ => Option.none

end Symbol

/-- Modelled from the spec: `Local.hh` is not among the sources. A local is the identifier
of an SSA value or block parameter; the deserializer builds it from one `uint64_t`. -/
structure Local where
  id : Nat
deriving DecidableEq, Repr

namespace type

/-- A predefined type symbol. -/
inductive Predefined where
  | null
  | unit
  | pointer
  | size
  | vararg
  | nothing
  | virtual_
deriving DecidableEq, Repr

/-- The type of a number: the raw 16-bit representation. -/
structure Numeric where
  raw_value : Nat
deriving DecidableEq, Repr

/-- `Numeric::integer(width, is_signed)`. The source checks `width < 2^14` first and
aborts otherwise; the value returned is `width | ((is_signed ? 0b11 : 0b10) << 14)`
converted to `uint16_t`. -/
def Numeric.integer (width : Nat) (is_signed : Bool) : Numeric :=
  ⟨(width ||| ((if is_signed then 0b11 else 0b10) <<< 14)) % 2 ^ 16⟩

/-- `Numeric::floating_point(width)`. The source checks `width ∈ {32, 64}` first. -/
def Numeric.floating_point (width : Nat) : Numeric := ⟨width⟩

end type

/-- The type of a NIR entity: `variant<Predefined, Numeric, ArrayValue, ArrayReference,
Struct, Reference, Var, Function>`. -/
inductive Type_ where
  | predefined (p : type.Predefined)
  | numeric (n : type.Numeric)
  | array_value (element : Type_) (size : Nat)
  | array_reference (element : Type_) (is_nullable : Bool)
  | struct (elements : List Type_)
  | reference (name : symbol.Top) (is_exact : Bool) (is_nullable : Bool)
  | var (type : Type_)
  | function (parameters : List Type_) (return_value : Type_)

namespace Type_

def null : Type_ := predefined type.Predefined.null
def unit : Type_ := predefined type.Predefined.unit
def pointer : Type_ := predefined type.Predefined.pointer
def size : Type_ := predefined type.Predefined.size
def vararg : Type_ := predefined type.Predefined.vararg
def nothing : Type_ := predefined type.Predefined.nothing
def virtual_ : Type_ := predefined type.Predefined.virtual_
def u1 : Type_ := numeric (type.Numeric.integer 1 false)
/-- `Type::i8()`, which the source defines as `Numeric::integer(32, true)`. -/
def i8 : Type_ := numeric (type.Numeric.integer 32 true)
def i16 : Type_ := numeric (type.Numeric.integer 16 true)
def u16 : Type_ := numeric (type.Numeric.integer 16 false)
def i32 : Type_ := numeric (type.Numeric.integer 32 true)
def i64 : Type_ := numeric (type.Numeric.integer 64 true)
def f32 : Type_ := numeric (type.Numeric.floating_point 32)
def f64 : Type_ := numeric (type.Numeric.floating_point 64)

/-- `as<type::Function>()`: the parameters and the return value. -/
def as_function : Type_ → Option (List Type_ × Type_)
  | function ps rv => some (ps, rv)
  | _ => none

end Type_

/-- A value in NIR. Floating-point payloads are kept as their bit patterns. -/
inductive Value where
  | null
  | unit
  | zero (t : Type_)
  | boolean (b : Bool)
  | size (raw_value : Nat)
  | char (c : Nat)
  | byte (b : Int)
  | short (s : Int)
  | int (i : Int)
  | long (l : Int)
  | float (bits : Nat)
  | double (bits : Nat)
  | array_value (element_type : Type_) (elements : List Value)
  | struct (elements : List Value)
  | byte_string (bytes : List Int)
  | local_ (id : Local) (t : Type_)
  | symbol (name : Symbol) (t : Type_)
  | constant (value : Value)
  | string (value : Bytes)
  | virtual_ (key : Nat)
  | class_of (name : symbol.Top)

namespace Value

/-- `as<value::Local>()`: the identifier and the type. -/
def as_local : Value → Option (Local × Type_)
  | local_ id t => some (id, t)
  | _ => none

end Value

/-- A `value::Local`: an identifier with its type. -/
structure value.Local where
  id : nir.Local
  type : Type_

/-- A continuation. -/
inductive Next where
  | none
  | unwind (exception : value.Local) (next : Next)
  | case_ (value : Value) (next : Next)
  | label (id : Local) (arguments : List Value)

/-- Atomic memory ordering constraints. -/
inductive MemoryOrder where
  | unordered
  | monotonic
  | acquire
  | release
  | acquire_release
  | sequentially_consistent
deriving DecidableEq, Repr

inductive BinaryOperator where
  | iadd | fadd | isub | fsub | imul | fmul | sdiv | udiv | fdiv | srem | urem | frem
  | shl | lshr | ashr | and_ | or_ | xor_
deriving DecidableEq, Repr

inductive ComparisonOperator where
  | ieq | ine | ugt | uge | ult | ule | sgt | sge | slt | sle
  | feq | fne | fgt | fge | flt | fle
deriving DecidableEq, Repr

inductive ConversionOperator where
  | zsize_cast | ssize_cast | trunc | zext | sext | fptrunc | fpext | fptoui | fptosi
  | uitofp | sitofp | ptrtoint | inttoptr | bitcast
deriving DecidableEq, Repr

/-- A function type as held by `type::Function`. -/
structure type.Function where
  parameters : List Type_
  return_value : Type_

/-- An operation: `variant<Call, Load, Store, ..., ArrayLength>`. -/
inductive Operation where
  | call (callee_type : type.Function) (callee : Value) (arguments : List Value)
  | load (type : Type_) (source : Value) (ordering : Option MemoryOrder)
  | store (type : Type_) (target : Value) (source : Value) (ordering : Option MemoryOrder)
  | element (whole_type : Type_) (whole : Value) (path : List Nat)
  | extract (whole : Value) (path : List Nat)
  | insert (whole : Value) (part : Value) (path : List Nat)
  | stack_allocate (type : Type_) (count : Nat)
  | binary_apply (callee : BinaryOperator) (operand_type : Type_) (lhs : Value) (rhs : Value)
  | compare (callee : ComparisonOperator) (operand_type : Type_) (lhs : Value) (rhs : Value)
  | convert (callee : ConversionOperator) (target : Type_) (source : Value)
  | fence (ordering : MemoryOrder)
  | class_allocate (name : symbol.Top) (zone : Option Value)
  | field_load (type : Type_) (owner : Value) (name : symbol.Member)
  | field_store (type : Type_) (owner : Value) (name : symbol.Member) (source : Value)
  | field (owner : Value) (name : symbol.Member)
  | method (owner : Value) (signature : Signature)
  | dynamic_method (owner : Value) (signature : Signature)
  | module (name : symbol.Top)
  | as (target : Type_) (source : Value)
  | is (target : Type_) (source : Value)
  | copy (source : Value)
  | size_of (operand : Type_)
  | alignment_of (operand : Type_)
  | box (box_type : Type_) (contents : Value)
  | unbox (box_type : Type_) (box : Value)
  | var (type : Type_)
  | var_load (slot : Value)
  | var_store (slot : Value) (source : Value)
  | array_allocate (element : Type_) (initializer : Value) (zone : Option Value)
  | array_load (type : Type_) (owner : Value) (position : Nat)
  | array_store (type : Type_) (owner : Value) (position : Nat) (source : Value)
  | array_length (operand : Value)

/-- A Scala source file: virtual, or concrete with its path. -/
inductive SourceFile where
  | virtual_
  | concrete (path : Bytes)
deriving DecidableEq, Repr

/-- A position in a source file. -/
structure SourcePosition where
  scala_source : SourceFile
  line_index : Nat
  column_index : Nat
deriving DecidableEq, Repr

/-- The identifier of a lexical scope. -/
structure ScopeIdentifier where
  raw_value : Nat
deriving DecidableEq, Repr

/-- A lexical scope in program sources. -/
structure LexicalScope where
  id : ScopeIdentifier
  parent : ScopeIdentifier
  position : SourcePosition
deriving DecidableEq, Repr

inductive LogicalOperator where
  | and_ | or_
deriving DecidableEq, Repr

/-- A link-time condition. -/
inductive LinktimeCondition where
  | simple (lhs : Bytes) (rhs : Value) (relation : ComparisonOperator)
  | complex (lhs : LinktimeCondition) (rhs : LinktimeCondition) (relation : LogicalOperator)

/-- An instruction. -/
inductive Instruction where
  | label (id : Local) (parameters : List value.Local) (position : SourcePosition)
  | let_ (id : Local) (operation : Operation) (next : Next) (position : SourcePosition)
      (scope : ScopeIdentifier)
  | return_ (value : Value) (position : SourcePosition)
  | jump (target : Next) (position : SourcePosition)
  | if_ (condition : Value) (success : Next) (failure : Next) (position : SourcePosition)
  | switch_ (value : Value) (targets : List Next) (position : SourcePosition)
  | throw_ (exception : Value) (unwind : Next) (position : SourcePosition)
  | unreachable (unwind : Next) (position : SourcePosition)
  | linktime_jump (condition : LinktimeCondition) (success : Next) (failure : Next)
      (position : SourcePosition)

/-- The discriminator of an attribute (`attribute::Kind`). -/
inductive Attribute.Kind where
  | may_inline | inline_hint | no_inline | always_inline | may_specialize | no_specialize
  | un_opt | no_opt | did_opt | bail_opt | dyn | stub | extern_ | link | define | abstract
  | volatile_ | final | safe_publish | link_time_resolved | uses_intrinsic | alignment
deriving DecidableEq, Repr

/-- The position of the bit of a kind. -/
def Attribute.Kind.bit : Attribute.Kind → Nat
  | may_inline => 0 | inline_hint => 1 | no_inline => 2 | always_inline => 3
  | may_specialize => 4 | no_specialize => 5 | un_opt => 6 | no_opt => 7 | did_opt => 8
  | bail_opt => 9 | dyn => 10 | stub => 11 | extern_ => 12 | link => 13 | define => 14
  | abstract => 15 | volatile_ => 16 | final => 17 | safe_publish => 18
  | link_time_resolved => 19 | uses_intrinsic => 20 | alignment => 21

/-- The raw value of a kind: `1 << bit`. -/
def Attribute.Kind.raw (k : Attribute.Kind) : Nat := 1 <<< k.bit

/-- An attribute: a thin kind or one of the fat variants. -/
inductive Attribute where
  | thin (k : Attribute.Kind)
  | bail_opt (message : Bytes)
  | extern_ (is_blocking : Bool)
  | link (name : Bytes)
  | define (name : Bytes)
  | alignment (size : Int) (group : Option Bytes)
deriving DecidableEq, Repr

namespace Attribute

/-- `kind()`. -/
def kind : Attribute → Attribute.Kind
  | thin k => k
  | bail_opt _ => Kind.bail_opt
  | extern_ _ => Kind.extern_
  | link _ => Kind.link
  | define _ => Kind.define
  | alignment _ _ => Kind.alignment

/-- `is_thin()`: the wrapped alternative is a `Kind`. -/
def is_thin : Attribute → Bool
  | thin _ => true
  | _ => false

end Attribute

/-- An ordered set of attributes: a bitset of thin kinds and the fat members. -/
structure AttributeSet where
  thin : Nat
  fat : List Attribute
deriving DecidableEq, Repr

namespace AttributeSet

/-- `append(a)`. -/
def append (s : AttributeSet) (a : Attribute) : AttributeSet :=
  if a.is_thin then
    { s with thin := s.thin ||| a.kind.raw }
  else
    match s.fat.find? (fun b => b.kind == a.kind) with
    | none => { s with fat := s.fat ++ [a] }
    | some b => if b ≠ a then { s with fat := s.fat ++ [a] } else s

/-- `contents_of(source)`. The source declares `AttributeSet result;` without an
initializer, which leaves the bitset `thin` indeterminate; the model starts it at 0. -/
def contents_of (source : List Attribute) : AttributeSet :=
  source.foldl append ⟨0, []⟩

end AttributeSet

namespace definition

/-- Debug information of a method: the names of locals (a map, kept as the list of its
entries in insertion order, one per key) and the lexical scopes. -/
structure DebugInformation where
  local_name : List (Local × Bytes)
  scopes : List LexicalScope
deriving DecidableEq, Repr

end definition

/-- A definition: `variant<Binding, Forward, Method, Trait, Class, Module>`. -/
inductive Definition where
  | binding (attributes : AttributeSet) (name : symbol.Member) (type : Type_)
      (initializer : Value) (is_constant : Bool) (position : SourcePosition)
  | forward (attributes : AttributeSet) (name : symbol.Member) (type : type.Function)
      (position : SourcePosition)
  | method (attributes : AttributeSet) (name : symbol.Member) (type : type.Function)
      (instructions : List Instruction) (debug : definition.DebugInformation)
      (position : SourcePosition)
  | trait (attributes : AttributeSet) (name : symbol.Top) (bases : List symbol.Top)
      (position : SourcePosition)
  | class_ (attributes : AttributeSet) (name : symbol.Top) (parent : Option symbol.Top)
      (traits : List symbol.Top) (position : SourcePosition)
  | module (attributes : AttributeSet) (name : symbol.Top) (parent : Option symbol.Top)
      (traits : List symbol.Top) (position : SourcePosition)

/-! ## Tags (`Tags.hh`)

Each enumeration lists its tags in the order of the source; `raw_value` is the position. -/

namespace tag

inductive Attribute where
  | may_inline | inline_hint | no_inline | always_inline | may_specialize | no_specialize
  | un_opt | no_opt | did_opt | bail_opt | extern_ | link | dyn | stub | abstract
  | volatile_ | final | safe_publish | link_time_resolved | uses_intrinsic | align | define
deriving DecidableEq, Repr

inductive Definition where
  | variable | constant | declare | define | trait | class_ | module
deriving DecidableEq, Repr

inductive Instruction where
  | label | let_ | unwind | return_ | jump | if_ | switch_ | throw_ | unreachable
  | linktime_if
deriving DecidableEq, Repr

inductive LinktimeCondition where
  | simple | complex
deriving DecidableEq, Repr

inductive BinaryOperator where
  | iadd | fadd | isub | fsub | imul | fmul | sdiv | udiv | fdiv | srem | urem | frem
  | shl | lshr | ashr | and_ | or_ | xor_
deriving DecidableEq, Repr

inductive ComparisonOperator where
  | ieq | ine | ugt | uge | ult | ule | sgt | sge | slt | sle
  | feq | fne | fgt | fge | flt | fle
deriving DecidableEq, Repr

inductive ConversionOperator where
  | trunc | zext | sext | fptrunc | fpext | fptoui | fptosi | uitofp | sitofp
  | ptrtoint | inttoptr | bitcast | ssize_cast | zsize_cast
deriving DecidableEq, Repr

inductive Next where
  | none | unwind | case_ | label
deriving DecidableEq, Repr

inductive Operation where
  | call | load | loadAtomic | store | storeAtomic | element | extract | insert
  | stackalloc | binary | compare | convert | classalloc | classalloc_zone | field
  | fieldload | fieldstore | method | module | as | is | copy | size_of | alignment_of
  | box | unbox | dynmethod | var | varload | varstore | arrayalloc | arrayalloc_zone
  | arrayload | arraystore | arraylength | fence
deriving DecidableEq, Repr

inductive String where
  | empty | contained | inserted | appended
deriving DecidableEq, Repr

inductive Symbol where
  | none | top | member
deriving DecidableEq, Repr

inductive Type_ where
  | vararg | boolean | pointer | char_ | byte | short_ | int_ | long_ | float_ | double_
  | array_value | struct_value | function | null | nothing | virtual_ | var | unit
  | array | reference | size
deriving DecidableEq, Repr

inductive Value where
  | true_ | false_ | null | zero | char_ | byte | short_ | int_ | long_ | float_
  | double_ | struct_ | array | byte_string | local_ | symbol | unit | constant | string
  | virtual_ | class_of | linktime_condition | size
deriving DecidableEq, Repr

def Attribute.raw_value (t : Attribute) : Nat := t.toCtorIdx
def Definition.raw_value (t : Definition) : Nat := t.toCtorIdx
def Instruction.raw_value (t : Instruction) : Nat := t.toCtorIdx
def LinktimeCondition.raw_value (t : LinktimeCondition) : Nat := t.toCtorIdx
def BinaryOperator.raw_value (t : BinaryOperator) : Nat := t.toCtorIdx
def ComparisonOperator.raw_value (t : ComparisonOperator) : Nat := t.toCtorIdx
def ConversionOperator.raw_value (t : ConversionOperator) : Nat := t.toCtorIdx
def Next.raw_value (t : Next) : Nat := t.toCtorIdx
def Operation.raw_value (t : Operation) : Nat := t.toCtorIdx
def String.raw_value (t : String) : Nat := t.toCtorIdx
def Symbol.raw_value (t : Symbol) : Nat := t.toCtorIdx
def Type_.raw_value (t : Type_) : Nat := t.toCtorIdx
def Value.raw_value (t : Value) : Nat := t.toCtorIdx

end tag

/-! ## Deserializer (`Deserializer.hh`, `Deserializer.cc`) -/

/-- How a call into the deserializer or into the algebra of the IR ends when it produces
no result.

* `exception e`: `Result::get()` threw the error `e` of a failed read;
* `bad_optional_access`: `std::optional::value()` threw on an empty optional;
* `abort message`: `fatal_error` or a failed `precondition` called `std::abort`;
* `undefined what`: the language gives the execution no defined behaviour;
* `out_of_fuel`: the recursion bound of the embedding was reached (no counterpart in the
  source);
* `out_of_range`: a `std::out_of_range` was thrown (by `Type::element_at` or by
  `std::vector::at`);
* `domain_error`: a `std::domain_error` was thrown (its diagnostic, which prints the
  type, is not modelled). -/
inductive Failure where
  | exception (e : DecoderError)
  | bad_optional_access
  | abort (message : String)
  | undefined (what : String)
  | out_of_fuel
  | out_of_range
  | domain_error
deriving DecidableEq, Repr

/-- Whether the failure is a termination with an error: an exception or an abort. -/
def Failure.is_fatal : Failure → Bool
  | exception _ => true
  | bad_optional_access => true
  | abort _ => true
  | undefined _ => false
  | out_of_fuel => false
  | out_of_range => true
  | domain_error => true

/-- The parsing of a file's serialized source: the byte source and the four memos. -/
structure Deserializer where
  source : Decoder
  interned_strings : List Bytes
  interned_symbols : List Symbol
  interned_types : List Type_
  interned_values : List Value

/-- A member function of `Deserializer` returning an `α`: it ends with a failure or with
a result and the state it leaves behind. -/
def M (α : Type) : Type := Deserializer → Except Failure (α × Deserializer)

namespace M

/-- Returning a value. -/
def pure {α : Type} (a : α) : M α := fun ds => Except.ok (a, ds)

/-- Sequencing: the second computation runs in the state left by the first. -/
def bind {α β : Type} (m : M α) (f : α → M β) : M β := fun ds =>
  match m ds with
  | Except.ok (a, ds1) => f a ds1
  | Except.error e => Except.error e

instance : Monad M where
  pure := M.pure
  bind := M.bind

/-- Ending with the failure `e`. -/
def fail {α : Type} (e : Failure) : M α := fun _ => Except.error e

end M

/-- `fatal_error(message)`: reports and aborts. -/
def fatal_error {α : Type} (message : String) : M α := M.fail (Failure.abort message)

/-- `precondition(condition, message)`: aborts unless the condition holds. -/
def precondition (condition : Bool) (message : String) : M Unit :=
  if condition then pure () else M.fail (Failure.abort message)

/-- `std::optional::value()`. -/
def value_of {α : Type} (o : Option α) : M α :=
  match o with
  | some a => pure a
  | none => M.fail Failure.bad_optional_access

/-- A memo of the deserializer: how to read it and how to `push_back` on it. -/
structure Memo (α : Type) where
  get : Deserializer → List α
  push : α → Deserializer → Deserializer

/-- The memo `interned_strings`. -/
def Memo.strings : Memo Bytes :=
  ⟨fun ds => ds.interned_strings,
   fun v ds => { ds with interned_strings := ds.interned_strings ++ [v] }⟩

/-- The memo `interned_symbols`. -/
def Memo.symbols : Memo Symbol :=
  ⟨fun ds => ds.interned_symbols,
   fun v ds => { ds with interned_symbols := ds.interned_symbols ++ [v] }⟩

/-- The memo `interned_types`. -/
def Memo.types : Memo Type_ :=
  ⟨fun ds => ds.interned_types,
   fun v ds => { ds with interned_types := ds.interned_types ++ [v] }⟩

/-- The memo `interned_values`. -/
def Memo.values : Memo Value :=
  ⟨fun ds => ds.interned_values,
   fun v ds => { ds with interned_values := ds.interned_values ++ [v] }⟩

namespace Deserializer

/-- A read `source.f().get()`: the value read, or the exception of `Result::get()`. -/
def get {α : Type} (read : Decoder → Result α × Decoder) : M α := fun ds =>
  match read ds.source with
  | (Except.ok a, d) => Except.ok (a, { ds with source := d })
  | (Except.error e, _) => Except.error (Failure.exception e)

/-- The element `memo[i]` of a `std::vector`, an unchecked access: outside the vector the
behaviour is undefined. -/
def at_index {α : Type} (memo : Memo α) (i : Nat) : M α := fun ds =>
  match (memo.get ds).get? i with
  | some v => Except.ok (v, ds)
  | none => Except.error (Failure.undefined "std::vector::operator[] out of range")

/-- `memo.push_back(v)`. -/
def push_back {α : Type} (memo : Memo α) (v : α) : M Unit := fun ds =>
  Except.ok ((), memo.push v ds)

/-- The loop of `sequence`: `count` invocations of `decode`, results in order. -/
def sequence_loop {α : Type} (decode : M α) : Nat → M (List α)
  | 0 => pure []
  | count + 1 => do
    let x ← decode
    let xs ← sequence_loop decode count
    pure (x :: xs)

/-- `sequence<T>(decode)`: an unsigned LEB128 count, then that many invocations of
`decode`. (A failure of `reserve` for a count the memory cannot hold is not modelled.) -/
def sequence {α : Type} (decode : M α) : M (List α) := do
  let s ← get Decoder.unsigned_leb128
  sequence_loop decode s

/-- `internable<T>(memo, decode)`. -/
def internable {α : Type} (memo : Memo α) (decode : M α) : M α := fun ds =>
  if ds.source.peek = some (-1) then
    match Decoder.unsigned_leb128 (Decoder.u8 ds.source).2 with
    | (Except.error e, _) => Except.error (Failure.exception e)
    | (Except.ok i, d) => at_index memo i { ds with source := d }
  else
    let p := ds.source.current_position
    match decode ds with
    | Except.error e => Except.error e
    | Except.ok (v, ds1) =>
      if ds1.source.current_position > p + 2 then
        Except.ok (v, memo.push v ds1)
      else
        Except.ok (v, ds1)

/-- `boolean()`. -/
def boolean : M Bool := do
  let b ← get Decoder.u8
  pure (b != 0)

/-- `optional<T>(decode)`. -/
def optional {α : Type} (decode : M α) : M (Option α) := do
  if (← boolean) then
    let v ← decode
    pure (some v)
  else
    pure none

/-- `uint32()`: an unsigned LEB128 truncated to 32 bits. -/
def uint32 : M Nat := do
  let v ← get Decoder.unsigned_leb128
  pure ((v &&& 0xffffffff) % 2 ^ 32)

/-- `local()`. -/
def local_ : M Local := do
  let v ← get Decoder.unsigned_leb128
  pure ⟨v⟩

/-- `scope_identifier()`. -/
def scope_identifier : M ScopeIdentifier := do
  let v ← get Decoder.unsigned_leb128
  pure ⟨v⟩

/-- `inline_string()`: an unsigned LEB128 length `n`, then `n` bytes; a `precondition`
aborts when fewer than `n` bytes could be read. (The source holds the bytes in a
variable-length array `char points[n]` on the stack, whose limits are not modelled.) -/
def inline_string : M Bytes := do
  let n ← get Decoder.unsigned_leb128
  let r ← get (fun d => (Except.ok (Decoder.bytes n d).1, (Decoder.bytes n d).2))
  precondition (n == r.length) "invalid string"
  pure r

/-- `string()`: the tagged string table. In the `appended` case the operands of `+` are
evaluated left to right. -/
def string : M Bytes := do
  let t ← get Decoder.u8
  if t = tag.String.empty.raw_value then
    pure []
  else if t = tag.String.contained.raw_value then
    let n ← get Decoder.unsigned_leb128
    let i ← get Decoder.unsigned_leb128
    let s ← at_index Memo.strings i
    pure (s.take n)
  else if t = tag.String.inserted.raw_value then
    let s ← inline_string
    push_back Memo.strings s
    pure s
  else if t = tag.String.appended.raw_value then
    let n ← get Decoder.unsigned_leb128
    let i ← get Decoder.unsigned_leb128
    let m ← at_index Memo.strings i
    let tail ← inline_string
    let s := m.take n ++ tail
    push_back Memo.strings s
    pure s
  else
    fatal_error "unexpected tag"

/-- `signature()`. -/
def signature : M Signature := do
  let s ← string
  pure ⟨s⟩

/-- `symbol()`, with a bound on the depth of the recursion. -/
def symbol : Nat → M Symbol
  | 0 => M.fail Failure.out_of_fuel
  | fuel + 1 => internable Memo.symbols (do
    let t ← get Decoder.u8
    if t = tag.Symbol.none.raw_value then
      pure Symbol.none
    else if t = tag.Symbol.top.raw_value then
      let s ← string
      pure (Symbol.top ⟨s⟩)
    else if t = tag.Symbol.member.raw_value then
      let owner ← symbol fuel
      let top ← value_of owner.as_top
      let sig ← signature
      pure (Symbol.member ⟨top, sig⟩)
    else
      fatal_error "unexpected tag")

end Deserializer

namespace Deserializer

/-- What `std::transform(first, last, v.begin(), f)` does when `v` is empty (reserved or
not) and the input has `n` elements: nothing for `n = 0`; otherwise it writes through
`v.begin()`, outside the vector, and the behaviour is undefined (the size of `v` stays 0).
The constructors `type::Struct(std::vector<Type> const&)`, `type::Function`,
`value::ArrayValue`, `value::Struct` and the helper `narrowed_sequence` fill their
result this way. -/
def transform_into_empty (n : Nat) : M Unit :=
  if n = 0 then pure ()
  else M.fail (Failure.undefined "std::transform writes through begin() of an empty vector")

/-- `Type(type::Struct{es})`, through `type::Struct(std::vector<Type> const&)`. -/
def new_struct_type (es : List Type_) : M Type_ := do
  transform_into_empty es.length
  pure (Type_.struct [])

/-- `Type(type::Function{ps, rv})`, through `type::Function(ps, rv)`. -/
def new_function_type (ps : List Type_) (rv : Type_) : M Type_ := do
  transform_into_empty ps.length
  pure (Type_.function [] rv)

/-- `Value(value::Struct(es))`. -/
def new_struct_value (es : List Value) : M Value := do
  transform_into_empty es.length
  pure (Value.struct [])

/-- `Value(value::ArrayValue(t, es))`. -/
def new_array_value (t : Type_) (es : List Value) : M Value := do
  transform_into_empty es.length
  pure (Value.array_value t [])

/-- `narrowed_sequence<T>(s)`: each element is projected with `as<T>().value()`, which
throws on a mismatch, and assigned through `begin()` of the empty result. -/
def narrowed_sequence {α β : Type} (as : α → Option β) (s : List α) : M (List β) :=
  match s with
  | [] => pure []
  | e :: _ => do
    let _ ← value_of (as e)
    transform_into_empty s.length
    pure []

/-- `narrowed_optional<T>(s)`. -/
def narrowed_optional {α β : Type} (as : α → Option β) (s : Option α) : Option β :=
  match s with
  | some v => as v
  | none => none

/-- `type()`, with a bound on the depth of the recursion. -/
def type_ : Nat → M Type_
  | 0 => M.fail Failure.out_of_fuel
  | fuel + 1 => internable Memo.types (do
    let t ← get Decoder.u8
    if t = tag.Type_.vararg.raw_value then pure Type_.vararg
    else if t = tag.Type_.boolean.raw_value then pure Type_.u1
    else if t = tag.Type_.pointer.raw_value then pure Type_.pointer
    else if t = tag.Type_.char_.raw_value then pure Type_.u16
    else if t = tag.Type_.byte.raw_value then pure Type_.i8
    else if t = tag.Type_.short_.raw_value then pure Type_.i16
    else if t = tag.Type_.int_.raw_value then pure Type_.i32
    else if t = tag.Type_.long_.raw_value then pure Type_.i64
    else if t = tag.Type_.float_.raw_value then pure Type_.f32
    else if t = tag.Type_.double_.raw_value then pure Type_.f64
    else if t = tag.Type_.array_value.raw_value then
      let element ← type_ fuel
      let size ← get Decoder.unsigned_leb128
      pure (Type_.array_value element size)
    else if t = tag.Type_.struct_value.raw_value then
      let es ← sequence (type_ fuel)
      new_struct_type es
    else if t = tag.Type_.function.raw_value then
      let ps ← sequence (type_ fuel)
      let rv ← type_ fuel
      new_function_type ps rv
    else if t = tag.Type_.null.raw_value then pure Type_.null
    else if t = tag.Type_.nothing.raw_value then pure Type_.nothing
    else if t = tag.Type_.virtual_.raw_value then pure Type_.virtual_
    else if t = tag.Type_.var.raw_value then
      let inner ← type_ fuel
      pure (Type_.var inner)
    else if t = tag.Type_.unit.raw_value then pure Type_.unit
    else if t = tag.Type_.array.raw_value then
      let element ← type_ fuel
      let nullable ← boolean
      pure (Type_.array_reference element nullable)
    else if t = tag.Type_.reference.raw_value then
      let s ← symbol fuel
      let name ← value_of s.as_top
      let exact ← boolean
      let nullable ← boolean
      pure (Type_.reference name exact nullable)
    else if t = tag.Type_.size.raw_value then pure Type_.size
    else fatal_error "unexpected tag")

/-- The loop of `bytes()`: `count` reads of an `int8_t`. -/
def bytes_loop : Nat → M (List Int)
  | 0 => pure []
  | count + 1 => do
    let b ← get Decoder.i8
    let bs ← bytes_loop count
    pure (b :: bs)

/-- `bytes()`: an unsigned LEB128 count, then that many bytes. -/
def bytes : M (List Int) := do
  let count ← get Decoder.unsigned_leb128
  bytes_loop count

/-- `value()`, with a bound on the depth of the recursion. -/
def value : Nat → M Value
  | 0 => M.fail Failure.out_of_fuel
  | fuel + 1 => internable Memo.values (do
    let t ← get Decoder.u8
    if t = tag.Value.true_.raw_value then pure (Value.boolean true)
    else if t = tag.Value.false_.raw_value then pure (Value.boolean false)
    else if t = tag.Value.null.raw_value then pure Value.null
    else if t = tag.Value.zero.raw_value then
      let ty ← type_ fuel
      pure (Value.zero ty)
    else if t = tag.Value.char_.raw_value then
      let v ← get Decoder.unsigned_leb128
      pure (Value.char ((v &&& 0xffff) % 2 ^ 16))
    else if t = tag.Value.byte.raw_value then
      let v ← get Decoder.i8
      pure (Value.byte v)
    else if t = tag.Value.short_.raw_value then
      let v ← get Decoder.signed_leb128
      pure (Value.short (Decoder.to_signed 16 (v % 2 ^ 16).toNat))
    else if t = tag.Value.int_.raw_value then
      let v ← get Decoder.signed_leb128
      pure (Value.int (Decoder.to_signed 32 (v % 2 ^ 32).toNat))
    else if t = tag.Value.long_.raw_value then
      let v ← get Decoder.signed_leb128
      pure (Value.long v)
    else if t = tag.Value.float_.raw_value then
      let v ← get Decoder.f32
      pure (Value.float v)
    else if t = tag.Value.double_.raw_value then
      let v ← get Decoder.f64
      pure (Value.double v)
    else if t = tag.Value.struct_.raw_value then
      let es ← sequence (value fuel)
      new_struct_value es
    else if t = tag.Value.array.raw_value then
      let ty ← type_ fuel
      let es ← sequence (value fuel)
      new_array_value ty es
    else if t = tag.Value.byte_string.raw_value then
      let bs ← bytes
      pure (Value.byte_string bs)
    else if t = tag.Value.local_.raw_value then
      let id ← local_
      let ty ← type_ fuel
      pure (Value.local_ id ty)
    else if t = tag.Value.symbol.raw_value then
      let name ← symbol fuel
      let ty ← type_ fuel
      pure (Value.symbol name ty)
    else if t = tag.Value.unit.raw_value then pure Value.unit
    else if t = tag.Value.constant.raw_value then
      let v ← value fuel
      pure (Value.constant v)
    else if t = tag.Value.string.raw_value then
      let s ← string
      pure (Value.string s)
    else if t = tag.Value.virtual_.raw_value then
      let k ← get Decoder.unsigned_leb128
      pure (Value.virtual_ k)
    else if t = tag.Value.class_of.raw_value then
      let s ← symbol fuel
      let name ← value_of s.as_top
      pure (Value.class_of name)
    else if t = tag.Value.linktime_condition.raw_value then fatal_error "unexpected tag"
    else if t = tag.Value.size.raw_value then
      let v ← get Decoder.unsigned_leb128
      pure (Value.size v)
    else fatal_error "unexpected tag")

/-- `label_argument()`. -/
def label_argument (fuel : Nat) : M value.Local := do
  let v ← value fuel
  let l ← value_of v.as_local
  pure ⟨l.1, l.2⟩

/-- `next()`, with a bound on the depth of the recursion. -/
def next : Nat → M Next
  | 0 => M.fail Failure.out_of_fuel
  | fuel + 1 => do
    let t ← get Decoder.u8
    if t = tag.Next.none.raw_value then pure Next.none
    else if t = tag.Next.unwind.raw_value then
      let exception ← label_argument fuel
      let n ← next fuel
      pure (Next.unwind exception n)
    else if t = tag.Next.case_.raw_value then
      let v ← value fuel
      let n ← next fuel
      pure (Next.case_ v n)
    else if t = tag.Next.label.raw_value then
      let id ← local_
      let arguments ← sequence (value fuel)
      pure (Next.label id arguments)
    else fatal_error "unexpected tag"

end Deserializer

namespace Deserializer

/-- `memory_order()`: a byte, checked to lie in `[0, 5]`, cast to the enumeration. -/
def memory_order : M MemoryOrder := do
  let v ← get Decoder.u8
  precondition (decide (v ≥ 0) && decide (v ≤ 5)) "unexpected tag"
  pure (match v with
    | 0 => MemoryOrder.unordered
    | 1 => MemoryOrder.monotonic
    | 2 => MemoryOrder.acquire
    | 3 => MemoryOrder.release
    | 4 => MemoryOrder.acquire_release
    | _ => MemoryOrder.sequentially_consistent)

/-- `binary_operator()`. -/
def binary_operator : M BinaryOperator := do
  let t ← get Decoder.u8
  if t = tag.BinaryOperator.iadd.raw_value then pure BinaryOperator.iadd
  else if t = tag.BinaryOperator.fadd.raw_value then pure BinaryOperator.fadd
  else if t = tag.BinaryOperator.isub.raw_value then pure BinaryOperator.isub
  else if t = tag.BinaryOperator.fsub.raw_value then pure BinaryOperator.fsub
  else if t = tag.BinaryOperator.imul.raw_value then pure BinaryOperator.imul
  else if t = tag.BinaryOperator.fmul.raw_value then pure BinaryOperator.fmul
  else if t = tag.BinaryOperator.sdiv.raw_value then pure BinaryOperator.sdiv
  else if t = tag.BinaryOperator.udiv.raw_value then pure BinaryOperator.udiv
  else if t = tag.BinaryOperator.fdiv.raw_value then pure BinaryOperator.fdiv
  else if t = tag.BinaryOperator.srem.raw_value then pure BinaryOperator.srem
  else if t = tag.BinaryOperator.urem.raw_value then pure BinaryOperator.urem
  else if t = tag.BinaryOperator.frem.raw_value then pure BinaryOperator.frem
  else if t = tag.BinaryOperator.shl.raw_value then pure BinaryOperator.shl
  else if t = tag.BinaryOperator.lshr.raw_value then pure BinaryOperator.lshr
  else if t = tag.BinaryOperator.ashr.raw_value then pure BinaryOperator.ashr
  else if t = tag.BinaryOperator.and_.raw_value then pure BinaryOperator.and_
  else if t = tag.BinaryOperator.or_.raw_value then pure BinaryOperator.or_
  else if t = tag.BinaryOperator.xor_.raw_value then pure BinaryOperator.xor_
  else fatal_error "unexpected tag"

/-- `comparison_operator()`. -/
def comparison_operator : M ComparisonOperator := do
  let t ← get Decoder.u8
  if t = tag.ComparisonOperator.ieq.raw_value then pure ComparisonOperator.ieq
  else if t = tag.ComparisonOperator.ine.raw_value then pure ComparisonOperator.ine
  else if t = tag.ComparisonOperator.ugt.raw_value then pure ComparisonOperator.ugt
  else if t = tag.ComparisonOperator.uge.raw_value then pure ComparisonOperator.uge
  else if t = tag.ComparisonOperator.ult.raw_value then pure ComparisonOperator.ult
  else if t = tag.ComparisonOperator.ule.raw_value then pure ComparisonOperator.ule
  else if t = tag.ComparisonOperator.sgt.raw_value then pure ComparisonOperator.sgt
  else if t = tag.ComparisonOperator.sge.raw_value then pure ComparisonOperator.sge
  else if t = tag.ComparisonOperator.slt.raw_value then pure ComparisonOperator.slt
  else if t = tag.ComparisonOperator.sle.raw_value then pure ComparisonOperator.sle
  else if t = tag.ComparisonOperator.feq.raw_value then pure ComparisonOperator.feq
  else if t = tag.ComparisonOperator.fne.raw_value then pure ComparisonOperator.fne
  else if t = tag.ComparisonOperator.fgt.raw_value then pure ComparisonOperator.fgt
  else if t = tag.ComparisonOperator.fge.raw_value then pure ComparisonOperator.fge
  else if t = tag.ComparisonOperator.flt.raw_value then pure ComparisonOperator.flt
  else if t = tag.ComparisonOperator.fle.raw_value then pure ComparisonOperator.fle
  else fatal_error "unexpected tag"

/-- `conversion_operator()`. -/
def conversion_operator : M ConversionOperator := do
  let t ← get Decoder.u8
  if t = tag.ConversionOperator.trunc.raw_value then pure ConversionOperator.trunc
  else if t = tag.ConversionOperator.zext.raw_value then pure ConversionOperator.zext
  else if t = tag.ConversionOperator.sext.raw_value then pure ConversionOperator.sext
  else if t = tag.ConversionOperator.fptrunc.raw_value then pure ConversionOperator.fptrunc
  else if t = tag.ConversionOperator.fpext.raw_value then pure ConversionOperator.fpext
  else if t = tag.ConversionOperator.fptoui.raw_value then pure ConversionOperator.fptoui
  else if t = tag.ConversionOperator.fptosi.raw_value then pure ConversionOperator.fptosi
  else if t = tag.ConversionOperator.uitofp.raw_value then pure ConversionOperator.uitofp
  else if t = tag.ConversionOperator.sitofp.raw_value then pure ConversionOperator.sitofp
  else if t = tag.ConversionOperator.ptrtoint.raw_value then pure ConversionOperator.ptrtoint
  else if t = tag.ConversionOperator.inttoptr.raw_value then pure ConversionOperator.inttoptr
  else if t = tag.ConversionOperator.bitcast.raw_value then pure ConversionOperator.bitcast
  else if t = tag.ConversionOperator.ssize_cast.raw_value then
    pure ConversionOperator.ssize_cast
  else if t = tag.ConversionOperator.zsize_cast.raw_value then
    pure ConversionOperator.zsize_cast
  else fatal_error "unexpected tag"

/-- The projection `type().as<type::Function>().value()`. -/
def function_type (fuel : Nat) : M type.Function := do
  let t ← type_ fuel
  let f ← value_of t.as_function
  pure ⟨f.1, f.2⟩

/-- The projection `symbol().as<symbol::Top>().value()`. -/
def top_symbol (fuel : Nat) : M symbol.Top := do
  let s ← symbol fuel
  value_of s.as_top

/-- The projection `symbol().as<symbol::Member>().value()`. -/
def member_symbol (fuel : Nat) : M symbol.Member := do
  let s ← symbol fuel
  value_of s.as_member

/-- `operation()`. The ordering read by `memory_order()` fills the optional field of
`Load` and `Store`. -/
def operation (fuel : Nat) : M Operation := do
  let t ← get Decoder.u8
  if t = tag.Operation.call.raw_value then
    let callee_type ← function_type fuel
    let callee ← value fuel
    let arguments ← sequence (value fuel)
    pure (Operation.call callee_type callee arguments)
  else if t = tag.Operation.load.raw_value then
    let ty ← type_ fuel
    let source ← value fuel
    let ordering ← memory_order
    pure (Operation.load ty source (some ordering))
  else if t = tag.Operation.store.raw_value then
    let ty ← type_ fuel
    let target ← value fuel
    let source ← value fuel
    let ordering ← memory_order
    pure (Operation.store ty target source (some ordering))
  else if t = tag.Operation.element.raw_value then
    let whole_type ← type_ fuel
    let whole ← value fuel
    let path ← sequence uint32
    pure (Operation.element whole_type whole path)
  else if t = tag.Operation.extract.raw_value then
    let whole ← value fuel
    let path ← sequence uint32
    pure (Operation.extract whole path)
  else if t = tag.Operation.insert.raw_value then
    let whole ← value fuel
    let part ← value fuel
    let path ← sequence uint32
    pure (Operation.insert whole part path)
  else if t = tag.Operation.stackalloc.raw_value then
    let ty ← type_ fuel
    let count ← get Decoder.unsigned_leb128
    pure (Operation.stack_allocate ty count)
  else if t = tag.Operation.binary.raw_value then
    let callee ← binary_operator
    let operand_type ← type_ fuel
    let lhs ← value fuel
    let rhs ← value fuel
    pure (Operation.binary_apply callee operand_type lhs rhs)
  else if t = tag.Operation.compare.raw_value then
    let callee ← comparison_operator
    let operand_type ← type_ fuel
    let lhs ← value fuel
    let rhs ← value fuel
    pure (Operation.compare callee operand_type lhs rhs)
  else if t = tag.Operation.convert.raw_value then
    let callee ← conversion_operator
    let target ← type_ fuel
    let source ← value fuel
    pure (Operation.convert callee target source)
  else if t = tag.Operation.fence.raw_value then
    let ordering ← memory_order
    pure (Operation.fence ordering)
  else if t = tag.Operation.classalloc.raw_value then
    let name ← top_symbol fuel
    let zone ← optional (value fuel)
    pure (Operation.class_allocate name zone)
  else if t = tag.Operation.fieldload.raw_value then
    let ty ← type_ fuel
    let owner ← value fuel
    let name ← member_symbol fuel
    pure (Operation.field_load ty owner name)
  else if t = tag.Operation.fieldstore.raw_value then
    let ty ← type_ fuel
    let owner ← value fuel
    let name ← member_symbol fuel
    let source ← value fuel
    pure (Operation.field_store ty owner name source)
  else if t = tag.Operation.field.raw_value then
    let owner ← value fuel
    let name ← member_symbol fuel
    pure (Operation.field owner name)
  else if t = tag.Operation.method.raw_value then
    let owner ← value fuel
    let sig ← signature
    pure (Operation.method owner sig)
  else if t = tag.Operation.dynmethod.raw_value then
    let owner ← value fuel
    let sig ← signature
    pure (Operation.dynamic_method owner sig)
  else if t = tag.Operation.module.raw_value then
    let name ← top_symbol fuel
    pure (Operation.module name)
  else if t = tag.Operation.as.raw_value then
    let target ← type_ fuel
    let source ← value fuel
    pure (Operation.as target source)
  else if t = tag.Operation.is.raw_value then
    let target ← type_ fuel
    let source ← value fuel
    pure (Operation.is target source)
  else if t = tag.Operation.copy.raw_value then
    let source ← value fuel
    pure (Operation.copy source)
  else if t = tag.Operation.size_of.raw_value then
    let operand ← type_ fuel
    pure (Operation.size_of operand)
  else if t = tag.Operation.alignment_of.raw_value then
    let operand ← type_ fuel
    pure (Operation.alignment_of operand)
  else if t = tag.Operation.box.raw_value then
    let box_type ← type_ fuel
    let contents ← value fuel
    pure (Operation.box box_type contents)
  else if t = tag.Operation.unbox.raw_value then
    let box_type ← type_ fuel
    let box ← value fuel
    pure (Operation.unbox box_type box)
  else if t = tag.Operation.var.raw_value then
    let ty ← type_ fuel
    pure (Operation.var ty)
  else if t = tag.Operation.varload.raw_value then
    let slot ← value fuel
    pure (Operation.var_load slot)
  else if t = tag.Operation.varstore.raw_value then
    let slot ← value fuel
    let source ← value fuel
    pure (Operation.var_store slot source)
  else if t = tag.Operation.arrayalloc.raw_value then
    let element ← type_ fuel
    let initializer ← value fuel
    let zone ← optional (value fuel)
    pure (Operation.array_allocate element initializer zone)
  else if t = tag.Operation.arrayload.raw_value then
    let ty ← type_ fuel
    let owner ← value fuel
    let position ← uint32
    pure (Operation.array_load ty owner position)
  else if t = tag.Operation.arraystore.raw_value then
    let ty ← type_ fuel
    let owner ← value fuel
    let position ← uint32
    let source ← value fuel
    pure (Operation.array_store ty owner position source)
  else if t = tag.Operation.arraylength.raw_value then
    let operand ← value fuel
    pure (Operation.array_length operand)
  else fatal_error "unexpected tag"

end Deserializer

namespace Deserializer

/-- `linktime_condition()`: not implemented in the source, which reports a fatal error. -/
def linktime_condition : M LinktimeCondition := fatal_error "not implemented"

/-- `attribute()`. -/
def attribute_ : M Attribute := do
  let t ← get Decoder.u8
  if t = tag.Attribute.may_inline.raw_value then pure (Attribute.thin Attribute.Kind.may_inline)
  else if t = tag.Attribute.inline_hint.raw_value then
    pure (Attribute.thin Attribute.Kind.inline_hint)
  else if t = tag.Attribute.no_inline.raw_value then
    pure (Attribute.thin Attribute.Kind.no_inline)
  else if t = tag.Attribute.always_inline.raw_value then
    pure (Attribute.thin Attribute.Kind.always_inline)
  else if t = tag.Attribute.may_specialize.raw_value then
    pure (Attribute.thin Attribute.Kind.may_specialize)
  else if t = tag.Attribute.no_specialize.raw_value then
    pure (Attribute.thin Attribute.Kind.no_specialize)
  else if t = tag.Attribute.un_opt.raw_value then pure (Attribute.thin Attribute.Kind.un_opt)
  else if t = tag.Attribute.no_opt.raw_value then pure (Attribute.thin Attribute.Kind.no_opt)
  else if t = tag.Attribute.did_opt.raw_value then pure (Attribute.thin Attribute.Kind.did_opt)
  else if t = tag.Attribute.bail_opt.raw_value then
    let message ← string
    pure (Attribute.bail_opt message)
  else if t = tag.Attribute.dyn.raw_value then pure (Attribute.thin Attribute.Kind.dyn)
  else if t = tag.Attribute.stub.raw_value then pure (Attribute.thin Attribute.Kind.stub)
  else if t = tag.Attribute.extern_.raw_value then
    let blocking ← boolean
    pure (Attribute.extern_ blocking)
  else if t = tag.Attribute.link.raw_value then
    let name ← string
    pure (Attribute.link name)
  else if t = tag.Attribute.define.raw_value then
    let name ← string
    pure (Attribute.define name)
  else if t = tag.Attribute.abstract.raw_value then
    pure (Attribute.thin Attribute.Kind.abstract)
  else if t = tag.Attribute.volatile_.raw_value then
    pure (Attribute.thin Attribute.Kind.volatile_)
  else if t = tag.Attribute.final.raw_value then pure (Attribute.thin Attribute.Kind.final)
  else if t = tag.Attribute.safe_publish.raw_value then
    pure (Attribute.thin Attribute.Kind.safe_publish)
  else if t = tag.Attribute.link_time_resolved.raw_value then
    pure (Attribute.thin Attribute.Kind.link_time_resolved)
  else if t = tag.Attribute.uses_intrinsic.raw_value then
    pure (Attribute.thin Attribute.Kind.uses_intrinsic)
  else if t = tag.Attribute.align.raw_value then
    let s ← get Decoder.signed_leb128
    let g ← optional string
    pure (Attribute.alignment s g)
  else fatal_error "unexpected tag"

/-- `source_position()`: a path (empty for a virtual source), a line and a column. -/
def source_position : M SourcePosition := do
  let p ← string
  let line ← get Decoder.unsigned_leb128
  let column ← get Decoder.unsigned_leb128
  pure ⟨if p = [] then SourceFile.virtual_ else SourceFile.concrete p, line, column⟩

/-- `lexical_scope()`. -/
def lexical_scope : M LexicalScope := do
  let id ← scope_identifier
  let parent ← scope_identifier
  let position ← source_position
  pure ⟨id, parent, position⟩

/-- The assignment `r[k] = v` on a map kept as the list of its entries. -/
def map_assign (r : List (Local × Bytes)) (k : Local) (v : Bytes) : List (Local × Bytes) :=
  if r.any (fun e => e.1 == k) then r.map (fun e => if e.1 == k then (k, v) else e)
  else r ++ [(k, v)]

/-- The loop of `local_name()`. -/
def local_name_loop : Nat → List (Local × Bytes) → M (List (Local × Bytes))
  | 0, r => pure r
  | count + 1, r => do
    let k ← local_
    let v ← string
    local_name_loop count (map_assign r k v)

/-- `local_name()`: a count, then that many pairs of a local and its name. -/
def local_name : M (List (Local × Bytes)) := do
  let count ← get Decoder.unsigned_leb128
  local_name_loop count []

/-- `debug()`. -/
def debug : M definition.DebugInformation := do
  let names ← local_name
  let scopes ← sequence lexical_scope
  pure ⟨names, scopes⟩

/-- `instruction()`. -/
def instruction (fuel : Nat) : M Instruction := do
  let t ← get Decoder.u8
  if t = tag.Instruction.label.raw_value then
    let id ← local_
    let parameters ← sequence (label_argument fuel)
    let position ← source_position
    pure (Instruction.label id parameters position)
  else if t = tag.Instruction.let_.raw_value then
    let id ← local_
    let op ← operation fuel
    let n ← next fuel
    let position ← source_position
    let scope ← scope_identifier
    pure (Instruction.let_ id op n position scope)
  else if t = tag.Instruction.unwind.raw_value then fatal_error "unexpected tag"
  else if t = tag.Instruction.return_.raw_value then
    let v ← value fuel
    let position ← source_position
    pure (Instruction.return_ v position)
  else if t = tag.Instruction.jump.raw_value then
    let n ← next fuel
    let position ← source_position
    pure (Instruction.jump n position)
  else if t = tag.Instruction.if_.raw_value then
    let condition ← value fuel
    let success ← next fuel
    let failure ← next fuel
    let position ← source_position
    pure (Instruction.if_ condition success failure position)
  else if t = tag.Instruction.switch_.raw_value then
    let v ← value fuel
    let targets ← sequence (next fuel)
    let position ← source_position
    pure (Instruction.switch_ v targets position)
  else if t = tag.Instruction.throw_.raw_value then
    let exception ← value fuel
    let unwind ← next fuel
    let position ← source_position
    pure (Instruction.throw_ exception unwind position)
  else if t = tag.Instruction.unreachable.raw_value then
    let unwind ← next fuel
    let position ← source_position
    pure (Instruction.unreachable unwind position)
  else if t = tag.Instruction.linktime_if.raw_value then
    let condition ← linktime_condition
    let success ← next fuel
    let failure ← next fuel
    let position ← source_position
    pure (Instruction.linktime_jump condition success failure position)
  else fatal_error "unexpected tag"

/-- `definition()`: the tag and the attributes are read first, then the payload that the
tag selects. -/
def definition (fuel : Nat) : M Definition := do
  let t ← get Decoder.u8
  let attrs ← sequence attribute_
  let attributes := AttributeSet.contents_of attrs
  if t = tag.Definition.variable.raw_value ∨ t = tag.Definition.constant.raw_value then
    let name ← member_symbol fuel
    let ty ← type_ fuel
    let init ← value fuel
    let position ← source_position
    pure (Definition.binding attributes name ty init
      (t = tag.Definition.constant.raw_value) position)
  else if t = tag.Definition.declare.raw_value then
    let name ← member_symbol fuel
    let ty ← function_type fuel
    let position ← source_position
    pure (Definition.forward attributes name ty position)
  else if t = tag.Definition.define.raw_value then
    let name ← member_symbol fuel
    let ty ← function_type fuel
    let instructions ← sequence (instruction fuel)
    let dbg ← debug
    let position ← source_position
    pure (Definition.method attributes name ty instructions dbg position)
  else if t = tag.Definition.trait.raw_value then
    let name ← top_symbol fuel
    let symbols ← sequence (symbol fuel)
    let bases ← narrowed_sequence Symbol.as_top symbols
    let position ← source_position
    pure (Definition.trait attributes name bases position)
  else if t = tag.Definition.class_.raw_value then
    let name ← top_symbol fuel
    let parent ← optional (symbol fuel)
    let symbols ← sequence (symbol fuel)
    let traits ← narrowed_sequence Symbol.as_top symbols
    let position ← source_position
    pure (Definition.class_ attributes name (narrowed_optional Symbol.as_top parent) traits
      position)
  else if t = tag.Definition.module.raw_value then
    let name ← top_symbol fuel
    let parent ← optional (symbol fuel)
    let symbols ← sequence (symbol fuel)
    let traits ← narrowed_sequence Symbol.as_top symbols
    let position ← source_position
    pure (Definition.module attributes name (narrowed_optional Symbol.as_top parent) traits
      position)
  else fatal_error "unexpected tag"

end Deserializer

/-! ## File (`File.hh`, `File.cc`) -/

/-- A value identifying serialized NIR files. -/
def file_identifier : Int := 0x2e4e4952

/-- The header of a serialized NIR file. -/
structure Header where
  compatibility_level : Int
  revision : Int
  has_entry_points : Bool
deriving DecidableEq, Repr

/-- `Header::decode(source)`: throws a `DecoderError` when the first `i32` is missing or
differs from `file_identifier`, and the exception of `Result::get()` when one of the two
versions cannot be read. -/
def Header.decode (source : Decoder) : Except Failure (Header × Decoder) :=
  match source.i32 with
  | (m, d1) =>
    if m ≠ Except.ok file_identifier then
      Except.error (Failure.exception ⟨d1.current_position, "invalid file format"⟩)
    else
      match d1.i32 with
      | (Except.error e, _) => Except.error (Failure.exception e)
      | (Except.ok major, d2) =>
        match d2.i32 with
        | (Except.error e, _) => Except.error (Failure.exception e)
        | (Except.ok minor, d3) => Except.ok (⟨major, minor, true⟩, d3)

/-- A NIR file. -/
structure File where
  header : Header
  definitions : List Definition

/-- The loop of `File::from_contents_of`: definitions are read and appended until the
source is empty. Each definition is read with the recursion bound `depth`. -/
def File.read_definitions (depth : Nat) :
    Nat → Deserializer → List Definition → Except Failure (List Definition × Deserializer)
  | 0, _, _ => Except.error Failure.out_of_fuel
  | fuel + 1, ds, definitions =>
    if !ds.source.is_empty then
      match Deserializer.definition depth ds with
      | Except.error e => Except.error e
      | Except.ok (d, ds1) => File.read_definitions depth fuel ds1 (definitions ++ [d])
    else
      Except.ok (definitions, ds)

/-- `File::from_contents_of`, started from the bytes of the file (opening and reading the
file are outside the model). The result comes with the deserializer as the loop leaves it. -/
def File.from_contents (contents : List UInt8) : Except Failure (File × Deserializer) :=
  let source : Decoder := ⟨contents, 0, Endian.native⟩
  let source := { source with byte_order := Endian.big }
  match Header.decode source with
  | Except.error e => Except.error e
  | Except.ok (header, source) =>
    let source := { source with byte_order := Endian.little }
    let deserializer : Deserializer := ⟨source, [], [], [], []⟩
    match File.read_definitions (contents.length + 1) (contents.length + 1) deserializer [] with
    | Except.error e => Except.error e
    | Except.ok (definitions, ds) => Except.ok (⟨header, definitions⟩, ds)

/-! ## Null-terminated strings (`Decoder.cc`) -/

namespace Decoder

/-- The `for` loop of `nullterminated_string`, with `n` of its 64 iterations left and
`slice` the bytes written to the slice so far. It ends with `Sum.inl r` when the function
returns `r` from inside the loop and with `Sum.inr slice` when the 64 iterations are
done. The read `source[position++]` is an unchecked access: outside the source (a cursor
beyond the end, which `is_empty()` does not detect) the behaviour is undefined. -/
def nullterminated_for (partial_result : List UInt8) :
    Nat → Decoder → List UInt8 →
      Except Failure ((Result (List UInt8) ⊕ List UInt8) × Decoder)
  | 0, d, slice => Except.ok (Sum.inr slice, d)
  | n + 1, d, slice =>
    if d.is_empty then
      Except.ok (Sum.inl (d.fail "ill-formed null-terminated string"), d)
    else
      match d.source.get? d.position with
      | none => Except.error (Failure.undefined "std::vector::operator[] out of range")
      | some b =>
        if b = 0 then
          Except.ok (Sum.inl (Except.ok (partial_result ++ slice)), d.advanced 1)
        else
          nullterminated_for partial_result n (d.advanced 1) (slice ++ [b])

/-- The `while (true)` loop of `nullterminated_string`: slices of 64 bytes are appended to
`partial_result` until the `for` loop returns. -/
def nullterminated_loop :
    Nat → Decoder → List UInt8 → Except Failure (Result (List UInt8) × Decoder)
  | 0, _, _ => Except.error Failure.out_of_fuel
  | fuel + 1, d, partial_result =>
    match nullterminated_for partial_result 64 d [] with
    | Except.error e => Except.error e
    | Except.ok (Sum.inl r, d1) => Except.ok (r, d1)
    | Except.ok (Sum.inr slice, d1) => nullterminated_loop fuel d1 (partial_result ++ slice)

/-- `nullterminated_string()`: reads bytes up to the first `0x00`, which is consumed and
not part of the result. -/
def nullterminated_string (d : Decoder) : Except Failure (Result (List UInt8) × Decoder) :=
  nullterminated_loop (d.source.length - d.position + 1) d []

end Decoder

/-! ## Normalization of types (`Type.cc`) -/

namespace Type_

/-- `Type::normalized()`, which visits the wrapped alternative.

`Struct::normalized` and `Function::normalized` fill their result with
`std::transform(first, last, r.begin(), ...)` on a vector `r` of size 0 (reserved only):
with no element nothing is written; otherwise the normalized element is assigned through
`begin()` of the empty vector and the behaviour is undefined. `Function::normalized`
normalizes the return value first. -/
def normalized : Type_ → Except Failure Type_
  | predefined p => Except.ok (predefined p)
  | numeric n => Except.ok (numeric n)
  | array_value element size =>
    match normalized element with
    | Except.error e => Except.error e
    | Except.ok element1 => Except.ok (array_value element1 size)
  | array_reference element _ =>
    match normalized element with
    | Except.error e => Except.error e
    | Except.ok element1 => Except.ok (array_reference element1 true)
  | struct elements =>
    match elements with
    | [] => Except.ok (struct [])
    | _ :: _ => Except.error
        (Failure.undefined "std::transform writes through begin() of an empty vector")
  | reference name _ _ => Except.ok (reference name false true)
  | var type =>
    match normalized type with
    | Except.error e => Except.error e
    | Except.ok type1 => Except.ok (var type1)
  | function parameters return_value =>
    match normalized return_value with
    | Except.error e => Except.error e
    | Except.ok return_value1 =>
      match parameters with
      | [] => Except.ok (function [] return_value1)
      | _ :: _ => Except.error
          (Failure.undefined "std::transform writes through begin() of an empty vector")

end Type_

/-! ## The algebra of types (`Type.hh`, `Type.cc`, `Runtime.hh`) -/

/-- The contents of the `std::string` built from a literal of ASCII characters. -/
def std_string (s : String) : Bytes := s.toList.map fun c => UInt8.ofNat c.toNat

namespace type

namespace Numeric

/-- `is_integer()`: `raw_value & (1 << 15)`, converted to `bool`. -/
def is_integer (n : Numeric) : Bool := (n.raw_value &&& (1 <<< 15)) != 0

/-- `is_signed()`: `raw_value & (1 << 14)`, converted to `bool`. -/
def is_signed (n : Numeric) : Bool := (n.raw_value &&& (1 <<< 14)) != 0

/-- `is_floating_point()`. -/
def is_floating_point (n : Numeric) : Bool := !n.is_integer

/-- `bit_width()`: `raw_value & ~(0b11 << 14)`. The operands are promoted to a 32-bit
`int`, where `~(0b11 << 14)` has the bit pattern `0xFFFF3FFF`; the result, which is not
negative, is converted to `uint32_t`. -/
def bit_width (n : Numeric) : Nat := n.raw_value &&& (2 ^ 32 - 1 - (0b11 <<< 14))

end Numeric

/-- The type of a reference, as held by `type::Reference`. -/
structure Reference where
  name : symbol.Top
  is_exact : Bool
  is_nullable : Bool
deriving DecidableEq, Repr

/-- `Reference(name)`, with the default arguments `is_exact = false` and
`is_nullable = true` of the constructor. -/
def Reference.of_name (name : symbol.Top) : Reference := ⟨name, false, true⟩

end type

namespace runtime

/-- `scala.runtime.Null$`, the type of a boxed null reference. -/
def BoxedNull : type.Reference := type.Reference.of_name ⟨std_string "scala.runtime.Null$"⟩

/-- `scala.runtime.BoxedUnit`, the type of a boxed unit. -/
def BoxedUnit : type.Reference :=
  type.Reference.of_name ⟨std_string "scala.runtime.BoxedUnit"⟩

def BooleanArray : type.Reference :=
  type.Reference.of_name ⟨std_string "scala.scalanative.runtime.BooleanArray"⟩
def CharArray : type.Reference :=
  type.Reference.of_name ⟨std_string "scala.scalanative.runtime.CharArray"⟩
def ByteArray : type.Reference :=
  type.Reference.of_name ⟨std_string "scala.scalanative.runtime.ByteArray"⟩
def ShortArray : type.Reference :=
  type.Reference.of_name ⟨std_string "scala.scalanative.runtime.ShortArray"⟩
def IntArray : type.Reference :=
  type.Reference.of_name ⟨std_string "scala.scalanative.runtime.IntArray"⟩
def LongArray : type.Reference :=
  type.Reference.of_name ⟨std_string "scala.scalanative.runtime.LongArray"⟩
def FloatArray : type.Reference :=
  type.Reference.of_name ⟨std_string "scala.scalanative.runtime.FloatArray"⟩
def DoubleArray : type.Reference :=
  type.Reference.of_name ⟨std_string "scala.scalanative.runtime.DoubleArray"⟩
def ObjectArray : type.Reference :=
  type.Reference.of_name ⟨std_string "scala.scalanative.runtime.ObjectArray"⟩

end runtime

namespace Type_

mutual

/-- `Type::operator==`, defaulted: the same alternative of the variant and equal members
(an `indirect` compares the values it wraps, a vector its size and its elements). -/
def beq : Type_ → Type_ → Bool
  | predefined p, predefined q => p == q
  | numeric n, numeric m => n == m
  | array_value e s, array_value e1 s1 => beq e e1 && s == s1
  | array_reference e n, array_reference e1 n1 => beq e e1 && n == n1
  | struct es, struct es1 => beq_all es es1
  | reference name e n, reference name1 e1 n1 => name == name1 && e == e1 && n == n1
  | var t, var t1 => beq t t1
  | function ps rv, function ps1 rv1 => beq_all ps ps1 && beq rv rv1
  | _, _ => false

/-- `operator==` of two `std::vector<indirect<Type>>`. -/
def beq_all : List Type_ → List Type_ → Bool
  | [], [] => true
  | a :: as, b :: bs => beq a b && beq_all as bs
  | _, _ => false

end

/-- `as<type::Reference>()`. -/
def as_reference : Type_ → Option type.Reference
  | reference name is_exact is_nullable => some ⟨name, is_exact, is_nullable⟩
  | _ => none

end Type_

/-- `to_array_class(self)`: the name of the class representing arrays of `self`. -/
def to_array_class (self : Type_) : symbol.Top :=
  if self.beq Type_.u1 then runtime.BooleanArray.name
  else if self.beq Type_.u16 then runtime.CharArray.name
  else if self.beq Type_.i8 then runtime.ByteArray.name
  else if self.beq Type_.i16 then runtime.ShortArray.name
  else if self.beq Type_.i32 then runtime.IntArray.name
  else if self.beq Type_.i64 then runtime.LongArray.name
  else if self.beq Type_.f32 then runtime.FloatArray.name
  else if self.beq Type_.f64 then runtime.DoubleArray.name
  else runtime.ObjectArray.name

namespace Type_

/-- `element_at(i)`, for an index `i` that a `uint32_t` holds: the element of an array
value when `i` is less than its size, the `i`-th element of a struct (`elements.at(i)`
throws `std::out_of_range`), and a `std::domain_error` on any other type. -/
def element_at (self : Type_) (i : Nat) : Except Failure Type_ :=
  match self with
  | array_value element size =>
    if i ≥ size then Except.error Failure.out_of_range else Except.ok element
  | struct elements =>
    match elements.get? i with
    | some e => Except.ok e
    | none => Except.error Failure.out_of_range
  | _ => Except.error Failure.domain_error

/-- `element_at_path(path)`. -/
def element_at_path : Type_ → List Nat → Except Failure Type_
  | self, [] => Except.ok self
  | self, i :: path =>
    match self.element_at i with
    | Except.error e => Except.error e
    | Except.ok t => element_at_path t path

/-- `class_name()`; `no_class_name` throws a `std::domain_error`. -/
def class_name (self : Type_) : Except Failure symbol.Top :=
  match self with
  | predefined type.Predefined.null => Except.ok runtime.BoxedNull.name
  | predefined type.Predefined.unit => Except.ok runtime.BoxedUnit.name
  | predefined _ => Except.error Failure.domain_error
  | array_reference element _ => Except.ok (to_array_class element)
  | reference name _ _ => Except.ok name
  | _ => Except.error Failure.domain_error

/-- The table of `unboxed()`, on the identifier `n` of the reference's name. -/
def unboxed_of_name (n : Bytes) : Option Type_ :=
  if n = std_string "scala.scalanative.unsafe.CArray" then some pointer
  else if n = std_string "scala.scalanative.unsafe.CVarArgList" then some pointer
  else if n = std_string "scala.scalanative.unsafe.Ptr" then some pointer
  else if n = std_string "scala.scalanative.unsafe.Size" then some size
  else if n = std_string "java.lang.Boolean" then some u1
  else if n = std_string "java.lang.Character" then some u16
  else if n = std_string "java.lang.Byte" then some i8
  else if n = std_string "java.lang.Short" then some i16
  else if n = std_string "java.lang.Integer" then some i32
  else if n = std_string "java.lang.Long" then some i64
  else if n = std_string "java.lang.Float" then some f32
  else if n = std_string "java.lang.Double" then some f64
  else if (std_string "scala.scalanative.unsafe.CFuncPtr").isPrefixOf n then
    if (List.range 22).any (fun i => n.drop 33 == std_string (toString i)) then some pointer
    else none
  else none

/-- `unboxed()`: the type of the contents of the box that `self` denotes, if any. -/
def unboxed (self : Type_) : Option Type_ :=
  match self with
  | reference name _ _ => unboxed_of_name name.id
  | _ => none

/-- `is_box_of(t)`: `normalized().unboxed() == t`, an empty optional being different
from every `t`. -/
def is_box_of (self t : Type_) : Except Failure Bool :=
  match self.normalized with
  | Except.error e => Except.error e
  | Except.ok n =>
    match n.unboxed with
    | some u => Except.ok (u.beq t)
    | none => Except.ok false

/-- `is_pointer_box()`. -/
def is_pointer_box (self : Type_) : Except Failure Bool := self.is_box_of pointer

/-- `is_reference()`. -/
def is_reference (self : Type_) : Bool :=
  match self with
  | predefined type.Predefined.null => true
  | predefined type.Predefined.unit => true
  | predefined _ => false
  | reference _ _ _ => true
  | array_reference _ _ => true
  | _ => false

mutual

/-- `has_known_size()`. -/
def has_known_size : Type_ → Bool
  | predefined w => w == type.Predefined.null || w == type.Predefined.pointer
  | array_value element _ => has_known_size element
  | struct elements => all_have_known_size elements
  | numeric n => !(numeric n).is_reference
  | array_reference element is_nullable => !(array_reference element is_nullable).is_reference
  | reference name is_exact is_nullable => !(reference name is_exact is_nullable).is_reference
  | var type => !(var type).is_reference
  | function parameters return_value => !(function parameters return_value).is_reference

/-- `std::all_of` over the elements of a struct, with `has_known_size` as the test. -/
def all_have_known_size : List Type_ → Bool
  | [] => true
  | e :: es => has_known_size e && all_have_known_size es

end

end Type_

namespace operation

/-- The boxing of a value. -/
structure Box where
  box_type : Type_
  contents : Value

/-- `Box::result_type()`: `as<type::Reference>().value()` throws unless the box type is
a reference; then the result is the exact reference to the class of the box type,
nullable if the box type is a pointer box. -/
def Box.result_type (self : Box) : Except Failure Type_ :=
  match self.box_type.as_reference with
  | none => Except.error Failure.bad_optional_access
  | some _ =>
    match self.box_type.is_pointer_box with
    | Except.error e => Except.error e
    | Except.ok is_nullable =>
      match self.box_type.class_name with
      | Except.error e => Except.error e
      | Except.ok name => Except.ok (Type_.reference name true is_nullable)

end operation

/-! ## The algebra of values and operations (`Value.hh`, `Value.cc`, `Operation.hh`) -/

namespace runtime

/-- `java.lang.Class`. -/
def Class : type.Reference := type.Reference.of_name ⟨std_string "java.lang.Class"⟩

/-- `java.lang.String`. -/
def String : type.Reference := type.Reference.of_name ⟨std_string "java.lang.String"⟩

end runtime

/-- The comparison `==` of two floating-point numbers given by their bit patterns, with
`exponent` and `mantissa` bits (8 and 23 for `float`, 11 and 52 for `double`): a NaN
differs from every number, itself included; the two zeros are equal; any other two
numbers are equal when their patterns are. -/
def ieee_eq (exponent mantissa : Nat) (a b : Nat) : Bool :=
  let is_nan := fun x : Nat =>
    (x >>> mantissa) % 2 ^ exponent == 2 ^ exponent - 1 && x % 2 ^ mantissa != 0
  let is_zero := fun x : Nat => x % 2 ^ (exponent + mantissa) == 0
  !is_nan a && !is_nan b && (a == b || (is_zero a && is_zero b))

namespace Value

/-- `Value::type()`, which visits the wrapped alternative. `value::Struct::type` fills a
vector of size 0 (reserved only) with `std::transform(first, last, es.begin(), ...)`: with
no element nothing is written; otherwise the type of the first element is assigned
through `begin()` of the empty vector and the behaviour is undefined.
`value::ArrayValue::type` returns the member `element_type`. -/
def type : Value → Except Failure Type_
  | null => Except.ok Type_.null
  | unit => Except.ok Type_.unit
  | zero t => Except.ok t
  | boolean _ => Except.ok Type_.u1
  | size _ => Except.ok Type_.size
  | char _ => Except.ok Type_.u16
  | byte _ => Except.ok Type_.i8
  | short _ => Except.ok Type_.i16
  | int _ => Except.ok Type_.i32
  | long _ => Except.ok Type_.i64
  | float _ => Except.ok Type_.f32
  | double _ => Except.ok Type_.f64
  | array_value element_type _ => Except.ok element_type
  | struct [] => Except.ok (Type_.struct [])
  | struct (_ :: _) => Except.error
      (Failure.undefined "std::transform writes through begin() of an empty vector")
  | byte_string bytes => Except.ok (Type_.array_value Type_.i8 (bytes.length + 1))
  | local_ _ t => Except.ok t
  | symbol _ t => Except.ok t
  | constant _ => Except.ok Type_.pointer
  | string _ => Except.ok (Type_.reference runtime.String.name true false)
  | virtual_ _ => Except.ok Type_.virtual_
  | class_of _ =>
    Except.ok (Type_.reference runtime.Class.name runtime.Class.is_exact
      runtime.Class.is_nullable)

mutual

/-- `Value::operator==`, defaulted: the same alternative of the variant and equal
payloads, each alternative with its own `operator==`. The ones of `Null`, `Unit` and
`Zero` return `true`; the others are defaulted and compare the members in the order of
their declaration (`_type` before `id` and `name`), floating-point numbers with `==`. -/
def beq : Value → Value → Bool
  | null, null => true
  | unit, unit => true
  | zero _, zero _ => true
  | boolean a, boolean b => a == b
  | size a, size b => a == b
  | char a, char b => a == b
  | byte a, byte b => a == b
  | short a, short b => a == b
  | int a, int b => a == b
  | long a, long b => a == b
  | float a, float b => ieee_eq 8 23 a b
  | double a, double b => ieee_eq 11 52 a b
  | array_value t es, array_value t1 es1 => t.beq t1 && beq_all es es1
  | struct es, struct es1 => beq_all es es1
  | byte_string bs, byte_string bs1 => bs == bs1
  | local_ id t, local_ id1 t1 => t.beq t1 && id == id1
  | symbol name t, symbol name1 t1 => t.beq t1 && name == name1
  | constant v, constant v1 => beq v v1
  | string s, string s1 => s == s1
  | virtual_ k, virtual_ k1 => k == k1
  | class_of n, class_of n1 => n == n1
  | _, _ => false

/-- `operator==` of two `std::vector<indirect<Value>>`. -/
def beq_all : List Value → List Value → Bool
  | [], [] => true
  | a :: as, b :: bs => beq a b && beq_all as bs
  | _, _ => false

end

end Value

namespace operation

/-- The application of a binary operation. -/
structure BinaryApply where
  callee : BinaryOperator
  operand_type : Type_
  lhs : Value
  rhs : Value

/-- `BinaryApply::result_type()`. -/
def BinaryApply.result_type (self : BinaryApply) : Type_ := self.operand_type

/-- A comparison. -/
structure Compare where
  callee : ComparisonOperator
  operand_type : Type_
  lhs : Value
  rhs : Value

/-- `Compare::result_type()`. -/
def Compare.result_type (_ : Compare) : Type_ := Type_.u1

end operation

/-! ## Sets of attributes (`AttributeSet.hh`, `AttributeSet.cc`) -/

/-- The kind whose raw value is `1 << i`, if there is one. -/
def Attribute.Kind.of_bit : Nat → Option Attribute.Kind
  | 0 => some may_inline | 1 => some inline_hint | 2 => some no_inline
  | 3 => some always_inline | 4 => some may_specialize | 5 => some no_specialize
  | 6 => some un_opt | 7 => some no_opt | 8 => some did_opt | 9 => some bail_opt
  | 10 => some dyn | 11 => some stub | 12 => some extern_ | 13 => some link
  | 14 => some define | 15 => some abstract | 16 => some volatile_ | 17 => some final
  | 18 => some safe_publish | 19 => some link_time_resolved | 20 => some uses_intrinsic
  | 21 => some alignment
  | _ => none

namespace AttributeSet

/-- The empty set `AttributeSet{}`: no bit and no fat member. -/
def empty : AttributeSet := ⟨0, []⟩

/-- `thin_size()`: `std::popcount(thin)`, the number of bits set among the 32 bits of the
bitset. -/
def thin_size (s : AttributeSet) : Nat :=
  ((List.range 32).filter (fun i => s.thin.testBit i)).length

/-- `fat_size()`. -/
def fat_size (s : AttributeSet) : Nat := s.fat.length

/-- `size()`. -/
def size (s : AttributeSet) : Nat := s.thin_size + s.fat_size

/-- The `for` loop of `elements()`, with `n` of its 32 iterations left, at the bit `i` and
with the thin attributes found so far in `result`: when `thin & (1 << i)` is not zero the
attribute of the kind `1 << i` is added, and the loop is left once `thin_size()`
attributes are found. A bit from 22 on, which no `append` sets, gives a `Kind` that is no
enumerator and that `Attribute.Kind` does not hold: the model has no result then. -/
def elements_scan (s : AttributeSet) : Nat → Nat → List Attribute → Option (List Attribute)
  | 0, _, result => some result
  | n + 1, i, result =>
    if s.thin &&& (1 <<< i) ≠ 0 then
      match Attribute.Kind.of_bit i with
      | none => none
      | some k =>
        if (result ++ [Attribute.thin k]).length = s.thin_size then
          some (result ++ [Attribute.thin k])
        else
          elements_scan s n (i + 1) (result ++ [Attribute.thin k])
    else
      elements_scan s n (i + 1) result

/-- `elements()`: the thin attributes found by the scan of the bitset, then the fat
members. -/
def elements (s : AttributeSet) : Option (List Attribute) :=
  match s.elements_scan 32 0 [] with
  | none => none
  | some result => some (result ++ s.fat)

end AttributeSet

/-! ## Auxiliary definitions used to state the theorems -/

/-- The bytes of the source from the cursor on. -/
def Decoder.rest (d : Decoder) : List UInt8 := d.source.drop d.position

/-- The bytes of the source from the cursor on. -/
def Deserializer.rest (ds : Deserializer) : List UInt8 := ds.source.rest

/-- The state `ds` with its cursor moved forward by `n` bytes, memos untouched. -/
def Deserializer.advanced (ds : Deserializer) (n : Nat) : Deserializer :=
  { ds with source := ds.source.advanced n }

/-- The big-endian signed 32-bit value of four bytes. -/
def be_i32 (b0 b1 b2 b3 : UInt8) : Int :=
  Decoder.to_signed 32 (b0.toNat * 2 ^ 24 + b1.toNat * 2 ^ 16 + b2.toNat * 2 ^ 8 + b3.toNat)

/-- The overflow test of `signed_leb128` on the byte `b`. -/
def Decoder.signed_overflow (value : Int) (shift : Nat) (b : Nat) : Bool :=
  (shift == 63 && ((b &&& 0x7f : Nat) : Int) != 0 && ((b &&& 0x7f : Nat) : Int) != 0x7f) ||
    (decide (shift > 63) && ((b &&& 0x7f : Nat) : Int) != (if value < 0 then 0x7f else 0x00))

/-- The test of `signed_leb128` for a byte without continuation bit. -/
def Decoder.signed_last (b : Nat) : Bool := ((b &&& 0x80) >>> 7) == 0

/-- The test of `signed_leb128` for a sign extension, `shift` being the shift before the
byte `b` was added. -/
def Decoder.signed_extends (shift : Nat) (b : Nat) : Bool :=
  decide (shift + 7 < 64) && ((b &&& 0x40) != 0)

/-- The bytes that a run from the state `ds` to the state `ds1` has consumed. -/
def Deserializer.consumed (ds ds1 : Deserializer) : List UInt8 :=
  ds.rest.take (ds1.source.position - ds.source.position)

/-- The entries that a run of the deserializer appends to the four memos. -/
structure Entries where
  strings : List Bytes
  symbols : List Symbol
  types : List Type_
  values : List Value

/-- No new entry. -/
def Entries.empty : Entries := ⟨[], [], [], []⟩

/-- The entries of two successive runs. -/
def Entries.append (a b : Entries) : Entries :=
  ⟨a.strings ++ b.strings, a.symbols ++ b.symbols, a.types ++ b.types, a.values ++ b.values⟩

/-- The state `ds` after a run that consumed `n` bytes and appended the entries `E`. -/
def Deserializer.extend (ds : Deserializer) (n : Nat) (E : Entries) : Deserializer :=
  ⟨ds.source.advanced n, ds.interned_strings ++ E.strings, ds.interned_symbols ++ E.symbols,
    ds.interned_types ++ E.types, ds.interned_values ++ E.values⟩

/-- Each memo of `a` is an initial segment of the corresponding memo of `b`. -/
def Deserializer.memos_le (a b : Deserializer) : Prop :=
  a.interned_strings <+: b.interned_strings ∧ a.interned_symbols <+: b.interned_symbols ∧
  a.interned_types <+: b.interned_types ∧ a.interned_values <+: b.interned_values

/-- The four memos of `a` and `b` are equal. -/
def Deserializer.same_memos (a b : Deserializer) : Prop :=
  a.interned_strings = b.interned_strings ∧ a.interned_symbols = b.interned_symbols ∧
  a.interned_types = b.interned_types ∧ a.interned_values = b.interned_values

/-- The memos of `ds2` agree with those a first run had in `ds`: they are the same, or
they extend the memos `F` that the first run ended with. -/
def Deserializer.Compatible (F ds ds2 : Deserializer) : Prop :=
  ds.same_memos ds2 ∨ F.memos_le ds2

/-- A read of the byte source is determined by the bytes it consumes: when it succeeds
from `d` it has consumed a prefix `C` of the remaining bytes; from any decoder with the
same byte order whose remaining bytes start with `C` it returns the same value and
consumes `C`; from one whose remaining bytes are a proper prefix of `C` it fails. -/
def Framed {α : Type} (read : Decoder → Result α × Decoder) : Prop :=
  ∀ d a d1, read d = (Except.ok a, d1) →
    ∃ C, C <+: d.rest ∧ d1 = d.advanced C.length ∧
      ∀ d2, d2.byte_order = d.byte_order →
        (∀ post, d2.rest = C ++ post → read d2 = (Except.ok a, d2.advanced C.length)) ∧
        (∀ C1, C1 <+: C → C1 ≠ C → d2.rest = C1 → ∃ e, (read d2).1 = Except.error e)

/-- The run of `m2` replays the run of `m1`, as far as `k` bytes: when `m1` succeeds from
`ds`, it has consumed a prefix `C` of the remaining bytes and appended entries `E` to the
memos; from any state `ds2` with the same byte order and compatible memos, `m2` returns
the same result, consuming `C` and appending `E`, if the remaining bytes of `ds2` start
with `C`, and `m2` ends with an exception or an abort if the remaining bytes of `ds2` are
a proper prefix of `C`; both under the proviso that run 2 has fewer than `k` bytes to
consume (the bound `k` accounts for the recursion depth available to `m2`). -/
def Sim {α : Type} (k : Nat) (m1 m2 : M α) : Prop :=
  ∀ ds r ds1, m1 ds = Except.ok (r, ds1) →
    ∃ C E, C <+: ds.rest ∧ ds1 = ds.extend C.length E ∧
      ∀ F ds2, ds1.memos_le F → Deserializer.Compatible F ds ds2 →
        ds2.source.byte_order = ds.source.byte_order →
        (C.length < k → ∀ post, ds2.rest = C ++ post →
          m2 ds2 = Except.ok (r, ds2.extend C.length E)) ∧
        (∀ C1, C1.length < k → C1 <+: C → C1 ≠ C → ds2.rest = C1 →
          ∃ e, m2 ds2 = Except.error e ∧ e.is_fatal = true)

/-- A memo that reads and extends one of the four tables: `push` appends one entry and
leaves the byte source alone, and `get` depends on the tables only, monotonically. -/
def Memo.Lawful {α : Type} (memo : Memo α) : Prop :=
  (∃ entry : α → Entries, ∀ v ds, memo.push v ds = ds.extend 0 (entry v)) ∧
  (∀ a b : Deserializer, a.memos_le b → memo.get a <+: memo.get b) ∧
  (∀ a b : Deserializer, a.same_memos b → memo.get a = memo.get b)

/-! ### The value of a sequence of bytes under a byte order -/

/-- The value of `bytes` read with the first byte least significant. -/
def little_endian_value : List UInt8 → Nat
  | [] => 0
  | b :: bs => b.toNat + 256 * little_endian_value bs

/-- The value of `bytes` read with the first byte most significant. -/
def big_endian_value : List UInt8 → Nat
  | [] => 0
  | b :: bs => b.toNat * 256 ^ bs.length + big_endian_value bs

/-- The value of `bytes` under the byte order `order`. -/
def byte_order_value (order : Endian) (bytes : List UInt8) : Nat :=
  match order with
  | Endian.little => little_endian_value bytes
  | Endian.big => big_endian_value bytes

/-- The two's complement reduction of `v` to `bits` bits: the integer of
`[-2^(bits-1), 2^(bits-1))` that is congruent to `v` modulo `2^bits`. -/
def two_complement (bits : Nat) (v : Int) : Int :=
  (v + 2 ^ (bits - 1)) % 2 ^ bits - 2 ^ (bits - 1)

/-! ### Normal forms of types, as the specification words them -/

namespace Type_

mutual

/-- The canonical form of a type: `Numeric` and `Predefined` are their own normal form,
an array value normalizes its element, an array reference normalizes its element and is
nullable, a reference is not exact and is nullable, and structs, functions and vars are
normalized componentwise. -/
def normal_form : Type_ → Type_
  | predefined p => predefined p
  | numeric n => numeric n
  | array_value element size => array_value (normal_form element) size
  | array_reference element _ => array_reference (normal_form element) true
  | struct elements => struct (normal_forms elements)
  | reference name _ _ => reference name false true
  | var type => var (normal_form type)
  | function parameters return_value =>
    function (normal_forms parameters) (normal_form return_value)

/-- The canonical forms of the types of a sequence, in order. -/
def normal_forms : List Type_ → List Type_
  | [] => []
  | t :: ts => normal_form t :: normal_forms ts

end

mutual

/-- Whether every reference in the type, at any depth, is not exact and nullable, and
every array reference is nullable. -/
def refinement_erased : Type_ → Bool
  | predefined _ => true
  | numeric _ => true
  | array_value element _ => refinement_erased element
  | array_reference element is_nullable => is_nullable && refinement_erased element
  | struct elements => all_refinement_erased elements
  | reference _ is_exact is_nullable => !is_exact && is_nullable
  | var type => refinement_erased type
  | function parameters return_value =>
    all_refinement_erased parameters && refinement_erased return_value

/-- Whether `refinement_erased` holds of every type of the sequence. -/
def all_refinement_erased : List Type_ → Bool
  | [] => true
  | t :: ts => refinement_erased t && all_refinement_erased ts

end

mutual

/-- The names of the references in the type, at any depth, from left to right. -/
def reference_names : Type_ → List symbol.Top
  | predefined _ => []
  | numeric _ => []
  | array_value element _ => reference_names element
  | array_reference element _ => reference_names element
  | struct elements => all_reference_names elements
  | reference name _ _ => [name]
  | var type => reference_names type
  | function parameters return_value =>
    all_reference_names parameters ++ reference_names return_value

/-- The names of the references in the types of the sequence. -/
def all_reference_names : List Type_ → List symbol.Top
  | [] => []
  | t :: ts => reference_names t ++ all_reference_names ts

end

/-- Whether `normalized` meets no struct with an element and no function with a
parameter: the types on which no normalized component is written to an empty vector. -/
def normalizable : Type_ → Bool
  | predefined _ => true
  | numeric _ => true
  | array_value element _ => normalizable element
  | array_reference element _ => normalizable element
  | struct elements => elements.isEmpty
  | reference _ _ _ => true
  | var type => normalizable type
  | function parameters return_value => normalizable return_value && parameters.isEmpty

mutual

/-- Whether the structural closure of the type (the type and, recursively, the component
types of array values, structs, vars and functions) contains no reference type other
than `null`; the reference types are `null`, `unit`, the references and the array
references. -/
def closure_without_reference : Type_ → Bool
  | predefined p => p != type.Predefined.unit
  | numeric _ => true
  | array_value element _ => closure_without_reference element
  | array_reference _ _ => false
  | struct elements => all_closure_without_reference elements
  | reference _ _ _ => false
  | var type => closure_without_reference type
  | function parameters return_value =>
    all_closure_without_reference parameters && closure_without_reference return_value

/-- Whether `closure_without_reference` holds of every type of the sequence. -/
def all_closure_without_reference : List Type_ → Bool
  | [] => true
  | t :: ts => closure_without_reference t && all_closure_without_reference ts

end

end Type_

/-! ### Values whose equality is structural -/

namespace Value

mutual

/-- Whether the value holds, at any depth, no `Zero` and no floating-point number: the
values on which the comparison of payloads is the equality of payloads. -/
def plain : Value → Bool
  | zero _ => false
  | float _ => false
  | double _ => false
  | array_value _ elements => all_plain elements
  | struct elements => all_plain elements
  | constant value => plain value
  | null => true
  | unit => true
  | boolean _ => true
  | size _ => true
  | char _ => true
  | byte _ => true
  | short _ => true
  | int _ => true
  | long _ => true
  | byte_string _ => true
  | local_ _ _ => true
  | symbol _ _ => true
  | string _ => true
  | virtual_ _ => true
  | class_of _ => true

/-- Whether `plain` holds of every value of the sequence. -/
def all_plain : List Value → Bool
  | [] => true
  | v :: vs => plain v && all_plain vs

end

end Value

/-! ### The members of a set of attributes, as the specification words them -/

/-- The kinds of attributes, in the ascending order of their bits. -/
def Attribute.Kind.all : List Attribute.Kind :=
  [may_inline, inline_hint, no_inline, always_inline, may_specialize, no_specialize, un_opt,
    no_opt, did_opt, bail_opt, dyn, stub, extern_, link, define, abstract, volatile_, final,
    safe_publish, link_time_resolved, uses_intrinsic, alignment]

namespace AttributeSet

/-- The thin attributes whose bit is set, in the ascending order of the bits. -/
def thin_members (s : AttributeSet) : List Attribute :=
  (Attribute.Kind.all.filter (fun k => s.thin.testBit k.bit)).map Attribute.thin

/-- The fat attributes of a sequence of insertions, each once, in the order of their
first insertion. -/
def first_insertions (source : List Attribute) : List Attribute :=
  (source.filter (fun a => !a.is_thin)).foldl
    (fun members a => if a ∈ members then members else members ++ [a]) []

/-- The first fat member of the kind of `a`, which is the one `append` compares `a`
with. -/
def first_of_kind (s : AttributeSet) (a : Attribute) : Option Attribute :=
  s.fat.find? (fun b => b.kind == a.kind)

end AttributeSet

/-! ### Properties of the runs of the deserializer -/

namespace Deserializer

/-- A run of `m` that succeeds leaves each of the four memos with its former contents as
an initial segment. -/
def AppendOnly {α : Type} (m : M α) : Prop :=
  ∀ ds r ds1, m ds = Except.ok (r, ds1) → ds.memos_le ds1

/-- A run of `m` from a state with fewer than `k` bytes left does not reach the bound of
the recursion, and a run that succeeds has consumed at least `s` bytes. -/
def Halts {α : Type} (s k : Nat) (m : M α) : Prop :=
  ∀ ds, (ds.rest.length < k → m ds ≠ Except.error Failure.out_of_fuel) ∧
    (∀ r ds1, m ds = Except.ok (r, ds1) → ds1.rest.length + s ≤ ds.rest.length)

end Deserializer

/-! ### Encodings that take nothing from the memos -/

namespace Deserializer

/-- The bytes `C` are an encoding of `r` for the decoder `m` that takes nothing from the
memos: from every state with the byte order `bo` whose remaining bytes start with `C`,
whatever its memos hold, `m` returns `r` and consumes `C`. -/
def MemoFree {α : Type} (bo : Endian) (m : M α) (r : α) (C : List UInt8) : Prop :=
  ∀ ds2 post, ds2.source.byte_order = bo → ds2.rest = C ++ post →
    ∃ E, m ds2 = Except.ok (r, ds2.extend C.length E)

/-- The result `r` has an encoding that takes nothing from the memos, for the decoders
`m n` whose bound of recursion `n` exceeds the length of the encoding (by `1 - s`). -/
def Inlined {α : Type} (bo : Endian) (s : Nat) (m : Nat → M α) (r : α) : Prop :=
  ∃ C, ∀ n, C.length < n + s → MemoFree bo (m n) r C

/-- Every memoized string is no longer than the number of bytes read so far, and every
memoized symbol, type and value has an encoding that takes nothing from the memos. -/
def Inlinable (ds : Deserializer) : Prop :=
  (∀ s ∈ ds.interned_strings, s.length ≤ ds.source.position) ∧
  (∀ v ∈ ds.interned_symbols, Inlined ds.source.byte_order 0 symbol v) ∧
  (∀ v ∈ ds.interned_types, Inlined ds.source.byte_order 0 type_ v) ∧
  (∀ v ∈ ds.interned_values, Inlined ds.source.byte_order 0 value v)

/-- What a run of `m1` returns can be encoded for `m2` without a reference to the memos:
a run of `m1` that succeeds moves the cursor forward and appends to the memos; and, from a
state whose memos hold elements that can be so encoded, with the cursor ending below
`2^63`, it leaves such a state and its result has an encoding for `m2` that takes nothing
from the memos. -/
def Inlines {α : Type} (s : Nat) (m1 : M α) (m2 : Nat → M α) : Prop :=
  ∀ ds r ds1, m1 ds = Except.ok (r, ds1) →
    (∃ n E, ds1 = ds.extend n E) ∧
    (ds.Inlinable → ds1.source.position < 2 ^ 63 →
      ds1.Inlinable ∧ Inlined ds.source.byte_order s m2 r)

end Deserializer
/-! # Theorems -/


/-! ## Lemmas on machine arithmetic -/

theorem wrap64_of_range (x : Int) (h1 : -2 ^ 63 ≤ x) (h2 : x < 2 ^ 63) : wrap64 x = x := by
  unfold wrap64
  norm_num at h1 h2 ⊢
  omega

theorem wrap64_of_nat (n : Nat) (h : n < 2 ^ 63) : wrap64 (n : Int) = n := by
  apply wrap64_of_range
  · have : (0 : Int) ≤ n := Int.natCast_nonneg n
    norm_num
    omega
  · exact_mod_cast h

theorem to_u64_of_nat (n : Nat) (h : n < 2 ^ 64) : to_u64 (n : Int) = n := by
  unfold to_u64
  norm_num at h ⊢
  omega

theorem sar64_shl64_63 (s : Nat) (h : s < 128) :
    (sar64 (shl64 (s : Int) 63) 63 != (s : Int)) = (s != 0) := by
  interval_cases s <;> rfl

namespace Decoder

/-- Reading one byte: `u8` succeeds exactly when a byte remains. -/
theorem u8_of_drop (d : Decoder) (b : UInt8) (tail : List UInt8)
    (h : d.source.drop d.position = b :: tail) :
    d.u8 = (Except.ok b.toNat, { d with position := d.position + 1 }) := by
  have hlt : d.position < d.source.length := by
    by_contra hc
    rw [List.drop_of_length_le (by omega)] at h
    exact List.noConfusion h
  unfold u8 numeric numeric_on
  rw [if_neg (by omega), h]
  cases hb : d.byte_order <;> simp [Endian.native, reassemble]

theorem u8_of_end (d : Decoder) (h : d.source.length ≤ d.position) :
    d.u8 = (Except.error ⟨d.position, "not enough bytes"⟩, d) := by
  unfold u8 numeric numeric_on
  rw [if_pos (by omega)]

theorem unsigned_overflow_test (s : Nat) (hs : s < 128) (shift : Nat) :
    ((shift == 63 && sar64 (shl64 (s : Int) shift) shift != (s : Int)) ||
      (decide (shift > 63) && ((s : Int) != 0))) =
    decide ((shift = 63 ∨ 63 < shift) ∧ s ≠ 0) := by
  by_cases h63 : shift = 63
  · subst h63
    have := sar64_shl64_63 s hs
    rw [this]
    by_cases hz : s = 0 <;> simp [hz]
  · by_cases hgt : 63 < shift
    · by_cases hz : s = 0 <;> simp [hz, hgt, h63]
    · simp [hgt, h63]

theorem unsigned_leb128_loop_step (fuel : Nat) (d : Decoder) (b : UInt8) (tail : List UInt8)
    (value : Int) (shift : Nat) (h : d.source.drop d.position = b :: tail) :
    unsigned_leb128_loop (fuel + 1) d value shift =
      if (shift = 63 ∨ 63 < shift) ∧ b.toNat % 128 ≠ 0 then
        (Except.error ⟨d.position + 1, "unsigned LEB128 too big for a 64-bit unsigned integer"⟩,
          d.advanced 1)
      else if b.toNat < 128 then
        (Except.ok (to_u64 (wrap64 (value + shl64 ((b.toNat % 128 : Nat) : Int) shift))),
          d.advanced 1)
      else
        unsigned_leb128_loop fuel (d.advanced 1)
          (wrap64 (value + shl64 ((b.toNat % 128 : Nat) : Int) shift)) (shift + 7) := by
  have hb : b.toNat < 256 := UInt8.toNat_lt_size b
  have hs : b.toNat &&& 0x7f = b.toNat % 128 := Nat.and_pow_two_sub_one_eq_mod b.toNat 7
  have hm : b.toNat % 128 < 128 := Nat.mod_lt _ (by norm_num)
  have hd : (b.toNat >>> 7 == 0) = decide (b.toNat < 128) := by
    have h7 : (2 : Nat) ^ 7 = 128 := by norm_num
    rw [Nat.shiftRight_eq_div_pow, h7]
    by_cases hlt : b.toNat < 128
    · have : b.toNat / 128 = 0 := by omega
      simp [this, hlt]
    · have : ¬ b.toNat / 128 = 0 := by omega
      simp [this, hlt]
  rw [unsigned_leb128_loop, u8_of_drop d b tail h]
  simp only [hs, hd, unsigned_overflow_test _ hm, fail, advanced, decide_eq_true_eq]


theorem terminated_group_cons (b : UInt8) (bs : List UInt8) (h : terminated_group (b :: bs) = true) :
    (bs = [] ∧ b.toNat < 128) ∨ (128 ≤ b.toNat ∧ terminated_group bs = true ∧ bs ≠ []) := by
  cases bs with
  | nil => left; simpa [terminated_group] using h
  | cons c cs =>
    right
    simp only [terminated_group, Bool.and_eq_true, decide_eq_true_eq] at h
    exact ⟨h.1, by simpa [terminated_group] using h.2, by simp⟩

/-- The loop of `unsigned_leb128` on a terminated group at the cursor: it returns the value
of the group when that value, added to what is accumulated, stays below `2^63`, and fails
otherwise. -/
theorem unsigned_leb128_loop_group (g : List UInt8) :
    ∀ (fuel : Nat) (d : Decoder) (post : List UInt8) (acc k : Nat),
      terminated_group g = true → d.source.drop d.position = g ++ post → g.length ≤ fuel →
      acc < 2 ^ 63 → acc < 2 ^ (7 * k) →
      (acc + group_value g * 2 ^ (7 * k) < 2 ^ 63 →
        unsigned_leb128_loop fuel d (acc : Int) (7 * k) =
          (Except.ok (acc + group_value g * 2 ^ (7 * k)), d.advanced g.length)) ∧
      (2 ^ 63 ≤ acc + group_value g * 2 ^ (7 * k) →
        ∃ e d1, unsigned_leb128_loop fuel d (acc : Int) (7 * k) = (Except.error e, d1)) := by
  induction g with
  | nil => intro _ _ _ _ _ h; simp [terminated_group] at h
  | cons b bs ih =>
    intro fuel d post acc k hg hsrc hfuel hacc hk
    obtain ⟨fuel, rfl⟩ : ∃ f, fuel = f + 1 := ⟨fuel - 1, by simp at hfuel; omega⟩
    have hb : b.toNat < 256 := UInt8.toNat_lt_size b
    have hm : b.toNat % 128 < 128 := Nat.mod_lt _ (by norm_num)
    rw [unsigned_leb128_loop_step fuel d b (bs ++ post) _ _ (by simpa using hsrc)]
    -- name the products so that the remaining arithmetic is linear
    have hP : 0 < 2 ^ (7 * k) := Nat.two_pow_pos _
    have hP1 : 2 ^ (7 * (k + 1)) = 128 * 2 ^ (7 * k) := by
      rw [show 7 * (k + 1) = 7 * k + 7 by ring, pow_add]; norm_num; ring
    have hgv : group_value (b :: bs) * 2 ^ (7 * k) =
        b.toNat % 128 * 2 ^ (7 * k) + group_value bs * 2 ^ (7 * (k + 1)) := by
      rw [hP1]; simp only [group_value]; ring
    have hR1 : b.toNat % 128 * 2 ^ (7 * k) ≤ 127 * 2 ^ (7 * k) :=
      Nat.mul_le_mul_right _ (by omega)
    have hR2 : b.toNat % 128 ≠ 0 → 2 ^ (7 * k) ≤ b.toNat % 128 * 2 ^ (7 * k) := fun h =>
      Nat.le_mul_of_pos_left _ (Nat.pos_of_ne_zero h)
    have hsmall : k < 9 → 128 * 2 ^ (7 * k) ≤ 2 ^ 63 := fun h => by
      rw [← hP1]; exact Nat.pow_le_pow_right (by norm_num) (by omega)
    have hbig : 9 ≤ k → 2 ^ 63 ≤ 2 ^ (7 * k) := fun h =>
      Nat.pow_le_pow_right (by norm_num) (by omega)
    have hval : ¬ ((7 * k = 63 ∨ 63 < 7 * k) ∧ b.toNat % 128 ≠ 0) →
        wrap64 ((acc : Int) + shl64 ((b.toNat % 128 : Nat) : Int) (7 * k)) =
          ((acc + b.toNat % 128 * 2 ^ (7 * k) : Nat) : Int) ∧
        acc + b.toNat % 128 * 2 ^ (7 * k) < 2 ^ 63 ∧
        acc + b.toNat % 128 * 2 ^ (7 * k) < 2 ^ (7 * (k + 1)) := by
      intro hno
      by_cases hz : b.toNat % 128 = 0
      · have h0 : shl64 0 (7 * k) = 0 := by simp [shl64, wrap64]
        rw [hz]
        simp only [Nat.cast_zero, h0, add_zero, zero_mul]
        refine ⟨wrap64_of_nat _ hacc, hacc, ?_⟩
        rw [hP1]; omega
      · have hk9 : k < 9 := by
          by_contra hc
          exact hno ⟨by omega, hz⟩
        have hlt : acc + b.toNat % 128 * 2 ^ (7 * k) < 128 * 2 ^ (7 * k) := by omega
        have hlt63 : acc + b.toNat % 128 * 2 ^ (7 * k) < 2 ^ 63 :=
          lt_of_lt_of_le hlt (hsmall hk9)
        have hsh : shl64 ((b.toNat % 128 : Nat) : Int) (7 * k) =
            ((b.toNat % 128 * 2 ^ (7 * k) : Nat) : Int) := by
          unfold shl64
          rw [Nat.mod_eq_of_lt (by omega : 7 * k < 64)]
          have : ((b.toNat % 128 : Nat) : Int) * 2 ^ (7 * k) =
              ((b.toNat % 128 * 2 ^ (7 * k) : Nat) : Int) := by push_cast; ring
          rw [this]
          exact wrap64_of_nat _ (by omega)
        rw [hsh, ← Nat.cast_add]
        refine ⟨wrap64_of_nat _ hlt63, hlt63, ?_⟩
        rw [hP1]; exact hlt
    rw [hgv]
    generalize hPe : 2 ^ (7 * k) = P at *
    generalize hRe : b.toNat % 128 * P = R at *
    generalize hQe : group_value bs * 2 ^ (7 * (k + 1)) = Q at *
    by_cases hover : (7 * k = 63 ∨ 63 < 7 * k) ∧ b.toNat % 128 ≠ 0
    · rw [if_pos hover]
      have h9 : 9 ≤ k := by omega
      have := hbig h9
      have := hR2 hover.2
      exact ⟨fun hlt => by omega, fun _ => ⟨_, _, rfl⟩⟩
    · rw [if_neg hover]
      obtain ⟨hv, hv63, hvk⟩ := hval hover
      rw [hv]
      rcases terminated_group_cons b bs hg with ⟨hnil, hlt⟩ | ⟨hge, hbs, hne⟩
      · subst hnil
        rw [if_pos hlt, to_u64_of_nat _ (by omega)]
        have hQ0 : Q = 0 := by rw [← hQe]; simp [group_value]
        subst hQ0
        exact ⟨fun _ => rfl, fun h => by omega⟩
      · rw [if_neg (by omega)]
        have hdrop : (d.advanced 1).source.drop (d.advanced 1).position = bs ++ post := by
          have := congrArg (List.drop 1) hsrc
          simpa [advanced, List.drop_drop, Nat.add_comm] using this
        have := ih fuel (d.advanced 1) post (acc + R) (k + 1) hbs hdrop
          (by simp at hfuel; omega) hv63 hvk
        rw [hQe] at this
        have hadv : (d.advanced 1).advanced bs.length = d.advanced (b :: bs).length := by
          simp [advanced]; omega
        rw [hadv, show 7 * (k + 1) = 7 * k + 7 by ring] at this
        refine ⟨fun h => ?_, fun h => ?_⟩
        · have := this.1 (by omega)
          rw [this]; congr 2; omega
        · exact this.2 (by omega)


end Decoder

/-! ## LEB128: the claims on `unsigned_leb128` and `signed_leb128` -/

namespace Decoder

/-- On a terminated group at the cursor whose value is below `2^63`, `unsigned_leb128`
returns that value and moves the cursor past the group. -/
theorem unsigned_leb128_group_ok (d : Decoder) (g post : List UInt8)
    (hg : terminated_group g = true) (hsrc : d.source.drop d.position = g ++ post)
    (hv : group_value g < 2 ^ 63) :
    d.unsigned_leb128 = (Except.ok (group_value g), d.advanced g.length) := by
  have hlen : g.length ≤ d.source.length - d.position + 1 := by
    have := congrArg List.length hsrc
    simp at this
    omega
  have := (unsigned_leb128_loop_group g _ d post 0 0 hg hsrc hlen (by norm_num) (by norm_num)).1
    (by simpa using hv)
  simpa [unsigned_leb128] using this

/-- On a terminated group at the cursor whose value is `2^63` or more, `unsigned_leb128`
fails. -/
theorem unsigned_leb128_group_fail (d : Decoder) (g post : List UInt8)
    (hg : terminated_group g = true) (hsrc : d.source.drop d.position = g ++ post)
    (hv : 2 ^ 63 ≤ group_value g) :
    ∃ e d1, d.unsigned_leb128 = (Except.error e, d1) := by
  have hlen : g.length ≤ d.source.length - d.position + 1 := by
    have := congrArg List.length hsrc
    simp at this
    omega
  have := (unsigned_leb128_loop_group g _ d post 0 0 hg hsrc hlen (by norm_num) (by norm_num)).2
    (by simpa using hv)
  simpa [unsigned_leb128] using this

end Decoder

theorem terminated_group_cons_of_ne (b : UInt8) (bs : List UInt8) (h : bs ≠ []) :
    terminated_group (b :: bs) = (decide (128 ≤ b.toNat) && terminated_group bs) := by
  cases bs with
  | nil => exact absurd rfl h
  | cons c cs => rfl

theorem uleb128_go_ne_nil (fuel n : Nat) : uleb128_go fuel n ≠ [] := by
  cases fuel with
  | zero => simp [uleb128_go]
  | succ f =>
    unfold uleb128_go
    split <;> simp

/-- The encoder produces a terminated group whose value is the number encoded. -/
theorem uleb128_go_spec (fuel : Nat) : ∀ n : Nat, n < 128 ^ (fuel + 1) →
    terminated_group (uleb128_go fuel n) = true ∧ group_value (uleb128_go fuel n) = n := by
  induction fuel with
  | zero =>
    intro n hn
    have hn : n < 128 := by simpa using hn
    have h1 : (UInt8.ofNat (n % 128)).toNat = n := by
      simp [UInt8.toNat, UInt8.ofNat, Fin.ofNat]; omega
    simp [uleb128_go, terminated_group, group_value, h1]
    omega
  | succ f ih =>
    intro n hn
    unfold uleb128_go
    by_cases hlt : n < 128
    · have h1 : (UInt8.ofNat n).toNat = n := by
        simp [UInt8.toNat, UInt8.ofNat, Fin.ofNat]; omega
      rw [if_pos hlt]
      simp [terminated_group, group_value, h1]
      omega
    · rw [if_neg hlt]
      have h1 : (UInt8.ofNat (n % 128 + 128)).toNat = n % 128 + 128 := by
        simp [UInt8.toNat, UInt8.ofNat, Fin.ofNat]; omega
      have hdiv : n / 128 < 128 ^ (f + 1) := by
        rw [Nat.div_lt_iff_lt_mul (by norm_num)]
        calc n < 128 ^ (f + 1 + 1) := hn
          _ = 128 ^ (f + 1) * 128 := by ring
      obtain ⟨ht, hv⟩ := ih (n / 128) hdiv
      rw [terminated_group_cons_of_ne _ _ (uleb128_go_ne_nil f _)]
      simp only [group_value, h1, ht, hv]
      refine ⟨by simp, ?_⟩
      omega

theorem uleb128_spec (n : Nat) :
    terminated_group (uleb128 n) = true ∧ group_value (uleb128 n) = n := by
  apply uleb128_go_spec
  calc n < 2 ^ n := Nat.lt_two_pow n
    _ ≤ 128 ^ n := Nat.pow_le_pow_left (by norm_num) n
    _ ≤ 128 ^ (n + 1) := Nat.pow_le_pow_right (by norm_num) (by omega)

namespace Decoder

/-- For every `n < 2^63`, `unsigned_leb128` at the standard encoding of `n` returns `n` and
advances by the length of the encoding. -/
theorem unsigned_leb128_uleb128 (d : Decoder) (n : Nat) (post : List UInt8)
    (hsrc : d.source.drop d.position = uleb128 n ++ post) (hn : n < 2 ^ 63) :
    d.unsigned_leb128 = (Except.ok n, d.advanced (uleb128 n).length) := by
  have := unsigned_leb128_group_ok d (uleb128 n) post (uleb128_spec n).1 hsrc
    (by rw [(uleb128_spec n).2]; exact hn)
  rwa [(uleb128_spec n).2] at this

/-- For every `n ≥ 2^63`, `unsigned_leb128` at the standard encoding of `n` fails. -/
theorem unsigned_leb128_uleb128_large (d : Decoder) (n : Nat) (post : List UInt8)
    (hsrc : d.source.drop d.position = uleb128 n ++ post) (hn : 2 ^ 63 ≤ n) :
    ∃ e d1, d.unsigned_leb128 = (Except.error e, d1) :=
  unsigned_leb128_group_fail d (uleb128 n) post (uleb128_spec n).1 hsrc
    (by rw [(uleb128_spec n).2]; exact hn)

/-- The bytes `FF FF FF FF 0F` decode to `0xFFFFFFFF`, with the cursor after them. -/
theorem unsigned_leb128_ffffffff :
    unsigned_leb128 ⟨[0xFF, 0xFF, 0xFF, 0xFF, 0x0F], 0, Endian.little⟩ =
      (Except.ok 0xFFFFFFFF, ⟨[0xFF, 0xFF, 0xFF, 0xFF, 0x0F], 5, Endian.little⟩) := by
  have h := unsigned_leb128_group_ok ⟨[0xFF, 0xFF, 0xFF, 0xFF, 0x0F], 0, Endian.little⟩
    [0xFF, 0xFF, 0xFF, 0xFF, 0x0F] [] (by decide) (by rfl) (by decide)
  have hv : group_value [0xFF, 0xFF, 0xFF, 0xFF, 0x0F] = 0xFFFFFFFF := by decide
  rw [hv] at h
  exact h

/-- C1 (fails on the code): `2^63` is below `2^64` and its standard encoding is nine bytes
`80` followed by `01`, yet `unsigned_leb128` reports it as too big for a 64-bit unsigned
integer: the test `(slice << shift >> shift) != slice` is made on a signed `int64_t`, where
the right shift is arithmetic, so it rejects every non-zero slice at shift 63. -/
theorem unsigned_leb128_rejects_two_pow_63 :
    (2 : Nat) ^ 63 < 2 ^ 64 ∧
    uleb128 (2 ^ 63) = [0x80, 0x80, 0x80, 0x80, 0x80, 0x80, 0x80, 0x80, 0x80, 0x01] ∧
    unsigned_leb128 ⟨uleb128 (2 ^ 63), 0, Endian.little⟩ =
      (Except.error ⟨10, "unsigned LEB128 too big for a 64-bit unsigned integer"⟩,
        ⟨uleb128 (2 ^ 63), 10, Endian.little⟩) := by
  apply And.intro
  · norm_num
  apply And.intro
  · decide
  · rfl

/-- C3: on every terminated unsigned LEB128 group whose mathematical value is `2^64` or
more, `unsigned_leb128` returns a failure: it returns no value, truncated or not. -/
theorem unsigned_leb128_overflow_is_failure (d : Decoder) (g post : List UInt8)
    (hg : terminated_group g = true) (hsrc : d.source.drop d.position = g ++ post)
    (hv : 2 ^ 64 ≤ group_value g) :
    (∃ e, d.unsigned_leb128.1 = Except.error e) ∧ ∀ v, d.unsigned_leb128.1 ≠ Except.ok v := by
  obtain ⟨e, d1, h⟩ := unsigned_leb128_group_fail d g post hg hsrc
    (le_trans (by norm_num) hv)
  rw [h]
  exact ⟨⟨e, rfl⟩, fun v hc => by cases hc⟩

/-- C3 at nine bytes `FF` followed by `02`, a group of value `2^64 + 2^63 - 1`. -/
theorem unsigned_leb128_overflow_is_failure_witness :
    (∃ e, (unsigned_leb128
        ⟨[0xFF, 0xFF, 0xFF, 0xFF, 0xFF, 0xFF, 0xFF, 0xFF, 0xFF, 0x02], 0, Endian.little⟩).1 =
          Except.error e) ∧
    ∀ v, (unsigned_leb128
        ⟨[0xFF, 0xFF, 0xFF, 0xFF, 0xFF, 0xFF, 0xFF, 0xFF, 0xFF, 0x02], 0, Endian.little⟩).1 ≠
          Except.ok v :=
  unsigned_leb128_overflow_is_failure
    ⟨[0xFF, 0xFF, 0xFF, 0xFF, 0xFF, 0xFF, 0xFF, 0xFF, 0xFF, 0x02], 0, Endian.little⟩
    [0xFF, 0xFF, 0xFF, 0xFF, 0xFF, 0xFF, 0xFF, 0xFF, 0xFF, 0x02] [] (by decide) (by rfl)
    (by decide)

/-- C2 (fails on the code): the standard encodings of `-2^34`, `-2^41`, `-2^48`, `-2^55`
and `-2^62` have 5, 6, 7, 8 and 9 bytes, a final byte with bit `0x40` set and an
accumulated shift below 64, yet `signed_leb128` does not return the encoded value: the
mask `-(1 << shift)` is computed on the 32-bit `int` literal `1`. -/
theorem signed_leb128_wide_negative :
    (sleb128 (-2 ^ 34) = [0x80, 0x80, 0x80, 0x80, 0x40] ∧
      (signed_leb128 ⟨sleb128 (-2 ^ 34), 0, Endian.little⟩).1 = Except.ok (-8)) ∧
    (sleb128 (-2 ^ 41) = [0x80, 0x80, 0x80, 0x80, 0x80, 0x40] ∧
      (signed_leb128 ⟨sleb128 (-2 ^ 41), 0, Endian.little⟩).1 = Except.ok (-1024)) ∧
    (sleb128 (-2 ^ 48) = [0x80, 0x80, 0x80, 0x80, 0x80, 0x80, 0x40] ∧
      (signed_leb128 ⟨sleb128 (-2 ^ 48), 0, Endian.little⟩).1 = Except.ok (-131072)) ∧
    (sleb128 (-2 ^ 55) = [0x80, 0x80, 0x80, 0x80, 0x80, 0x80, 0x80, 0x40] ∧
      (signed_leb128 ⟨sleb128 (-2 ^ 55), 0, Endian.little⟩).1 = Except.ok (-16777216)) ∧
    (sleb128 (-2 ^ 62) = [0x80, 0x80, 0x80, 0x80, 0x80, 0x80, 0x80, 0x80, 0x40] ∧
      (signed_leb128 ⟨sleb128 (-2 ^ 62), 0, Endian.little⟩).1 = Except.ok (-2147483648)) := by
  refine ⟨⟨by decide, by rfl⟩, ⟨by decide, by rfl⟩, ⟨by decide, by rfl⟩, ⟨by decide, by rfl⟩,
    ⟨by decide, by rfl⟩⟩

end Decoder

/-! ## Basic facts on the deserializer monad and the reads -/

namespace Decoder

theorem rest_advanced (d : Decoder) (n : Nat) : (d.advanced n).rest = d.rest.drop n := by
  simp [rest, advanced, List.drop_drop, Nat.add_comm]

theorem advanced_advanced (d : Decoder) (m n : Nat) :
    (d.advanced m).advanced n = d.advanced (m + n) := by
  simp [advanced, Nat.add_assoc]

theorem advanced_zero (d : Decoder) : d.advanced 0 = d := by
  simp [advanced]

theorem peek_of_rest (d : Decoder) (b : UInt8) (tail : List UInt8) (h : d.rest = b :: tail) :
    d.peek = some (to_signed 8 b.toNat) := by
  have hlt : d.position < d.source.length := by
    by_contra hc
    rw [rest, List.drop_of_length_le (by omega)] at h
    exact List.noConfusion h
  have hget : d.source.get? d.position = some b := by
    have := List.getElem?_drop d.source d.position 0
    rw [show d.source.drop d.position = b :: tail from h] at this
    simpa using this.symm
  unfold peek
  rw [if_pos hlt, hget]
  rfl

theorem peek_of_rest_nil (d : Decoder) (h : d.rest = []) : d.peek = none := by
  have : d.source.length ≤ d.position := by
    simpa [rest, List.drop_eq_nil_iff] using h
  simp [peek, Nat.not_lt.mpr this]

end Decoder

namespace M

@[simp] theorem pure_apply {α : Type} (a : α) (ds : Deserializer) :
    (Pure.pure a : M α) ds = Except.ok (a, ds) := rfl

theorem bind_apply {α β : Type} (m : M α) (f : α → M β) (ds : Deserializer) :
    (m >>= f) ds = match m ds with
      | Except.ok (a, ds1) => f a ds1
      | Except.error e => Except.error e := rfl

theorem bind_ok {α β : Type} (m : M α) (f : α → M β) (ds ds1 : Deserializer) (a : α)
    (h : m ds = Except.ok (a, ds1)) : (m >>= f) ds = f a ds1 := by
  rw [bind_apply, h]

theorem bind_error {α β : Type} (m : M α) (f : α → M β) (ds : Deserializer) (e : Failure)
    (h : m ds = Except.error e) : (m >>= f) ds = Except.error e := by
  rw [bind_apply, h]

end M

namespace Deserializer

theorem state_rest_advanced (ds : Deserializer) (n : Nat) : (ds.advanced n).rest = ds.rest.drop n :=
  Decoder.rest_advanced ds.source n

theorem state_advanced_advanced (ds : Deserializer) (m n : Nat) :
    (ds.advanced m).advanced n = ds.advanced (m + n) := by
  simp [advanced, Decoder.advanced_advanced]

theorem get_u8_of_rest (ds : Deserializer) (b : UInt8) (tail : List UInt8)
    (h : ds.rest = b :: tail) :
    get Decoder.u8 ds = Except.ok (b.toNat, ds.advanced 1) := by
  simp [get, Decoder.u8_of_drop ds.source b tail h, advanced, Decoder.advanced]

theorem get_unsigned_leb128_of_rest (ds : Deserializer) (n : Nat) (post : List UInt8)
    (h : ds.rest = uleb128 n ++ post) (hn : n < 2 ^ 63) :
    get Decoder.unsigned_leb128 ds = Except.ok (n, ds.advanced (uleb128 n).length) := by
  simp [get, Decoder.unsigned_leb128_uleb128 ds.source n post h hn, advanced]

end Deserializer

/-! ## The interning protocol: back-references and memoization -/

namespace Deserializer

theorem peek_ff (d : Decoder) (tail : List UInt8) (h : d.rest = 0xFF :: tail) :
    d.peek = some (-1) := by
  rw [Decoder.peek_of_rest d _ tail h]
  rfl

theorem peek_ne_ff (d : Decoder) (h : ∀ tail, d.rest ≠ 0xFF :: tail) :
    d.peek ≠ some (-1) := by
  cases hr : d.rest with
  | nil => rw [Decoder.peek_of_rest_nil d hr]; simp
  | cons b tail =>
    rw [Decoder.peek_of_rest d b tail hr]
    intro hc
    have hb : b.toNat < 256 := UInt8.toNat_lt_size b
    have h255 : b.toNat = 255 := by
      simp only [Option.some.injEq, Decoder.to_signed] at hc
      split at hc
      · have : (0 : Int) ≤ (b.toNat : Int) := Int.natCast_nonneg _
        omega
      · norm_num at hc
        omega
    have : b = 0xFF := UInt8.ext (by rw [h255]; rfl)
    exact h tail (by rw [hr, this])

/-- A back-reference through `internable`: with `FF` at the cursor followed by the
encoding of an index into the memo, the element at that index is returned, the cursor
moves past the reference and the state is otherwise unchanged. -/
theorem internable_back_reference_of_lt {α : Type} (memo : Memo α) (decode : M α)
    (hmemo : ∀ (ds : Deserializer) (d : Decoder), memo.get { ds with source := d } = memo.get ds)
    (ds : Deserializer) (i : Nat) (post : List UInt8) (v : α)
    (hsrc : ds.rest = 0xFF :: (uleb128 i ++ post))
    (hv : (memo.get ds).get? i = some v) (hi : i < 2 ^ 63) :
    internable memo decode ds = Except.ok (v, ds.advanced (1 + (uleb128 i).length)) := by
  unfold internable
  rw [if_pos (peek_ff ds.source _ hsrc)]
  rw [Decoder.u8_of_drop ds.source 0xFF _ hsrc]
  have hrest : (ds.source.advanced 1).rest = uleb128 i ++ post := by
    rw [Decoder.rest_advanced, show ds.source.rest = _ from hsrc]; rfl
  have := Decoder.unsigned_leb128_uleb128 (ds.source.advanced 1) i post hrest hi
  simp only [Decoder.advanced] at this ⊢
  rw [this]
  simp only [at_index, hmemo, hv, advanced, Decoder.advanced, Nat.add_assoc]

theorem internable_back_reference {α : Type} (memo : Memo α) (decode : M α)
    (hmemo : ∀ (ds : Deserializer) (d : Decoder), memo.get { ds with source := d } = memo.get ds)
    (ds : Deserializer) (i : Nat) (post : List UInt8) (v : α)
    (hsrc : ds.rest = 0xFF :: (uleb128 i ++ post))
    (hv : (memo.get ds).get? i = some v) (hsize : (memo.get ds).length < 2 ^ 63) :
    internable memo decode ds = Except.ok (v, ds.advanced (1 + (uleb128 i).length)) := by
  have hi : i < 2 ^ 63 := by
    have : i < (memo.get ds).length := by
      rw [List.get?_eq_some] at hv
      exact hv.1
    omega
  exact internable_back_reference_of_lt memo decode hmemo ds i post v hsrc hv hi

/-- An inline decode through `internable`: when the byte at the cursor is not `FF`, the
element that `decode` returns is returned and it is pushed on the memo exactly when the
cursor has moved by more than two bytes. -/
theorem internable_inline {α : Type} (memo : Memo α) (decode : M α)
    (ds ds1 : Deserializer) (v : α)
    (hfirst : ∀ tail, ds.rest ≠ 0xFF :: tail) (hdec : decode ds = Except.ok (v, ds1)) :
    internable memo decode ds =
      Except.ok (v, if ds1.source.position > ds.source.position + 2 then memo.push v ds1
        else ds1) := by
  unfold internable
  rw [if_neg (peek_ne_ff ds.source hfirst)]
  simp only [hdec, Decoder.current_position]
  split <;> rfl

theorem internable_inline_error {α : Type} (memo : Memo α) (decode : M α)
    (ds : Deserializer) (e : Failure)
    (hfirst : ∀ tail, ds.rest ≠ 0xFF :: tail) (hdec : decode ds = Except.error e) :
    internable memo decode ds = Except.error e := by
  unfold internable
  rw [if_neg (peek_ne_ff ds.source hfirst)]
  simp only [hdec]

/-- C4: for each internable category (symbol, type, value), when the cursor is at `FF`
followed by the unsigned LEB128 encoding of an index `i` below the size of the memo of the
category, the decode returns `memo[i]`, consumes `1 + len(ULEB(i))` bytes and leaves the
four memos unchanged. The size of a memo is taken below `2^63`, which every `std::vector`
satisfies. -/
theorem back_reference_returns_memoized_element (fuel : Nat) (ds : Deserializer) (i : Nat)
    (post : List UInt8) (hsrc : ds.rest = 0xFF :: (uleb128 i ++ post)) :
    (∀ v, ds.interned_symbols.get? i = some v → ds.interned_symbols.length < 2 ^ 63 →
      symbol (fuel + 1) ds = Except.ok (v,
        ⟨ds.source.advanced (1 + (uleb128 i).length), ds.interned_strings,
          ds.interned_symbols, ds.interned_types, ds.interned_values⟩)) ∧
    (∀ v, ds.interned_types.get? i = some v → ds.interned_types.length < 2 ^ 63 →
      type_ (fuel + 1) ds = Except.ok (v,
        ⟨ds.source.advanced (1 + (uleb128 i).length), ds.interned_strings,
          ds.interned_symbols, ds.interned_types, ds.interned_values⟩)) ∧
    (∀ v, ds.interned_values.get? i = some v → ds.interned_values.length < 2 ^ 63 →
      value (fuel + 1) ds = Except.ok (v,
        ⟨ds.source.advanced (1 + (uleb128 i).length), ds.interned_strings,
          ds.interned_symbols, ds.interned_types, ds.interned_values⟩)) := by
  refine ⟨fun v hv hsize => ?_, fun v hv hsize => ?_, fun v hv hsize => ?_⟩
  · rw [symbol]
    exact internable_back_reference Memo.symbols _ (fun _ _ => rfl) ds i post v hsrc hv hsize
  · rw [type_]
    exact internable_back_reference Memo.types _ (fun _ _ => rfl) ds i post v hsrc hv hsize
  · rw [value]
    exact internable_back_reference Memo.values _ (fun _ _ => rfl) ds i post v hsrc hv hsize

/-- C4 on the stream `01 02 01 58 FF 00`: the first four bytes are an inline Top symbol
"X", which is memoized at index 0; the bytes `FF 00` then decode to that symbol. -/
theorem back_reference_returns_memoized_element_witness :
    symbol 2 ⟨⟨[0x01, 0x02, 0x01, 0x58, 0xFF, 0x00], 0, Endian.little⟩, [], [], [], []⟩ =
      Except.ok (Symbol.top ⟨[0x58]⟩,
        ⟨⟨[0x01, 0x02, 0x01, 0x58, 0xFF, 0x00], 4, Endian.little⟩,
          [[0x58]], [Symbol.top ⟨[0x58]⟩], [], []⟩) ∧
    symbol 2 ⟨⟨[0x01, 0x02, 0x01, 0x58, 0xFF, 0x00], 4, Endian.little⟩,
          [[0x58]], [Symbol.top ⟨[0x58]⟩], [], []⟩ =
      Except.ok (Symbol.top ⟨[0x58]⟩,
        ⟨⟨[0x01, 0x02, 0x01, 0x58, 0xFF, 0x00], 6, Endian.little⟩,
          [[0x58]], [Symbol.top ⟨[0x58]⟩], [], []⟩) :=
  ⟨by rfl,
   (back_reference_returns_memoized_element 1
      ⟨⟨[0x01, 0x02, 0x01, 0x58, 0xFF, 0x00], 4, Endian.little⟩,
        [[0x58]], [Symbol.top ⟨[0x58]⟩], [], []⟩ 0 [] (by rfl)).1
      (Symbol.top ⟨[0x58]⟩) (by rfl) (by decide)⟩

end Deserializer

namespace Deserializer

/-- An inline decode through `internable` that succeeded comes from a success of
`decode`; the state returned is the one `decode` left, with the element pushed on the memo
when the cursor moved by more than two bytes. -/
theorem internable_inline_inv {α : Type} (memo : Memo α) (decode : M α)
    (ds ds2 : Deserializer) (v : α)
    (hfirst : ∀ tail, ds.rest ≠ 0xFF :: tail)
    (h : internable memo decode ds = Except.ok (v, ds2)) :
    ∃ ds1, decode ds = Except.ok (v, ds1) ∧
      ds2 = if ds1.source.position > ds.source.position + 2 then memo.push v ds1 else ds1 := by
  cases hdec : decode ds with
  | error e =>
    rw [internable_inline_error memo decode ds e hfirst hdec] at h
    cases h
  | ok r =>
    obtain ⟨w, ds1⟩ := r
    rw [internable_inline memo decode ds ds1 w hfirst hdec] at h
    simp only [Except.ok.injEq, Prod.mk.injEq] at h
    obtain ⟨rfl, rfl⟩ := h
    exact ⟨ds1, rfl, rfl⟩

/-- C5: for every successful inline (non-`FF`) decode of a symbol, a type or a value by
`internable`, with `ds1` the state in which the inner decode ended: the cursor and the
three other memos are those of `ds1`; the decoded element is appended as the last entry
of the memo of its category if and only if the cursor advanced by more than two bytes,
and when it advanced by at most two bytes that memo is the one of `ds1`. -/
theorem inline_element_memoized_iff_more_than_two_bytes :
    (∀ (decode : M Symbol) (ds ds2 : Deserializer) (v : Symbol),
      (∀ tail, ds.rest ≠ 0xFF :: tail) →
      internable Memo.symbols decode ds = Except.ok (v, ds2) →
      ∃ ds1, decode ds = Except.ok (v, ds1) ∧ ds2.source = ds1.source ∧
        ds2.interned_strings = ds1.interned_strings ∧
        ds2.interned_types = ds1.interned_types ∧
        ds2.interned_values = ds1.interned_values ∧
        (ds2.interned_symbols = ds1.interned_symbols ++ [v] ↔
          ds.source.position + 2 < ds2.source.position) ∧
        (ds2.source.position ≤ ds.source.position + 2 →
          ds2.interned_symbols = ds1.interned_symbols)) ∧
    (∀ (decode : M Type_) (ds ds2 : Deserializer) (v : Type_),
      (∀ tail, ds.rest ≠ 0xFF :: tail) →
      internable Memo.types decode ds = Except.ok (v, ds2) →
      ∃ ds1, decode ds = Except.ok (v, ds1) ∧ ds2.source = ds1.source ∧
        ds2.interned_strings = ds1.interned_strings ∧
        ds2.interned_symbols = ds1.interned_symbols ∧
        ds2.interned_values = ds1.interned_values ∧
        (ds2.interned_types = ds1.interned_types ++ [v] ↔
          ds.source.position + 2 < ds2.source.position) ∧
        (ds2.source.position ≤ ds.source.position + 2 →
          ds2.interned_types = ds1.interned_types)) ∧
    (∀ (decode : M Value) (ds ds2 : Deserializer) (v : Value),
      (∀ tail, ds.rest ≠ 0xFF :: tail) →
      internable Memo.values decode ds = Except.ok (v, ds2) →
      ∃ ds1, decode ds = Except.ok (v, ds1) ∧ ds2.source = ds1.source ∧
        ds2.interned_strings = ds1.interned_strings ∧
        ds2.interned_symbols = ds1.interned_symbols ∧
        ds2.interned_types = ds1.interned_types ∧
        (ds2.interned_values = ds1.interned_values ++ [v] ↔
          ds.source.position + 2 < ds2.source.position) ∧
        (ds2.source.position ≤ ds.source.position + 2 →
          ds2.interned_values = ds1.interned_values)) := by
  refine ⟨?_, ?_, ?_⟩ <;>
  · intro decode ds ds2 v hfirst h
    obtain ⟨ds1, hdec, rfl⟩ := internable_inline_inv _ decode ds ds2 v hfirst h
    refine ⟨ds1, hdec, ?_⟩
    by_cases hgt : ds1.source.position > ds.source.position + 2
    · rw [if_pos hgt]
      exact ⟨rfl, rfl, rfl, rfl, ⟨fun _ => hgt, fun _ => rfl⟩,
        fun hle => absurd hgt (Nat.not_lt.mpr hle)⟩
    · rw [if_neg hgt]
      refine ⟨rfl, rfl, rfl, rfl, ⟨fun habs => ?_, fun hlt => absurd hlt (by omega)⟩,
        fun _ => rfl⟩
      exact absurd habs (by simp)

/-- C5 on two streams, with the decode of a Top symbol from a string as inner decode:
on `02 01 58` the cursor advances by three bytes and the symbol is appended to the symbol
memo; on `00` (the empty string) it advances by one byte and the memo stays empty. -/
theorem inline_element_memoized_iff_more_than_two_bytes_witness :
    (∃ ds1, (string >>= fun s => pure (Symbol.top ⟨s⟩))
          ⟨⟨[0x02, 0x01, 0x58], 0, Endian.little⟩, [], [], [], []⟩ =
        Except.ok (Symbol.top ⟨[0x58]⟩, ds1) ∧
      (⟨⟨[0x02, 0x01, 0x58], 3, Endian.little⟩, [[0x58]], [Symbol.top ⟨[0x58]⟩], [], []⟩ :
          Deserializer).source = ds1.source ∧
      [[(0x58 : UInt8)]] = ds1.interned_strings ∧ [] = ds1.interned_types ∧
      [] = ds1.interned_values ∧
      ([Symbol.top ⟨[0x58]⟩] = ds1.interned_symbols ++ [Symbol.top ⟨[0x58]⟩] ↔ 0 + 2 < 3) ∧
      (3 ≤ 0 + 2 → [Symbol.top ⟨[0x58]⟩] = ds1.interned_symbols)) ∧
    (∃ ds1, (string >>= fun s => pure (Symbol.top ⟨s⟩))
          ⟨⟨[0x00], 0, Endian.little⟩, [], [], [], []⟩ =
        Except.ok (Symbol.top ⟨[]⟩, ds1) ∧
      (⟨⟨[0x00], 1, Endian.little⟩, [], [], [], []⟩ : Deserializer).source = ds1.source ∧
      [] = ds1.interned_strings ∧ [] = ds1.interned_types ∧ [] = ds1.interned_values ∧
      ([] = ds1.interned_symbols ++ [Symbol.top ⟨[]⟩] ↔ 0 + 2 < 1) ∧
      (1 ≤ 0 + 2 → [] = ds1.interned_symbols)) :=
  ⟨inline_element_memoized_iff_more_than_two_bytes.1
      (string >>= fun s => pure (Symbol.top ⟨s⟩))
      ⟨⟨[0x02, 0x01, 0x58], 0, Endian.little⟩, [], [], [], []⟩
      ⟨⟨[0x02, 0x01, 0x58], 3, Endian.little⟩, [[0x58]], [Symbol.top ⟨[0x58]⟩], [], []⟩
      (Symbol.top ⟨[0x58]⟩) (fun tail h => by cases h) (by rfl),
   inline_element_memoized_iff_more_than_two_bytes.1
      (string >>= fun s => pure (Symbol.top ⟨s⟩))
      ⟨⟨[0x00], 0, Endian.little⟩, [], [], [], []⟩
      ⟨⟨[0x00], 1, Endian.little⟩, [], [], [], []⟩
      (Symbol.top ⟨[]⟩) (fun tail h => by cases h) (by rfl)⟩

/-- A back-reference whose index is outside the memo: `internable` evaluates `memo[i]`
beyond the end of the vector. -/
theorem internable_back_reference_out_of_range {α : Type} (memo : Memo α) (decode : M α)
    (hmemo : ∀ (ds : Deserializer) (d : Decoder), memo.get { ds with source := d } = memo.get ds)
    (ds : Deserializer) (i : Nat) (post : List UInt8)
    (hsrc : ds.rest = 0xFF :: (uleb128 i ++ post))
    (hi : (memo.get ds).length ≤ i) (hi63 : i < 2 ^ 63) :
    internable memo decode ds =
      Except.error (Failure.undefined "std::vector::operator[] out of range") := by
  unfold internable
  rw [if_pos (peek_ff ds.source _ hsrc)]
  rw [Decoder.u8_of_drop ds.source 0xFF _ hsrc]
  have hrest : (ds.source.advanced 1).rest = uleb128 i ++ post := by
    rw [Decoder.rest_advanced, show ds.source.rest = _ from hsrc]; rfl
  have := Decoder.unsigned_leb128_uleb128 (ds.source.advanced 1) i post hrest hi63
  simp only [Decoder.advanced] at this ⊢
  rw [this]
  have hnone : (memo.get ds).get? i = none := by
    rw [List.get?_eq_none]; exact hi
  simp only [at_index, hmemo, hnone]

/-- C6 (fails on the code): with empty memos, the back-reference `FF 00` decoded as a
symbol, as a type or as a value, the string record `Contained(0, 0)` (bytes `01 00 00`)
and the string record `Appended(0, 0, "")` (bytes `03 00 00 00`) all index a vector
outside its bounds with the unchecked `operator[]`: the behaviour is undefined, and no
error terminates the deserialization. -/
theorem out_of_range_index_is_unchecked :
    (symbol 1 ⟨⟨[0xFF, 0x00], 0, Endian.little⟩, [], [], [], []⟩ =
        Except.error (Failure.undefined "std::vector::operator[] out of range")) ∧
    (type_ 1 ⟨⟨[0xFF, 0x00], 0, Endian.little⟩, [], [], [], []⟩ =
        Except.error (Failure.undefined "std::vector::operator[] out of range")) ∧
    (value 1 ⟨⟨[0xFF, 0x00], 0, Endian.little⟩, [], [], [], []⟩ =
        Except.error (Failure.undefined "std::vector::operator[] out of range")) ∧
    (string ⟨⟨[0x01, 0x00, 0x00], 0, Endian.little⟩, [], [], [], []⟩ =
        Except.error (Failure.undefined "std::vector::operator[] out of range")) ∧
    (string ⟨⟨[0x03, 0x00, 0x00, 0x00], 0, Endian.little⟩, [], [], [], []⟩ =
        Except.error (Failure.undefined "std::vector::operator[] out of range")) ∧
    (Failure.undefined "std::vector::operator[] out of range").is_fatal = false := by
  refine ⟨by rfl, by rfl, by rfl, by rfl, by rfl, by rfl⟩

end Deserializer

/-! ## The string table -/

namespace Deserializer

theorem at_index_of_get {α : Type} (memo : Memo α) (ds : Deserializer) (i : Nat) (v : α)
    (h : (memo.get ds).get? i = some v) : at_index memo i ds = Except.ok (v, ds) := by
  simp only [at_index, h]

/-- An inline string: the encoding of a length followed by that many bytes. -/
theorem inline_string_of_rest (ds : Deserializer) (body post : List UInt8)
    (h : ds.rest = uleb128 body.length ++ (body ++ post)) (hL : body.length < 2 ^ 63) :
    inline_string ds =
      Except.ok (body, ds.advanced ((uleb128 body.length).length + body.length)) := by
  unfold inline_string
  rw [M.bind_ok _ _ _ _ _ (get_unsigned_leb128_of_rest ds body.length _ h hL)]
  have hrest : (ds.advanced (uleb128 body.length).length).rest = body ++ post := by
    rw [state_rest_advanced, h]; simp
  have hrest2 : List.drop (ds.source.position + (uleb128 body.length).length)
      ds.source.source = body ++ post := by
    simpa [rest, Decoder.rest, advanced, Decoder.advanced] using hrest
  have hlen : body.length ≤
      ds.source.source.length - (ds.source.position + (uleb128 body.length).length) := by
    have := congrArg List.length hrest2
    simp at this
    omega
  simp [M.bind_apply, get, Decoder.bytes, precondition, advanced, Decoder.advanced, hrest2,
    Nat.add_assoc, hlen]

/-- C8: `string` implements the tagged string table. With the cursor at the tag byte:
`Empty` (tag 0) returns the empty string; `Contained(n, i)` (tag 1, then the encodings of
`n` and `i`) returns the first `n` bytes of the memoized string `i`; in both cases the
memos are unchanged. `Inserted` (tag 2, then an inline string: the encoding of a length
followed by that many bytes) returns the inline string; `Appended(n, i, inline)` (tag 3)
returns the first `n` bytes of the memoized string `i` followed by the inline string; in
both cases the string memo grows by exactly one entry, the string returned, and the other
memos are unchanged. Numbers are unsigned LEB128 encodings of values below `2^63`, and
the string memo has fewer than `2^63` entries. -/
theorem string_table (ds : Deserializer) (post : List UInt8) :
    (ds.rest = 0x00 :: post → string ds = Except.ok ([], ds.advanced 1)) ∧
    (∀ (n i : Nat) (s : Bytes), ds.rest = 0x01 :: (uleb128 n ++ (uleb128 i ++ post)) →
      n < 2 ^ 63 → ds.interned_strings.get? i = some s → ds.interned_strings.length < 2 ^ 63 →
      string ds = Except.ok (s.take n,
        ds.advanced (1 + (uleb128 n).length + (uleb128 i).length))) ∧
    (∀ (body : Bytes), ds.rest = 0x02 :: (uleb128 body.length ++ (body ++ post)) →
      body.length < 2 ^ 63 →
      string ds = Except.ok (body,
        ⟨ds.source.advanced (1 + (uleb128 body.length).length + body.length),
          ds.interned_strings ++ [body], ds.interned_symbols, ds.interned_types,
          ds.interned_values⟩)) ∧
    (∀ (n i : Nat) (s body : Bytes),
      ds.rest = 0x03 :: (uleb128 n ++ (uleb128 i ++ (uleb128 body.length ++ (body ++ post)))) →
      n < 2 ^ 63 → ds.interned_strings.get? i = some s → ds.interned_strings.length < 2 ^ 63 →
      body.length < 2 ^ 63 →
      string ds = Except.ok (s.take n ++ body,
        ⟨ds.source.advanced
            (1 + (uleb128 n).length + (uleb128 i).length + (uleb128 body.length).length +
              body.length),
          ds.interned_strings ++ [s.take n ++ body], ds.interned_symbols, ds.interned_types,
          ds.interned_values⟩)) := by
  refine ⟨fun h => ?_, fun n i s h hn hs hsize => ?_, fun body h hL => ?_,
    fun n i s body h hn hs hsize hL => ?_⟩
  · unfold string
    rw [M.bind_ok _ _ _ _ _ (get_u8_of_rest ds _ _ h)]
    rfl
  · have hi : i < 2 ^ 63 := by
      have : i < ds.interned_strings.length := by
        rw [List.get?_eq_some] at hs
        exact hs.1
      omega
    unfold string
    rw [M.bind_ok _ _ _ _ _ (get_u8_of_rest ds _ _ h)]
    rw [if_neg (by decide), if_pos (by decide)]
    have h1 : (ds.advanced 1).rest = uleb128 n ++ (uleb128 i ++ post) := by
      rw [state_rest_advanced, h]; rfl
    rw [M.bind_ok _ _ _ _ _ (get_unsigned_leb128_of_rest _ n _ h1 hn)]
    have h2 : ((ds.advanced 1).advanced (uleb128 n).length).rest = uleb128 i ++ post := by
      rw [state_rest_advanced, h1]; simp
    rw [M.bind_ok _ _ _ _ _ (get_unsigned_leb128_of_rest _ i _ h2 hi)]
    rw [M.bind_ok _ _ _ _ _ (at_index_of_get Memo.strings
      (((ds.advanced 1).advanced (uleb128 n).length).advanced (uleb128 i).length) i s hs)]
    simp only [state_advanced_advanced, M.pure_apply]
  · unfold string
    rw [M.bind_ok _ _ _ _ _ (get_u8_of_rest ds _ _ h)]
    rw [if_neg (by decide), if_neg (by decide), if_pos (by decide)]
    have h1 : (ds.advanced 1).rest = uleb128 body.length ++ (body ++ post) := by
      rw [state_rest_advanced, h]; rfl
    rw [M.bind_ok _ _ _ _ _ (inline_string_of_rest _ body post h1 hL)]
    simp only [M.bind_apply, push_back, Memo.strings, state_advanced_advanced, M.pure_apply, advanced,
      Decoder.advanced_advanced, Nat.add_assoc]
  · have hi : i < 2 ^ 63 := by
      have : i < ds.interned_strings.length := by
        rw [List.get?_eq_some] at hs
        exact hs.1
      omega
    unfold string
    rw [M.bind_ok _ _ _ _ _ (get_u8_of_rest ds _ _ h)]
    rw [if_neg (by decide), if_neg (by decide), if_neg (by decide), if_pos (by decide)]
    have h1 : (ds.advanced 1).rest =
        uleb128 n ++ (uleb128 i ++ (uleb128 body.length ++ (body ++ post))) := by
      rw [state_rest_advanced, h]; rfl
    rw [M.bind_ok _ _ _ _ _ (get_unsigned_leb128_of_rest _ n _ h1 hn)]
    have h2 : ((ds.advanced 1).advanced (uleb128 n).length).rest =
        uleb128 i ++ (uleb128 body.length ++ (body ++ post)) := by
      rw [state_rest_advanced, h1]; simp
    rw [M.bind_ok _ _ _ _ _ (get_unsigned_leb128_of_rest _ i _ h2 hi)]
    rw [M.bind_ok _ _ _ _ _ (at_index_of_get Memo.strings
      (((ds.advanced 1).advanced (uleb128 n).length).advanced (uleb128 i).length) i s hs)]
    have h3 : (((ds.advanced 1).advanced (uleb128 n).length).advanced (uleb128 i).length).rest =
        uleb128 body.length ++ (body ++ post) := by
      rw [state_rest_advanced, h2]; simp
    rw [M.bind_ok _ _ _ _ _ (inline_string_of_rest _ body post h3 hL)]
    simp only [M.bind_apply, push_back, Memo.strings, state_advanced_advanced, M.pure_apply, advanced,
      Decoder.advanced_advanced, Nat.add_assoc]

/-- C8 on concrete records, with the string memo `["abc"]` (bytes `61 62 63`):
`00` is the empty string; `01 02 00` is `Contained(2, 0)` and returns "ab";
`02 01 58` is `Inserted("X")`; `03 02 00 01 58` is `Appended(2, 0, "X")` and returns
"abX". -/
theorem string_table_witness :
    string ⟨⟨[0x00], 0, Endian.little⟩, [[0x61, 0x62, 0x63]], [], [], []⟩ =
      Except.ok ([], ⟨⟨[0x00], 1, Endian.little⟩, [[0x61, 0x62, 0x63]], [], [], []⟩) ∧
    string ⟨⟨[0x01, 0x02, 0x00], 0, Endian.little⟩, [[0x61, 0x62, 0x63]], [], [], []⟩ =
      Except.ok ([0x61, 0x62],
        ⟨⟨[0x01, 0x02, 0x00], 3, Endian.little⟩, [[0x61, 0x62, 0x63]], [], [], []⟩) ∧
    string ⟨⟨[0x02, 0x01, 0x58], 0, Endian.little⟩, [[0x61, 0x62, 0x63]], [], [], []⟩ =
      Except.ok ([0x58],
        ⟨⟨[0x02, 0x01, 0x58], 3, Endian.little⟩, [[0x61, 0x62, 0x63], [0x58]], [], [], []⟩) ∧
    string ⟨⟨[0x03, 0x02, 0x00, 0x01, 0x58], 0, Endian.little⟩, [[0x61, 0x62, 0x63]], [], [],
        []⟩ =
      Except.ok ([0x61, 0x62, 0x58],
        ⟨⟨[0x03, 0x02, 0x00, 0x01, 0x58], 5, Endian.little⟩,
          [[0x61, 0x62, 0x63], [0x61, 0x62, 0x58]], [], [], []⟩) :=
  ⟨(string_table ⟨⟨[0x00], 0, Endian.little⟩, [[0x61, 0x62, 0x63]], [], [], []⟩ []).1
      (by rfl),
   (string_table ⟨⟨[0x01, 0x02, 0x00], 0, Endian.little⟩, [[0x61, 0x62, 0x63]], [], [], []⟩
      []).2.1 2 0 [0x61, 0x62, 0x63] (by rfl) (by decide) (by rfl) (by decide),
   (string_table ⟨⟨[0x02, 0x01, 0x58], 0, Endian.little⟩, [[0x61, 0x62, 0x63]], [], [], []⟩
      []).2.2.1 [0x58] (by rfl) (by decide),
   (string_table
      ⟨⟨[0x03, 0x02, 0x00, 0x01, 0x58], 0, Endian.little⟩, [[0x61, 0x62, 0x63]], [], [], []⟩
      []).2.2.2 2 0 [0x61, 0x62, 0x63] [0x58] (by rfl) (by decide) (by rfl) (by decide)
      (by decide)⟩

end Deserializer

/-! ## The header -/

namespace Decoder

theorem rest_length (d : Decoder) : d.rest.length = d.source.length - d.position := by
  simp [rest]

/-- A big-endian read of four bytes. -/
theorem i32_big (d : Decoder) (b0 b1 b2 b3 : UInt8) (tail : List UInt8)
    (h : d.rest = b0 :: b1 :: b2 :: b3 :: tail) (hbo : d.byte_order = Endian.big) :
    d.i32 = (Except.ok (be_i32 b0 b1 b2 b3), d.advanced 4) := by
  have hlen := rest_length d
  rw [h] at hlen
  simp only [List.length_cons] at hlen
  have h' : List.drop d.position d.source = b0 :: b1 :: b2 :: b3 :: tail := h
  unfold i32 numeric numeric_on
  rw [if_neg (by omega)]
  simp only [h', hbo, Endian.native, advanced, be_i32, reassemble]
  simp [Except.map]
  congr 1
  ring

/-- A read of four bytes with fewer than four bytes left. -/
theorem i32_short (d : Decoder) (h : d.rest.length < 4) :
    d.i32 = (Except.error ⟨d.position, "not enough bytes"⟩, d) := by
  rw [rest_length] at h
  unfold i32 numeric numeric_on
  rw [if_pos (by omega)]
  rfl

end Decoder

theorem be_i32_eq_file_identifier (b0 b1 b2 b3 : UInt8) :
    be_i32 b0 b1 b2 b3 = file_identifier ↔ [b0, b1, b2, b3] = [0x2E, 0x4E, 0x49, 0x52] := by
  have h0 := UInt8.toNat_lt_size b0
  have h1 := UInt8.toNat_lt_size b1
  have h2 := UInt8.toNat_lt_size b2
  have h3 := UInt8.toNat_lt_size b3
  simp only [UInt8.size] at h0 h1 h2 h3
  constructor
  · intro h
    unfold be_i32 file_identifier Decoder.to_signed at h
    norm_num at h
    have hb : b0.toNat = 0x2E ∧ b1.toNat = 0x4E ∧ b2.toNat = 0x49 ∧ b3.toNat = 0x52 := by
      split at h <;> omega
    obtain ⟨e0, e1, e2, e3⟩ := hb
    have := @UInt8.ext b0 0x2E (by rw [e0]; rfl)
    have := @UInt8.ext b1 0x4E (by rw [e1]; rfl)
    have := @UInt8.ext b2 0x49 (by rw [e2]; rfl)
    have := @UInt8.ext b3 0x52 (by rw [e3]; rfl)
    subst_vars
    rfl
  · intro h
    simp only [List.cons.injEq, and_true] at h
    obtain ⟨rfl, rfl, rfl, rfl⟩ := h
    rfl

/-- The header of a source with fewer than four bytes cannot be read. -/
theorem Header.decode_short (d : Decoder) (h : d.rest.length < 4) :
    Header.decode d = Except.error (Failure.exception ⟨d.position, "invalid file format"⟩) := by
  unfold Header.decode
  rw [Decoder.i32_short d h]
  simp [Decoder.current_position]

/-- The header of a big-endian source with four bytes or more: the file identifier is
checked first. -/
theorem Header.decode_cons (d : Decoder) (b0 b1 b2 b3 : UInt8) (tail : List UInt8)
    (h : d.rest = b0 :: b1 :: b2 :: b3 :: tail) (hbo : d.byte_order = Endian.big) :
    Header.decode d =
      if [b0, b1, b2, b3] ≠ [0x2E, 0x4E, 0x49, 0x52] then
        Except.error (Failure.exception ⟨d.position + 4, "invalid file format"⟩)
      else
        match (d.advanced 4).i32 with
        | (Except.error e, _) => Except.error (Failure.exception e)
        | (Except.ok major, d2) =>
          match d2.i32 with
          | (Except.error e, _) => Except.error (Failure.exception e)
          | (Except.ok minor, d3) => Except.ok (⟨major, minor, true⟩, d3) := by
  unfold Header.decode
  rw [Decoder.i32_big d b0 b1 b2 b3 tail h hbo]
  by_cases hm : [b0, b1, b2, b3] = [0x2E, 0x4E, 0x49, 0x52]
  · have := (be_i32_eq_file_identifier b0 b1 b2 b3).mpr hm
    simp only [this, ne_eq, not_true_eq_false, if_false, hm]
  · have hne : be_i32 b0 b1 b2 b3 ≠ file_identifier :=
      fun hc => hm ((be_i32_eq_file_identifier b0 b1 b2 b3).mp hc)
    have hne2 : (Except.ok (be_i32 b0 b1 b2 b3) : Result Int) ≠ Except.ok file_identifier :=
      fun hc => hne (by injection hc)
    simp only [ne_eq, hne2, not_false_eq_true, if_true, hm, Decoder.current_position,
      Decoder.advanced]

theorem Decoder.rest_cases (d : Decoder) :
    d.rest.length < 4 ∨ ∃ b0 b1 b2 b3 tail, d.rest = b0 :: b1 :: b2 :: b3 :: tail := by
  rcases hr : d.rest with _ | ⟨b0, _ | ⟨b1, _ | ⟨b2, _ | ⟨b3, tail⟩⟩⟩⟩
  · left; simp
  · left; simp
  · left; simp
  · left; simp
  · right; exact ⟨b0, b1, b2, b3, tail, rfl⟩

/-- The two versions of the header, read after the file identifier. -/
theorem Header.decode_versions (d : Decoder) (hbo : d.byte_order = Endian.big) :
    (d.rest.length < 8 ∧ ∃ e,
      (match d.i32 with
        | (Except.error e, _) => Except.error (Failure.exception e)
        | (Except.ok major, d2) =>
          match d2.i32 with
          | (Except.error e, _) => Except.error (Failure.exception e)
          | (Except.ok minor, d3) => Except.ok ((⟨major, minor, true⟩ : Header), d3)) =
        Except.error e) ∨
    (∃ b4 b5 b6 b7 b8 b9 b10 b11 tail,
      d.rest = b4 :: b5 :: b6 :: b7 :: b8 :: b9 :: b10 :: b11 :: tail ∧
      (match d.i32 with
        | (Except.error e, _) => Except.error (Failure.exception e)
        | (Except.ok major, d2) =>
          match d2.i32 with
          | (Except.error e, _) => Except.error (Failure.exception e)
          | (Except.ok minor, d3) => Except.ok ((⟨major, minor, true⟩ : Header), d3)) =
        Except.ok (⟨be_i32 b4 b5 b6 b7, be_i32 b8 b9 b10 b11, true⟩, d.advanced 8)) := by
  rcases Decoder.rest_cases d with hshort | ⟨b4, b5, b6, b7, tail, hr⟩
  · left
    refine ⟨by omega, ?_⟩
    rw [Decoder.i32_short d hshort]
    exact ⟨_, rfl⟩
  · rw [Decoder.i32_big d b4 b5 b6 b7 tail hr hbo]
    have hr2 : (d.advanced 4).rest = tail := by
      rw [Decoder.rest_advanced, hr]; rfl
    rcases Decoder.rest_cases (d.advanced 4) with hshort | ⟨b8, b9, b10, b11, tail2, hr3⟩
    · left
      refine ⟨by rw [hr]; rw [hr2] at hshort; simp; omega, ?_⟩
      simp only [Decoder.i32_short (d.advanced 4) hshort]
      exact ⟨_, rfl⟩
    · right
      refine ⟨b4, b5, b6, b7, b8, b9, b10, b11, tail2, ?_, ?_⟩
      · rw [hr, ← hr2, hr3]
      · simp only [Decoder.i32_big (d.advanced 4) b8 b9 b10 b11 tail2 hr3 hbo,
          Decoder.advanced_advanced]

/-- The outcome of `Header::decode` on a cursor at offset 0. -/
theorem Header.decode_at_start (contents : List UInt8) :
    ((∃ r, Header.decode ⟨contents, 0, Endian.big⟩ = Except.ok r) ↔
      (12 ≤ contents.length ∧ contents.take 4 = [0x2E, 0x4E, 0x49, 0x52])) ∧
    (∀ (b4 b5 b6 b7 b8 b9 b10 b11 : UInt8) (tail : List UInt8),
      contents = 0x2E :: 0x4E :: 0x49 :: 0x52 :: b4 :: b5 :: b6 :: b7 :: b8 :: b9 :: b10 ::
        b11 :: tail →
      Header.decode ⟨contents, 0, Endian.big⟩ =
        Except.ok (⟨be_i32 b4 b5 b6 b7, be_i32 b8 b9 b10 b11, true⟩,
          ⟨contents, 12, Endian.big⟩)) ∧
    (∀ (b0 b1 b2 b3 : UInt8) (tail : List UInt8), contents = b0 :: b1 :: b2 :: b3 :: tail →
      [b0, b1, b2, b3] ≠ [0x2E, 0x4E, 0x49, 0x52] →
      Header.decode ⟨contents, 0, Endian.big⟩ =
        Except.error (Failure.exception ⟨4, "invalid file format"⟩)) := by
  have hrest : (⟨contents, 0, Endian.big⟩ : Decoder).rest = contents := rfl
  have key : ∀ (b0 b1 b2 b3 : UInt8) (tail : List UInt8), contents = b0 :: b1 :: b2 :: b3 :: tail →
      Header.decode ⟨contents, 0, Endian.big⟩ =
        if [b0, b1, b2, b3] ≠ [0x2E, 0x4E, 0x49, 0x52] then
          Except.error (Failure.exception ⟨4, "invalid file format"⟩)
        else
          match (Decoder.advanced ⟨contents, 0, Endian.big⟩ 4).i32 with
          | (Except.error e, _) => Except.error (Failure.exception e)
          | (Except.ok major, d2) =>
            match d2.i32 with
            | (Except.error e, _) => Except.error (Failure.exception e)
            | (Except.ok minor, d3) => Except.ok (⟨major, minor, true⟩, d3) := by
    intro b0 b1 b2 b3 tail hc
    have := Header.decode_cons ⟨contents, 0, Endian.big⟩ b0 b1 b2 b3 tail (by rw [hrest, hc]) rfl
    simpa using this
  refine ⟨⟨?_, ?_⟩, ?_, ?_⟩
  · rintro ⟨r, hr⟩
    rcases Decoder.rest_cases ⟨contents, 0, Endian.big⟩ with hshort | ⟨b0, b1, b2, b3, tail, hc⟩
    · rw [Header.decode_short _ hshort] at hr
      cases hr
    · rw [hrest] at hc
      rw [key b0 b1 b2 b3 tail hc] at hr
      by_cases hm : [b0, b1, b2, b3] = [0x2E, 0x4E, 0x49, 0x52]
      · rw [if_neg (by simpa using hm)] at hr
        have hr4 : (Decoder.advanced ⟨contents, 0, Endian.big⟩ 4).rest = tail := by
          rw [Decoder.rest_advanced, hrest, hc]; rfl
        rcases Header.decode_versions (Decoder.advanced ⟨contents, 0, Endian.big⟩ 4) rfl with
          ⟨_, e, he⟩ | ⟨b4, b5, b6, b7, b8, b9, b10, b11, tail2, ht, _⟩
        · rw [he] at hr
          cases hr
        · rw [hr4] at ht
          subst hc
          subst ht
          refine ⟨by simp, ?_⟩
          simpa using hm
      · rw [if_pos hm] at hr
        cases hr
  · rintro ⟨hlen, hmagic⟩
    rcases Decoder.rest_cases ⟨contents, 0, Endian.big⟩ with hshort | ⟨b0, b1, b2, b3, tail, hc⟩
    · rw [hrest] at hshort
      omega
    · rw [hrest] at hc
      rw [key b0 b1 b2 b3 tail hc]
      have hm : [b0, b1, b2, b3] = [0x2E, 0x4E, 0x49, 0x52] := by
        rw [hc] at hmagic
        simpa using hmagic
      rw [if_neg (by simpa using hm)]
      have hr4 : (Decoder.advanced ⟨contents, 0, Endian.big⟩ 4).rest = tail := by
        rw [Decoder.rest_advanced, hrest, hc]; rfl
      rcases Header.decode_versions (Decoder.advanced ⟨contents, 0, Endian.big⟩ 4) rfl with
        ⟨hs, _⟩ | ⟨b4, b5, b6, b7, b8, b9, b10, b11, tail2, _, hok⟩
      · rw [hr4] at hs
        rw [hc] at hlen
        simp at hlen
        omega
      · exact ⟨_, hok⟩
  · intro b4 b5 b6 b7 b8 b9 b10 b11 tail hc
    rw [key _ _ _ _ _ hc, if_neg (by simp)]
    rcases Header.decode_versions (Decoder.advanced ⟨contents, 0, Endian.big⟩ 4) rfl with
      ⟨hs, _⟩ | ⟨c4, c5, c6, c7, c8, c9, c10, c11, tail2, ht, hok⟩
    · rw [Decoder.rest_advanced, hrest, hc] at hs
      simp at hs
      omega
    · rw [Decoder.rest_advanced, hrest, hc] at ht
      simp only [List.drop_succ_cons, List.drop_zero, List.cons.injEq] at ht
      obtain ⟨rfl, rfl, rfl, rfl, rfl, rfl, rfl, rfl, rfl⟩ := ht
      rw [hok]
      rfl
  · intro b0 b1 b2 b3 tail hc hm
    rw [key b0 b1 b2 b3 tail hc, if_pos hm]

/-- C9: `Header::decode`, run with big-endian byte order on a cursor at offset 0, succeeds
if and only if the source holds at least 12 bytes and its first four bytes are
`2E 4E 49 52`; on success the major and minor versions are the big-endian signed 32-bit
values of bytes 4..7 and 8..11, `has_entry_points` is true and the cursor is at offset 12;
any other first four bytes end the decoding with the error "invalid file format". -/
theorem header_decode (contents : List UInt8) :
    ((∃ r, Header.decode ⟨contents, 0, Endian.big⟩ = Except.ok r) ↔
      (12 ≤ contents.length ∧ contents.take 4 = [0x2E, 0x4E, 0x49, 0x52])) ∧
    (∀ (b4 b5 b6 b7 b8 b9 b10 b11 : UInt8) (tail : List UInt8),
      contents = 0x2E :: 0x4E :: 0x49 :: 0x52 :: b4 :: b5 :: b6 :: b7 :: b8 :: b9 :: b10 ::
        b11 :: tail →
      Header.decode ⟨contents, 0, Endian.big⟩ =
        Except.ok (⟨be_i32 b4 b5 b6 b7, be_i32 b8 b9 b10 b11, true⟩,
          ⟨contents, 12, Endian.big⟩)) ∧
    (∀ (b0 b1 b2 b3 : UInt8) (tail : List UInt8), contents = b0 :: b1 :: b2 :: b3 :: tail →
      [b0, b1, b2, b3] ≠ [0x2E, 0x4E, 0x49, 0x52] →
      Header.decode ⟨contents, 0, Endian.big⟩ =
        Except.error (Failure.exception ⟨4, "invalid file format"⟩)) :=
  Header.decode_at_start contents

/-- C9 on the twelve bytes `2E 4E 49 52 00 00 00 01 FF FF FF FE`: version 1, revision -2. -/
theorem header_decode_witness :
    Header.decode
        ⟨[0x2E, 0x4E, 0x49, 0x52, 0x00, 0x00, 0x00, 0x01, 0xFF, 0xFF, 0xFF, 0xFE], 0,
          Endian.big⟩ =
      Except.ok (⟨be_i32 0x00 0x00 0x00 0x01, be_i32 0xFF 0xFF 0xFF 0xFE, true⟩,
        ⟨[0x2E, 0x4E, 0x49, 0x52, 0x00, 0x00, 0x00, 0x01, 0xFF, 0xFF, 0xFF, 0xFE], 12,
          Endian.big⟩) ∧
    be_i32 0x00 0x00 0x00 0x01 = 1 ∧ be_i32 0xFF 0xFF 0xFF 0xFE = -2 ∧
    Header.decode ⟨[0x2E, 0x4E, 0x49, 0x53, 0x00], 0, Endian.big⟩ =
      Except.error (Failure.exception ⟨4, "invalid file format"⟩) :=
  ⟨(header_decode _).2.1 0x00 0x00 0x00 0x01 0xFF 0xFF 0xFF 0xFE [] rfl, by decide, by decide,
   (header_decode _).2.2 0x2E 0x4E 0x49 0x53 [0x00] rfl (by decide)⟩

/-! ## Replaying a run of the deserializer

The decoders read the source left to right and consult the memos only at indices that
exist, so the result of a successful run depends only on the bytes it consumed and on the
memo entries present when it started. `Sim` states this for a pair of computations; the
lemmas below establish it for the primitives and carry it through sequencing. -/

namespace Deserializer

theorem extend_zero_empty (ds : Deserializer) : ds.extend 0 Entries.empty = ds := by
  cases ds
  simp [extend, Entries.empty, Decoder.advanced_zero]

theorem extend_extend (ds : Deserializer) (n1 n2 : Nat) (E1 E2 : Entries) :
    (ds.extend n1 E1).extend n2 E2 = ds.extend (n1 + n2) (E1.append E2) := by
  simp [extend, Entries.append, Decoder.advanced_advanced, List.append_assoc]

theorem rest_extend (ds : Deserializer) (n : Nat) (E : Entries) :
    (ds.extend n E).rest = ds.rest.drop n :=
  Decoder.rest_advanced ds.source n

theorem memos_le_refl (a : Deserializer) : a.memos_le a :=
  ⟨List.prefix_refl _, List.prefix_refl _, List.prefix_refl _, List.prefix_refl _⟩

theorem memos_le_trans {a b c : Deserializer} (h1 : a.memos_le b) (h2 : b.memos_le c) :
    a.memos_le c :=
  ⟨h1.1.trans h2.1, h1.2.1.trans h2.2.1, h1.2.2.1.trans h2.2.2.1, h1.2.2.2.trans h2.2.2.2⟩

theorem memos_le_extend (ds : Deserializer) (n : Nat) (E : Entries) :
    ds.memos_le (ds.extend n E) :=
  ⟨List.prefix_append _ _, List.prefix_append _ _, List.prefix_append _ _,
    List.prefix_append _ _⟩

theorem compatible_extend {F ds ds2 : Deserializer} (n : Nat) (E : Entries)
    (h : Compatible F ds ds2) : Compatible F (ds.extend n E) (ds2.extend n E) := by
  rcases h with ⟨h1, h2, h3, h4⟩ | h
  · left
    exact ⟨by simp [extend, h1], by simp [extend, h2], by simp [extend, h3],
      by simp [extend, h4]⟩
  · right
    exact memos_le_trans h (memos_le_extend ds2 n E)

end Deserializer

theorem Sim.mono {α : Type} {k k1 : Nat} {m1 m2 : M α} (h : Sim k m1 m2) (hk : k1 ≤ k) :
    Sim k1 m1 m2 := by
  intro ds r ds1 hrun
  obtain ⟨C, E, hC, hds1, hsim⟩ := h ds r ds1 hrun
  refine ⟨C, E, hC, hds1, fun F ds2 hF hcomp hbo => ?_⟩
  obtain ⟨hfull, htrunc⟩ := hsim F ds2 hF hcomp hbo
  exact ⟨fun hlen => hfull (lt_of_lt_of_le hlen hk),
    fun C1 hlen => htrunc C1 (lt_of_lt_of_le hlen hk)⟩

/-- With the bound 0 nothing is asked of the second computation. -/
theorem Sim.zero_any {α : Type} {m1 m2 : M α} (m3 : M α) (h : Sim 0 m1 m2) : Sim 0 m1 m3 := by
  intro ds r ds1 hrun
  obtain ⟨C, E, hC, hds1, _⟩ := h ds r ds1 hrun
  exact ⟨C, E, hC, hds1, fun F ds2 _ _ _ =>
    ⟨fun hlen => absurd hlen (Nat.not_lt_zero _), fun C1 hlen => absurd hlen (Nat.not_lt_zero _)⟩⟩

theorem Sim.pure {α : Type} (k : Nat) (a : α) : Sim k (pure a : M α) (pure a) := by
  intro ds r ds1 hrun
  simp only [M.pure_apply, Except.ok.injEq, Prod.mk.injEq] at hrun
  obtain ⟨rfl, rfl⟩ := hrun
  refine ⟨[], Entries.empty, List.nil_prefix, (Deserializer.extend_zero_empty ds).symm,
    fun F ds2 _ _ _ => ⟨fun _ post _ => ?_, fun C1 _ hpre hne _ => ?_⟩⟩
  · simp [Deserializer.extend_zero_empty]
  · exact absurd (List.prefix_nil.mp hpre) hne

theorem Sim.fail {α : Type} (k : Nat) (e : Failure) (m2 : M α) : Sim k (M.fail e) m2 := by
  intro ds r ds1 hrun
  cases hrun

theorem Sim.ite {α : Type} {k : Nat} {c : Prop} [Decidable c] {a1 a2 b1 b2 : M α}
    (ha : c → Sim k a1 a2) (hb : ¬ c → Sim k b1 b2) :
    Sim k (if c then a1 else b1) (if c then a2 else b2) := by
  by_cases hc : c
  · simpa [hc] using ha hc
  · simpa [hc] using hb hc

theorem Sim.ite_of_both {α : Type} {k : Nat} {c : Prop} [Decidable c] {a1 a2 b1 b2 : M α}
    (ha : Sim k a1 a2) (hb : Sim k b1 b2) :
    Sim k (if c then a1 else b1) (if c then a2 else b2) :=
  Sim.ite (fun _ => ha) (fun _ => hb)

theorem prefix_append_cases (Ca : List UInt8) : ∀ (C1 Cb : List UInt8), C1 <+: Ca ++ Cb →
    C1 ≠ Ca ++ Cb →
    (C1 <+: Ca ∧ C1 ≠ Ca) ∨ ∃ C1b, C1 = Ca ++ C1b ∧ C1b <+: Cb ∧ C1b ≠ Cb := by
  induction Ca with
  | nil =>
    intro C1 Cb hpre hne
    right
    exact ⟨C1, rfl, by simpa using hpre, by simpa using hne⟩
  | cons x Ca ih =>
    intro C1 Cb hpre hne
    cases C1 with
    | nil => left; exact ⟨List.nil_prefix, by simp⟩
    | cons y C1 =>
      rw [List.cons_append, List.cons_prefix_cons] at hpre
      obtain ⟨rfl, hpre⟩ := hpre
      have hne1 : C1 ≠ Ca ++ Cb := fun hc => hne (by rw [hc]; rfl)
      rcases ih C1 Cb hpre hne1 with ⟨h1, h2⟩ | ⟨C1b, h1, h2, h3⟩
      · left
        exact ⟨by rw [List.cons_prefix_cons]; exact ⟨rfl, h1⟩, fun hc => h2 (by injection hc)⟩
      · right
        exact ⟨C1b, by rw [h1]; rfl, h2, h3⟩

/-- The position of a state reached by a run. -/
theorem Deserializer.position_extend (ds : Deserializer) (n : Nat) (E : Entries) :
    (ds.extend n E).source.position = ds.source.position + n := rfl

/-- Sequencing: when the first computation consumes at least `j` bytes, the second one
replays with the bound lowered by `j`. -/
theorem Sim.bind_of_consumed {α β : Type} {k : Nat} (j : Nat) {m1 m2 : M α}
    {f1 f2 : α → M β}
    (hm : Sim k m1 m2)
    (hj : ∀ ds a ds1, m1 ds = Except.ok (a, ds1) →
      ds.source.position + j ≤ ds1.source.position)
    (hf : ∀ a, Sim (k - j) (f1 a) (f2 a)) :
    Sim k (m1 >>= f1) (m2 >>= f2) := by
  intro ds r ds1 hrun
  rw [M.bind_apply] at hrun
  cases hma : m1 ds with
  | error e => rw [hma] at hrun; cases hrun
  | ok p =>
    obtain ⟨a, dsa⟩ := p
    rw [hma] at hrun
    simp only at hrun
    obtain ⟨Ca, Ea, hCa, hdsa, hsima⟩ := hm ds a dsa hma
    have hjle : j ≤ Ca.length := by
      have := hj ds a dsa hma
      rw [hdsa, Deserializer.position_extend] at this
      omega
    obtain ⟨Cb, Eb, hCb, hds1, hsimb⟩ := hf a dsa r ds1 hrun
    subst hdsa
    subst hds1
    rw [Deserializer.rest_extend] at hCb
    obtain ⟨ta, hta⟩ := hCa
    have hdrop : ds.rest.drop Ca.length = ta := by rw [← hta]; simp
    rw [hdrop] at hCb
    obtain ⟨tb, htb⟩ := hCb
    refine ⟨Ca ++ Cb, Ea.append Eb, ⟨tb, by rw [← hta, ← htb]; simp⟩, ?_, ?_⟩
    · rw [Deserializer.extend_extend, List.length_append]
    intro F ds2 hF hcomp hbo
    have hFa : (ds.extend Ca.length Ea).memos_le F :=
      Deserializer.memos_le_trans (Deserializer.memos_le_extend _ _ _) hF
    obtain ⟨hfulla, htrunca⟩ := hsima F ds2 hFa hcomp hbo
    have hcompb := Deserializer.compatible_extend Ca.length Ea hcomp
    have hbob : (ds2.extend Ca.length Ea).source.byte_order =
        (ds.extend Ca.length Ea).source.byte_order := hbo
    obtain ⟨hfullb, htruncb⟩ := hsimb F (ds2.extend Ca.length Ea) hF hcompb hbob
    constructor
    · intro hlen post hrest
      rw [List.length_append] at hlen
      have h2a := hfulla (by omega) (Cb ++ post) (by rw [hrest, List.append_assoc])
      rw [M.bind_ok _ _ _ _ _ h2a]
      have hrestb : (ds2.extend Ca.length Ea).rest = Cb ++ post := by
        rw [Deserializer.rest_extend, hrest, List.append_assoc]; simp
      rw [hfullb (by omega) post hrestb, Deserializer.extend_extend, List.length_append]
    · intro C1 hlen hpre hne hrest
      rcases prefix_append_cases Ca C1 Cb hpre hne with ⟨h1, h2⟩ | ⟨C1b, h1, h2, h3⟩
      · obtain ⟨e, he, hfatal⟩ := htrunca C1 hlen h1 h2 hrest
        exact ⟨e, M.bind_error _ _ _ _ he, hfatal⟩
      · subst h1
        rw [List.length_append] at hlen
        have h2a := hfulla (by omega) C1b hrest
        rw [M.bind_ok _ _ _ _ _ h2a]
        have hrestb : (ds2.extend Ca.length Ea).rest = C1b := by
          rw [Deserializer.rest_extend, hrest]; simp
        exact htruncb C1b (by omega) h2 h3 hrestb

/-- Sequencing with the same bound. -/
theorem Sim.bind {α β : Type} {k : Nat} {m1 m2 : M α} {f1 f2 : α → M β}
    (hm : Sim k m1 m2) (hf : ∀ a, Sim k (f1 a) (f2 a)) : Sim k (m1 >>= f1) (m2 >>= f2) := by
  refine Sim.bind_of_consumed 0 hm (fun ds a ds1 hrun => ?_) (fun a => by simpa using hf a)
  obtain ⟨C, E, _, hds1, _⟩ := hm ds a ds1 hrun
  rw [hds1, Deserializer.position_extend]
  omega

/-! ### Reads of the byte source -/

theorem Deserializer.extend_empty_source (ds : Deserializer) (n : Nat) :
    ds.extend n Entries.empty = { ds with source := ds.source.advanced n } := by
  cases ds
  simp [Deserializer.extend, Entries.empty]

/-- A framed read of the byte source, lifted with `get`, replays. -/
theorem Sim.of_get {α : Type} (k : Nat) {read : Decoder → Result α × Decoder}
    (h : Framed read) : Sim k (Deserializer.get read) (Deserializer.get read) := by
  intro ds r ds1 hrun
  unfold Deserializer.get at hrun
  cases hread : read ds.source with
  | mk res d1 =>
    rw [hread] at hrun
    cases res with
    | error e => cases hrun
    | ok a =>
      simp only [Except.ok.injEq, Prod.mk.injEq] at hrun
      obtain ⟨rfl, rfl⟩ := hrun
      obtain ⟨C, hC, hd1, hrep⟩ := h ds.source a d1 hread
      refine ⟨C, Entries.empty, hC, by rw [Deserializer.extend_empty_source, hd1],
        fun F ds2 _ _ hbo => ?_⟩
      obtain ⟨hfull, htrunc⟩ := hrep ds2.source hbo
      constructor
      · intro _ post hrest
        unfold Deserializer.get
        rw [hfull post hrest, Deserializer.extend_empty_source]
      · intro C1 _ hpre hne hrest
        obtain ⟨e, he⟩ := htrunc C1 hpre hne hrest
        refine ⟨Failure.exception e, ?_, rfl⟩
        unfold Deserializer.get
        cases hr2 : read ds2.source with
        | mk res2 d2 =>
          rw [hr2] at he
          simp only at he
          subst he
          rfl

namespace Decoder

theorem numeric_ok (width : Nat) (d : Decoder) (hw : 0 < width) (h : width ≤ d.rest.length) :
    numeric width d =
      (Except.ok (reassemble Endian.native
        (if d.byte_order ≠ Endian.native then (d.rest.take width).reverse
          else d.rest.take width)),
        d.advanced width) := by
  rw [rest_length] at h
  unfold numeric numeric_on
  rw [if_neg (by omega)]
  rfl

theorem numeric_error (width : Nat) (d : Decoder) (h : d.rest.length < width) :
    numeric width d = (Except.error ⟨d.position, "not enough bytes"⟩, d) := by
  rw [rest_length] at h
  unfold numeric numeric_on
  rw [if_pos (by omega)]

theorem prefix_length_lt {C1 C : List UInt8} (hpre : C1 <+: C) (hne : C1 ≠ C) :
    C1.length < C.length := by
  rcases Nat.lt_or_ge C1.length C.length with h | h
  · exact h
  · exact absurd (hpre.eq_of_length (Nat.le_antisymm hpre.length_le h)) hne

/-- A fixed-width read is framed. -/
theorem framed_numeric (width : Nat) (hw : 0 < width) : Framed (numeric width) := by
  intro d a d1 hread
  by_cases hlen : width ≤ d.rest.length
  · rw [numeric_ok width d hw hlen] at hread
    simp only [Prod.mk.injEq, Except.ok.injEq] at hread
    obtain ⟨rfl, rfl⟩ := hread
    have hCl : (d.rest.take width).length = width := by
      rw [List.length_take]; omega
    refine ⟨d.rest.take width, List.take_prefix _ _, by rw [hCl], fun d2 hbo => ⟨?_, ?_⟩⟩
    · intro post hrest
      have h2 : width ≤ d2.rest.length := by
        rw [hrest, List.length_append]; omega
      rw [numeric_ok width d2 hw h2, hCl, hbo]
      have : d2.rest.take width = d.rest.take width := by
        rw [hrest, List.take_append_of_le_length (by omega), List.take_take]
        simp
      rw [this]
    · intro C1 hpre hne hrest
      have hlt := prefix_length_lt hpre hne
      rw [hCl] at hlt
      rw [numeric_error width d2 (by rw [hrest]; exact hlt)]
      exact ⟨_, rfl⟩
  · rw [numeric_error width d (by omega)] at hread
    cases hread

/-- Mapping the value of a framed read keeps it framed. -/
theorem framed_map {α β : Type} {read : Decoder → Result α × Decoder} (g : α → β)
    (h : Framed read) : Framed (fun d => ((read d).1.map g, (read d).2)) := by
  intro d b d1 hread
  dsimp only at hread ⊢
  cases hr : read d with
  | mk res dd =>
    rw [hr] at hread
    cases res with
    | error e => simp [Except.map] at hread
    | ok a =>
      simp only [Except.map, Prod.mk.injEq, Except.ok.injEq] at hread
      obtain ⟨rfl, rfl⟩ := hread
      obtain ⟨C, hC, hd1, hrep⟩ := h d a dd hr
      refine ⟨C, hC, hd1, fun d2 hbo => ⟨fun post hrest => ?_, fun C1 hpre hne hrest => ?_⟩⟩
      · simp only [(hrep d2 hbo).1 post hrest, Except.map]
      · obtain ⟨e, he⟩ := (hrep d2 hbo).2 C1 hpre hne hrest
        exact ⟨e, by simp only [he, Except.map]⟩

theorem framed_u8 : Framed u8 := framed_numeric 1 (by norm_num)

theorem framed_i8 : Framed i8 := framed_map (to_signed 8) (framed_numeric 1 (by norm_num))

theorem framed_f32 : Framed f32 := framed_numeric 4 (by norm_num)

theorem framed_f64 : Framed f64 := framed_numeric 8 (by norm_num)

end Decoder

namespace Decoder

theorem rest_cons_of_drop (d : Decoder) (b : UInt8) (tail : List UInt8)
    (h : d.rest = b :: tail) : (d.advanced 1).rest = tail := by
  rw [rest_advanced, h]; rfl

theorem unsigned_leb128_loop_end (fuel : Nat) (d : Decoder) (value : Int) (shift : Nat)
    (h : d.rest = []) : ∃ e, (unsigned_leb128_loop fuel d value shift).1 = Except.error e := by
  cases fuel with
  | zero => exact ⟨_, rfl⟩
  | succ f =>
    have hlen : d.source.length ≤ d.position := by
      simpa [rest, List.drop_eq_nil_iff] using h
    rw [unsigned_leb128_loop, u8_of_end d hlen]
    exact ⟨_, rfl⟩

/-- The loop of `unsigned_leb128` is determined by the bytes it consumes. -/
theorem unsigned_leb128_loop_framed (fuel : Nat) :
    ∀ (d : Decoder) (value : Int) (shift : Nat) (a : Nat) (d1 : Decoder),
      unsigned_leb128_loop fuel d value shift = (Except.ok a, d1) →
      ∃ C, C <+: d.rest ∧ d1 = d.advanced C.length ∧
        ∀ (d2 : Decoder) (fuel2 : Nat),
          (C.length ≤ fuel2 → ∀ post, d2.rest = C ++ post →
            unsigned_leb128_loop fuel2 d2 value shift = (Except.ok a, d2.advanced C.length)) ∧
          (∀ C1, C1 <+: C → C1 ≠ C → d2.rest = C1 →
            ∃ e, (unsigned_leb128_loop fuel2 d2 value shift).1 = Except.error e) := by
  induction fuel with
  | zero =>
    intro d value shift a d1 h
    simp [unsigned_leb128_loop, fail] at h
  | succ f ih =>
    intro d value shift a d1 h
    cases hr : d.rest with
    | nil =>
      obtain ⟨e, he⟩ := unsigned_leb128_loop_end (f + 1) d value shift hr
      rw [h] at he
      cases he
    | cons b tail =>
      rw [unsigned_leb128_loop_step f d b tail value shift hr] at h
      split at h
      · cases h
      · rename_i hover
        split at h
        · rename_i hlt
          simp only [Prod.mk.injEq, Except.ok.injEq] at h
          obtain ⟨rfl, rfl⟩ := h
          refine ⟨[b], ⟨tail, rfl⟩, rfl, fun d2 fuel2 => ⟨?_, ?_⟩⟩
          · intro hfuel post hrest
            obtain ⟨f2, rfl⟩ : ∃ f2, fuel2 = f2 + 1 := ⟨fuel2 - 1, by simp at hfuel; omega⟩
            rw [unsigned_leb128_loop_step f2 d2 b post value shift hrest, if_neg hover,
              if_pos hlt]
            rfl
          · intro C1 hpre hne hrest
            have : C1 = [] := by
              have := prefix_length_lt hpre hne
              simp at this
              exact this
            subst this
            exact unsigned_leb128_loop_end fuel2 d2 value shift hrest
        · rename_i hge
          obtain ⟨C, hC, hd1, hrep⟩ := ih _ _ _ a d1 h
          rw [rest_cons_of_drop d b tail hr] at hC
          refine ⟨b :: C, List.cons_prefix_cons.mpr ⟨rfl, hC⟩,
            by rw [hd1, advanced_advanced, List.length_cons, Nat.add_comm],
            fun d2 fuel2 => ⟨?_, ?_⟩⟩
          · intro hfuel post hrest
            obtain ⟨f2, rfl⟩ : ∃ f2, fuel2 = f2 + 1 := ⟨fuel2 - 1, by simp at hfuel; omega⟩
            rw [unsigned_leb128_loop_step f2 d2 b (C ++ post) value shift hrest, if_neg hover,
              if_neg hge]
            rw [(hrep (d2.advanced 1) f2).1 (by simpa using hfuel) post
              (rest_cons_of_drop d2 b _ hrest)]
            rw [advanced_advanced, List.length_cons, Nat.add_comm]
          · intro C1 hpre hne hrest
            cases C1 with
            | nil => exact unsigned_leb128_loop_end fuel2 d2 value shift hrest
            | cons c C1 =>
              rw [List.cons_prefix_cons] at hpre
              obtain ⟨rfl, hpre⟩ := hpre
              cases fuel2 with
              | zero => exact ⟨_, rfl⟩
              | succ f2 =>
                rw [unsigned_leb128_loop_step f2 d2 c C1 value shift hrest, if_neg hover,
                  if_neg hge]
                exact (hrep (d2.advanced 1) f2).2 C1 hpre (fun hc => hne (by rw [hc]))
                  (rest_cons_of_drop d2 c _ hrest)

theorem framed_unsigned_leb128 : Framed unsigned_leb128 := by
  intro d a d1 hread
  obtain ⟨C, hC, hd1, hrep⟩ := unsigned_leb128_loop_framed _ d 0 0 a d1 hread
  refine ⟨C, hC, hd1, fun d2 _ => ⟨fun post hrest => ?_, fun C1 hpre hne hrest => ?_⟩⟩
  · refine (hrep d2 _).1 ?_ post hrest
    have := rest_length d2
    rw [hrest, List.length_append] at this
    omega
  · exact (hrep d2 _).2 C1 hpre hne hrest

end Decoder

namespace Decoder

theorem signed_leb128_loop_step (fuel : Nat) (d : Decoder) (b : UInt8) (tail : List UInt8)
    (value : Int) (shift : Nat) (h : d.rest = b :: tail) :
    signed_leb128_loop (fuel + 1) d value shift =
      if signed_overflow value shift b.toNat = true then
        ((d.advanced 1).fail "signed LEB128 too big for a 64-bit signed integer", d.advanced 1)
      else if signed_last b.toNat = true then
        if signed_extends shift b.toNat = true then
          (Except.ok (or64 (or64 value (shl64 ((b.toNat &&& 0x7f : Nat) : Int) shift))
            (wrap32 (-(int_one_shl (shift + 7))))), d.advanced 1)
        else
          (Except.ok (or64 value (shl64 ((b.toNat &&& 0x7f : Nat) : Int) shift)), d.advanced 1)
      else
        signed_leb128_loop fuel (d.advanced 1)
          (or64 value (shl64 ((b.toNat &&& 0x7f : Nat) : Int) shift)) (shift + 7) := by
  rw [signed_leb128_loop, u8_of_drop d b tail h]
  rfl

theorem signed_leb128_loop_end (fuel : Nat) (d : Decoder) (value : Int) (shift : Nat)
    (h : d.rest = []) : ∃ e, (signed_leb128_loop fuel d value shift).1 = Except.error e := by
  cases fuel with
  | zero => exact ⟨_, rfl⟩
  | succ f =>
    have hlen : d.source.length ≤ d.position := by
      simpa [rest, List.drop_eq_nil_iff] using h
    rw [signed_leb128_loop, u8_of_end d hlen]
    exact ⟨_, rfl⟩

/-- The loop of `signed_leb128` is determined by the bytes it consumes. -/
theorem signed_leb128_loop_framed (fuel : Nat) :
    ∀ (d : Decoder) (value : Int) (shift : Nat) (a : Int) (d1 : Decoder),
      signed_leb128_loop fuel d value shift = (Except.ok a, d1) →
      ∃ C, C <+: d.rest ∧ d1 = d.advanced C.length ∧
        ∀ (d2 : Decoder) (fuel2 : Nat),
          (C.length ≤ fuel2 → ∀ post, d2.rest = C ++ post →
            signed_leb128_loop fuel2 d2 value shift = (Except.ok a, d2.advanced C.length)) ∧
          (∀ C1, C1 <+: C → C1 ≠ C → d2.rest = C1 →
            ∃ e, (signed_leb128_loop fuel2 d2 value shift).1 = Except.error e) := by
  induction fuel with
  | zero =>
    intro d value shift a d1 h
    simp [signed_leb128_loop, fail] at h
  | succ f ih =>
    intro d value shift a d1 h
    cases hr : d.rest with
    | nil =>
      obtain ⟨e, he⟩ := signed_leb128_loop_end (f + 1) d value shift hr
      rw [h] at he
      cases he
    | cons b tail =>
      rw [signed_leb128_loop_step f d b tail value shift hr] at h
      have single : ∀ (x : Int),
          signed_leb128_loop (f + 1) d value shift = (Except.ok x, d.advanced 1) →
          (∀ (g : Nat) (e : Decoder) (post : List UInt8), e.rest = b :: post →
            signed_leb128_loop (g + 1) e value shift = (Except.ok x, e.advanced 1)) →
          ∃ C, C <+: b :: tail ∧ d.advanced 1 = d.advanced C.length ∧
            ∀ (d2 : Decoder) (fuel2 : Nat),
              (C.length ≤ fuel2 → ∀ post, d2.rest = C ++ post →
                signed_leb128_loop fuel2 d2 value shift =
                  (Except.ok x, d2.advanced C.length)) ∧
              (∀ C1, C1 <+: C → C1 ≠ C → d2.rest = C1 →
                ∃ e, (signed_leb128_loop fuel2 d2 value shift).1 = Except.error e) := by
        intro x _ hsame
        refine ⟨[b], ⟨tail, rfl⟩, rfl, fun d2 fuel2 => ⟨?_, ?_⟩⟩
        · intro hfuel post hrest
          obtain ⟨f2, rfl⟩ : ∃ f2, fuel2 = f2 + 1 := ⟨fuel2 - 1, by simp at hfuel; omega⟩
          exact hsame f2 d2 post hrest
        · intro C1 hpre hne hrest
          have : C1 = [] := by
            have := prefix_length_lt hpre hne
            simp at this
            exact this
          subst this
          exact signed_leb128_loop_end fuel2 d2 value shift hrest
      by_cases hover : signed_overflow value shift b.toNat = true
      · rw [if_pos hover] at h
        simp [fail] at h
      · rw [if_neg hover] at h
        by_cases hlast : signed_last b.toNat = true
        · rw [if_pos hlast] at h
          by_cases hsign : signed_extends shift b.toNat = true
          · rw [if_pos hsign] at h
            simp only [Prod.mk.injEq, Except.ok.injEq] at h
            obtain ⟨rfl, rfl⟩ := h
            refine single _ ?_ ?_
            · rw [signed_leb128_loop_step f d b tail value shift hr, if_neg hover,
                if_pos hlast, if_pos hsign]
            · intro g e post he
              rw [signed_leb128_loop_step g e b post value shift he, if_neg hover,
                if_pos hlast, if_pos hsign]
          · rw [if_neg hsign] at h
            simp only [Prod.mk.injEq, Except.ok.injEq] at h
            obtain ⟨rfl, rfl⟩ := h
            refine single _ ?_ ?_
            · rw [signed_leb128_loop_step f d b tail value shift hr, if_neg hover,
                if_pos hlast, if_neg hsign]
            · intro g e post he
              rw [signed_leb128_loop_step g e b post value shift he, if_neg hover,
                if_pos hlast, if_neg hsign]
        · rw [if_neg hlast] at h
          obtain ⟨C, hC, hd1, hrep⟩ := ih _ _ _ a d1 h
          rw [rest_cons_of_drop d b tail hr] at hC
          refine ⟨b :: C, List.cons_prefix_cons.mpr ⟨rfl, hC⟩,
            by rw [hd1, advanced_advanced, List.length_cons, Nat.add_comm],
            fun d2 fuel2 => ⟨?_, ?_⟩⟩
          · intro hfuel post hrest
            obtain ⟨f2, rfl⟩ : ∃ f2, fuel2 = f2 + 1 := ⟨fuel2 - 1, by simp at hfuel; omega⟩
            rw [signed_leb128_loop_step f2 d2 b (C ++ post) value shift hrest, if_neg hover,
              if_neg hlast]
            rw [(hrep (d2.advanced 1) f2).1 (by simpa using hfuel) post
              (rest_cons_of_drop d2 b _ hrest)]
            rw [advanced_advanced, List.length_cons, Nat.add_comm]
          · intro C1 hpre hne hrest
            cases C1 with
            | nil => exact signed_leb128_loop_end fuel2 d2 value shift hrest
            | cons c C1 =>
              rw [List.cons_prefix_cons] at hpre
              obtain ⟨rfl, hpre⟩ := hpre
              cases fuel2 with
              | zero => exact ⟨_, rfl⟩
              | succ f2 =>
                rw [signed_leb128_loop_step f2 d2 c C1 value shift hrest, if_neg hover,
                  if_neg hlast]
                exact (hrep (d2.advanced 1) f2).2 C1 hpre (fun hc => hne (by rw [hc]))
                  (rest_cons_of_drop d2 c _ hrest)

theorem framed_signed_leb128 : Framed signed_leb128 := by
  intro d a d1 hread
  obtain ⟨C, hC, hd1, hrep⟩ := signed_leb128_loop_framed _ d 0 0 a d1 hread
  refine ⟨C, hC, hd1, fun d2 _ => ⟨fun post hrest => ?_, fun C1 hpre hne hrest => ?_⟩⟩
  · refine (hrep d2 _).1 ?_ post hrest
    have := rest_length d2
    rw [hrest, List.length_append] at this
    omega
  · exact (hrep d2 _).2 C1 hpre hne hrest

end Decoder

/-! ### Memos, checks and `internable` -/

theorem Memo.lawful_strings : Memo.strings.Lawful := by
  refine ⟨⟨fun v => ⟨[v], [], [], []⟩, fun v ds => ?_⟩, fun a b h => h.1, fun a b h => h.1⟩
  cases ds
  simp [Memo.strings, Deserializer.extend, Decoder.advanced_zero]

theorem Memo.lawful_symbols : Memo.symbols.Lawful := by
  refine ⟨⟨fun v => ⟨[], [v], [], []⟩, fun v ds => ?_⟩, fun a b h => h.2.1, fun a b h => h.2.1⟩
  cases ds
  simp [Memo.symbols, Deserializer.extend, Decoder.advanced_zero]

theorem Memo.lawful_types : Memo.types.Lawful := by
  refine ⟨⟨fun v => ⟨[], [], [v], []⟩, fun v ds => ?_⟩, fun a b h => h.2.2.1,
    fun a b h => h.2.2.1⟩
  cases ds
  simp [Memo.types, Deserializer.extend, Decoder.advanced_zero]

theorem Memo.lawful_values : Memo.values.Lawful := by
  refine ⟨⟨fun v => ⟨[], [], [], [v]⟩, fun v ds => ?_⟩, fun a b h => h.2.2.2,
    fun a b h => h.2.2.2⟩
  cases ds
  simp [Memo.values, Deserializer.extend, Decoder.advanced_zero]

/-- A lookup that succeeded in the first run finds the same element in a compatible
state. -/
theorem Memo.Lawful.get_compatible {α : Type} {memo : Memo α} (hl : memo.Lawful)
    {F ds ds2 : Deserializer} (hF : ds.memos_le F) (hcomp : Deserializer.Compatible F ds ds2)
    (i : Nat) (v : α) (h : (memo.get ds).get? i = some v) : (memo.get ds2).get? i = some v := by
  rcases hcomp with hsame | hle
  · rw [← hl.2.2 ds ds2 hsame]; exact h
  · obtain ⟨t, ht⟩ := hl.2.1 ds ds2 (Deserializer.memos_le_trans hF hle)
    rw [← ht]
    have hi : i < (memo.get ds).length := by
      rw [List.get?_eq_some] at h
      exact h.1
    rw [List.get?_eq_getElem?, List.getElem?_append_left hi, ← List.get?_eq_getElem?]
    exact h

theorem Sim.of_at_index {α : Type} (k : Nat) (memo : Memo α) (hl : memo.Lawful) (i : Nat) :
    Sim k (Deserializer.at_index memo i) (Deserializer.at_index memo i) := by
  intro ds r ds1 hrun
  unfold Deserializer.at_index at hrun
  cases hget : (memo.get ds).get? i with
  | none => rw [hget] at hrun; cases hrun
  | some v =>
    rw [hget] at hrun
    simp only [Except.ok.injEq, Prod.mk.injEq] at hrun
    obtain ⟨rfl, rfl⟩ := hrun
    refine ⟨[], Entries.empty, List.nil_prefix, (Deserializer.extend_zero_empty ds).symm,
      fun F ds2 hF hcomp _ => ⟨fun _ post _ => ?_, fun C1 _ hpre hne _ => ?_⟩⟩
    · unfold Deserializer.at_index
      rw [hl.get_compatible hF hcomp i v hget]
      simp [Deserializer.extend_zero_empty]
    · exact absurd (List.prefix_nil.mp hpre) hne

theorem Sim.of_push_back {α : Type} (k : Nat) (memo : Memo α) (hl : memo.Lawful) (v : α) :
    Sim k (Deserializer.push_back memo v) (Deserializer.push_back memo v) := by
  obtain ⟨⟨entry, hentry⟩, _, _⟩ := hl
  intro ds r ds1 hrun
  simp only [Deserializer.push_back, Except.ok.injEq, Prod.mk.injEq] at hrun
  obtain ⟨_, rfl⟩ := hrun
  refine ⟨[], entry v, List.nil_prefix, hentry v ds,
    fun F ds2 _ _ _ => ⟨fun _ post _ => ?_, fun C1 _ hpre hne _ => ?_⟩⟩
  · simp [Deserializer.push_back, hentry]
  · exact absurd (List.prefix_nil.mp hpre) hne

theorem Sim.of_precondition (k : Nat) (c : Bool) (msg : String) :
    Sim k (nir.precondition c msg) (nir.precondition c msg) := by
  unfold nir.precondition
  split
  · exact Sim.pure k ()
  · exact Sim.fail k _ _

theorem Sim.of_value_of {α : Type} (k : Nat) (o : Option α) :
    Sim k (nir.value_of o) (nir.value_of o) := by
  unfold nir.value_of
  cases o with
  | none => exact Sim.fail k _ _
  | some a => exact Sim.pure k a

theorem Sim.of_fatal_error {α : Type} (k : Nat) (msg : String) (m2 : M α) :
    Sim k (nir.fatal_error msg) m2 := Sim.fail k _ m2

/-- A read with `get` consumes the bytes the framed read consumed. -/
theorem Deserializer.get_u8_position (ds : Deserializer) (a : Nat) (ds1 : Deserializer)
    (h : Deserializer.get Decoder.u8 ds = Except.ok (a, ds1)) :
    ds.source.position + 1 ≤ ds1.source.position := by
  cases hr : ds.rest with
  | nil =>
    have hlen : ds.source.source.length ≤ ds.source.position := by
      simpa [Deserializer.rest, Decoder.rest, List.drop_eq_nil_iff] using hr
    simp [Deserializer.get, Decoder.u8_of_end ds.source hlen] at h
  | cons b tail =>
    rw [Deserializer.get_u8_of_rest ds b tail hr] at h
    simp only [Except.ok.injEq, Prod.mk.injEq] at h
    obtain ⟨_, rfl⟩ := h
    simp [Deserializer.advanced, Decoder.advanced]

/-- After the tag byte, the rest of a decoder replays with the bound lowered by one. -/
theorem Sim.after_tag {α : Type} {k : Nat} {g1 g2 : Nat → M α}
    (hg : ∀ t, Sim (k - 1) (g1 t) (g2 t)) :
    Sim k (Deserializer.get Decoder.u8 >>= g1) (Deserializer.get Decoder.u8 >>= g2) :=
  Sim.bind_of_consumed 1 (Sim.of_get k Decoder.framed_u8) Deserializer.get_u8_position hg

theorem Deserializer.get_u8_of_end (ds : Deserializer) (h : ds.rest = []) :
    ∃ e, Deserializer.get Decoder.u8 ds = Except.error (Failure.exception e) := by
  have hlen : ds.source.source.length ≤ ds.source.position := by
    simpa [Deserializer.rest, Decoder.rest, List.drop_eq_nil_iff] using h
  exact ⟨⟨ds.source.position, "not enough bytes"⟩,
    by simp [Deserializer.get, Decoder.u8_of_end ds.source hlen]⟩

theorem Deserializer.rest_ne_ff_of_cons (ds : Deserializer) (b : UInt8) (tail : List UInt8)
    (h : ds.rest = b :: tail) (hb : b ≠ 0xFF) : ∀ t, ds.rest ≠ 0xFF :: t := by
  intro t hc
  rw [h] at hc
  injection hc with h1 _
  exact hb h1

/-- `internable` replays: a back-reference finds the same element, an inline decode
replays and is memoized under the same condition. -/
theorem Sim.of_internable {α : Type} {k : Nat} (memo : Memo α) (hl : memo.Lawful)
    {g1 g2 : Nat → M α} (hg : ∀ t, Sim (k - 1) (g1 t) (g2 t)) :
    Sim k (Deserializer.internable memo (Deserializer.get Decoder.u8 >>= g1))
      (Deserializer.internable memo (Deserializer.get Decoder.u8 >>= g2)) := by
  have hdec := Sim.after_tag hg
  have hsrc : ∀ (s : Deserializer) (d : Decoder), memo.get { s with source := d } = memo.get s :=
    fun s d => hl.2.2 _ _ ⟨rfl, rfl, rfl, rfl⟩
  obtain ⟨entry, hentry⟩ := hl.1
  intro ds r ds1 hrun
  cases hr : ds.rest with
  | nil =>
    have hfirst : ∀ t, ds.rest ≠ 0xFF :: t := by rw [hr]; intro t hc; cases hc
    obtain ⟨dsd, hdecok, _⟩ := Deserializer.internable_inline_inv memo _ ds ds1 r hfirst hrun
    obtain ⟨e, he⟩ := Deserializer.get_u8_of_end ds hr
    rw [M.bind_error _ _ _ _ he] at hdecok
    cases hdecok
  | cons b tail =>
    by_cases hb : b = 0xFF
    · -- a back-reference
      subst hb
      unfold Deserializer.internable at hrun
      rw [if_pos (Deserializer.peek_ff ds.source tail hr),
        Decoder.u8_of_drop ds.source 0xFF tail hr] at hrun
      cases huleb : Decoder.unsigned_leb128 (ds.source.advanced 1) with
      | mk res d =>
        have huleb' : Decoder.unsigned_leb128
            { source := ds.source.source, position := ds.source.position + 1,
              byte_order := ds.source.byte_order } = (res, d) := huleb
        rw [huleb'] at hrun
        cases res with
        | error e => cases hrun
        | ok i =>
          simp only [Deserializer.at_index, hsrc] at hrun
          cases hget : (memo.get ds).get? i with
          | none => rw [hget] at hrun; cases hrun
          | some v =>
            rw [hget] at hrun
            simp only [Except.ok.injEq, Prod.mk.injEq] at hrun
            obtain ⟨rfl, rfl⟩ := hrun
            obtain ⟨C, hC, hd, hrep⟩ := Decoder.framed_unsigned_leb128 _ i d huleb
            rw [Decoder.rest_cons_of_drop ds.source 0xFF tail hr] at hC
            refine ⟨0xFF :: C, Entries.empty, List.cons_prefix_cons.mpr ⟨rfl, hC⟩, ?_, ?_⟩
            · rw [Deserializer.extend_empty_source, hd, Decoder.advanced_advanced,
                List.length_cons, Nat.add_comm]
            intro F ds2 hF hcomp hbo
            constructor
            · intro _ post hrest
              unfold Deserializer.internable
              rw [if_pos (Deserializer.peek_ff ds2.source _ hrest),
                Decoder.u8_of_drop ds2.source 0xFF _ hrest]
              have h2 := (hrep (ds2.source.advanced 1) hbo).1 post
                (Decoder.rest_cons_of_drop ds2.source 0xFF _ hrest)
              have h2' : Decoder.unsigned_leb128
                  { source := ds2.source.source, position := ds2.source.position + 1,
                    byte_order := ds2.source.byte_order } =
                  (Except.ok i, (ds2.source.advanced 1).advanced C.length) := h2
              rw [h2']
              simp only [Deserializer.at_index, hsrc]
              have hF' : ds.memos_le F := hF
              rw [Memo.Lawful.get_compatible hl hF' hcomp i v hget]
              rw [Deserializer.extend_empty_source, Decoder.advanced_advanced,
                List.length_cons, Nat.add_comm]
            · intro C1 _ hpre hne hrest
              cases C1 with
              | nil =>
                have hfirst : ∀ t, ds2.rest ≠ 0xFF :: t := by
                  rw [hrest]; intro t hc; cases hc
                obtain ⟨e, he⟩ := Deserializer.get_u8_of_end ds2 hrest
                exact ⟨_, Deserializer.internable_inline_error memo _ ds2 _ hfirst
                  (M.bind_error _ _ _ _ he), rfl⟩
              | cons c C1 =>
                rw [List.cons_prefix_cons] at hpre
                obtain ⟨rfl, hpre⟩ := hpre
                unfold Deserializer.internable
                rw [if_pos (Deserializer.peek_ff ds2.source _ hrest),
                  Decoder.u8_of_drop ds2.source 0xFF _ hrest]
                obtain ⟨e, he⟩ := (hrep (ds2.source.advanced 1) hbo).2 C1 hpre
                  (fun hc => hne (by rw [hc])) (Decoder.rest_cons_of_drop ds2.source 0xFF _ hrest)
                cases h2 : Decoder.unsigned_leb128 (ds2.source.advanced 1) with
                | mk res2 dd =>
                  rw [h2] at he
                  simp only at he
                  subst he
                  have h2' : Decoder.unsigned_leb128
                      { source := ds2.source.source, position := ds2.source.position + 1,
                        byte_order := ds2.source.byte_order } = (Except.error e, dd) := h2
                  rw [h2']
                  exact ⟨_, rfl, rfl⟩
    · -- an inline element
      have hfirst := Deserializer.rest_ne_ff_of_cons ds b tail hr hb
      obtain ⟨dsd, hdecok, hds1⟩ :=
        Deserializer.internable_inline_inv memo _ ds ds1 r hfirst hrun
      obtain ⟨C, E, hC, hdsd, hsim⟩ := hdec ds r dsd hdecok
      have hCpos : 1 ≤ C.length := by
        cases hg1 : Deserializer.get Decoder.u8 ds with
        | error e => rw [M.bind_error _ _ _ _ hg1] at hdecok; cases hdecok
        | ok p =>
          obtain ⟨t, dst⟩ := p
          have h1 := Deserializer.get_u8_position ds t dst hg1
          rw [M.bind_ok _ _ _ _ _ hg1] at hdecok
          obtain ⟨Cb, Eb, _, hdsd2, _⟩ := hg t dst r dsd hdecok
          have e1 := congrArg (fun s => s.source.position) hdsd
          have e2 := congrArg (fun s => s.source.position) hdsd2
          simp only [Deserializer.position_extend] at e1 e2
          omega
      have hCb : ∃ Ct, C = b :: Ct := by
        cases C with
        | nil => simp at hCpos
        | cons c Ct =>
          rw [hr, List.cons_prefix_cons] at hC
          exact ⟨Ct, by rw [hC.1]⟩
      obtain ⟨Ct, hCt⟩ := hCb
      have hpush : ∀ (s : Deserializer),
          (if (s.extend C.length E).source.position > s.source.position + 2
            then memo.push r (s.extend C.length E) else s.extend C.length E) =
          s.extend C.length (if C.length > 2 then E.append (entry r) else E) := by
        intro s
        rw [Deserializer.position_extend]
        by_cases h2 : C.length > 2
        · rw [if_pos (by omega), if_pos h2, hentry, Deserializer.extend_extend]
          rfl
        · rw [if_neg (by omega), if_neg h2]
      rw [hdsd, hpush ds] at hds1
      refine ⟨C, _, hr ▸ hC, hds1, ?_⟩
      intro F ds2 hF hcomp hbo
      have hFd : dsd.memos_le F := by
        rw [hdsd]
        refine Deserializer.memos_le_trans ?_ hF
        rw [hds1]
        split
        · exact ⟨by simp [Deserializer.extend, Entries.append],
            by simp [Deserializer.extend, Entries.append],
            by simp [Deserializer.extend, Entries.append],
            by simp [Deserializer.extend, Entries.append]⟩
        · exact Deserializer.memos_le_refl _
      obtain ⟨hfull, htrunc⟩ := hsim F ds2 hFd hcomp hbo
      constructor
      · intro hlen post hrest
        have hfirst2 : ∀ t, ds2.rest ≠ 0xFF :: t :=
          Deserializer.rest_ne_ff_of_cons ds2 b (Ct ++ post) (by rw [hrest, hCt]; rfl) hb
        rw [Deserializer.internable_inline memo _ ds2 _ r hfirst2 (hfull hlen post hrest),
          hpush ds2]
      · intro C1 hlen hpre hne hrest
        have hfirst2 : ∀ t, ds2.rest ≠ 0xFF :: t := by
          cases C1 with
          | nil => rw [hrest]; intro t hc; cases hc
          | cons c C1t =>
            rw [hCt, List.cons_prefix_cons] at hpre
            exact Deserializer.rest_ne_ff_of_cons ds2 c C1t hrest (by rw [hpre.1]; exact hb)
        obtain ⟨e, he, hfatal⟩ := htrunc C1 hlen hpre hne hrest
        exact ⟨e, Deserializer.internable_inline_error memo _ ds2 e hfirst2 he, hfatal⟩

/-! ### The non-recursive decoders replay -/

namespace Deserializer

theorem sim_boolean (k : Nat) : Sim k boolean boolean := by
  unfold boolean
  exact Sim.bind (Sim.of_get k Decoder.framed_u8) (fun _ => Sim.pure _ _)

theorem sim_uint32 (k : Nat) : Sim k uint32 uint32 := by
  unfold uint32
  exact Sim.bind (Sim.of_get k Decoder.framed_unsigned_leb128) (fun _ => Sim.pure _ _)

theorem sim_local (k : Nat) : Sim k local_ local_ := by
  unfold local_
  exact Sim.bind (Sim.of_get k Decoder.framed_unsigned_leb128) (fun _ => Sim.pure _ _)

theorem sim_scope_identifier (k : Nat) : Sim k scope_identifier scope_identifier := by
  unfold scope_identifier
  exact Sim.bind (Sim.of_get k Decoder.framed_unsigned_leb128) (fun _ => Sim.pure _ _)

theorem sim_optional {α : Type} {k : Nat} {d1 d2 : M α} (h : Sim k d1 d2) :
    Sim k (optional d1) (optional d2) := by
  unfold optional
  refine Sim.bind (sim_boolean k) (fun b => Sim.ite (fun _ => ?_) (fun _ => Sim.pure _ _))
  exact Sim.bind h (fun _ => Sim.pure _ _)

theorem sim_sequence_loop {α : Type} {k : Nat} {d1 d2 : M α} (h : Sim k d1 d2) :
    ∀ count : Nat, Sim k (sequence_loop d1 count) (sequence_loop d2 count) := by
  intro count
  induction count with
  | zero => exact Sim.pure _ _
  | succ n ih =>
    rw [sequence_loop, sequence_loop]
    exact Sim.bind h (fun _ => Sim.bind ih (fun _ => Sim.pure _ _))

theorem sim_sequence {α : Type} {k : Nat} {d1 d2 : M α} (h : Sim k d1 d2) :
    Sim k (sequence d1) (sequence d2) := by
  unfold sequence
  exact Sim.bind (Sim.of_get k Decoder.framed_unsigned_leb128) (fun n => sim_sequence_loop h n)

theorem sim_bytes_loop (k : Nat) : ∀ count : Nat, Sim k (bytes_loop count) (bytes_loop count) := by
  intro count
  induction count with
  | zero => exact Sim.pure _ _
  | succ n ih =>
    rw [bytes_loop]
    exact Sim.bind (Sim.of_get k Decoder.framed_i8) (fun _ => Sim.bind ih (fun _ => Sim.pure _ _))

theorem sim_bytes (k : Nat) : Sim k bytes bytes := by
  unfold bytes
  exact Sim.bind (Sim.of_get k Decoder.framed_unsigned_leb128) (fun n => sim_bytes_loop k n)

theorem sim_transform_into_empty (k n : Nat) :
    Sim k (transform_into_empty n) (transform_into_empty n) := by
  unfold transform_into_empty
  exact Sim.ite (fun _ => Sim.pure _ _) (fun _ => Sim.fail _ _ _)

theorem sim_new_struct_type (k : Nat) (es : List Type_) :
    Sim k (new_struct_type es) (new_struct_type es) := by
  unfold new_struct_type
  exact Sim.bind (sim_transform_into_empty k _) (fun _ => Sim.pure _ _)

theorem sim_new_function_type (k : Nat) (ps : List Type_) (rv : Type_) :
    Sim k (new_function_type ps rv) (new_function_type ps rv) := by
  unfold new_function_type
  exact Sim.bind (sim_transform_into_empty k _) (fun _ => Sim.pure _ _)

theorem sim_new_struct_value (k : Nat) (es : List Value) :
    Sim k (new_struct_value es) (new_struct_value es) := by
  unfold new_struct_value
  exact Sim.bind (sim_transform_into_empty k _) (fun _ => Sim.pure _ _)

theorem sim_new_array_value (k : Nat) (t : Type_) (es : List Value) :
    Sim k (new_array_value t es) (new_array_value t es) := by
  unfold new_array_value
  exact Sim.bind (sim_transform_into_empty k _) (fun _ => Sim.pure _ _)

theorem sim_narrowed_sequence {α β : Type} (k : Nat) (as : α → Option β) (s : List α) :
    Sim k (narrowed_sequence as s) (narrowed_sequence as s) := by
  cases s with
  | nil => exact Sim.pure _ _
  | cons e s =>
    unfold narrowed_sequence
    exact Sim.bind (Sim.of_value_of k _)
      (fun _ => Sim.bind (sim_transform_into_empty k _) (fun _ => Sim.pure _ _))

end Deserializer

namespace Deserializer

/-- The body of `inline_string` after its length: the `n` bytes and the test that they
were all there. -/
theorem sim_string_body (k n : Nat) (msg : String) :
    Sim k
      (get (fun d => (Except.ok (Decoder.bytes n d).1, (Decoder.bytes n d).2)) >>= fun r =>
        precondition (n == r.length) msg >>= fun _ => (pure r : M Bytes))
      (get (fun d => (Except.ok (Decoder.bytes n d).1, (Decoder.bytes n d).2)) >>= fun r =>
        precondition (n == r.length) msg >>= fun _ => (pure r : M Bytes)) := by
  have hrun_eq : ∀ ds : Deserializer,
      (get (fun d => (Except.ok (Decoder.bytes n d).1, (Decoder.bytes n d).2)) >>= fun r =>
        precondition (n == r.length) msg >>= fun _ => (pure r : M Bytes)) ds =
      if n = (ds.rest.take n).length then
        Except.ok (ds.rest.take n, ds.extend n Entries.empty)
      else Except.error (Failure.abort msg) := by
    intro ds
    rw [M.bind_apply]
    unfold get
    simp only [Decoder.bytes]
    rw [M.bind_apply]
    unfold precondition
    by_cases hn : n = (List.take n (List.drop ds.source.position ds.source.source)).length
    · have hb : (n == (List.take n (List.drop ds.source.position ds.source.source)).length)
          = true := by simpa using hn
      rw [hb]
      simp only [if_true, M.pure_apply]
      rw [if_pos (by simpa [Deserializer.rest, Decoder.rest] using hn)]
      rw [extend_empty_source]
      simp only [Deserializer.rest, Decoder.rest, Decoder.advanced]
      rw [← hn]
    · have hb : (n == (List.take n (List.drop ds.source.position ds.source.source)).length)
          = false := by simpa using hn
      rw [hb]
      simp only [Bool.false_eq_true, if_false, M.fail]
      rw [if_neg (by simpa [Deserializer.rest, Decoder.rest] using hn)]
  intro ds r ds1 hrun
  rw [hrun_eq] at hrun
  by_cases hn : n = (ds.rest.take n).length
  · rw [if_pos hn] at hrun
    simp only [Except.ok.injEq, Prod.mk.injEq] at hrun
    obtain ⟨rfl, rfl⟩ := hrun
    have hlen : (List.take n ds.rest).length = n := hn.symm
    refine ⟨ds.rest.take n, Entries.empty, List.take_prefix _ _, by rw [hlen],
      fun F ds2 _ _ _ => ⟨fun _ post hrest => ?_, fun C1 _ hpre hne hrest => ?_⟩⟩
    · rw [hrun_eq, hrest]
      have htake : List.take n (List.take n ds.rest ++ post) = List.take n ds.rest := by
        rw [List.take_append_of_le_length (by omega), List.take_take, Nat.min_self]
      rw [htake, if_pos hn, hlen]
    · refine ⟨Failure.abort msg, ?_, rfl⟩
      rw [hrun_eq, hrest]
      have hlt := Decoder.prefix_length_lt hpre hne
      rw [if_neg]
      rw [List.length_take]
      omega
  · rw [if_neg hn] at hrun
    cases hrun

theorem sim_inline_string (k : Nat) : Sim k inline_string inline_string := by
  unfold inline_string
  exact Sim.bind (Sim.of_get k Decoder.framed_unsigned_leb128)
    (fun n => sim_string_body k n "invalid string")

theorem sim_string (k : Nat) : Sim k string string := by
  unfold string
  refine Sim.bind (Sim.of_get k Decoder.framed_u8) (fun t => ?_)
  refine Sim.ite (fun _ => Sim.pure _ _) (fun _ => ?_)
  refine Sim.ite (fun _ => ?_) (fun _ => ?_)
  · exact Sim.bind (Sim.of_get k Decoder.framed_unsigned_leb128) (fun n =>
      Sim.bind (Sim.of_get k Decoder.framed_unsigned_leb128) (fun i =>
        Sim.bind (Sim.of_at_index k Memo.strings Memo.lawful_strings i)
          (fun _ => Sim.pure _ _)))
  refine Sim.ite (fun _ => ?_) (fun _ => ?_)
  · exact Sim.bind (sim_inline_string k) (fun s =>
      Sim.bind (Sim.of_push_back k Memo.strings Memo.lawful_strings s)
        (fun _ => Sim.pure _ _))
  refine Sim.ite (fun _ => ?_) (fun _ => Sim.of_fatal_error _ _ _)
  exact Sim.bind (Sim.of_get k Decoder.framed_unsigned_leb128) (fun n =>
    Sim.bind (Sim.of_get k Decoder.framed_unsigned_leb128) (fun i =>
      Sim.bind (Sim.of_at_index k Memo.strings Memo.lawful_strings i) (fun m =>
        Sim.bind (sim_inline_string k) (fun tail =>
          Sim.bind (Sim.of_push_back k Memo.strings Memo.lawful_strings _)
            (fun _ => Sim.pure _ _)))))

theorem sim_signature (k : Nat) : Sim k signature signature := by
  unfold signature
  exact Sim.bind (sim_string k) (fun _ => Sim.pure _ _)

end Deserializer

/-! ### The recursive decoders replay

The second run may have another recursion bound than the first: a bound that is no
smaller will do, and so will a bound of at least `k` for a run that consumes fewer than
`k` bytes, since every level of the recursion consumes a tag byte. -/

namespace Deserializer

theorem sim_symbol : ∀ (fuel fuel2 k : Nat), k ≤ fuel2 ∨ fuel ≤ fuel2 →
    Sim k (symbol fuel) (symbol fuel2) := by
  intro fuel
  induction fuel with
  | zero =>
    intro fuel2 k _
    rw [symbol]
    exact Sim.fail _ _ _
  | succ fuel ih =>
    have body : ∀ (fuel2 k : Nat), k ≤ fuel2 + 1 ∨ fuel + 1 ≤ fuel2 + 1 →
        Sim k (symbol (fuel + 1)) (symbol (fuel2 + 1)) := by
      intro fuel2 k hk
      rw [symbol, symbol]
      refine Sim.of_internable Memo.symbols Memo.lawful_symbols (fun t => ?_)
      refine Sim.ite (fun _ => Sim.pure _ _) (fun _ => ?_)
      refine Sim.ite (fun _ => ?_) (fun _ => ?_)
      · exact Sim.bind (sim_string _) (fun _ => Sim.pure _ _)
      refine Sim.ite (fun _ => ?_) (fun _ => Sim.of_fatal_error _ _ _)
      exact Sim.bind (ih fuel2 (k - 1) (by omega)) (fun owner =>
        Sim.bind (Sim.of_value_of _ _) (fun _ =>
          Sim.bind (sim_signature _) (fun _ => Sim.pure _ _)))
    intro fuel2 k hk
    cases fuel2 with
    | zero =>
      have hk0 : k = 0 := by omega
      subst hk0
      exact Sim.zero_any _ (body 0 0 (by omega))
    | succ fuel2 => exact body fuel2 k (by omega)

theorem sim_type : ∀ (fuel fuel2 k : Nat), k ≤ fuel2 ∨ fuel ≤ fuel2 →
    Sim k (type_ fuel) (type_ fuel2) := by
  intro fuel
  induction fuel with
  | zero =>
    intro fuel2 k _
    rw [type_]
    exact Sim.fail _ _ _
  | succ fuel ih =>
    have body : ∀ (fuel2 k : Nat), k ≤ fuel2 + 1 ∨ fuel + 1 ≤ fuel2 + 1 →
        Sim k (type_ (fuel + 1)) (type_ (fuel2 + 1)) := by
      intro fuel2 k hk
      rw [type_, type_]
      have hk1 : k - 1 ≤ fuel2 ∨ fuel ≤ fuel2 := by omega
      refine Sim.of_internable Memo.types Memo.lawful_types (fun t => ?_)
      repeat (with_reducible first
        | exact Sim.pure _ _
        | exact Sim.of_fatal_error _ _ _
        | exact Sim.of_value_of _ _
        | exact Sim.of_get _ Decoder.framed_unsigned_leb128
        | exact sim_boolean _
        | exact sim_new_struct_type _ _
        | exact sim_new_function_type _ _ _
        | exact ih fuel2 (k - 1) hk1
        | exact sim_symbol fuel fuel2 (k - 1) hk1
        | exact sim_sequence (ih fuel2 (k - 1) hk1)
        | apply Sim.bind
        | apply Sim.ite_of_both
        | intro _)
    intro fuel2 k hk
    cases fuel2 with
    | zero =>
      have hk0 : k = 0 := by omega
      subst hk0
      exact Sim.zero_any _ (body 0 0 (by omega))
    | succ fuel2 => exact body fuel2 k (by omega)

theorem sim_value : ∀ (fuel fuel2 k : Nat), k ≤ fuel2 ∨ fuel ≤ fuel2 →
    Sim k (value fuel) (value fuel2) := by
  intro fuel
  induction fuel with
  | zero =>
    intro fuel2 k _
    rw [value]
    exact Sim.fail _ _ _
  | succ fuel ih =>
    have body : ∀ (fuel2 k : Nat), k ≤ fuel2 + 1 ∨ fuel + 1 ≤ fuel2 + 1 →
        Sim k (value (fuel + 1)) (value (fuel2 + 1)) := by
      intro fuel2 k hk
      rw [value, value]
      have hk1 : k - 1 ≤ fuel2 ∨ fuel ≤ fuel2 := by omega
      refine Sim.of_internable Memo.values Memo.lawful_values (fun t => ?_)
      repeat (with_reducible first
        | exact Sim.pure _ _
        | exact Sim.of_fatal_error _ _ _
        | exact Sim.of_value_of _ _
        | exact Sim.of_get _ Decoder.framed_unsigned_leb128
        | exact Sim.of_get _ Decoder.framed_signed_leb128
        | exact Sim.of_get _ Decoder.framed_i8
        | exact Sim.of_get _ Decoder.framed_f32
        | exact Sim.of_get _ Decoder.framed_f64
        | exact sim_string _
        | exact sim_bytes _
        | exact sim_local _
        | exact sim_new_struct_value _ _
        | exact sim_new_array_value _ _ _
        | exact ih fuel2 (k - 1) hk1
        | exact sim_symbol fuel fuel2 (k - 1) hk1
        | exact sim_type fuel fuel2 (k - 1) hk1
        | exact sim_sequence (ih fuel2 (k - 1) hk1)
        | apply Sim.bind
        | apply Sim.ite_of_both
        | intro _)
    intro fuel2 k hk
    cases fuel2 with
    | zero =>
      have hk0 : k = 0 := by omega
      subst hk0
      exact Sim.zero_any _ (body 0 0 (by omega))
    | succ fuel2 => exact body fuel2 k (by omega)

end Deserializer

/-! ## Back-references and inline encodings decode alike -/

namespace Deserializer

/-- An element decoded inline over more than two bytes is the last entry of its memo. -/
theorem internable_memoized_last {α : Type} (memo : Memo α) (hl : memo.Lawful)
    (hpush : ∀ v ds, memo.get (memo.push v ds) = memo.get ds ++ [v])
    (decode : M α) (ds ds1 : Deserializer) (v : α)
    (hfirst : ∀ tail, ds.rest ≠ 0xFF :: tail)
    (hlong : ds.source.position + 2 < ds1.source.position)
    (hrun : internable memo decode ds = Except.ok (v, ds1)) :
    (memo.get ds1).get? ((memo.get ds1).length - 1) = some v := by
  obtain ⟨entry, hentry⟩ := hl.1
  obtain ⟨dsd, _, hds1⟩ := internable_inline_inv memo decode ds ds1 v hfirst hrun
  by_cases hgt : dsd.source.position > ds.source.position + 2
  · rw [if_pos hgt] at hds1
    rw [hds1, hpush]
    simp
  · rw [if_neg hgt] at hds1
    rw [hds1] at hlong
    omega

/-- The bytes consumed by a run that replays. -/
theorem consumed_extend (ds : Deserializer) (C : List UInt8) (E : Entries) (hC : C <+: ds.rest) :
    ds.consumed (ds.extend C.length E) = C := by
  unfold consumed
  rw [position_extend, Nat.add_sub_cancel_left]
  exact (List.prefix_iff_eq_take.mp hC).symm

/-- A run that replays gives, on the bytes it consumed, the same result in any later
state. -/
theorem replay_consumed {α : Type} {m1 m2 : M α} (hsim : ∀ k, Sim k m1 m2)
    (ds ds1 later : Deserializer) (v : α)
    (hbo : later.source.byte_order = ds.source.byte_order) (hlater : ds1.memos_le later)
    (hrun : m1 ds = Except.ok (v, ds1)) :
    ∃ E, ds1 = ds.extend (ds.consumed ds1).length E ∧
      ∀ post, later.rest = ds.consumed ds1 ++ post →
        m2 later = Except.ok (v, later.extend (ds.consumed ds1).length E) := by
  obtain ⟨C, E, hC, hds1, hrep⟩ := hsim ((ds.consumed ds1).length + 1) ds v ds1 hrun
  have hcons : ds.consumed ds1 = C := by rw [hds1]; exact consumed_extend ds C E hC
  rw [hcons]
  refine ⟨E, hds1, fun post hrest => ?_⟩
  rw [hcons] at hrep
  exact (hrep later later hlater (Or.inr (memos_le_refl later)) hbo).1 (Nat.lt_succ_self _)
    post hrest

end Deserializer

namespace Deserializer

/-- A back-reference and the inline bytes at one point. Let an element (a symbol, a type
or a value) be decoded inline from the state `ds` (the byte at the cursor is not `FF`)
over more than two bytes, the decode ending in the state `ds1`. Then the element is
memoized: it is the entry of index `i = length - 1` of the memo of its category in `ds1`.
And at any later point, that is in any state `later` with the same byte order whose memos
extend those of `ds1`, and with any recursion bound that is no smaller,

* decoding the back-reference `FF ULEB(i)` returns the element, the cursor moving past the
  reference and the memos unchanged (for `i < 2^63`, the indices that `unsigned_leb128`
  accepts);
* decoding the same inline bytes again (the bytes `ds.consumed ds1` that the first decode
  consumed) returns the same element, consumes the same bytes and appends the same
  entries `E` to the memos as the first decode did. -/
theorem back_reference_and_inline_bytes_decode_alike (fuel fuel2 : Nat) (hfuel : fuel ≤ fuel2)
    (ds ds1 later : Deserializer)
    (hfirst : ∀ tail, ds.rest ≠ 0xFF :: tail)
    (hlong : ds.source.position + 2 < ds1.source.position)
    (hbo : later.source.byte_order = ds.source.byte_order)
    (hlater : ds1.memos_le later) :
    (∀ v, symbol fuel ds = Except.ok (v, ds1) →
      ds1.interned_symbols.get? (ds1.interned_symbols.length - 1) = some v ∧
      (∀ post, ds1.interned_symbols.length - 1 < 2 ^ 63 →
        later.rest = 0xFF :: (uleb128 (ds1.interned_symbols.length - 1) ++ post) →
        symbol fuel2 later = Except.ok (v,
          later.advanced (1 + (uleb128 (ds1.interned_symbols.length - 1)).length))) ∧
      ∃ E, ds1 = ds.extend (ds.consumed ds1).length E ∧
        ∀ post, later.rest = ds.consumed ds1 ++ post →
          symbol fuel2 later = Except.ok (v, later.extend (ds.consumed ds1).length E)) ∧
    (∀ v, type_ fuel ds = Except.ok (v, ds1) →
      ds1.interned_types.get? (ds1.interned_types.length - 1) = some v ∧
      (∀ post, ds1.interned_types.length - 1 < 2 ^ 63 →
        later.rest = 0xFF :: (uleb128 (ds1.interned_types.length - 1) ++ post) →
        type_ fuel2 later = Except.ok (v,
          later.advanced (1 + (uleb128 (ds1.interned_types.length - 1)).length))) ∧
      ∃ E, ds1 = ds.extend (ds.consumed ds1).length E ∧
        ∀ post, later.rest = ds.consumed ds1 ++ post →
          type_ fuel2 later = Except.ok (v, later.extend (ds.consumed ds1).length E)) ∧
    (∀ v, value fuel ds = Except.ok (v, ds1) →
      ds1.interned_values.get? (ds1.interned_values.length - 1) = some v ∧
      (∀ post, ds1.interned_values.length - 1 < 2 ^ 63 →
        later.rest = 0xFF :: (uleb128 (ds1.interned_values.length - 1) ++ post) →
        value fuel2 later = Except.ok (v,
          later.advanced (1 + (uleb128 (ds1.interned_values.length - 1)).length))) ∧
      ∃ E, ds1 = ds.extend (ds.consumed ds1).length E ∧
        ∀ post, later.rest = ds.consumed ds1 ++ post →
          value fuel2 later = Except.ok (v, later.extend (ds.consumed ds1).length E)) := by
  refine ⟨fun v hrun => ?_, fun v hrun => ?_, fun v hrun => ?_⟩
  · have hinline := replay_consumed (fun k => sim_symbol fuel fuel2 k (Or.inr hfuel))
      ds ds1 later v hbo hlater hrun
    cases fuel with
    | zero => rw [symbol] at hrun; cases hrun
    | succ fuel =>
      cases fuel2 with
      | zero => omega
      | succ fuel2 =>
        rw [symbol] at hrun
        have hlast := internable_memoized_last Memo.symbols Memo.lawful_symbols
          (fun _ _ => rfl) _ ds ds1 v hfirst hlong hrun
        refine ⟨hlast, fun post hi hrest => ?_, hinline⟩
        rw [symbol]
        exact internable_back_reference_of_lt Memo.symbols _ (fun _ _ => rfl) later _ post v
          hrest (Memo.lawful_symbols.get_compatible hlater (Or.inr (memos_le_refl later))
            _ v hlast) hi
  · have hinline := replay_consumed (fun k => sim_type fuel fuel2 k (Or.inr hfuel))
      ds ds1 later v hbo hlater hrun
    cases fuel with
    | zero => rw [type_] at hrun; cases hrun
    | succ fuel =>
      cases fuel2 with
      | zero => omega
      | succ fuel2 =>
        rw [type_] at hrun
        have hlast := internable_memoized_last Memo.types Memo.lawful_types
          (fun _ _ => rfl) _ ds ds1 v hfirst hlong hrun
        refine ⟨hlast, fun post hi hrest => ?_, hinline⟩
        rw [type_]
        exact internable_back_reference_of_lt Memo.types _ (fun _ _ => rfl) later _ post v
          hrest (Memo.lawful_types.get_compatible hlater (Or.inr (memos_le_refl later))
            _ v hlast) hi
  · have hinline := replay_consumed (fun k => sim_value fuel fuel2 k (Or.inr hfuel))
      ds ds1 later v hbo hlater hrun
    cases fuel with
    | zero => rw [value] at hrun; cases hrun
    | succ fuel =>
      cases fuel2 with
      | zero => omega
      | succ fuel2 =>
        rw [value] at hrun
        have hlast := internable_memoized_last Memo.values Memo.lawful_values
          (fun _ _ => rfl) _ ds ds1 v hfirst hlong hrun
        refine ⟨hlast, fun post hi hrest => ?_, hinline⟩
        rw [value]
        exact internable_back_reference_of_lt Memo.values _ (fun _ _ => rfl) later _ post v
          hrest (Memo.lawful_values.get_compatible hlater (Or.inr (memos_le_refl later))
            _ v hlast) hi

end Deserializer

/-! ### Operations, instructions and definitions replay -/

namespace Deserializer

set_option maxRecDepth 8192

theorem sim_memory_order (k : Nat) : Sim k memory_order memory_order := by
  unfold memory_order
  repeat (with_reducible first
    | exact Sim.pure _ _
    | exact Sim.of_fatal_error _ _ _
    | exact Sim.of_value_of _ _
    | exact Sim.of_precondition _ _ _
    | exact Sim.of_get _ Decoder.framed_u8
    | exact Sim.of_get _ Decoder.framed_unsigned_leb128
    | exact Sim.of_get _ Decoder.framed_signed_leb128
    | exact sim_boolean _
    | exact sim_uint32 _
    | exact sim_local _
    | exact sim_scope_identifier _
    | exact sim_string _
    | exact sim_signature _
    | exact sim_optional (sim_string _)
    | exact sim_sequence (sim_uint32 _)
    | exact sim_narrowed_sequence _ _ _
    | apply Sim.bind
    | apply Sim.ite_of_both
    | intro _)

theorem sim_binary_operator (k : Nat) : Sim k binary_operator binary_operator := by
  unfold binary_operator
  repeat (with_reducible first
    | exact Sim.pure _ _
    | exact Sim.of_fatal_error _ _ _
    | exact Sim.of_value_of _ _
    | exact Sim.of_precondition _ _ _
    | exact Sim.of_get _ Decoder.framed_u8
    | exact Sim.of_get _ Decoder.framed_unsigned_leb128
    | exact Sim.of_get _ Decoder.framed_signed_leb128
    | exact sim_boolean _
    | exact sim_uint32 _
    | exact sim_local _
    | exact sim_scope_identifier _
    | exact sim_string _
    | exact sim_signature _
    | exact sim_optional (sim_string _)
    | exact sim_sequence (sim_uint32 _)
    | exact sim_narrowed_sequence _ _ _
    | apply Sim.bind
    | apply Sim.ite_of_both
    | intro _)

theorem sim_comparison_operator (k : Nat) : Sim k comparison_operator comparison_operator := by
  unfold comparison_operator
  repeat (with_reducible first
    | exact Sim.pure _ _
    | exact Sim.of_fatal_error _ _ _
    | exact Sim.of_value_of _ _
    | exact Sim.of_precondition _ _ _
    | exact Sim.of_get _ Decoder.framed_u8
    | exact Sim.of_get _ Decoder.framed_unsigned_leb128
    | exact Sim.of_get _ Decoder.framed_signed_leb128
    | exact sim_boolean _
    | exact sim_uint32 _
    | exact sim_local _
    | exact sim_scope_identifier _
    | exact sim_string _
    | exact sim_signature _
    | exact sim_optional (sim_string _)
    | exact sim_sequence (sim_uint32 _)
    | exact sim_narrowed_sequence _ _ _
    | apply Sim.bind
    | apply Sim.ite_of_both
    | intro _)

theorem sim_conversion_operator (k : Nat) : Sim k conversion_operator conversion_operator := by
  unfold conversion_operator
  repeat (with_reducible first
    | exact Sim.pure _ _
    | exact Sim.of_fatal_error _ _ _
    | exact Sim.of_value_of _ _
    | exact Sim.of_precondition _ _ _
    | exact Sim.of_get _ Decoder.framed_u8
    | exact Sim.of_get _ Decoder.framed_unsigned_leb128
    | exact Sim.of_get _ Decoder.framed_signed_leb128
    | exact sim_boolean _
    | exact sim_uint32 _
    | exact sim_local _
    | exact sim_scope_identifier _
    | exact sim_string _
    | exact sim_signature _
    | exact sim_optional (sim_string _)
    | exact sim_sequence (sim_uint32 _)
    | exact sim_narrowed_sequence _ _ _
    | apply Sim.bind
    | apply Sim.ite_of_both
    | intro _)

theorem sim_function_type (fuel fuel2 k : Nat) (hk : k ≤ fuel2 ∨ fuel ≤ fuel2) :
    Sim k (function_type fuel) (function_type fuel2) := by
  unfold function_type
  repeat (with_reducible first
    | exact Sim.pure _ _
    | exact Sim.of_fatal_error _ _ _
    | exact Sim.of_value_of _ _
    | exact Sim.of_precondition _ _ _
    | exact Sim.of_get _ Decoder.framed_u8
    | exact Sim.of_get _ Decoder.framed_unsigned_leb128
    | exact Sim.of_get _ Decoder.framed_signed_leb128
    | exact sim_boolean _
    | exact sim_uint32 _
    | exact sim_local _
    | exact sim_scope_identifier _
    | exact sim_string _
    | exact sim_signature _
    | exact sim_optional (sim_string _)
    | exact sim_sequence (sim_uint32 _)
    | exact sim_narrowed_sequence _ _ _
    | exact sim_symbol fuel fuel2 k hk
    | exact sim_type fuel fuel2 k hk
    | exact sim_value fuel fuel2 k hk
    | exact sim_sequence (sim_value fuel fuel2 k hk)
    | exact sim_sequence (sim_symbol fuel fuel2 k hk)
    | exact sim_optional (sim_value fuel fuel2 k hk)
    | exact sim_optional (sim_symbol fuel fuel2 k hk)
    | apply Sim.bind
    | apply Sim.ite_of_both
    | intro _)

theorem sim_top_symbol (fuel fuel2 k : Nat) (hk : k ≤ fuel2 ∨ fuel ≤ fuel2) :
    Sim k (top_symbol fuel) (top_symbol fuel2) := by
  unfold top_symbol
  repeat (with_reducible first
    | exact Sim.pure _ _
    | exact Sim.of_fatal_error _ _ _
    | exact Sim.of_value_of _ _
    | exact Sim.of_precondition _ _ _
    | exact Sim.of_get _ Decoder.framed_u8
    | exact Sim.of_get _ Decoder.framed_unsigned_leb128
    | exact Sim.of_get _ Decoder.framed_signed_leb128
    | exact sim_boolean _
    | exact sim_uint32 _
    | exact sim_local _
    | exact sim_scope_identifier _
    | exact sim_string _
    | exact sim_signature _
    | exact sim_optional (sim_string _)
    | exact sim_sequence (sim_uint32 _)
    | exact sim_narrowed_sequence _ _ _
    | exact sim_symbol fuel fuel2 k hk
    | exact sim_type fuel fuel2 k hk
    | exact sim_value fuel fuel2 k hk
    | exact sim_sequence (sim_value fuel fuel2 k hk)
    | exact sim_sequence (sim_symbol fuel fuel2 k hk)
    | exact sim_optional (sim_value fuel fuel2 k hk)
    | exact sim_optional (sim_symbol fuel fuel2 k hk)
    | apply Sim.bind
    | apply Sim.ite_of_both
    | intro _)

theorem sim_member_symbol (fuel fuel2 k : Nat) (hk : k ≤ fuel2 ∨ fuel ≤ fuel2) :
    Sim k (member_symbol fuel) (member_symbol fuel2) := by
  unfold member_symbol
  repeat (with_reducible first
    | exact Sim.pure _ _
    | exact Sim.of_fatal_error _ _ _
    | exact Sim.of_value_of _ _
    | exact Sim.of_precondition _ _ _
    | exact Sim.of_get _ Decoder.framed_u8
    | exact Sim.of_get _ Decoder.framed_unsigned_leb128
    | exact Sim.of_get _ Decoder.framed_signed_leb128
    | exact sim_boolean _
    | exact sim_uint32 _
    | exact sim_local _
    | exact sim_scope_identifier _
    | exact sim_string _
    | exact sim_signature _
    | exact sim_optional (sim_string _)
    | exact sim_sequence (sim_uint32 _)
    | exact sim_narrowed_sequence _ _ _
    | exact sim_symbol fuel fuel2 k hk
    | exact sim_type fuel fuel2 k hk
    | exact sim_value fuel fuel2 k hk
    | exact sim_sequence (sim_value fuel fuel2 k hk)
    | exact sim_sequence (sim_symbol fuel fuel2 k hk)
    | exact sim_optional (sim_value fuel fuel2 k hk)
    | exact sim_optional (sim_symbol fuel fuel2 k hk)
    | apply Sim.bind
    | apply Sim.ite_of_both
    | intro _)

theorem sim_label_argument (fuel fuel2 k : Nat) (hk : k ≤ fuel2 ∨ fuel ≤ fuel2) :
    Sim k (label_argument fuel) (label_argument fuel2) := by
  unfold label_argument
  repeat (with_reducible first
    | exact Sim.pure _ _
    | exact Sim.of_fatal_error _ _ _
    | exact Sim.of_value_of _ _
    | exact Sim.of_precondition _ _ _
    | exact Sim.of_get _ Decoder.framed_u8
    | exact Sim.of_get _ Decoder.framed_unsigned_leb128
    | exact Sim.of_get _ Decoder.framed_signed_leb128
    | exact sim_boolean _
    | exact sim_uint32 _
    | exact sim_local _
    | exact sim_scope_identifier _
    | exact sim_string _
    | exact sim_signature _
    | exact sim_optional (sim_string _)
    | exact sim_sequence (sim_uint32 _)
    | exact sim_narrowed_sequence _ _ _
    | exact sim_symbol fuel fuel2 k hk
    | exact sim_type fuel fuel2 k hk
    | exact sim_value fuel fuel2 k hk
    | exact sim_sequence (sim_value fuel fuel2 k hk)
    | exact sim_sequence (sim_symbol fuel fuel2 k hk)
    | exact sim_optional (sim_value fuel fuel2 k hk)
    | exact sim_optional (sim_symbol fuel fuel2 k hk)
    | apply Sim.bind
    | apply Sim.ite_of_both
    | intro _)

theorem sim_operation (fuel fuel2 k : Nat) (hk : k ≤ fuel2 ∨ fuel ≤ fuel2) :
    Sim k (operation fuel) (operation fuel2) := by
  unfold operation
  repeat (with_reducible first
    | exact Sim.pure _ _
    | exact Sim.of_fatal_error _ _ _
    | exact Sim.of_value_of _ _
    | exact Sim.of_precondition _ _ _
    | exact Sim.of_get _ Decoder.framed_u8
    | exact Sim.of_get _ Decoder.framed_unsigned_leb128
    | exact Sim.of_get _ Decoder.framed_signed_leb128
    | exact sim_boolean _
    | exact sim_uint32 _
    | exact sim_local _
    | exact sim_scope_identifier _
    | exact sim_string _
    | exact sim_signature _
    | exact sim_optional (sim_string _)
    | exact sim_sequence (sim_uint32 _)
    | exact sim_narrowed_sequence _ _ _
    | exact sim_symbol fuel fuel2 k hk
    | exact sim_type fuel fuel2 k hk
    | exact sim_value fuel fuel2 k hk
    | exact sim_sequence (sim_value fuel fuel2 k hk)
    | exact sim_sequence (sim_symbol fuel fuel2 k hk)
    | exact sim_optional (sim_value fuel fuel2 k hk)
    | exact sim_optional (sim_symbol fuel fuel2 k hk)
    | exact sim_memory_order _
    | exact sim_binary_operator _
    | exact sim_comparison_operator _
    | exact sim_conversion_operator _
    | exact sim_function_type fuel fuel2 k hk
    | exact sim_top_symbol fuel fuel2 k hk
    | exact sim_member_symbol fuel fuel2 k hk
    | apply Sim.bind
    | apply Sim.ite_of_both
    | intro _)

theorem sim_next : ∀ (fuel fuel2 k : Nat), k ≤ fuel2 ∨ fuel ≤ fuel2 →
    Sim k (next fuel) (next fuel2) := by
  intro fuel
  induction fuel with
  | zero =>
    intro fuel2 k _
    rw [next]
    exact Sim.fail _ _ _
  | succ fuel ih =>
    have body : ∀ (fuel2 k : Nat), k ≤ fuel2 + 1 ∨ fuel + 1 ≤ fuel2 + 1 →
        Sim k (next (fuel + 1)) (next (fuel2 + 1)) := by
      intro fuel2 k hk
      rw [next, next]
      have hk1 : k - 1 ≤ fuel2 ∨ fuel ≤ fuel2 := by omega
      refine Sim.after_tag (fun t => ?_)
      repeat (with_reducible first
        | exact Sim.pure _ _
        | exact Sim.of_fatal_error _ _ _
        | exact Sim.of_value_of _ _
        | exact Sim.of_precondition _ _ _
        | exact Sim.of_get _ Decoder.framed_u8
        | exact Sim.of_get _ Decoder.framed_unsigned_leb128
        | exact Sim.of_get _ Decoder.framed_signed_leb128
        | exact sim_boolean _
        | exact sim_uint32 _
        | exact sim_local _
        | exact sim_scope_identifier _
        | exact sim_string _
        | exact sim_signature _
        | exact sim_optional (sim_string _)
        | exact sim_sequence (sim_uint32 _)
        | exact sim_narrowed_sequence _ _ _
        | exact sim_value fuel fuel2 (k - 1) hk1
        | exact sim_sequence (sim_value fuel fuel2 (k - 1) hk1)
        | exact sim_label_argument fuel fuel2 (k - 1) hk1
        | exact ih fuel2 (k - 1) hk1
        | apply Sim.bind
        | apply Sim.ite_of_both
        | intro _)
    intro fuel2 k hk
    cases fuel2 with
    | zero =>
      have hk0 : k = 0 := by omega
      subst hk0
      exact Sim.zero_any _ (body 0 0 (by omega))
    | succ fuel2 => exact body fuel2 k (by omega)

theorem sim_linktime_condition (k : Nat) : Sim k linktime_condition linktime_condition := by
  unfold linktime_condition
  exact Sim.of_fatal_error _ _ _

theorem sim_attribute (k : Nat) : Sim k attribute_ attribute_ := by
  unfold attribute_
  repeat (with_reducible first
    | exact Sim.pure _ _
    | exact Sim.of_fatal_error _ _ _
    | exact Sim.of_value_of _ _
    | exact Sim.of_precondition _ _ _
    | exact Sim.of_get _ Decoder.framed_u8
    | exact Sim.of_get _ Decoder.framed_unsigned_leb128
    | exact Sim.of_get _ Decoder.framed_signed_leb128
    | exact sim_boolean _
    | exact sim_uint32 _
    | exact sim_local _
    | exact sim_scope_identifier _
    | exact sim_string _
    | exact sim_signature _
    | exact sim_optional (sim_string _)
    | exact sim_sequence (sim_uint32 _)
    | exact sim_narrowed_sequence _ _ _
    | apply Sim.bind
    | apply Sim.ite_of_both
    | intro _)

theorem sim_source_position (k : Nat) : Sim k source_position source_position := by
  unfold source_position
  repeat (with_reducible first
    | exact Sim.pure _ _
    | exact Sim.of_fatal_error _ _ _
    | exact Sim.of_value_of _ _
    | exact Sim.of_precondition _ _ _
    | exact Sim.of_get _ Decoder.framed_u8
    | exact Sim.of_get _ Decoder.framed_unsigned_leb128
    | exact Sim.of_get _ Decoder.framed_signed_leb128
    | exact sim_boolean _
    | exact sim_uint32 _
    | exact sim_local _
    | exact sim_scope_identifier _
    | exact sim_string _
    | exact sim_signature _
    | exact sim_optional (sim_string _)
    | exact sim_sequence (sim_uint32 _)
    | exact sim_narrowed_sequence _ _ _
    | apply Sim.bind
    | apply Sim.ite_of_both
    | intro _)

theorem sim_lexical_scope (k : Nat) : Sim k lexical_scope lexical_scope := by
  unfold lexical_scope
  repeat (with_reducible first
    | exact Sim.pure _ _
    | exact Sim.of_fatal_error _ _ _
    | exact Sim.of_value_of _ _
    | exact Sim.of_precondition _ _ _
    | exact Sim.of_get _ Decoder.framed_u8
    | exact Sim.of_get _ Decoder.framed_unsigned_leb128
    | exact Sim.of_get _ Decoder.framed_signed_leb128
    | exact sim_boolean _
    | exact sim_uint32 _
    | exact sim_local _
    | exact sim_scope_identifier _
    | exact sim_string _
    | exact sim_signature _
    | exact sim_optional (sim_string _)
    | exact sim_sequence (sim_uint32 _)
    | exact sim_narrowed_sequence _ _ _
    | exact sim_source_position _
    | apply Sim.bind
    | apply Sim.ite_of_both
    | intro _)

theorem sim_local_name_loop (k : Nat) : ∀ (count : Nat) (r : List (Local × Bytes)),
    Sim k (local_name_loop count r) (local_name_loop count r) := by
  intro count
  induction count with
  | zero => intro r; exact Sim.pure _ _
  | succ n ih =>
    intro r
    rw [local_name_loop]
    exact Sim.bind (sim_local k) (fun _ => Sim.bind (sim_string k) (fun _ => ih _))

theorem sim_local_name (k : Nat) : Sim k local_name local_name := by
  unfold local_name
  exact Sim.bind (Sim.of_get k Decoder.framed_unsigned_leb128)
    (fun n => sim_local_name_loop k n [])

theorem sim_debug (k : Nat) : Sim k debug debug := by
  unfold debug
  exact Sim.bind (sim_local_name k)
    (fun _ => Sim.bind (sim_sequence (sim_lexical_scope k)) (fun _ => Sim.pure _ _))

theorem sim_instruction (fuel fuel2 k : Nat) (hk : k ≤ fuel2 ∨ fuel ≤ fuel2) :
    Sim k (instruction fuel) (instruction fuel2) := by
  unfold instruction
  repeat (with_reducible first
    | exact Sim.pure _ _
    | exact Sim.of_fatal_error _ _ _
    | exact Sim.of_value_of _ _
    | exact Sim.of_precondition _ _ _
    | exact Sim.of_get _ Decoder.framed_u8
    | exact Sim.of_get _ Decoder.framed_unsigned_leb128
    | exact Sim.of_get _ Decoder.framed_signed_leb128
    | exact sim_boolean _
    | exact sim_uint32 _
    | exact sim_local _
    | exact sim_scope_identifier _
    | exact sim_string _
    | exact sim_signature _
    | exact sim_optional (sim_string _)
    | exact sim_sequence (sim_uint32 _)
    | exact sim_narrowed_sequence _ _ _
    | exact sim_symbol fuel fuel2 k hk
    | exact sim_type fuel fuel2 k hk
    | exact sim_value fuel fuel2 k hk
    | exact sim_sequence (sim_value fuel fuel2 k hk)
    | exact sim_sequence (sim_symbol fuel fuel2 k hk)
    | exact sim_optional (sim_value fuel fuel2 k hk)
    | exact sim_optional (sim_symbol fuel fuel2 k hk)
    | exact sim_source_position _
    | exact sim_linktime_condition _
    | exact sim_operation fuel fuel2 k hk
    | exact sim_next fuel fuel2 k hk
    | exact sim_sequence (sim_next fuel fuel2 k hk)
    | exact sim_sequence (sim_label_argument fuel fuel2 k hk)
    | apply Sim.bind
    | apply Sim.ite_of_both
    | intro _)

theorem sim_definition (fuel fuel2 k : Nat) (hk : k ≤ fuel2 ∨ fuel ≤ fuel2) :
    Sim k (definition fuel) (definition fuel2) := by
  unfold definition
  repeat (with_reducible first
    | exact Sim.pure _ _
    | exact Sim.of_fatal_error _ _ _
    | exact Sim.of_value_of _ _
    | exact Sim.of_precondition _ _ _
    | exact Sim.of_get _ Decoder.framed_u8
    | exact Sim.of_get _ Decoder.framed_unsigned_leb128
    | exact Sim.of_get _ Decoder.framed_signed_leb128
    | exact sim_boolean _
    | exact sim_uint32 _
    | exact sim_local _
    | exact sim_scope_identifier _
    | exact sim_string _
    | exact sim_signature _
    | exact sim_optional (sim_string _)
    | exact sim_sequence (sim_uint32 _)
    | exact sim_narrowed_sequence _ _ _
    | exact sim_symbol fuel fuel2 k hk
    | exact sim_type fuel fuel2 k hk
    | exact sim_value fuel fuel2 k hk
    | exact sim_sequence (sim_value fuel fuel2 k hk)
    | exact sim_sequence (sim_symbol fuel fuel2 k hk)
    | exact sim_optional (sim_value fuel fuel2 k hk)
    | exact sim_optional (sim_symbol fuel fuel2 k hk)
    | exact sim_source_position _
    | exact sim_debug _
    | exact sim_sequence (sim_attribute _)
    | exact sim_function_type fuel fuel2 k hk
    | exact sim_top_symbol fuel fuel2 k hk
    | exact sim_member_symbol fuel fuel2 k hk
    | exact sim_sequence (sim_instruction fuel fuel2 k hk)
    | apply Sim.bind
    | apply Sim.ite_of_both
    | intro _)

end Deserializer

/-! ## The file: a header, then definitions to the end of the source -/

/-- A header that decodes starts with the file identifier, holds twelve bytes and leaves
the cursor at offset 12. -/
theorem Header.decode_ok_inv (contents : List UInt8) (header : Header) (d3 : Decoder)
    (h : Header.decode ⟨contents, 0, Endian.big⟩ = Except.ok (header, d3)) :
    ∃ b4 b5 b6 b7 b8 b9 b10 b11 tail,
      contents = 0x2E :: 0x4E :: 0x49 :: 0x52 :: b4 :: b5 :: b6 :: b7 :: b8 :: b9 :: b10 ::
        b11 :: tail ∧
      header = ⟨be_i32 b4 b5 b6 b7, be_i32 b8 b9 b10 b11, true⟩ ∧
      d3 = ⟨contents, 12, Endian.big⟩ := by
  obtain ⟨hiff, hok, _⟩ := Header.decode_at_start contents
  obtain ⟨hlen, hmagic⟩ := hiff.mp ⟨_, h⟩
  rcases contents with _ | ⟨c0, _ | ⟨c1, _ | ⟨c2, _ | ⟨c3, _ | ⟨b4, _ | ⟨b5, _ | ⟨b6,
    _ | ⟨b7, _ | ⟨b8, _ | ⟨b9, _ | ⟨b10, _ | ⟨b11, tail⟩⟩⟩⟩⟩⟩⟩⟩⟩⟩⟩⟩ <;>
    simp only [List.length_cons, List.length_nil] at hlen <;> try omega
  simp only [List.take_succ_cons, List.take_zero, List.cons.injEq, and_true] at hmagic
  obtain ⟨rfl, rfl, rfl, rfl⟩ := hmagic
  rw [hok b4 b5 b6 b7 b8 b9 b10 b11 tail rfl] at h
  simp only [Except.ok.injEq, Prod.mk.injEq] at h
  exact ⟨b4, b5, b6, b7, b8, b9, b10, b11, tail, rfl, h.1.symm, h.2.symm⟩

theorem File.from_contents_eq (contents : List UInt8) :
    File.from_contents contents =
      match Header.decode ⟨contents, 0, Endian.big⟩ with
      | Except.error e => Except.error e
      | Except.ok (header, source) =>
        match File.read_definitions (contents.length + 1) (contents.length + 1)
          ⟨⟨source.source, source.position, Endian.little⟩, [], [], [], []⟩ [] with
        | Except.error e => Except.error e
        | Except.ok (definitions, ds) => Except.ok (⟨header, definitions⟩, ds) := rfl

/-- After the header, the file is what the loop makes of the bytes from offset 12 on. -/
theorem File.from_contents_of_header (contents : List UInt8) (header : Header) (d3 : Decoder)
    (h : Header.decode ⟨contents, 0, Endian.big⟩ = Except.ok (header, d3)) :
    File.from_contents contents =
      match File.read_definitions (contents.length + 1) (contents.length + 1)
        ⟨⟨contents, 12, Endian.little⟩, [], [], [], []⟩ [] with
      | Except.error e => Except.error e
      | Except.ok (definitions, ds) => Except.ok (⟨header, definitions⟩, ds) := by
  obtain ⟨b4, b5, b6, b7, b8, b9, b10, b11, tail, _, _, hd3⟩ :=
    Header.decode_ok_inv contents header d3 h
  subst hd3
  rw [File.from_contents_eq, h]

namespace Deserializer

theorem sequence_loop_succ {α : Type} (decode : M α) (n : Nat) (ds : Deserializer) :
    sequence_loop decode (n + 1) ds =
      match decode ds with
      | Except.error e => Except.error e
      | Except.ok (x, ds1) =>
        match sequence_loop decode n ds1 with
        | Except.error e => Except.error e
        | Except.ok (xs, ds2) => Except.ok (x :: xs, ds2) := by
  rw [sequence_loop, M.bind_apply]
  cases decode ds with
  | error e => rfl
  | ok p =>
    obtain ⟨x, ds1⟩ := p
    simp only
    rw [M.bind_apply]
    cases sequence_loop decode n ds1 with
    | error e => rfl
    | ok q => rfl

/-- At the end of the source no definition can be read. -/
theorem definition_at_end (depth : Nat) (ds : Deserializer) (h : ds.rest = []) :
    ∃ e, definition depth ds = Except.error e := by
  obtain ⟨e, he⟩ := get_u8_of_end ds h
  unfold definition
  exact ⟨_, M.bind_error _ _ _ _ he⟩

/-- A definition consumes at least one byte. -/
theorem definition_consumes (depth : Nat) (ds ds1 : Deserializer) (d : Definition)
    (h : definition depth ds = Except.ok (d, ds1)) :
    ∃ C E, C <+: ds.rest ∧ C ≠ [] ∧ ds1 = ds.extend C.length E := by
  obtain ⟨C, E, hC, hds1, hrep⟩ :=
    sim_definition depth depth 1 (Or.inr (Nat.le_refl _)) ds d ds1 h
  refine ⟨C, E, hC, fun hnil => ?_, hds1⟩
  subst hnil
  have hfull := (hrep ds1
    ⟨⟨[], 0, ds.source.byte_order⟩, ds.interned_strings, ds.interned_symbols,
      ds.interned_types, ds.interned_values⟩
    (memos_le_refl ds1) (Or.inl ⟨rfl, rfl, rfl, rfl⟩) rfl).1 (by simp) [] rfl
  obtain ⟨e, he⟩ := definition_at_end depth
    ⟨⟨[], 0, ds.source.byte_order⟩, ds.interned_strings, ds.interned_symbols,
      ds.interned_types, ds.interned_values⟩ rfl
  rw [he] at hfull
  cases hfull

theorem is_empty_iff (d : Decoder) : d.is_empty = true ↔ d.position = d.source.length := by
  simp [Decoder.is_empty, Decoder.current_position, Decoder.source_size]

/-- A definition is read from a source that is not empty. -/
theorem definition_not_empty (depth : Nat) (ds ds1 : Deserializer) (d : Definition)
    (h : definition depth ds = Except.ok (d, ds1)) : ds.source.is_empty = false := by
  obtain ⟨C, E, hC, hne, _⟩ := definition_consumes depth ds ds1 d h
  cases hempty : ds.source.is_empty with
  | false => rfl
  | true =>
    rw [is_empty_iff] at hempty
    have hrest : ds.rest = [] := by
      simp [Deserializer.rest, Decoder.rest, hempty]
    rw [hrest] at hC
    exact absurd (List.prefix_nil.mp hC) hne

end Deserializer

/-- What the loop returns: the definitions read one after another, up to a state whose
source is empty. -/
theorem File.read_definitions_sound (depth : Nat) : ∀ (fuel : Nat) (ds : Deserializer)
    (acc defs : List Definition) (dsF : Deserializer),
    File.read_definitions depth fuel ds acc = Except.ok (defs, dsF) →
    ∃ new, defs = acc ++ new ∧
      Deserializer.sequence_loop (Deserializer.definition depth) new.length ds =
        Except.ok (new, dsF) ∧
      dsF.source.is_empty = true := by
  intro fuel
  induction fuel with
  | zero =>
    intro ds acc defs dsF h
    rw [File.read_definitions] at h
    cases h
  | succ fuel ih =>
    intro ds acc defs dsF h
    rw [File.read_definitions] at h
    cases hempty : ds.source.is_empty with
    | true =>
      rw [hempty] at h
      simp only [Bool.not_true, Bool.false_eq_true, if_false, Except.ok.injEq,
        Prod.mk.injEq] at h
      obtain ⟨rfl, rfl⟩ := h
      exact ⟨[], by simp, rfl, hempty⟩
    | false =>
      rw [hempty] at h
      simp only [Bool.not_false, if_true] at h
      cases hdef : Deserializer.definition depth ds with
      | error e => rw [hdef] at h; cases h
      | ok p =>
        obtain ⟨d, ds1⟩ := p
        rw [hdef] at h
        simp only at h
        obtain ⟨new, hdefs, hseq, hend⟩ := ih ds1 (acc ++ [d]) defs dsF h
        refine ⟨d :: new, by rw [hdefs]; simp, ?_, hend⟩
        rw [List.length_cons, Deserializer.sequence_loop_succ, hdef]
        simp only [hseq]

/-- The loop goes through the definitions that can be read one after another. -/
theorem File.read_definitions_of_sequence (depth : Nat) : ∀ (n : Nat) (ds : Deserializer)
    (acc new : List Definition) (dsA : Deserializer) (fuel : Nat),
    Deserializer.sequence_loop (Deserializer.definition depth) n ds = Except.ok (new, dsA) →
    File.read_definitions depth (fuel + n) ds acc =
      File.read_definitions depth fuel dsA (acc ++ new) := by
  intro n
  induction n with
  | zero =>
    intro ds acc new dsA fuel h
    rw [Deserializer.sequence_loop] at h
    simp only [M.pure_apply, Except.ok.injEq, Prod.mk.injEq] at h
    obtain ⟨rfl, rfl⟩ := h
    simp
  | succ n ih =>
    intro ds acc new dsA fuel h
    rw [Deserializer.sequence_loop_succ] at h
    cases hdef : Deserializer.definition depth ds with
    | error e => rw [hdef] at h; cases h
    | ok p =>
      obtain ⟨d, ds1⟩ := p
      rw [hdef] at h
      simp only at h
      cases hseq : Deserializer.sequence_loop (Deserializer.definition depth) n ds1 with
      | error e => rw [hseq] at h; cases h
      | ok q =>
        obtain ⟨xs, ds2⟩ := q
        rw [hseq] at h
        simp only [Except.ok.injEq, Prod.mk.injEq] at h
        obtain ⟨rfl, rfl⟩ := h
        rw [show fuel + (n + 1) = (fuel + n) + 1 from rfl, File.read_definitions,
          Deserializer.definition_not_empty depth ds ds1 d hdef]
        simp only [Bool.not_false, if_true, hdef]
        rw [ih ds1 (acc ++ [d]) xs ds2 fuel hseq]
        simp

/-- Each definition of a sequence consumes at least one byte. -/
theorem Deserializer.definitions_consume (depth : Nat) : ∀ (n : Nat) (ds : Deserializer)
    (new : List Definition) (dsA : Deserializer),
    Deserializer.sequence_loop (Deserializer.definition depth) n ds = Except.ok (new, dsA) →
    ds.source.position + n ≤ dsA.source.position := by
  intro n
  induction n with
  | zero =>
    intro ds new dsA h
    rw [Deserializer.sequence_loop] at h
    simp only [M.pure_apply, Except.ok.injEq, Prod.mk.injEq] at h
    obtain ⟨_, rfl⟩ := h
    omega
  | succ n ih =>
    intro ds new dsA h
    rw [Deserializer.sequence_loop_succ] at h
    cases hdef : Deserializer.definition depth ds with
    | error e => rw [hdef] at h; cases h
    | ok p =>
      obtain ⟨d, ds1⟩ := p
      rw [hdef] at h
      simp only at h
      cases hseq : Deserializer.sequence_loop (Deserializer.definition depth) n ds1 with
      | error e => rw [hseq] at h; cases h
      | ok q =>
        obtain ⟨xs, ds2⟩ := q
        rw [hseq] at h
        simp only [Except.ok.injEq, Prod.mk.injEq] at h
        obtain ⟨_, rfl⟩ := h
        obtain ⟨C, E, _, hne, hds1⟩ := Deserializer.definition_consumes depth ds ds1 d hdef
        have hpos := ih ds1 xs ds2 hseq
        rw [hds1, Deserializer.position_extend] at hpos
        have : 0 < C.length := List.length_pos.mpr hne
        omega

/-- A file that decodes: its header, then definitions read one after another from offset
12 to the end of the source. -/
theorem File.from_contents_sound (contents : List UInt8) (file : File) (ds : Deserializer)
    (h : File.from_contents contents = Except.ok (file, ds)) :
    Header.decode ⟨contents, 0, Endian.big⟩ =
      Except.ok (file.header, ⟨contents, 12, Endian.big⟩) ∧
    Deserializer.sequence_loop (Deserializer.definition (contents.length + 1))
      file.definitions.length ⟨⟨contents, 12, Endian.little⟩, [], [], [], []⟩ =
        Except.ok (file.definitions, ds) ∧
    ds.source.source = contents ∧ ds.source.position = contents.length := by
  cases hdr : Header.decode ⟨contents, 0, Endian.big⟩ with
  | error e => rw [File.from_contents_eq, hdr] at h; cases h
  | ok p =>
    obtain ⟨header, d3⟩ := p
    obtain ⟨b4, b5, b6, b7, b8, b9, b10, b11, tail, _, _, hd3⟩ :=
      Header.decode_ok_inv contents header d3 hdr
    subst hd3
    rw [File.from_contents_of_header contents header _ hdr] at h
    cases hloop : File.read_definitions (contents.length + 1) (contents.length + 1)
        ⟨⟨contents, 12, Endian.little⟩, [], [], [], []⟩ [] with
    | error e => rw [hloop] at h; cases h
    | ok q =>
      obtain ⟨defs, dsF⟩ := q
      rw [hloop] at h
      simp only [Except.ok.injEq, Prod.mk.injEq] at h
      obtain ⟨rfl, rfl⟩ := h
      obtain ⟨new, hdefs, hseq, hend⟩ := File.read_definitions_sound _ _ _ _ _ _ hloop
      simp only [List.nil_append] at hdefs
      subst hdefs
      obtain ⟨C, E, _, hshape, _⟩ := Deserializer.sim_sequence_loop
        (Deserializer.sim_definition (contents.length + 1) (contents.length + 1) 0
          (Or.inr (Nat.le_refl _))) _ _ _ _ hseq
      have hsrc : dsF.source.source = contents := by rw [hshape]; rfl
      refine ⟨rfl, hseq, hsrc, ?_⟩
      rw [Deserializer.is_empty_iff] at hend
      rw [hend, hsrc]

/-- Definitions that can be read one after another from offset 12 to the end of the source,
with whatever depth of recursion, make the file. -/
theorem File.from_contents_complete (depth : Nat) (contents : List UInt8) (header : Header)
    (d3 : Decoder) (n : Nat) (defs : List Definition) (ds : Deserializer)
    (hheader : Header.decode ⟨contents, 0, Endian.big⟩ = Except.ok (header, d3))
    (hchain : Deserializer.sequence_loop (Deserializer.definition depth) n
      ⟨⟨contents, 12, Endian.little⟩, [], [], [], []⟩ = Except.ok (defs, ds))
    (hend : ds.source.position = contents.length) :
    File.from_contents contents = Except.ok (⟨header, defs⟩, ds) := by
  rw [File.from_contents_of_header contents header d3 hheader]
  have hn := Deserializer.definitions_consume depth n _ defs ds hchain
  obtain ⟨C, E, hC, hshape, hrep⟩ := Deserializer.sim_sequence_loop
    (Deserializer.sim_definition depth (contents.length + 1) (contents.length + 1)
      (Or.inl (Nat.le_refl _))) n _ defs ds hchain
  have hClen : C.length < contents.length + 1 := by
    have := hC.length_le
    simp only [Deserializer.rest, Decoder.rest, List.length_drop] at this
    omega
  obtain ⟨t, ht⟩ := hC
  have hchain2 := (hrep ds ⟨⟨contents, 12, Endian.little⟩, [], [], [], []⟩
    (Deserializer.memos_le_refl ds) (Or.inl ⟨rfl, rfl, rfl, rfl⟩) rfl).1 hClen t ht.symm
  rw [← hshape] at hchain2
  have hsrc : ds.source.source = contents := by rw [hshape]; rfl
  simp only at hn
  have hloop := File.read_definitions_of_sequence (contents.length + 1) n
    ⟨⟨contents, 12, Endian.little⟩, [], [], [], []⟩ [] defs ds (contents.length - n + 1) hchain2
  rw [show contents.length - n + 1 + n = contents.length + 1 by omega] at hloop
  rw [hloop, File.read_definitions,
    (Deserializer.is_empty_iff ds.source).mpr (by rw [hsrc]; exact hend)]
  simp

theorem take_of_prefix_rest {C : List UInt8} (a : Nat) (ha : a < C.length) :
    ∀ (rest : List UInt8), C <+: rest → rest.take a <+: C ∧ rest.take a ≠ C ∧
      (rest.take a).length = a := by
  intro rest hC
  obtain ⟨u, rfl⟩ := hC
  rw [List.take_append_of_le_length (Nat.le_of_lt ha)]
  have hlen : (C.take a).length = a := by rw [List.length_take]; omega
  exact ⟨List.take_prefix _ _, fun hc => by rw [hc] at hlen; omega, hlen⟩

/-- A source cut inside a record: when the definitions read one after another from offset
12 reach the state `dsA` and one more definition is read from there, the file made of the
first `j` bytes, where `j` lies strictly inside the bytes of that last definition, ends
with an exception or an abort. -/
theorem File.from_contents_truncated (depth : Nat) (contents : List UInt8) (header : Header)
    (d3 : Decoder) (n : Nat) (defs : List Definition) (dsA dsB : Deserializer)
    (d : Definition) (j : Nat)
    (hheader : Header.decode ⟨contents, 0, Endian.big⟩ = Except.ok (header, d3))
    (hchain : Deserializer.sequence_loop (Deserializer.definition depth) n
      ⟨⟨contents, 12, Endian.little⟩, [], [], [], []⟩ = Except.ok (defs, dsA))
    (hnext : Deserializer.definition depth dsA = Except.ok (d, dsB))
    (hlo : dsA.source.position < j) (hhi : j < dsB.source.position) :
    ∃ e, File.from_contents (contents.take j) = Except.error e ∧ e.is_fatal = true := by
  obtain ⟨hiff, _, _⟩ := Header.decode_at_start contents
  obtain ⟨hlen12, hmagic⟩ := hiff.mp ⟨_, hheader⟩
  have hn := Deserializer.definitions_consume depth n _ defs dsA hchain
  simp only at hn
  obtain ⟨C, E, hC, hshapeA, hrepA⟩ := Deserializer.sim_sequence_loop
    (Deserializer.sim_definition depth (j + 1) (j + 1) (Or.inl (Nat.le_refl _)))
    n _ defs dsA hchain
  obtain ⟨Cd, Ed, hCd, hshapeB, hrepB⟩ :=
    Deserializer.sim_definition depth (j + 1) (j + 1) (Or.inl (Nat.le_refl _)) dsA d dsB hnext
  have hposA : dsA.source.position = 12 + C.length := by rw [hshapeA]; rfl
  have hposB : dsB.source.position = 12 + C.length + Cd.length := by
    rw [hshapeB, Deserializer.position_extend, hposA]
  obtain ⟨t, ht⟩ := hC
  have ht2 : contents.drop 12 = C ++ t := ht.symm
  have hrestA : dsA.rest = t := by
    rw [hshapeA, Deserializer.rest_extend]
    show List.drop C.length (contents.drop 12) = t
    rw [ht2, List.drop_left]
  rw [hrestA] at hCd
  have hlen : 12 + C.length + t.length = contents.length ∨ contents.length < 12 := by
    have := congrArg List.length ht2
    rw [List.length_drop, List.length_append] at this
    omega
  have hCdt := hCd.length_le
  have hCdpos : 0 < Cd.length := by omega
  have hjlen : j ≤ contents.length := by omega
  have hTlen : (contents.take j).length = j := by rw [List.length_take]; omega
  -- the header of the truncated source
  obtain ⟨hiffT, _, _⟩ := Header.decode_at_start (contents.take j)
  obtain ⟨⟨headerT, d3T⟩, hheaderT⟩ := hiffT.mpr
    ⟨by omega, by rw [List.take_take, Nat.min_eq_left (by omega)]; exact hmagic⟩
  rw [File.from_contents_of_header _ headerT d3T hheaderT, hTlen]
  -- the definitions before the cut are read again
  have hrestT : (contents.take j).drop 12 = C ++ t.take (j - 12 - C.length) := by
    rw [List.drop_take, ht2, List.take_append_eq_append_take,
      List.take_of_length_le (by omega)]
  have hchainT := (hrepA dsA ⟨⟨contents.take j, 12, Endian.little⟩, [], [], [], []⟩
    (Deserializer.memos_le_refl dsA) (Or.inl ⟨rfl, rfl, rfl, rfl⟩) rfl).1 (by omega)
    (t.take (j - 12 - C.length)) hrestT
  have hloop := File.read_definitions_of_sequence (j + 1) n
    ⟨⟨contents.take j, 12, Endian.little⟩, [], [], [], []⟩ [] defs _ (j - n + 1) hchainT
  rw [show j - n + 1 + n = j + 1 by omega] at hloop
  rw [hloop, File.read_definitions]
  -- the state at the cut is not at the end of the source, and the definition fails there
  have hnotempty : (Deserializer.extend ⟨⟨contents.take j, 12, Endian.little⟩, [], [], [], []⟩
      C.length E).source.is_empty = false := by
    cases hempty : (Deserializer.extend ⟨⟨contents.take j, 12, Endian.little⟩, [], [], [], []⟩
      C.length E).source.is_empty with
    | false => rfl
    | true =>
      rw [Deserializer.is_empty_iff] at hempty
      have hp : (Deserializer.extend ⟨⟨contents.take j, 12, Endian.little⟩, [], [], [], []⟩
          C.length E).source.position = 12 + C.length := rfl
      have hs : (Deserializer.extend ⟨⟨contents.take j, 12, Endian.little⟩, [], [], [], []⟩
          C.length E).source.source = contents.take j := rfl
      rw [hp, hs, hTlen] at hempty
      omega
  rw [hnotempty]
  simp only [Bool.not_false, if_true]
  have hrestAT : (Deserializer.extend ⟨⟨contents.take j, 12, Endian.little⟩, [], [], [], []⟩
      C.length E).rest = t.take (j - 12 - C.length) := by
    rw [Deserializer.rest_extend]
    show List.drop C.length ((contents.take j).drop 12) = _
    rw [hrestT, List.drop_left]
  obtain ⟨hpre, hne, hlenC1⟩ := take_of_prefix_rest (j - 12 - C.length) (by omega) t hCd
  have hsame : dsA.same_memos
      (Deserializer.extend ⟨⟨contents.take j, 12, Endian.little⟩, [], [], [], []⟩
        C.length E) := by
    rw [hshapeA]
    exact ⟨rfl, rfl, rfl, rfl⟩
  have hbo : (Deserializer.extend ⟨⟨contents.take j, 12, Endian.little⟩, [], [], [], []⟩
      C.length E).source.byte_order = dsA.source.byte_order := by
    rw [hshapeA]
    rfl
  obtain ⟨e, he, hfatal⟩ := (hrepB dsB _ (Deserializer.memos_le_refl dsB) (Or.inl hsame)
    hbo).2 (t.take (j - 12 - C.length)) (by omega) hpre hne hrestAT
  rw [he]
  exact ⟨e, rfl, hfatal⟩

/-- C10: `File::from_contents_of` on the bytes `contents`.

* On success the header was decoded from the first twelve bytes, the returned definitions
  are exactly the results of `definition()` called one after another from offset 12, in
  that order (`sequence_loop` runs `definition()` that many times), the state reached is
  the one the decoding ends in, and its cursor equals the length of the source.
* Conversely, when the header decodes and definitions can be read one after another from
  offset 12 up to a state whose cursor equals the length of the source, whatever the depth
  of recursion that takes, the file is returned with these definitions.
* A trailing partial record: when the definitions read one after another from offset 12
  reach a state `dsA` from which one more definition can be read, ending in `dsB`, the
  file made of the first `j` bytes only, `j` lying strictly between the cursors of `dsA`
  and `dsB`, is not returned: the decoding ends with an exception or an abort. -/
theorem file_decoding_reads_definitions_to_the_end (contents : List UInt8) :
    (∀ (file : File) (ds : Deserializer),
      File.from_contents contents = Except.ok (file, ds) →
      Header.decode ⟨contents, 0, Endian.big⟩ =
        Except.ok (file.header, ⟨contents, 12, Endian.big⟩) ∧
      Deserializer.sequence_loop (Deserializer.definition (contents.length + 1))
        file.definitions.length ⟨⟨contents, 12, Endian.little⟩, [], [], [], []⟩ =
          Except.ok (file.definitions, ds) ∧
      ds.source.source = contents ∧ ds.source.position = contents.length) ∧
    (∀ (depth : Nat) (header : Header) (d3 : Decoder) (n : Nat) (defs : List Definition)
      (ds : Deserializer),
      Header.decode ⟨contents, 0, Endian.big⟩ = Except.ok (header, d3) →
      Deserializer.sequence_loop (Deserializer.definition depth) n
        ⟨⟨contents, 12, Endian.little⟩, [], [], [], []⟩ = Except.ok (defs, ds) →
      ds.source.position = contents.length →
      File.from_contents contents = Except.ok (⟨header, defs⟩, ds)) ∧
    (∀ (depth : Nat) (header : Header) (d3 : Decoder) (n : Nat) (defs : List Definition)
      (dsA dsB : Deserializer) (d : Definition) (j : Nat),
      Header.decode ⟨contents, 0, Endian.big⟩ = Except.ok (header, d3) →
      Deserializer.sequence_loop (Deserializer.definition depth) n
        ⟨⟨contents, 12, Endian.little⟩, [], [], [], []⟩ = Except.ok (defs, dsA) →
      Deserializer.definition depth dsA = Except.ok (d, dsB) →
      dsA.source.position < j → j < dsB.source.position →
      ∃ e, File.from_contents (contents.take j) = Except.error e ∧ e.is_fatal = true) :=
  ⟨File.from_contents_sound contents,
   fun depth header d3 n defs ds => File.from_contents_complete depth contents header d3 n defs ds,
   fun depth header d3 n defs dsA dsB d j =>
     File.from_contents_truncated depth contents header d3 n defs dsA dsB d j⟩

set_option maxHeartbeats 2000000

/-- C10 on a file of 22 bytes: the header `2E 4E 49 52 00 00 00 01 00 00 00 02` and one
record `04 00 01 02 01 58 00 00 00 00`, a trait named "X" without attributes nor bases at
a virtual position. The record read from offset 12 ends at offset 22, the length of the
source, so the file is returned with this one definition, which is the result of the one
call of `definition()` from offset 12, and the cursor ends at offset 22; the file made of
the first 15 bytes, which end inside the record, is not returned. -/
theorem file_decoding_reads_definitions_to_the_end_witness :
    File.from_contents
        [0x2E, 0x4E, 0x49, 0x52, 0, 0, 0, 1, 0, 0, 0, 2, 4, 0, 1, 2, 1, 0x58, 0, 0, 0, 0] =
      Except.ok (⟨⟨1, 2, true⟩,
          [Definition.trait ⟨0, []⟩ ⟨[0x58]⟩ [] ⟨SourceFile.virtual_, 0, 0⟩]⟩,
        ⟨⟨[0x2E, 0x4E, 0x49, 0x52, 0, 0, 0, 1, 0, 0, 0, 2, 4, 0, 1, 2, 1, 0x58, 0, 0, 0, 0],
            22, Endian.little⟩, [[0x58]], [Symbol.top ⟨[0x58]⟩], [], []⟩) ∧
    (Header.decode
        ⟨[0x2E, 0x4E, 0x49, 0x52, 0, 0, 0, 1, 0, 0, 0, 2, 4, 0, 1, 2, 1, 0x58, 0, 0, 0, 0], 0,
          Endian.big⟩ =
      Except.ok (⟨1, 2, true⟩,
        ⟨[0x2E, 0x4E, 0x49, 0x52, 0, 0, 0, 1, 0, 0, 0, 2, 4, 0, 1, 2, 1, 0x58, 0, 0, 0, 0], 12,
          Endian.big⟩) ∧
      Deserializer.sequence_loop (Deserializer.definition 23) 1
        ⟨⟨[0x2E, 0x4E, 0x49, 0x52, 0, 0, 0, 1, 0, 0, 0, 2, 4, 0, 1, 2, 1, 0x58, 0, 0, 0, 0],
            12, Endian.little⟩, [], [], [], []⟩ =
        Except.ok ([Definition.trait ⟨0, []⟩ ⟨[0x58]⟩ [] ⟨SourceFile.virtual_, 0, 0⟩],
          ⟨⟨[0x2E, 0x4E, 0x49, 0x52, 0, 0, 0, 1, 0, 0, 0, 2, 4, 0, 1, 2, 1, 0x58, 0, 0, 0, 0],
              22, Endian.little⟩, [[0x58]], [Symbol.top ⟨[0x58]⟩], [], []⟩)) ∧
    ∃ e, File.from_contents (List.take 15
        [0x2E, 0x4E, 0x49, 0x52, 0, 0, 0, 1, 0, 0, 0, 2, 4, 0, 1, 2, 1, 0x58, 0, 0, 0, 0]) =
      Except.error e ∧ e.is_fatal = true := by
  have hdef : Deserializer.definition 1
      ⟨⟨[0x2E, 0x4E, 0x49, 0x52, 0, 0, 0, 1, 0, 0, 0, 2, 4, 0, 1, 2, 1, 0x58, 0, 0, 0, 0],
          12, Endian.little⟩, [], [], [], []⟩ =
      Except.ok (Definition.trait ⟨0, []⟩ ⟨[0x58]⟩ [] ⟨SourceFile.virtual_, 0, 0⟩,
        ⟨⟨[0x2E, 0x4E, 0x49, 0x52, 0, 0, 0, 1, 0, 0, 0, 2, 4, 0, 1, 2, 1, 0x58, 0, 0, 0, 0],
            22, Endian.little⟩, [[0x58]], [Symbol.top ⟨[0x58]⟩], [], []⟩) := by
    rfl
  have hseq : Deserializer.sequence_loop (Deserializer.definition 1) 1
      ⟨⟨[0x2E, 0x4E, 0x49, 0x52, 0, 0, 0, 1, 0, 0, 0, 2, 4, 0, 1, 2, 1, 0x58, 0, 0, 0, 0],
          12, Endian.little⟩, [], [], [], []⟩ =
      Except.ok ([Definition.trait ⟨0, []⟩ ⟨[0x58]⟩ [] ⟨SourceFile.virtual_, 0, 0⟩],
        ⟨⟨[0x2E, 0x4E, 0x49, 0x52, 0, 0, 0, 1, 0, 0, 0, 2, 4, 0, 1, 2, 1, 0x58, 0, 0, 0, 0],
            22, Endian.little⟩, [[0x58]], [Symbol.top ⟨[0x58]⟩], [], []⟩) := by
    rw [Deserializer.sequence_loop_succ, hdef]
    rfl
  have hheader : Header.decode
      ⟨[0x2E, 0x4E, 0x49, 0x52, 0, 0, 0, 1, 0, 0, 0, 2, 4, 0, 1, 2, 1, 0x58, 0, 0, 0, 0], 0,
        Endian.big⟩ =
      Except.ok (⟨1, 2, true⟩,
        ⟨[0x2E, 0x4E, 0x49, 0x52, 0, 0, 0, 1, 0, 0, 0, 2, 4, 0, 1, 2, 1, 0x58, 0, 0, 0, 0], 12,
          Endian.big⟩) :=
    (Header.decode_at_start _).2.1 0 0 0 1 0 0 0 2 _ rfl
  have hfile := (file_decoding_reads_definitions_to_the_end
      [0x2E, 0x4E, 0x49, 0x52, 0, 0, 0, 1, 0, 0, 0, 2, 4, 0, 1, 2, 1, 0x58, 0, 0, 0, 0]).2.1
      1 _ _ 1 _ _ hheader hseq rfl
  have hsound := (file_decoding_reads_definitions_to_the_end
      [0x2E, 0x4E, 0x49, 0x52, 0, 0, 0, 1, 0, 0, 0, 2, 4, 0, 1, 2, 1, 0x58, 0, 0, 0, 0]).1 _ _ hfile
  exact ⟨hfile, ⟨hsound.1, hsound.2.1⟩,
    (file_decoding_reads_definitions_to_the_end
      [0x2E, 0x4E, 0x49, 0x52, 0, 0, 0, 1, 0, 0, 0, 2, 4, 0, 1, 2, 1, 0x58, 0, 0, 0, 0]).2.2
      1 _ _ 0 [] _ _ _ 15 hheader rfl hdef (by decide) (by decide)⟩

/-! ## Tag dispatch: unrecognized and reserved tags -/

set_option maxRecDepth 8192

theorem ne_of_tag_bound {t c bound : Nat} (ht : bound ≤ t) (hc : c < bound) : ¬ t = c := by
  omega

namespace Deserializer

theorem instruction_rejects_tag (fuel : Nat) (ds : Deserializer) (b : UInt8) (tail : List UInt8)
    (h : ds.rest = b :: tail) (ht : 10 ≤ b.toNat) :
    instruction fuel ds = Except.error (Failure.abort "unexpected tag") := by
  unfold instruction
  rw [M.bind_apply, get_u8_of_rest ds b tail h]
  simp only []
  repeat (rw [if_neg])
  · rfl
  all_goals exact ne_of_tag_bound ht (by decide)

theorem operation_rejects_tag (fuel : Nat) (ds : Deserializer) (b : UInt8) (tail : List UInt8)
    (h : ds.rest = b :: tail) (ht : 36 ≤ b.toNat) :
    operation fuel ds = Except.error (Failure.abort "unexpected tag") := by
  unfold operation
  rw [M.bind_apply, get_u8_of_rest ds b tail h]
  simp only []
  repeat (rw [if_neg])
  · rfl
  all_goals exact ne_of_tag_bound ht (by decide)

theorem binary_operator_rejects_tag (ds : Deserializer) (b : UInt8) (tail : List UInt8)
    (h : ds.rest = b :: tail) (ht : 18 ≤ b.toNat) :
    binary_operator ds = Except.error (Failure.abort "unexpected tag") := by
  unfold binary_operator
  rw [M.bind_apply, get_u8_of_rest ds b tail h]
  simp only []
  repeat (rw [if_neg])
  · rfl
  all_goals exact ne_of_tag_bound ht (by decide)

theorem comparison_operator_rejects_tag (ds : Deserializer) (b : UInt8) (tail : List UInt8)
    (h : ds.rest = b :: tail) (ht : 16 ≤ b.toNat) :
    comparison_operator ds = Except.error (Failure.abort "unexpected tag") := by
  unfold comparison_operator
  rw [M.bind_apply, get_u8_of_rest ds b tail h]
  simp only []
  repeat (rw [if_neg])
  · rfl
  all_goals exact ne_of_tag_bound ht (by decide)

theorem conversion_operator_rejects_tag (ds : Deserializer) (b : UInt8) (tail : List UInt8)
    (h : ds.rest = b :: tail) (ht : 14 ≤ b.toNat) :
    conversion_operator ds = Except.error (Failure.abort "unexpected tag") := by
  unfold conversion_operator
  rw [M.bind_apply, get_u8_of_rest ds b tail h]
  simp only []
  repeat (rw [if_neg])
  · rfl
  all_goals exact ne_of_tag_bound ht (by decide)

theorem attribute_rejects_tag (ds : Deserializer) (b : UInt8) (tail : List UInt8)
    (h : ds.rest = b :: tail) (ht : 22 ≤ b.toNat) :
    attribute_ ds = Except.error (Failure.abort "unexpected tag") := by
  unfold attribute_
  rw [M.bind_apply, get_u8_of_rest ds b tail h]
  simp only []
  repeat (rw [if_neg])
  · rfl
  all_goals exact ne_of_tag_bound ht (by decide)

theorem string_rejects_tag (ds : Deserializer) (b : UInt8) (tail : List UInt8)
    (h : ds.rest = b :: tail) (ht : 4 ≤ b.toNat) :
    string ds = Except.error (Failure.abort "unexpected tag") := by
  unfold string
  rw [M.bind_apply, get_u8_of_rest ds b tail h]
  simp only []
  repeat (rw [if_neg])
  · rfl
  all_goals exact ne_of_tag_bound ht (by decide)

theorem next_rejects_tag (fuel : Nat) (ds : Deserializer) (b : UInt8) (tail : List UInt8)
    (h : ds.rest = b :: tail) (ht : 4 ≤ b.toNat) :
    next (fuel + 1) ds = Except.error (Failure.abort "unexpected tag") := by
  rw [next, M.bind_apply, get_u8_of_rest ds b tail h]
  simp only []
  repeat (rw [if_neg])
  · rfl
  all_goals exact ne_of_tag_bound ht (by decide)

theorem ne_ff_of_le {b : UInt8} (h : b.toNat ≤ 254) : b ≠ 0xFF := by
  intro hc
  rw [hc] at h
  exact absurd h (by decide)

theorem type_rejects_tag (fuel : Nat) (ds : Deserializer) (b : UInt8) (tail : List UInt8)
    (h : ds.rest = b :: tail) (ht : 21 ≤ b.toNat) (hff : b.toNat ≤ 254) :
    type_ (fuel + 1) ds = Except.error (Failure.abort "unexpected tag") := by
  rw [type_]
  apply internable_inline_error _ _ _ _ (rest_ne_ff_of_cons ds b tail h (ne_ff_of_le hff))
  rw [M.bind_apply, get_u8_of_rest ds b tail h]
  simp only []
  repeat (rw [if_neg])
  · rfl
  all_goals exact ne_of_tag_bound ht (by decide)

theorem value_rejects_tag (fuel : Nat) (ds : Deserializer) (b : UInt8) (tail : List UInt8)
    (h : ds.rest = b :: tail) (ht : 23 ≤ b.toNat) (hff : b.toNat ≤ 254) :
    value (fuel + 1) ds = Except.error (Failure.abort "unexpected tag") := by
  rw [value]
  apply internable_inline_error _ _ _ _ (rest_ne_ff_of_cons ds b tail h (ne_ff_of_le hff))
  rw [M.bind_apply, get_u8_of_rest ds b tail h]
  simp only []
  repeat (rw [if_neg])
  · rfl
  all_goals exact ne_of_tag_bound ht (by decide)

theorem symbol_rejects_tag (fuel : Nat) (ds : Deserializer) (b : UInt8) (tail : List UInt8)
    (h : ds.rest = b :: tail) (ht : 3 ≤ b.toNat) (hff : b.toNat ≤ 254) :
    symbol (fuel + 1) ds = Except.error (Failure.abort "unexpected tag") := by
  rw [symbol]
  apply internable_inline_error _ _ _ _ (rest_ne_ff_of_cons ds b tail h (ne_ff_of_le hff))
  rw [M.bind_apply, get_u8_of_rest ds b tail h]
  simp only []
  repeat (rw [if_neg])
  · rfl
  all_goals exact ne_of_tag_bound ht (by decide)

/-- The reserved instruction tag `unwind`. -/
theorem instruction_rejects_unwind (fuel : Nat) (ds : Deserializer) (b : UInt8)
    (tail : List UInt8) (h : ds.rest = b :: tail) (ht : b.toNat = 2) :
    instruction fuel ds = Except.error (Failure.abort "unexpected tag") := by
  unfold instruction
  rw [M.bind_apply, get_u8_of_rest ds b tail h, ht]
  rfl

/-- The reserved value tag `linktime_condition`. -/
theorem value_rejects_linktime_condition (fuel : Nat) (ds : Deserializer) (b : UInt8)
    (tail : List UInt8) (h : ds.rest = b :: tail) (ht : b.toNat = 21) :
    value (fuel + 1) ds = Except.error (Failure.abort "unexpected tag") := by
  rw [value]
  apply internable_inline_error _ _ _ _
    (rest_ne_ff_of_cons ds b tail h (ne_ff_of_le (by omega)))
  rw [M.bind_apply, get_u8_of_rest ds b tail h, ht]
  rfl

/-- An unrecognized definition tag: the attributes are read first, then the dispatch
aborts. -/
theorem definition_rejects_tag (fuel : Nat) (ds : Deserializer) (b : UInt8)
    (tail : List UInt8) (h : ds.rest = b :: tail) (ht : 7 ≤ b.toNat) :
    definition fuel ds =
      match sequence attribute_ (ds.advanced 1) with
      | Except.ok _ => Except.error (Failure.abort "unexpected tag")
      | Except.error e => Except.error e := by
  unfold definition
  rw [M.bind_apply, get_u8_of_rest ds b tail h]
  simp only []
  rw [M.bind_apply]
  cases sequence attribute_ (ds.advanced 1) with
  | error e => rfl
  | ok p =>
    obtain ⟨attrs, ds1⟩ := p
    simp only []
    repeat (rw [if_neg])
    · rfl
    all_goals first
      | exact ne_of_tag_bound ht (by decide)
      | exact not_or.mpr ⟨ne_of_tag_bound ht (by decide), ne_of_tag_bound ht (by decide)⟩

end Deserializer

namespace Deserializer

/-- C11: every tag dispatch rejects an unrecognized tag. With the byte `b` at the cursor:

* `instruction`, `next`, `operation`, `binary_operator`, `comparison_operator`,
  `conversion_operator`, `attribute` and `string` end with the abort "unexpected tag" when
  `b` is at least 10, 4, 36, 18, 16, 14, 22 and 4 respectively (the numbers of tags of
  their categories);
* `type`, `value` and `symbol` do so when `b` lies in 21..254, 23..254 and 3..254 (the byte
  255 announces a back-reference and is not dispatched on);
* the reserved instruction tag `unwind` (2) and the reserved value tag
  `linktime_condition` (21) end with the same abort;
* `definition` reads the sequence of attributes before it dispatches on its tag: with `b`
  at least 7 it returns no definition, ending with the abort "unexpected tag" once the
  attributes are read, or else with the failure met while reading them.

No element is returned in any of these cases. -/
theorem unrecognized_tag_is_fatal (fuel : Nat) (ds : Deserializer) (b : UInt8)
    (tail : List UInt8) (h : ds.rest = b :: tail) :
    (7 ≤ b.toNat → definition fuel ds =
      match sequence attribute_ (ds.advanced 1) with
      | Except.ok _ => Except.error (Failure.abort "unexpected tag")
      | Except.error e => Except.error e) ∧
    (10 ≤ b.toNat ∨ b.toNat = 2 →
      instruction fuel ds = Except.error (Failure.abort "unexpected tag")) ∧
    (21 ≤ b.toNat ∧ b.toNat ≤ 254 →
      type_ (fuel + 1) ds = Except.error (Failure.abort "unexpected tag")) ∧
    (21 ≤ b.toNat ∧ b.toNat ≠ 22 ∧ b.toNat ≤ 254 →
      value (fuel + 1) ds = Except.error (Failure.abort "unexpected tag")) ∧
    (4 ≤ b.toNat → next (fuel + 1) ds = Except.error (Failure.abort "unexpected tag")) ∧
    (36 ≤ b.toNat → operation fuel ds = Except.error (Failure.abort "unexpected tag")) ∧
    (18 ≤ b.toNat → binary_operator ds = Except.error (Failure.abort "unexpected tag")) ∧
    (16 ≤ b.toNat → comparison_operator ds = Except.error (Failure.abort "unexpected tag")) ∧
    (14 ≤ b.toNat → conversion_operator ds = Except.error (Failure.abort "unexpected tag")) ∧
    (22 ≤ b.toNat → attribute_ ds = Except.error (Failure.abort "unexpected tag")) ∧
    (4 ≤ b.toNat → string ds = Except.error (Failure.abort "unexpected tag")) ∧
    (3 ≤ b.toNat ∧ b.toNat ≤ 254 →
      symbol (fuel + 1) ds = Except.error (Failure.abort "unexpected tag")) := by
  refine ⟨definition_rejects_tag fuel ds b tail h, ?_, ?_, ?_,
    next_rejects_tag fuel ds b tail h, operation_rejects_tag fuel ds b tail h,
    binary_operator_rejects_tag ds b tail h, comparison_operator_rejects_tag ds b tail h,
    conversion_operator_rejects_tag ds b tail h, attribute_rejects_tag ds b tail h,
    string_rejects_tag ds b tail h, ?_⟩
  · rintro (ht | ht)
    · exact instruction_rejects_tag fuel ds b tail h ht
    · exact instruction_rejects_unwind fuel ds b tail h ht
  · rintro ⟨hlo, hhi⟩
    exact type_rejects_tag fuel ds b tail h hlo hhi
  · rintro ⟨hlo, hne, hhi⟩
    by_cases h21 : b.toNat = 21
    · exact value_rejects_linktime_condition fuel ds b tail h h21
    · exact value_rejects_tag fuel ds b tail h (by omega) hhi
  · rintro ⟨hlo, hhi⟩
    exact symbol_rejects_tag fuel ds b tail h hlo hhi

/-- C11 on concrete streams: the byte `15` (21) is no type tag, the byte `02` is the
reserved instruction tag, and the definition tag `07` followed by an empty sequence of
attributes is rejected after the attributes. -/
theorem unrecognized_tag_is_fatal_witness :
    type_ 1 ⟨⟨[0x15], 0, Endian.little⟩, [], [], [], []⟩ =
      Except.error (Failure.abort "unexpected tag") ∧
    instruction 0 ⟨⟨[0x02], 0, Endian.little⟩, [], [], [], []⟩ =
      Except.error (Failure.abort "unexpected tag") ∧
    definition 0 ⟨⟨[0x07, 0x00], 0, Endian.little⟩, [], [], [], []⟩ =
      Except.error (Failure.abort "unexpected tag") :=
  ⟨(unrecognized_tag_is_fatal 0 ⟨⟨[0x15], 0, Endian.little⟩, [], [], [], []⟩ 0x15 [] rfl).2.2.1
      ⟨by decide, by decide⟩,
   (unrecognized_tag_is_fatal 0 ⟨⟨[0x02], 0, Endian.little⟩, [], [], [], []⟩ 0x02 [] rfl).2.1
      (Or.inr (by decide)),
   (unrecognized_tag_is_fatal 0 ⟨⟨[0x07, 0x00], 0, Endian.little⟩, [], [], [], []⟩ 0x07 [0x00]
      rfl).1 (by decide)⟩

end Deserializer

/-! ## Operations: the tags the dispatch covers -/

namespace Deserializer

/-- The dispatch of `operation` on a tag it has no case for. -/
theorem operation_missing_case (fuel : Nat) (ds : Deserializer) (b : UInt8) (tail : List UInt8)
    (h : ds.rest = b :: tail)
    (ht : b.toNat = tag.Operation.loadAtomic.raw_value ∨
      b.toNat = tag.Operation.storeAtomic.raw_value ∨
      b.toNat = tag.Operation.classalloc_zone.raw_value ∨
      b.toNat = tag.Operation.arrayalloc_zone.raw_value) :
    operation fuel ds = Except.error (Failure.abort "unexpected tag") := by
  unfold operation
  rw [M.bind_apply, get_u8_of_rest ds b tail h]
  rcases ht with ht | ht | ht | ht <;> rw [ht] <;> rfl

/-- After the tag `load`, `operation` reads a type, a value and a memory order. -/
theorem operation_load (fuel : Nat) (ds : Deserializer) (b : UInt8) (tail : List UInt8)
    (h : ds.rest = b :: tail) (ht : b.toNat = tag.Operation.load.raw_value) :
    operation fuel ds =
      (type_ fuel >>= fun ty => value fuel >>= fun source => memory_order >>= fun ordering =>
        pure (Operation.load ty source (some ordering))) (ds.advanced 1) := by
  unfold operation
  rw [M.bind_apply, get_u8_of_rest ds b tail h, ht]
  rfl

/-- After the tag `store`, `operation` reads a type, two values and a memory order. -/
theorem operation_store (fuel : Nat) (ds : Deserializer) (b : UInt8) (tail : List UInt8)
    (h : ds.rest = b :: tail) (ht : b.toNat = tag.Operation.store.raw_value) :
    operation fuel ds =
      (type_ fuel >>= fun ty => value fuel >>= fun target => value fuel >>= fun source =>
        memory_order >>= fun ordering =>
          pure (Operation.store ty target source (some ordering))) (ds.advanced 1) := by
  unfold operation
  rw [M.bind_apply, get_u8_of_rest ds b tail h, ht]
  rfl

end Deserializer

namespace Deserializer

/-- C12 (fails on the code): `tag::Operation` lists 36 tags, and `operation` has no case
for four of them. The tags `loadAtomic` (2), `storeAtomic` (4), `classalloc_zone` (13)
and `arrayalloc_zone` (31), each followed by a well-formed payload (a type, a value and a
memory order; a type, two values and a memory order; a Top symbol and a zone value; a
type, a value and a zone value), end with the abort "unexpected tag". -/
theorem operation_misses_four_documented_tags :
    (tag.Operation.loadAtomic.raw_value = 2 ∧
      operation 1 ⟨⟨[0x02, 0x06, 0x02, 0x00], 0, Endian.little⟩, [], [], [], []⟩ =
        Except.error (Failure.abort "unexpected tag")) ∧
    (tag.Operation.storeAtomic.raw_value = 4 ∧
      operation 1 ⟨⟨[0x04, 0x06, 0x02, 0x02, 0x00], 0, Endian.little⟩, [], [], [], []⟩ =
        Except.error (Failure.abort "unexpected tag")) ∧
    (tag.Operation.classalloc_zone.raw_value = 13 ∧
      operation 1 ⟨⟨[0x0D, 0x01, 0x02, 0x01, 0x58, 0x02], 0, Endian.little⟩, [], [], [], []⟩ =
        Except.error (Failure.abort "unexpected tag")) ∧
    (tag.Operation.arrayalloc_zone.raw_value = 31 ∧
      operation 1 ⟨⟨[0x1F, 0x06, 0x02, 0x02], 0, Endian.little⟩, [], [], [], []⟩ =
        Except.error (Failure.abort "unexpected tag")) :=
  ⟨⟨rfl, operation_missing_case 1 _ 0x02 _ rfl (Or.inl rfl)⟩,
   ⟨rfl, operation_missing_case 1 _ 0x04 _ rfl (Or.inr (Or.inl rfl))⟩,
   ⟨rfl, operation_missing_case 1 _ 0x0D _ rfl (Or.inr (Or.inr (Or.inl rfl)))⟩,
   ⟨rfl, operation_missing_case 1 _ 0x1F _ rfl (Or.inr (Or.inr (Or.inr rfl)))⟩⟩

/-- C13 (fails on the code): the plain tags `load` (1) and `store` (3) consume a memory
order and put it in the result. On `01 06 02 00` (load, type `int`, value `null`, then the
byte `00`) the result is a `Load` whose ordering is `unordered` and four bytes are
consumed; on `01 06 02`, a complete plain load, the decoding fails for want of a byte; on
`03 06 02 02 05` the result is a `Store` whose ordering is `sequentially_consistent`. -/
theorem plain_load_and_store_read_an_ordering :
    operation 1 ⟨⟨[0x01, 0x06, 0x02, 0x00], 0, Endian.little⟩, [], [], [], []⟩ =
      Except.ok (Operation.load Type_.i32 Value.null (some MemoryOrder.unordered),
        ⟨⟨[0x01, 0x06, 0x02, 0x00], 4, Endian.little⟩, [], [], [], []⟩) ∧
    operation 1 ⟨⟨[0x01, 0x06, 0x02], 0, Endian.little⟩, [], [], [], []⟩ =
      Except.error (Failure.exception ⟨3, "not enough bytes"⟩) ∧
    operation 1 ⟨⟨[0x03, 0x06, 0x02, 0x02, 0x05], 0, Endian.little⟩, [], [], [], []⟩ =
      Except.ok (Operation.store Type_.i32 Value.null Value.null
          (some MemoryOrder.sequentially_consistent),
        ⟨⟨[0x03, 0x06, 0x02, 0x02, 0x05], 5, Endian.little⟩, [], [], [], []⟩) := by
  refine ⟨?_, ?_, ?_⟩
  · rw [operation_load 1 ⟨⟨[0x01, 0x06, 0x02, 0x00], 0, Endian.little⟩, [], [], [], []⟩
      0x01 [0x06, 0x02, 0x00] rfl rfl]
    rfl
  · rw [operation_load 1 ⟨⟨[0x01, 0x06, 0x02], 0, Endian.little⟩, [], [], [], []⟩
      0x01 [0x06, 0x02] rfl rfl]
    rfl
  · rw [operation_store 1 ⟨⟨[0x03, 0x06, 0x02, 0x02, 0x05], 0, Endian.little⟩, [], [], [], []⟩
      0x03 [0x06, 0x02, 0x02, 0x05] rfl rfl]
    rfl

end Deserializer

/-! ## Trait, class and module definitions: the extended traits -/

namespace Deserializer

/-- On a sequence that is not empty, `narrowed_sequence` returns nothing: the projection
of the first element throws when it fails, and its result is otherwise written through
`begin()` of the empty result. -/
theorem narrowed_sequence_cons {α β : Type} (as : α → Option β) (e : α) (s : List α)
    (ds : Deserializer) :
    narrowed_sequence as (e :: s) ds =
      match as e with
      | none => Except.error Failure.bad_optional_access
      | some _ => Except.error
          (Failure.undefined "std::transform writes through begin() of an empty vector") := by
  unfold narrowed_sequence
  simp only []
  rw [M.bind_apply]
  cases h : as e with
  | none => rfl
  | some v => rfl

/-- A trait definition: after the tag and the attributes come the name and the sequence
of the bases, which `narrowed_sequence` projects. -/
theorem definition_trait (fuel : Nat) (ds : Deserializer) (b : UInt8) (tail : List UInt8)
    (h : ds.rest = b :: tail) (ht : b.toNat = tag.Definition.trait.raw_value)
    (attrs : List Attribute) (ds1 : Deserializer)
    (hattrs : sequence attribute_ (ds.advanced 1) = Except.ok (attrs, ds1))
    (name : symbol.Top) (ds2 : Deserializer)
    (hname : top_symbol fuel ds1 = Except.ok (name, ds2))
    (symbols : List Symbol) (ds3 : Deserializer)
    (hsymbols : sequence (symbol fuel) ds2 = Except.ok (symbols, ds3)) :
    definition fuel ds =
      (narrowed_sequence Symbol.as_top symbols >>= fun bases =>
        source_position >>= fun position =>
          pure (Definition.trait (AttributeSet.contents_of attrs) name bases position))
        ds3 := by
  unfold definition
  rw [M.bind_apply, get_u8_of_rest ds b tail h, ht]
  simp only []
  rw [M.bind_apply, hattrs]
  simp only []
  rw [if_neg (by decide), if_neg (by decide), if_neg (by decide), if_pos (by decide)]
  rw [M.bind_apply, hname]
  simp only []
  rw [M.bind_apply, hsymbols]

/-- C14 (fails on the code): `narrowed_sequence` never returns the symbols of a sequence
that is not empty, whatever the projection. The trait definition
`04 00 01 02 01 58 01 01 02 01 59 00 00 00` (no attribute, name "X", one base "Y", which
is a Top, virtual position) does not decode to a definition with one base: the sequence
of symbols is read (the cursor reaches offset 11 and "Y" is memoized), then the projected
element is assigned through `begin()` of an empty vector, which is undefined behaviour. -/
theorem extended_traits_are_written_to_an_empty_vector :
    (∀ (as : Symbol → Option symbol.Top) (e : Symbol) (s : List Symbol) (ds : Deserializer),
      ∃ err, narrowed_sequence as (e :: s) ds = Except.error err) ∧
    sequence (symbol 1)
        ⟨⟨[0x04, 0x00, 0x01, 0x02, 0x01, 0x58, 0x01, 0x01, 0x02, 0x01, 0x59, 0x00, 0x00, 0x00],
          6, Endian.little⟩, [[0x58]], [Symbol.top ⟨[0x58]⟩], [], []⟩ =
      Except.ok ([Symbol.top ⟨[0x59]⟩],
        ⟨⟨[0x04, 0x00, 0x01, 0x02, 0x01, 0x58, 0x01, 0x01, 0x02, 0x01, 0x59, 0x00, 0x00, 0x00],
          11, Endian.little⟩, [[0x58], [0x59]], [Symbol.top ⟨[0x58]⟩, Symbol.top ⟨[0x59]⟩],
          [], []⟩) ∧
    definition 1
        ⟨⟨[0x04, 0x00, 0x01, 0x02, 0x01, 0x58, 0x01, 0x01, 0x02, 0x01, 0x59, 0x00, 0x00, 0x00],
          0, Endian.little⟩, [], [], [], []⟩ =
      Except.error
        (Failure.undefined "std::transform writes through begin() of an empty vector") := by
  have hsymbols : sequence (symbol 1)
        ⟨⟨[0x04, 0x00, 0x01, 0x02, 0x01, 0x58, 0x01, 0x01, 0x02, 0x01, 0x59, 0x00, 0x00, 0x00],
          6, Endian.little⟩, [[0x58]], [Symbol.top ⟨[0x58]⟩], [], []⟩ =
      Except.ok ([Symbol.top ⟨[0x59]⟩],
        ⟨⟨[0x04, 0x00, 0x01, 0x02, 0x01, 0x58, 0x01, 0x01, 0x02, 0x01, 0x59, 0x00, 0x00, 0x00],
          11, Endian.little⟩, [[0x58], [0x59]], [Symbol.top ⟨[0x58]⟩, Symbol.top ⟨[0x59]⟩],
          [], []⟩) := by
    rfl
  refine ⟨fun as e s ds => ?_, hsymbols, ?_⟩
  · rw [narrowed_sequence_cons]
    cases as e with
    | none => exact ⟨_, rfl⟩
    | some v => exact ⟨_, rfl⟩
  · rw [definition_trait 1
      ⟨⟨[0x04, 0x00, 0x01, 0x02, 0x01, 0x58, 0x01, 0x01, 0x02, 0x01, 0x59, 0x00, 0x00, 0x00],
        0, Endian.little⟩, [], [], [], []⟩ 0x04
      [0x00, 0x01, 0x02, 0x01, 0x58, 0x01, 0x01, 0x02, 0x01, 0x59, 0x00, 0x00, 0x00] rfl rfl
      []
      ⟨⟨[0x04, 0x00, 0x01, 0x02, 0x01, 0x58, 0x01, 0x01, 0x02, 0x01, 0x59, 0x00, 0x00, 0x00],
        2, Endian.little⟩, [], [], [], []⟩ (by rfl)
      ⟨[0x58]⟩
      ⟨⟨[0x04, 0x00, 0x01, 0x02, 0x01, 0x58, 0x01, 0x01, 0x02, 0x01, 0x59, 0x00, 0x00, 0x00],
        6, Endian.little⟩, [[0x58]], [Symbol.top ⟨[0x58]⟩], [], []⟩ (by rfl)
      _ _ hsymbols]
    rw [M.bind_apply, narrowed_sequence_cons]
    rfl

end Deserializer

/-! ## Projections: a symbol expected to be a Top, a type expected to be a function -/

namespace Deserializer

theorem value_of_none {α : Type} (ds : Deserializer) :
    value_of (none : Option α) ds = Except.error Failure.bad_optional_access := rfl

theorem as_top_eq_none (s : Symbol) (h : s = Symbol.none ∨ ∃ m, s = Symbol.member m) :
    s.as_top = none := by
  rcases h with rfl | ⟨m, rfl⟩ <;> rfl

theorem as_function_eq_none (t : Type_) (h : ∀ ps rv, t ≠ Type_.function ps rv) :
    t.as_function = none := by
  cases t with
  | function ps rv => exact absurd rfl (h ps rv)
  | _ => rfl

theorem as_local_eq_none (v : Value) (h : ∀ id t, v ≠ Value.local_ id t) :
    v.as_local = none := by
  cases v with
  | local_ id t => exact absurd rfl (h id t)
  | _ => rfl

/-- The projection of a symbol that is not a Top throws. -/
theorem top_symbol_of_not_top (fuel : Nat) (ds ds1 : Deserializer) (s : Symbol)
    (hs : symbol fuel ds = Except.ok (s, ds1)) (hnone : s.as_top = none) :
    top_symbol fuel ds = Except.error Failure.bad_optional_access := by
  unfold top_symbol
  rw [M.bind_apply, hs]
  simp only []
  rw [hnone]
  rfl

/-- The projection of a type that is not a function throws. -/
theorem function_type_of_not_function (fuel : Nat) (ds ds1 : Deserializer) (t : Type_)
    (ht : type_ fuel ds = Except.ok (t, ds1)) (hnone : t.as_function = none) :
    function_type fuel ds = Except.error Failure.bad_optional_access := by
  unfold function_type
  rw [M.bind_apply, ht]
  simp only []
  rw [M.bind_apply, hnone]
  rfl

theorem symbol_member_of_not_top (fuel : Nat) (ds ds1 : Deserializer) (b : UInt8)
    (tail : List UInt8) (owner : Symbol) (h : ds.rest = b :: tail)
    (ht : b.toNat = tag.Symbol.member.raw_value)
    (howner : symbol fuel (ds.advanced 1) = Except.ok (owner, ds1))
    (hnone : owner.as_top = none) :
    symbol (fuel + 1) ds = Except.error Failure.bad_optional_access := by
  rw [symbol]
  apply internable_inline_error _ _ _ _
    (rest_ne_ff_of_cons ds b tail h (ne_ff_of_le (by rw [ht]; decide)))
  rw [M.bind_apply, get_u8_of_rest ds b tail h, ht]
  simp only []
  rw [if_neg (by decide), if_neg (by decide), if_pos (by decide), M.bind_apply, howner]
  simp only []
  rw [M.bind_apply, hnone]
  rfl

theorem type_reference_of_not_top (fuel : Nat) (ds ds1 : Deserializer) (b : UInt8)
    (tail : List UInt8) (s : Symbol) (h : ds.rest = b :: tail)
    (ht : b.toNat = tag.Type_.reference.raw_value)
    (hs : symbol fuel (ds.advanced 1) = Except.ok (s, ds1)) (hnone : s.as_top = none) :
    type_ (fuel + 1) ds = Except.error Failure.bad_optional_access := by
  rw [type_]
  apply internable_inline_error _ _ _ _
    (rest_ne_ff_of_cons ds b tail h (ne_ff_of_le (by rw [ht]; decide)))
  rw [M.bind_apply, get_u8_of_rest ds b tail h, ht]
  simp only []
  repeat (rw [if_neg (by decide)])
  rw [if_pos (by decide), M.bind_apply, hs]
  simp only []
  rw [M.bind_apply, hnone]
  rfl

theorem value_class_of_not_top (fuel : Nat) (ds ds1 : Deserializer) (b : UInt8)
    (tail : List UInt8) (s : Symbol) (h : ds.rest = b :: tail)
    (ht : b.toNat = tag.Value.class_of.raw_value)
    (hs : symbol fuel (ds.advanced 1) = Except.ok (s, ds1)) (hnone : s.as_top = none) :
    value (fuel + 1) ds = Except.error Failure.bad_optional_access := by
  rw [value]
  apply internable_inline_error _ _ _ _
    (rest_ne_ff_of_cons ds b tail h (ne_ff_of_le (by rw [ht]; decide)))
  rw [M.bind_apply, get_u8_of_rest ds b tail h, ht]
  simp only []
  repeat (rw [if_neg (by decide)])
  rw [if_pos (by decide), M.bind_apply, hs]
  simp only []
  rw [M.bind_apply, hnone]
  rfl

theorem label_argument_of_not_local (fuel : Nat) (ds ds1 : Deserializer) (v : Value)
    (hv : value fuel ds = Except.ok (v, ds1)) (hnone : v.as_local = none) :
    label_argument fuel ds = Except.error Failure.bad_optional_access := by
  unfold label_argument
  rw [M.bind_apply, hv]
  simp only []
  rw [M.bind_apply, hnone]
  rfl

theorem definition_of_not_function (fuel : Nat) (ds ds1 ds2 ds3 : Deserializer) (b : UInt8)
    (tail : List UInt8) (attrs : List Attribute) (name : symbol.Member) (t : Type_)
    (h : ds.rest = b :: tail)
    (ht : b.toNat = tag.Definition.declare.raw_value ∨
      b.toNat = tag.Definition.define.raw_value)
    (hattrs : sequence attribute_ (ds.advanced 1) = Except.ok (attrs, ds1))
    (hname : member_symbol fuel ds1 = Except.ok (name, ds2))
    (htype : type_ fuel ds2 = Except.ok (t, ds3)) (hnone : t.as_function = none) :
    definition fuel ds = Except.error Failure.bad_optional_access := by
  have hf := function_type_of_not_function fuel ds2 ds3 t htype hnone
  unfold definition
  rw [M.bind_apply, get_u8_of_rest ds b tail h]
  simp only []
  rw [M.bind_apply, hattrs]
  simp only []
  rcases ht with ht | ht
  · rw [ht, if_neg (by decide), if_pos (by decide), M.bind_apply, hname]
    simp only []
    rw [M.bind_apply, hf]
  · rw [ht, if_neg (by decide), if_neg (by decide), if_pos (by decide), M.bind_apply, hname]
    simp only []
    rw [M.bind_apply, hf]

end Deserializer

namespace Deserializer

/-- C15: a violated projection ends the deserialization with the exception
`std::bad_optional_access` and no element is produced.

* A Member symbol (tag 2) whose owner symbol decodes to `None` or to a Member.
* A Reference type (tag 19) and a ClassOf value (tag 20) whose symbol decodes to `None`
  or to a Member.
* A Forward or Method definition (tags `declare` and `define`) whose type, read after the
  attributes and the name, is not a function.
* A label argument whose value is not a Local. -/
theorem violated_projection_is_fatal (fuel : Nat) (ds ds1 : Deserializer) (b : UInt8)
    (tail : List UInt8) (h : ds.rest = b :: tail) :
    (∀ owner : Symbol, b.toNat = tag.Symbol.member.raw_value →
      symbol fuel (ds.advanced 1) = Except.ok (owner, ds1) →
      (owner = Symbol.none ∨ ∃ m, owner = Symbol.member m) →
      symbol (fuel + 1) ds = Except.error Failure.bad_optional_access) ∧
    (∀ s : Symbol, b.toNat = tag.Type_.reference.raw_value →
      symbol fuel (ds.advanced 1) = Except.ok (s, ds1) →
      (s = Symbol.none ∨ ∃ m, s = Symbol.member m) →
      type_ (fuel + 1) ds = Except.error Failure.bad_optional_access) ∧
    (∀ s : Symbol, b.toNat = tag.Value.class_of.raw_value →
      symbol fuel (ds.advanced 1) = Except.ok (s, ds1) →
      (s = Symbol.none ∨ ∃ m, s = Symbol.member m) →
      value (fuel + 1) ds = Except.error Failure.bad_optional_access) ∧
    (∀ (attrs : List Attribute) (name : symbol.Member) (t : Type_) (ds2 ds3 : Deserializer),
      (b.toNat = tag.Definition.declare.raw_value ∨
        b.toNat = tag.Definition.define.raw_value) →
      sequence attribute_ (ds.advanced 1) = Except.ok (attrs, ds1) →
      member_symbol fuel ds1 = Except.ok (name, ds2) →
      type_ fuel ds2 = Except.ok (t, ds3) →
      (∀ ps rv, t ≠ Type_.function ps rv) →
      definition fuel ds = Except.error Failure.bad_optional_access) ∧
    (∀ v : Value, value fuel ds = Except.ok (v, ds1) →
      (∀ id t, v ≠ Value.local_ id t) →
      label_argument fuel ds = Except.error Failure.bad_optional_access) ∧
    Failure.is_fatal Failure.bad_optional_access = true := by
  refine ⟨fun owner ht howner hnot => ?_, fun s ht hs hnot => ?_, fun s ht hs hnot => ?_,
    fun attrs name t ds2 ds3 ht hattrs hname htype hnot => ?_, fun v hv hnot => ?_, rfl⟩
  · exact symbol_member_of_not_top fuel ds ds1 b tail owner h ht howner
      (as_top_eq_none owner hnot)
  · exact type_reference_of_not_top fuel ds ds1 b tail s h ht hs (as_top_eq_none s hnot)
  · exact value_class_of_not_top fuel ds ds1 b tail s h ht hs (as_top_eq_none s hnot)
  · exact definition_of_not_function fuel ds ds1 ds2 ds3 b tail attrs name t h ht hattrs
      hname htype (as_function_eq_none t hnot)
  · exact label_argument_of_not_local fuel ds ds1 v hv (as_local_eq_none v hnot)

/-- C15 on concrete streams: `02 00` is a Member symbol whose owner is `None`; `13 00` is a
Reference type whose symbol is `None`; `02` (the value `null`) is no label argument. -/
theorem violated_projection_is_fatal_witness :
    symbol 2 ⟨⟨[0x02, 0x00], 0, Endian.little⟩, [], [], [], []⟩ =
      Except.error Failure.bad_optional_access ∧
    type_ 2 ⟨⟨[0x13, 0x00], 0, Endian.little⟩, [], [], [], []⟩ =
      Except.error Failure.bad_optional_access ∧
    label_argument 1 ⟨⟨[0x02], 0, Endian.little⟩, [], [], [], []⟩ =
      Except.error Failure.bad_optional_access :=
  ⟨(violated_projection_is_fatal 1 ⟨⟨[0x02, 0x00], 0, Endian.little⟩, [], [], [], []⟩
      ⟨⟨[0x02, 0x00], 2, Endian.little⟩, [], [], [], []⟩ 0x02 [0x00] rfl).1
      Symbol.none (by decide) (by rfl) (Or.inl rfl),
   (violated_projection_is_fatal 1 ⟨⟨[0x13, 0x00], 0, Endian.little⟩, [], [], [], []⟩
      ⟨⟨[0x13, 0x00], 2, Endian.little⟩, [], [], [], []⟩ 0x13 [0x00] rfl).2.1
      Symbol.none (by decide) (by rfl) (Or.inl rfl),
   (violated_projection_is_fatal 1 ⟨⟨[0x02], 0, Endian.little⟩, [], [], [], []⟩
      ⟨⟨[0x02], 1, Endian.little⟩, [], [], [], []⟩ 0x02 [] rfl).2.2.2.2.1
      Value.null (by rfl) (fun id t hc => by cases hc)⟩

end Deserializer

/-! ## Memory orders -/

namespace Deserializer

/-- C16: with the byte `b` at the cursor, `memory_order` consumes it and returns
`unordered`, `monotonic`, `acquire`, `release`, `acquire_release` and
`sequentially_consistent` for `b` = 0, 1, 2, 3, 4 and 5; for every other byte it ends
with the abort "unexpected tag". -/
theorem memory_order_of_byte (ds : Deserializer) (b : UInt8) (tail : List UInt8)
    (h : ds.rest = b :: tail) :
    (b.toNat = 0 → memory_order ds = Except.ok (MemoryOrder.unordered, ds.advanced 1)) ∧
    (b.toNat = 1 → memory_order ds = Except.ok (MemoryOrder.monotonic, ds.advanced 1)) ∧
    (b.toNat = 2 → memory_order ds = Except.ok (MemoryOrder.acquire, ds.advanced 1)) ∧
    (b.toNat = 3 → memory_order ds = Except.ok (MemoryOrder.release, ds.advanced 1)) ∧
    (b.toNat = 4 →
      memory_order ds = Except.ok (MemoryOrder.acquire_release, ds.advanced 1)) ∧
    (b.toNat = 5 →
      memory_order ds = Except.ok (MemoryOrder.sequentially_consistent, ds.advanced 1)) ∧
    (5 < b.toNat → memory_order ds = Except.error (Failure.abort "unexpected tag")) := by
  have hrun : memory_order ds =
      (precondition (decide (b.toNat ≥ 0) && decide (b.toNat ≤ 5)) "unexpected tag" >>=
        fun _ => pure (match b.toNat with
          | 0 => MemoryOrder.unordered
          | 1 => MemoryOrder.monotonic
          | 2 => MemoryOrder.acquire
          | 3 => MemoryOrder.release
          | 4 => MemoryOrder.acquire_release
          | _ => MemoryOrder.sequentially_consistent)) (ds.advanced 1) := by
    unfold memory_order
    rw [M.bind_apply, get_u8_of_rest ds b tail h]
  rw [hrun]
  refine ⟨fun ht => ?_, fun ht => ?_, fun ht => ?_, fun ht => ?_, fun ht => ?_, fun ht => ?_,
    fun ht => ?_⟩
  · rw [ht]; rfl
  · rw [ht]; rfl
  · rw [ht]; rfl
  · rw [ht]; rfl
  · rw [ht]; rfl
  · rw [ht]; rfl
  · have hfalse : (decide (b.toNat ≥ 0) && decide (b.toNat ≤ 5)) = false := by
      simp
      omega
    rw [hfalse]
    rfl

/-- C16 on the bytes `05` and `06`. -/
theorem memory_order_of_byte_witness :
    memory_order ⟨⟨[0x05], 0, Endian.little⟩, [], [], [], []⟩ =
      Except.ok (MemoryOrder.sequentially_consistent,
        ⟨⟨[0x05], 1, Endian.little⟩, [], [], [], []⟩) ∧
    memory_order ⟨⟨[0x06], 0, Endian.little⟩, [], [], [], []⟩ =
      Except.error (Failure.abort "unexpected tag") :=
  ⟨(memory_order_of_byte ⟨⟨[0x05], 0, Endian.little⟩, [], [], [], []⟩ 0x05 [] rfl).2.2.2.2.2.1
      (by decide),
   (memory_order_of_byte ⟨⟨[0x06], 0, Endian.little⟩, [], [], [], []⟩ 0x06 [] rfl).2.2.2.2.2.2
      (by decide)⟩

end Deserializer

/-! ## Fixed-width reads -/

namespace Decoder

theorem reassemble_little (bytes : List UInt8) :
    reassemble Endian.little bytes = little_endian_value bytes := by
  induction bytes with
  | nil => rfl
  | cons b bs ih =>
    simp only [reassemble, List.foldr_cons, little_endian_value] at ih ⊢
    rw [ih]

theorem foldl_big (bytes : List UInt8) : ∀ acc : Nat,
    bytes.foldl (fun acc b => 256 * acc + b.toNat) acc =
      acc * 256 ^ bytes.length + big_endian_value bytes := by
  induction bytes with
  | nil => intro acc; simp [big_endian_value]
  | cons b bs ih =>
    intro acc
    rw [List.foldl_cons, ih, big_endian_value, List.length_cons, pow_succ]
    ring

theorem reassemble_big (bytes : List UInt8) :
    reassemble Endian.big bytes = big_endian_value bytes := by
  simp only [reassemble, foldl_big, Nat.zero_mul, Nat.zero_add]

theorem big_endian_value_append (xs : List UInt8) (b : UInt8) :
    big_endian_value (xs ++ [b]) = 256 * big_endian_value xs + b.toNat := by
  induction xs with
  | nil => simp [big_endian_value]
  | cons x xs ih =>
    rw [List.cons_append, big_endian_value, big_endian_value, ih, List.length_append,
      List.length_singleton, pow_succ]
    ring

theorem little_endian_value_reverse (bytes : List UInt8) :
    little_endian_value bytes.reverse = big_endian_value bytes := by
  induction bytes using List.reverseRecOn with
  | nil => rfl
  | append_singleton xs b ih =>
    rw [List.reverse_append, List.reverse_singleton, List.singleton_append,
      little_endian_value, ih, big_endian_value_append]
    ring

theorem big_endian_value_reverse (bytes : List UInt8) :
    big_endian_value bytes.reverse = little_endian_value bytes := by
  have := little_endian_value_reverse bytes.reverse
  rw [List.reverse_reverse] at this
  exact this.symm

/-- The value that `numeric` reassembles does not depend on the byte order of the host:
it is the value of the bytes under the byte order of the decoder. -/
theorem reassemble_host_independent (host order : Endian) (bytes : List UInt8) :
    reassemble host (if order ≠ host then bytes.reverse else bytes) =
      byte_order_value order bytes := by
  cases host <;> cases order <;>
    simp [reassemble_little, reassemble_big, byte_order_value, little_endian_value_reverse,
      big_endian_value_reverse]

/-- The outcome of `numeric<T>` for a `T` of `width` bytes, on any host. -/
theorem numeric_on_eq (host : Endian) (width : Nat) (hw : 0 < width) (d : Decoder) :
    numeric_on host width d =
      if d.rest.length < width then (Except.error ⟨d.position, "not enough bytes"⟩, d)
      else (Except.ok (byte_order_value d.byte_order (d.rest.take width)), d.advanced width) := by
  unfold numeric_on
  rw [rest_length]
  by_cases hlen : d.position + width > d.source.length
  · rw [if_pos hlen, if_pos (by omega)]
  · rw [if_neg hlen, if_neg (by omega)]
    simp only [reassemble_host_independent, rest, advanced]

end Decoder

namespace Decoder

/-- C18: each fixed-width read (`u8`, `i8` of width 1; `u32`, `i32`, `f32` of width 4;
`f64` of width 8) fails, with the error "not enough bytes" and the cursor unchanged, if
and only if fewer bytes than its width remain after the cursor; otherwise it advances the
cursor by exactly the width and returns the value of the bytes read under the byte order
of the decoder: as they are for the unsigned reads, reinterpreted in two's complement for
`i8` and `i32`, and as the bit pattern of the floating-point number for `f32` and `f64`.
Under the big-endian order the first byte is the most significant, under the
little-endian order the least significant. -/
theorem fixed_width_reads (d : Decoder) :
    d.u8 = (if d.rest.length < 1 then (Except.error ⟨d.position, "not enough bytes"⟩, d)
      else (Except.ok (byte_order_value d.byte_order (d.rest.take 1)), d.advanced 1)) ∧
    d.i8 = (if d.rest.length < 1 then (Except.error ⟨d.position, "not enough bytes"⟩, d)
      else (Except.ok (to_signed 8 (byte_order_value d.byte_order (d.rest.take 1))),
        d.advanced 1)) ∧
    d.u32 = (if d.rest.length < 4 then (Except.error ⟨d.position, "not enough bytes"⟩, d)
      else (Except.ok (byte_order_value d.byte_order (d.rest.take 4)), d.advanced 4)) ∧
    d.i32 = (if d.rest.length < 4 then (Except.error ⟨d.position, "not enough bytes"⟩, d)
      else (Except.ok (to_signed 32 (byte_order_value d.byte_order (d.rest.take 4))),
        d.advanced 4)) ∧
    d.f32 = (if d.rest.length < 4 then (Except.error ⟨d.position, "not enough bytes"⟩, d)
      else (Except.ok (byte_order_value d.byte_order (d.rest.take 4)), d.advanced 4)) ∧
    d.f64 = (if d.rest.length < 8 then (Except.error ⟨d.position, "not enough bytes"⟩, d)
      else (Except.ok (byte_order_value d.byte_order (d.rest.take 8)), d.advanced 8)) ∧
    (∀ b0 b1 b2 b3 : UInt8,
      byte_order_value Endian.big [b0, b1, b2, b3] =
        b0.toNat * 2 ^ 24 + b1.toNat * 2 ^ 16 + b2.toNat * 2 ^ 8 + b3.toNat ∧
      byte_order_value Endian.little [b0, b1, b2, b3] =
        b0.toNat + b1.toNat * 2 ^ 8 + b2.toNat * 2 ^ 16 + b3.toNat * 2 ^ 24) := by
  refine ⟨?_, ?_, ?_, ?_, ?_, ?_, fun b0 b1 b2 b3 => ⟨?_, ?_⟩⟩
  · exact numeric_on_eq Endian.native 1 (by decide) d
  · unfold i8 numeric
    rw [numeric_on_eq Endian.native 1 (by decide) d]
    by_cases h : d.rest.length < 1
    · rw [if_pos h, if_pos h]; rfl
    · rw [if_neg h, if_neg h]; rfl
  · exact numeric_on_eq Endian.native 4 (by decide) d
  · unfold i32 numeric
    rw [numeric_on_eq Endian.native 4 (by decide) d]
    by_cases h : d.rest.length < 4
    · rw [if_pos h, if_pos h]; rfl
    · rw [if_neg h, if_neg h]; rfl
  · exact numeric_on_eq Endian.native 4 (by decide) d
  · exact numeric_on_eq Endian.native 8 (by decide) d
  · simp only [byte_order_value, big_endian_value, List.length_cons, List.length_nil]
    ring
  · simp only [byte_order_value, little_endian_value]
    ring

end Decoder

/-! ## Null-terminated strings -/

namespace Decoder

theorem step_of_rest (d : Decoder) (b : UInt8) (tail : List UInt8) (h : d.rest = b :: tail) :
    d.is_empty = false ∧ d.source.get? d.position = some b ∧ (d.advanced 1).rest = tail := by
  have hlen : d.position < d.source.length := by
    have := rest_length d
    rw [h] at this
    simp only [List.length_cons] at this
    omega
  refine ⟨?_, ?_, ?_⟩
  · simp only [is_empty, current_position, source_size, beq_eq_false_iff_ne, ne_eq]
    omega
  · have hget : d.rest.get? 0 = some b := by rw [h]; rfl
    simpa [rest, List.getElem?_drop] using hget
  · rw [rest_advanced, h]
    rfl

theorem is_empty_of_rest_nil (d : Decoder) (h : d.rest = [])
    (hpos : d.position ≤ d.source.length) : d.is_empty = true := by
  have := rest_length d
  rw [h] at this
  simp only [List.length_nil] at this
  simp only [is_empty, current_position, source_size, beq_iff_eq]
  omega

/-- The `for` loop on bytes that hold a zero before the iterations are done. -/
theorem nullterminated_for_found (partial_result : List UInt8) : ∀ (n : Nat) (d : Decoder)
    (slice pre post : List UInt8), d.rest = pre ++ 0 :: post → (∀ x ∈ pre, x ≠ 0) →
    pre.length < n →
    nullterminated_for partial_result n d slice =
      Except.ok (Sum.inl (Except.ok (partial_result ++ (slice ++ pre))),
        d.advanced (pre.length + 1)) := by
  intro n
  induction n with
  | zero => intro d slice pre post _ _ hlen; omega
  | succ n ih =>
    intro d slice pre post hrest hpre hlen
    cases pre with
    | nil =>
      obtain ⟨hempty, hget, _⟩ := step_of_rest d 0 post hrest
      rw [nullterminated_for, hempty]
      simp only [Bool.false_eq_true, if_false, hget, if_true]
      simp
    | cons b pre =>
      obtain ⟨hempty, hget, hnext⟩ := step_of_rest d b (pre ++ 0 :: post) hrest
      have hb : b ≠ 0 := hpre b (List.mem_cons_self _ _)
      rw [nullterminated_for, hempty]
      simp only [Bool.false_eq_true, if_false, hget, if_neg hb]
      rw [ih (d.advanced 1) (slice ++ [b]) pre post hnext
        (fun x hx => hpre x (List.mem_cons_of_mem _ hx))
        (by simp only [List.length_cons] at hlen; omega)]
      simp [advanced_advanced, Nat.add_comm, Nat.add_left_comm]

/-- The `for` loop on 64 bytes (or as many as there are iterations left) without zero. -/
theorem nullterminated_for_full (partial_result : List UInt8) : ∀ (n : Nat) (d : Decoder)
    (slice pre post : List UInt8), d.rest = pre ++ post → (∀ x ∈ pre, x ≠ 0) →
    pre.length = n →
    nullterminated_for partial_result n d slice =
      Except.ok (Sum.inr (slice ++ pre), d.advanced n) := by
  intro n
  induction n with
  | zero =>
    intro d slice pre post _ _ hlen
    have : pre = [] := List.length_eq_zero.mp hlen
    subst this
    simp [nullterminated_for, advanced_zero]
  | succ n ih =>
    intro d slice pre post hrest hpre hlen
    cases pre with
    | nil => simp at hlen
    | cons b pre =>
      obtain ⟨hempty, hget, hnext⟩ := step_of_rest d b (pre ++ post) hrest
      have hb : b ≠ 0 := hpre b (List.mem_cons_self _ _)
      rw [nullterminated_for, hempty]
      simp only [Bool.false_eq_true, if_false, hget, if_neg hb]
      rw [ih (d.advanced 1) (slice ++ [b]) pre post hnext
        (fun x hx => hpre x (List.mem_cons_of_mem _ hx))
        (by simp only [List.length_cons] at hlen; omega)]
      simp [advanced_advanced, Nat.add_comm]

/-- The `for` loop on bytes without zero that end before the iterations are done. -/
theorem nullterminated_for_end (partial_result : List UInt8) : ∀ (n : Nat) (d : Decoder)
    (slice pre : List UInt8), d.rest = pre → (∀ x ∈ pre, x ≠ 0) →
    d.position ≤ d.source.length → pre.length < n →
    nullterminated_for partial_result n d slice =
      Except.ok (Sum.inl (Except.error ⟨d.source.length, "ill-formed null-terminated string"⟩),
        d.advanced pre.length) := by
  intro n
  induction n with
  | zero => intro d slice pre _ _ _ hlen; omega
  | succ n ih =>
    intro d slice pre hrest hpre hpos hlen
    cases pre with
    | nil =>
      have hempty := is_empty_of_rest_nil d hrest hpos
      have hp : d.position = d.source.length := by
        simpa [is_empty, current_position, source_size] using hempty
      rw [nullterminated_for, hempty]
      simp [Decoder.fail, hp, advanced_zero]
    | cons b pre =>
      obtain ⟨hempty, hget, hnext⟩ := step_of_rest d b pre hrest
      have hb : b ≠ 0 := hpre b (List.mem_cons_self _ _)
      have hlt : d.position < d.source.length := by
        have := rest_length d
        rw [hrest] at this
        simp only [List.length_cons] at this
        omega
      rw [nullterminated_for, hempty]
      simp only [Bool.false_eq_true, if_false, hget, if_neg hb]
      rw [ih (d.advanced 1) (slice ++ [b]) pre hnext
        (fun x hx => hpre x (List.mem_cons_of_mem _ hx))
        (by simp only [advanced]; omega)
        (by simp only [List.length_cons] at hlen; omega)]
      simp [advanced, Nat.add_comm, Nat.add_left_comm, Nat.add_assoc]

end Decoder

namespace Decoder

/-- The loop on bytes that hold a zero: whole slices of 64 bytes are appended until the
slice with the zero. -/
theorem nullterminated_loop_found : ∀ (fuel : Nat) (d : Decoder)
    (partial_result pre post : List UInt8), d.rest = pre ++ 0 :: post → (∀ x ∈ pre, x ≠ 0) →
    pre.length / 64 < fuel →
    nullterminated_loop fuel d partial_result =
      Except.ok (Except.ok (partial_result ++ pre), d.advanced (pre.length + 1)) := by
  intro fuel
  induction fuel with
  | zero => intro d partial_result pre post _ _ hlen; omega
  | succ fuel ih =>
    intro d partial_result pre post hrest hpre hlen
    by_cases hlt : pre.length < 64
    · rw [nullterminated_loop,
        nullterminated_for_found partial_result 64 d [] pre post hrest hpre hlt]
      simp
    · have hsplit : pre = pre.take 64 ++ pre.drop 64 := (List.take_append_drop 64 pre).symm
      have htake : (pre.take 64).length = 64 := by rw [List.length_take]; omega
      have hrest1 : d.rest = pre.take 64 ++ (pre.drop 64 ++ 0 :: post) := by
        rw [← List.append_assoc, List.take_append_drop]
        exact hrest
      have hrest2 : (d.advanced 64).rest = pre.drop 64 ++ 0 :: post := by
        rw [rest_advanced, hrest1, List.drop_left' htake]
      rw [nullterminated_loop, nullterminated_for_full partial_result 64 d [] (pre.take 64)
        (pre.drop 64 ++ 0 :: post) hrest1 (fun x hx => hpre x (List.mem_of_mem_take hx)) htake]
      simp only [List.nil_append]
      rw [ih (d.advanced 64) (partial_result ++ pre.take 64) (pre.drop 64) post hrest2
        (fun x hx => hpre x (List.mem_of_mem_drop hx))
        (by rw [List.length_drop]; omega)]
      rw [List.append_assoc, List.take_append_drop, advanced_advanced, List.length_drop]
      congr 3
      omega

/-- The loop on bytes without zero: it fails at the end of the source. -/
theorem nullterminated_loop_end : ∀ (fuel : Nat) (d : Decoder)
    (partial_result pre : List UInt8), d.rest = pre → (∀ x ∈ pre, x ≠ 0) →
    d.position ≤ d.source.length → pre.length / 64 < fuel →
    nullterminated_loop fuel d partial_result =
      Except.ok (Except.error ⟨d.source.length, "ill-formed null-terminated string"⟩,
        d.advanced pre.length) := by
  intro fuel
  induction fuel with
  | zero => intro d partial_result pre _ _ _ hlen; omega
  | succ fuel ih =>
    intro d partial_result pre hrest hpre hpos hlen
    by_cases hlt : pre.length < 64
    · rw [nullterminated_loop,
        nullterminated_for_end partial_result 64 d [] pre hrest hpre hpos hlt]
    · have htake : (pre.take 64).length = 64 := by rw [List.length_take]; omega
      have hrest1 : d.rest = pre.take 64 ++ pre.drop 64 := by
        rw [List.take_append_drop]
        exact hrest
      have hrest2 : (d.advanced 64).rest = pre.drop 64 := by
        rw [rest_advanced, hrest1, List.drop_left' htake]
      have hlen2 : pre.length ≤ d.source.length - d.position := by
        have := rest_length d
        rw [hrest] at this
        omega
      rw [nullterminated_loop, nullterminated_for_full partial_result 64 d [] (pre.take 64)
        (pre.drop 64) hrest1 (fun x hx => hpre x (List.mem_of_mem_take hx)) htake]
      simp only [List.nil_append]
      rw [ih (d.advanced 64) (partial_result ++ pre.take 64) (pre.drop 64) hrest2
        (fun x hx => hpre x (List.mem_of_mem_drop hx))
        (by simp only [advanced]; omega)
        (by rw [List.length_drop]; omega)]
      rw [advanced_advanced, List.length_drop]
      congr 3
      omega

/-- C19: `nullterminated_string` from any cursor.

* If a byte `0x00` occurs at or after the cursor, that is if the bytes from the cursor on
  are `pre ++ 0 :: post` with no zero in `pre` (so the first `0x00` has the index
  `q = p + length pre`), it succeeds with exactly `pre`, whatever its length (also 64
  bytes or more, across the internal slices), and leaves the cursor at `q + 1`.
* If no `0x00` occurs from the cursor to the end of the source (the cursor being inside
  the source or at its end), it fails with "ill-formed null-terminated string", the
  cursor at the end of the source. -/
theorem nullterminated_string_reads_to_first_zero (d : Decoder) :
    (∀ pre post : List UInt8, d.rest = pre ++ 0 :: post → (∀ x ∈ pre, x ≠ 0) →
      d.nullterminated_string =
        Except.ok (Except.ok pre, d.advanced (pre.length + 1))) ∧
    (d.position ≤ d.source.length → (∀ x ∈ d.rest, x ≠ 0) →
      d.nullterminated_string =
        Except.ok (Except.error ⟨d.source.length, "ill-formed null-terminated string"⟩,
          ⟨d.source, d.source.length, d.byte_order⟩)) := by
  constructor
  · intro pre post hrest hpre
    have hlen := rest_length d
    rw [hrest, List.length_append, List.length_cons] at hlen
    have := nullterminated_loop_found (d.source.length - d.position + 1) d [] pre post
      hrest hpre (by have := Nat.div_le_self pre.length 64; omega)
    simpa [nullterminated_string] using this
  · intro hpos hrest
    have hlen := rest_length d
    have := nullterminated_loop_end (d.source.length - d.position + 1) d [] d.rest rfl
      hrest hpos (by have := Nat.div_le_self d.rest.length 64; omega)
    rw [nullterminated_string, this, hlen]
    simp only [advanced]
    congr 3
    omega

/-- C19 on a source of 70 bytes with the cursor at offset 2: 65 bytes `41`, then `00`,
then `42 43`. The string of 65 bytes, which spans two slices, is returned and the cursor
is left at offset 68; from offset 68 on there is no `00` and the read fails. -/
theorem nullterminated_string_reads_to_first_zero_witness :
    nullterminated_string
        ⟨[0x07, 0x00] ++ (List.replicate 65 0x41 ++ 0x00 :: [0x42, 0x43]), 2, Endian.little⟩ =
      Except.ok (Except.ok (List.replicate 65 0x41),
        ⟨[0x07, 0x00] ++ (List.replicate 65 0x41 ++ 0x00 :: [0x42, 0x43]), 68,
          Endian.little⟩) ∧
    nullterminated_string
        ⟨[0x07, 0x00] ++ (List.replicate 65 0x41 ++ 0x00 :: [0x42, 0x43]), 68,
          Endian.little⟩ =
      Except.ok (Except.error ⟨70, "ill-formed null-terminated string"⟩,
        ⟨[0x07, 0x00] ++ (List.replicate 65 0x41 ++ 0x00 :: [0x42, 0x43]), 70,
          Endian.little⟩) :=
  ⟨(nullterminated_string_reads_to_first_zero
      ⟨[0x07, 0x00] ++ (List.replicate 65 0x41 ++ 0x00 :: [0x42, 0x43]), 2,
        Endian.little⟩).1 (List.replicate 65 0x41) [0x42, 0x43] (by rfl) (by decide),
   (nullterminated_string_reads_to_first_zero
      ⟨[0x07, 0x00] ++ (List.replicate 65 0x41 ++ 0x00 :: [0x42, 0x43]), 68,
        Endian.little⟩).2 (by decide) (by decide)⟩

end Decoder

/-! ## Normalization of types -/

namespace Type_

/-- Where `normalized` returns, its result is its own normal form. -/
theorem normalized_of_normalized : ∀ (t t1 : Type_), t.normalized = Except.ok t1 →
    t1.normalized = Except.ok t1
  | predefined p, t1, h => by
    simp only [normalized, Except.ok.injEq] at h
    subst h
    rfl
  | numeric n, t1, h => by
    simp only [normalized, Except.ok.injEq] at h
    subst h
    rfl
  | array_value element size, t1, h => by
    rw [normalized] at h
    cases he : element.normalized with
    | error e => rw [he] at h; cases h
    | ok element1 =>
      rw [he] at h
      simp only [Except.ok.injEq] at h
      subst h
      rw [normalized, normalized_of_normalized element element1 he]
  | array_reference element nullable, t1, h => by
    rw [normalized] at h
    cases he : element.normalized with
    | error e => rw [he] at h; cases h
    | ok element1 =>
      rw [he] at h
      simp only [Except.ok.injEq] at h
      subst h
      rw [normalized, normalized_of_normalized element element1 he]
  | struct [], t1, h => by
    simp only [normalized, Except.ok.injEq] at h
    subst h
    rfl
  | struct (e :: es), t1, h => by
    simp [normalized] at h
  | reference name exact nullable, t1, h => by
    simp only [normalized, Except.ok.injEq] at h
    subst h
    rfl
  | var type, t1, h => by
    rw [normalized] at h
    cases he : type.normalized with
    | error e => rw [he] at h; cases h
    | ok type1 =>
      rw [he] at h
      simp only [Except.ok.injEq] at h
      subst h
      rw [normalized, normalized_of_normalized type type1 he]
  | function [] return_value, t1, h => by
    rw [normalized] at h
    cases he : return_value.normalized with
    | error e => rw [he] at h; cases h
    | ok rv1 =>
      rw [he] at h
      simp only [Except.ok.injEq] at h
      subst h
      rw [normalized, normalized_of_normalized return_value rv1 he]
  | function (p :: ps) return_value, t1, h => by
    rw [normalized] at h
    cases he : return_value.normalized with
    | error e => rw [he] at h; cases h
    | ok rv1 =>
      rw [he] at h
      simp at h

/-- C20 (fails on the code): `normalized` has no defined result on a struct type with an
element, nor on a function type with a parameter, nor on a type that contains one where
normalization descends (the element of an array, the type of a `var`): the normalized
element is assigned through `begin()` of a vector of size 0. So on
`Struct{i32}`, built with `Struct(std::vector<indirect<Type>>&&)`, neither side of
`t.normalized().normalized() == t.normalized()` is defined. Types without such a part,
like `Array[Reference("X", exact, not nullable)]` (not nullable), do normalize, to
`Array[Reference("X")]`, which is its own normal form. -/
theorem normalized_is_undefined_on_structs :
    (struct [i32]).normalized = Except.error
      (Failure.undefined "std::transform writes through begin() of an empty vector") ∧
    (function [i32] unit).normalized = Except.error
      (Failure.undefined "std::transform writes through begin() of an empty vector") ∧
    (array_value (struct [i32, i64]) 4).normalized = Except.error
      (Failure.undefined "std::transform writes through begin() of an empty vector") ∧
    (var (struct [u1])).normalized = Except.error
      (Failure.undefined "std::transform writes through begin() of an empty vector") ∧
    (array_reference (reference ⟨[0x58]⟩ true false) false).normalized =
      Except.ok (array_reference (reference ⟨[0x58]⟩ false true) true) ∧
    (array_reference (reference ⟨[0x58]⟩ false true) true).normalized =
      Except.ok (array_reference (reference ⟨[0x58]⟩ false true) true) := by
  refine ⟨?_, ?_, ?_, ?_, ?_, ?_⟩ <;> simp [normalized]

end Type_

/-! ## Signed LEB128: the encodings that `signed_leb128` reads back -/

namespace Decoder

/-- Bitwise or of two `int64_t` whose set bits lie apart is their sum. -/
theorem or64_eq (A B : Int) (a m s : Nat) (hA : A % 2 ^ 64 = (a : Int))
    (hB : B % 2 ^ 64 = ((2 ^ s * m : Nat) : Int)) (ha : a < 2 ^ s) :
    or64 A B = wrap64 ((2 ^ s * m + a : Nat) : Int) := by
  unfold or64
  rw [hA, hB, Int.toNat_ofNat, Int.toNat_ofNat, Nat.lor_comm, ← Nat.mul_add_lt_is_or ha]

theorem byte_and_7f : ∀ b < 256, b &&& 0x7f = b % 128 := by decide

theorem signed_last_eq : ∀ b < 256, signed_last b = decide (b < 128) := by decide

theorem signed_extends_eq (shift : Nat) (hs : shift + 7 < 64) :
    ∀ b < 128, signed_extends shift b = decide (64 ≤ b) := by
  have h : ∀ b < 128, ((b &&& 0x40) != 0) = decide (64 ≤ b) := by decide
  intro b hb
  simp only [signed_extends, hs, decide_True, Bool.true_and, h b hb]

theorem signed_overflow_of_lt (value : Int) (shift b : Nat) (hs : shift < 63) :
    signed_overflow value shift b = false := by
  have h1 : (shift == 63) = false := by simp; omega
  have h2 : decide (shift > 63) = false := by simp; omega
  simp only [signed_overflow, h1, h2, Bool.false_and, Bool.or_false]

/-- A slice is added to the accumulated value. -/
theorem or64_slice (k : Nat) (hk : k ≤ 4) (value slice : Int) (hv0 : 0 ≤ value)
    (hv : value < 2 ^ (7 * k)) (hs0 : 0 ≤ slice) (hs : slice < 128) :
    or64 value (shl64 slice (7 * k)) = value + slice * 2 ^ (7 * k) := by
  obtain ⟨a, rfl⟩ := Int.eq_ofNat_of_zero_le hv0
  obtain ⟨m, rfl⟩ := Int.eq_ofNat_of_zero_le hs0
  have hshl : shl64 (m : Int) (7 * k) = ((2 ^ (7 * k) * m : Nat) : Int) := by
    unfold shl64 wrap64
    interval_cases k <;> push_cast <;> omega
  rw [hshl, or64_eq (a : Int) _ a m (7 * k) (by interval_cases k <;> omega)
    (by interval_cases k <;> omega) (by exact_mod_cast hv)]
  unfold wrap64
  interval_cases k <;> push_cast <;> omega

/-- The sign extension `value | -(1 << shift)` for the shifts that fit the `int` literal. -/
theorem or64_sign (k : Nat) (hk0 : 1 ≤ k) (hk : k ≤ 4) (value : Int) (hv0 : 0 ≤ value)
    (hv : value < 2 ^ (7 * k)) :
    or64 value (wrap32 (-(int_one_shl (7 * k)))) = value - 2 ^ (7 * k) := by
  obtain ⟨a, rfl⟩ := Int.eq_ofNat_of_zero_le hv0
  have hmask : wrap32 (-(int_one_shl (7 * k))) % 2 ^ 64 =
      ((2 ^ (7 * k) * (2 ^ (64 - 7 * k) - 1) : Nat) : Int) := by
    unfold int_one_shl wrap32
    interval_cases k <;> norm_num
  rw [or64_eq (a : Int) _ a (2 ^ (64 - 7 * k) - 1) (7 * k)
    (by interval_cases k <;> omega) hmask (by exact_mod_cast hv)]
  unfold wrap64
  interval_cases k <;> push_cast <;> omega

end Decoder

namespace Decoder

theorem toNat_ofNat_of_lt (n : Nat) (h : n < 256) : (UInt8.ofNat n).toNat = n := by
  simp [UInt8.toNat, UInt8.ofNat, Fin.ofNat]
  omega

/-- The loop of `signed_leb128` on the standard encoding of `v`, entered at the shift
`7 * k` with the low bits in `value`: it returns `value + v * 2^(7k)`, as long as no
negative value reaches a shift beyond 28 (`-2^27 ≤ v * 2^(7k)`) and the whole stays below
`2^31`. -/
theorem signed_leb128_loop_sleb128 : ∀ (f : Nat) (v : Int) (k : Nat) (value : Int) (d : Decoder)
    (post : List UInt8) (fuel : Nat),
    d.rest = sleb128_go f v ++ post → (sleb128_go f v).length ≤ fuel → v.natAbs ≤ f →
    0 ≤ value → value < 2 ^ (7 * k) → k ≤ 4 →
    -2 ^ 27 ≤ v * 2 ^ (7 * k) → v * 2 ^ (7 * k) < 2 ^ 31 →
    signed_leb128_loop fuel d value (7 * k) =
      (Except.ok (value + v * 2 ^ (7 * k)), d.advanced (sleb128_go f v).length) := by
  intro f
  induction f with
  | zero =>
    intro v k value d post fuel hrest hfuel hf hv0 hv hk hlo hhi
    have hv : v = 0 := by omega
    subst hv
    rw [sleb128_go] at hrest hfuel ⊢
    simp only [List.length_singleton] at hfuel ⊢
    obtain ⟨fuel, rfl⟩ : ∃ n, fuel = n + 1 := ⟨fuel - 1, by omega⟩
    rw [signed_leb128_loop_step fuel d (UInt8.ofNat (0 % 128 : Int).toNat) post value (7 * k)
      (by rw [hrest]; rfl)]
    have hb : (UInt8.ofNat (0 % 128 : Int).toNat).toNat = 0 := by decide
    rw [hb, signed_overflow_of_lt _ _ _ (by omega), signed_last_eq 0 (by decide),
      signed_extends_eq (7 * k) (by omega) 0 (by decide)]
    simp only [Bool.false_eq_true, if_false, decide_True, if_true, Nat.reduceLeDiff,
      decide_False]
    rw [or64_slice k hk value _ hv0 hv (by decide) (by decide)]
    simp
  | succ f ih =>
    intro v k value d post fuel hrest hfuel hf hv0 hv hk hlo hhi
    rw [sleb128_go] at hrest hfuel ⊢
    by_cases hsmall : -64 ≤ v ∧ v < 64
    · rw [if_pos hsmall] at hrest hfuel ⊢
      simp only [List.length_singleton] at hfuel ⊢
      obtain ⟨fuel, rfl⟩ : ∃ n, fuel = n + 1 := ⟨fuel - 1, by omega⟩
      have hbyte : (UInt8.ofNat (v % 128).toNat).toNat = (v % 128).toNat :=
        toNat_ofNat_of_lt _ (by omega)
      rw [signed_leb128_loop_step fuel d (UInt8.ofNat (v % 128).toNat) post value (7 * k)
        (by rw [hrest]; rfl), hbyte,
        signed_overflow_of_lt _ _ _ (by omega), signed_last_eq _ (by omega),
        signed_extends_eq (7 * k) (by omega) _ (by omega), byte_and_7f _ (by omega)]
      have hlast : decide ((v % 128).toNat < 128) = true := by
        simp only [decide_eq_true_eq]; omega
      have hslice : (((v % 128).toNat % 128 : Nat) : Int) = v % 128 := by omega
      rw [hlast, hslice]
      simp only [Bool.false_eq_true, if_false, if_true]
      rw [or64_slice k hk value _ hv0 hv (by omega) (by omega)]
      by_cases hneg : v < 0
      · have hext : decide (64 ≤ (v % 128).toNat) = true := by
          simp only [decide_eq_true_eq]; omega
        have hk3 : k ≤ 3 := by
          by_contra hc
          have h4 : k = 4 := by omega
          subst h4
          norm_num at hlo
          omega
        rw [hext]
        simp only [if_true]
        have hacc0 : 0 ≤ value + v % 128 * 2 ^ (7 * k) := by
          interval_cases k <;> norm_num <;> omega
        have hacc : value + v % 128 * 2 ^ (7 * k) < 2 ^ (7 * (k + 1)) := by
          interval_cases k <;> norm_num at hv ⊢ <;> omega
        rw [show 7 * k + 7 = 7 * (k + 1) by ring,
          or64_sign (k + 1) (by omega) (by omega) _ hacc0 hacc]
        congr 2
        interval_cases k <;> norm_num <;> omega
      · have hext : decide (64 ≤ (v % 128).toNat) = false := by
          simp only [decide_eq_false_iff_not]; omega
        rw [hext]
        simp only [Bool.false_eq_true, if_false]
        congr 2
        interval_cases k <;> norm_num <;> omega
    · rw [if_neg hsmall] at hrest hfuel ⊢
      simp only [List.length_cons] at hfuel ⊢
      obtain ⟨fuel, rfl⟩ : ∃ n, fuel = n + 1 := ⟨fuel - 1, by omega⟩
      have hbyte : (UInt8.ofNat ((v % 128).toNat + 128)).toNat = (v % 128).toNat + 128 :=
        toNat_ofNat_of_lt _ (by omega)
      have hk3 : k ≤ 3 := by
        by_contra hc
        have h4 : k = 4 := by omega
        subst h4
        norm_num at hlo hhi
        omega
      rw [signed_leb128_loop_step fuel d (UInt8.ofNat ((v % 128).toNat + 128))
        (sleb128_go f (v / 128) ++ post) value (7 * k) (by rw [hrest]; rfl), hbyte,
        signed_overflow_of_lt _ _ _ (by omega), signed_last_eq _ (by omega),
        byte_and_7f _ (by omega)]
      have hlast : decide ((v % 128).toNat + 128 < 128) = false := by
        simp only [decide_eq_false_iff_not]; omega
      have hslice : ((((v % 128).toNat + 128) % 128 : Nat) : Int) = v % 128 := by omega
      rw [hlast, hslice]
      simp only [Bool.false_eq_true, if_false]
      rw [or64_slice k hk value _ hv0 hv (by omega) (by omega)]
      have hrest1 : (d.advanced 1).rest = sleb128_go f (v / 128) ++ post := by
        rw [rest_advanced, hrest]
        rfl
      rw [show 7 * k + 7 = 7 * (k + 1) by ring,
        ih (v / 128) (k + 1) _ (d.advanced 1) post fuel hrest1 (by omega) (by omega)
          (by interval_cases k <;> norm_num <;> omega)
          (by interval_cases k <;> norm_num at hv ⊢ <;> omega)
          (by omega)
          (by interval_cases k <;> norm_num at hlo ⊢ <;> omega)
          (by interval_cases k <;> norm_num at hhi ⊢ <;> omega),
        advanced_advanced]
      congr 2
      · interval_cases k <;> norm_num <;> omega
      · rw [Nat.add_comm]

/-- The standard signed LEB128 encoding of `v` is read back as `v` for
`-2^27 ≤ v < 2^31`: the negative values whose encoding has at most four bytes, and the
others up to the largest 32-bit integer. -/
theorem signed_leb128_sleb128 (d : Decoder) (v : Int) (post : List UInt8)
    (h : d.rest = sleb128 v ++ post) (hlo : -2 ^ 27 ≤ v) (hhi : v < 2 ^ 31) :
    d.signed_leb128 = (Except.ok v, d.advanced (sleb128 v).length) := by
  have hlen := rest_length d
  rw [h, List.length_append] at hlen
  have := signed_leb128_loop_sleb128 v.natAbs v 0 0 d post (d.source.length - d.position + 1)
    h (by simp only [sleb128] at hlen; omega) (Nat.le_refl _) (Int.le_refl 0) (by norm_num) (by omega)
    (by simpa using hlo) (by simpa using hhi)
  simpa [signed_leb128, sleb128] using this

end Decoder

/-! ## Integer literals -/

theorem to_signed_16 (v : Int) :
    Decoder.to_signed 16 (v % 2 ^ 16).toNat = two_complement 16 v := by
  unfold Decoder.to_signed two_complement
  split <;> norm_num at * <;> omega

theorem to_signed_32 (v : Int) :
    Decoder.to_signed 32 (v % 2 ^ 32).toNat = two_complement 32 v := by
  unfold Decoder.to_signed two_complement
  split <;> norm_num at * <;> omega

theorem to_signed_8 (n : Nat) (h : n < 256) :
    Decoder.to_signed 8 n = two_complement 8 (n : Int) := by
  unfold Decoder.to_signed two_complement
  split <;> norm_num at * <;> omega

theorem two_complement_of_range (bits : Nat) (v : Int) (hbits : 0 < bits)
    (hlo : -2 ^ (bits - 1) ≤ v) (hhi : v < 2 ^ (bits - 1)) : two_complement bits v = v := by
  unfold two_complement
  have hpow : (2 : Int) ^ bits = 2 * 2 ^ (bits - 1) := by
    obtain ⟨n, rfl⟩ : ∃ n, bits = n + 1 := ⟨bits - 1, by omega⟩
    rw [Nat.add_sub_cancel, pow_succ]
    ring
  rw [hpow, Int.emod_eq_of_lt (by omega) (by omega)]
  omega

namespace Deserializer

/-- The tag `char_`: an unsigned LEB128 integer, reduced modulo `2^16`. -/
theorem value_char (fuel : Nat) (ds ds1 : Deserializer) (b : UInt8) (tail : List UInt8)
    (n : Nat) (h : ds.rest = b :: tail) (ht : b.toNat = tag.Value.char_.raw_value)
    (hn : get Decoder.unsigned_leb128 (ds.advanced 1) = Except.ok (n, ds1)) :
    value (fuel + 1) ds = Except.ok (Value.char (n % 2 ^ 16),
      if ds1.source.position > ds.source.position + 2 then
        Memo.values.push (Value.char (n % 2 ^ 16)) ds1 else ds1) := by
  rw [value, internable_inline Memo.values _ ds ds1 (Value.char (n % 2 ^ 16))
    (rest_ne_ff_of_cons ds b tail h (ne_ff_of_le (by rw [ht]; decide)))]
  rw [M.bind_apply, get_u8_of_rest ds b tail h, ht]
  simp only []
  repeat (rw [if_neg (by decide)])
  rw [if_pos (by decide), M.bind_apply, hn]
  simp only [M.pure_apply]
  rw [show (0xffff : Nat) = 2 ^ 16 - 1 by norm_num, Nat.and_pow_two_sub_one_eq_mod,
    Nat.mod_mod]

/-- The tag `short_`: a signed LEB128 integer, reduced to 16 bits. -/
theorem value_short (fuel : Nat) (ds ds1 : Deserializer) (b : UInt8) (tail : List UInt8)
    (v : Int) (h : ds.rest = b :: tail) (ht : b.toNat = tag.Value.short_.raw_value)
    (hv : get Decoder.signed_leb128 (ds.advanced 1) = Except.ok (v, ds1)) :
    value (fuel + 1) ds = Except.ok (Value.short (two_complement 16 v),
      if ds1.source.position > ds.source.position + 2 then
        Memo.values.push (Value.short (two_complement 16 v)) ds1 else ds1) := by
  rw [value, internable_inline Memo.values _ ds ds1 (Value.short (two_complement 16 v))
    (rest_ne_ff_of_cons ds b tail h (ne_ff_of_le (by rw [ht]; decide)))]
  rw [M.bind_apply, get_u8_of_rest ds b tail h, ht]
  simp only []
  repeat (rw [if_neg (by decide)])
  rw [if_pos (by decide), M.bind_apply, hv]
  simp only [M.pure_apply]
  rw [to_signed_16]

/-- The tag `int_`: a signed LEB128 integer, reduced to 32 bits. -/
theorem value_int (fuel : Nat) (ds ds1 : Deserializer) (b : UInt8) (tail : List UInt8)
    (v : Int) (h : ds.rest = b :: tail) (ht : b.toNat = tag.Value.int_.raw_value)
    (hv : get Decoder.signed_leb128 (ds.advanced 1) = Except.ok (v, ds1)) :
    value (fuel + 1) ds = Except.ok (Value.int (two_complement 32 v),
      if ds1.source.position > ds.source.position + 2 then
        Memo.values.push (Value.int (two_complement 32 v)) ds1 else ds1) := by
  rw [value, internable_inline Memo.values _ ds ds1 (Value.int (two_complement 32 v))
    (rest_ne_ff_of_cons ds b tail h (ne_ff_of_le (by rw [ht]; decide)))]
  rw [M.bind_apply, get_u8_of_rest ds b tail h, ht]
  simp only []
  repeat (rw [if_neg (by decide)])
  rw [if_pos (by decide), M.bind_apply, hv]
  simp only [M.pure_apply]
  rw [to_signed_32]

/-- The tag `long_`: a signed LEB128 integer. -/
theorem value_long (fuel : Nat) (ds ds1 : Deserializer) (b : UInt8) (tail : List UInt8)
    (v : Int) (h : ds.rest = b :: tail) (ht : b.toNat = tag.Value.long_.raw_value)
    (hv : get Decoder.signed_leb128 (ds.advanced 1) = Except.ok (v, ds1)) :
    value (fuel + 1) ds = Except.ok (Value.long v,
      if ds1.source.position > ds.source.position + 2 then
        Memo.values.push (Value.long v) ds1 else ds1) := by
  rw [value, internable_inline Memo.values _ ds ds1 (Value.long v)
    (rest_ne_ff_of_cons ds b tail h (ne_ff_of_le (by rw [ht]; decide)))]
  rw [M.bind_apply, get_u8_of_rest ds b tail h, ht]
  simp only []
  repeat (rw [if_neg (by decide)])
  rw [if_pos (by decide), M.bind_apply, hv]
  simp only [M.pure_apply]

/-- The tag `byte`: one byte, read with `i8`. -/
theorem value_byte (fuel : Nat) (ds ds1 : Deserializer) (b : UInt8) (tail : List UInt8)
    (v : Int) (h : ds.rest = b :: tail) (ht : b.toNat = tag.Value.byte.raw_value)
    (hv : get Decoder.i8 (ds.advanced 1) = Except.ok (v, ds1)) :
    value (fuel + 1) ds = Except.ok (Value.byte v,
      if ds1.source.position > ds.source.position + 2 then
        Memo.values.push (Value.byte v) ds1 else ds1) := by
  rw [value, internable_inline Memo.values _ ds ds1 (Value.byte v)
    (rest_ne_ff_of_cons ds b tail h (ne_ff_of_le (by rw [ht]; decide)))]
  rw [M.bind_apply, get_u8_of_rest ds b tail h, ht]
  simp only []
  repeat (rw [if_neg (by decide)])
  rw [if_pos (by decide), M.bind_apply, hv]
  simp only [M.pure_apply]

end Deserializer

namespace Deserializer

theorem get_of_read {α : Type} (read : Decoder → Result α × Decoder) (ds : Deserializer)
    (a : α) (d : Decoder) (h : read ds.source = (Except.ok a, d)) :
    get read ds = Except.ok (a, { ds with source := d }) := by
  simp [get, h]

theorem get_i8_of_rest (ds : Deserializer) (c : UInt8) (tail : List UInt8)
    (h : ds.rest = c :: tail) :
    get Decoder.i8 ds = Except.ok (Decoder.to_signed 8 c.toNat, ds.advanced 1) := by
  have hu := Decoder.u8_of_drop ds.source c tail h
  have hi : Decoder.i8 ds.source = (Except.ok (Decoder.to_signed 8 c.toNat),
      ds.source.advanced 1) := by
    have : Decoder.i8 ds.source =
        ((Decoder.u8 ds.source).1.map (Decoder.to_signed 8), (Decoder.u8 ds.source).2) := rfl
    rw [this, hu]
    rfl
  rw [get_of_read Decoder.i8 ds _ _ hi]
  rfl

/-- The value that the tag `byte` and one more byte decode to. -/
theorem value_byte_of_rest (fuel : Nat) (ds : Deserializer) (b c : UInt8)
    (tail : List UInt8) (h : ds.rest = b :: c :: tail)
    (ht : b.toNat = tag.Value.byte.raw_value) :
    value (fuel + 1) ds =
      Except.ok (Value.byte (two_complement 8 (c.toNat : Int)), ds.advanced 2) := by
  have hrest1 : (ds.advanced 1).rest = c :: tail := by
    rw [state_rest_advanced, h]
    rfl
  rw [value_byte fuel ds ((ds.advanced 1).advanced 1) b (c :: tail) _ h ht
    (get_i8_of_rest (ds.advanced 1) c tail hrest1), to_signed_8 _ (UInt8.toNat_lt_size c),
    if_neg (by simp [advanced, Decoder.advanced]), state_advanced_advanced]

theorem get_signed_leb128_of_rest (ds : Deserializer) (v : Int) (post : List UInt8)
    (h : ds.rest = sleb128 v ++ post) (hlo : -2 ^ 27 ≤ v) (hhi : v < 2 ^ 31) :
    get Decoder.signed_leb128 ds = Except.ok (v, ds.advanced (sleb128 v).length) :=
  get_of_read Decoder.signed_leb128 ds v _
    (Decoder.signed_leb128_sleb128 ds.source v post h hlo hhi)

/-- The state after an inline value of `1 + n` bytes that starts at `ds`. -/
theorem memoized_after (ds : Deserializer) (n : Nat) (v : Value) :
    (if ((ds.advanced 1).advanced n).source.position > ds.source.position + 2 then
      Memo.values.push v ((ds.advanced 1).advanced n) else (ds.advanced 1).advanced n) =
    if 2 ≤ n then Memo.values.push v (ds.advanced (1 + n)) else ds.advanced (1 + n) := by
  rw [state_advanced_advanced]
  by_cases hn : 2 ≤ n
  · rw [if_pos hn, if_pos (by simp [advanced, Decoder.advanced]; omega)]
  · rw [if_neg hn, if_neg (by simp [advanced, Decoder.advanced]; omega)]

theorem rest_advanced_one (ds : Deserializer) (b : UInt8) (tail : List UInt8)
    (h : ds.rest = b :: tail) : (ds.advanced 1).rest = tail := by
  rw [state_rest_advanced, h]
  rfl

end Deserializer

namespace Deserializer

/-- C17, the part that fails: the payload of the tag `byte` is not LEB128. The signed LEB128
encoding of -1 is the byte `7F`, and `05 7F` decodes to `Byte(127)`, never to `Byte(-1)`;
the encoding of 100 is `E4 00`, and `05 E4 00` decodes to `Byte(-28)` with the cursor
after the second byte of the three. -/
theorem byte_literal_is_one_raw_byte :
    sleb128 (-1) = [0x7F] ∧
    value 1 ⟨⟨0x05 :: sleb128 (-1), 0, Endian.little⟩, [], [], [], []⟩ =
      Except.ok (Value.byte 127, ⟨⟨[0x05, 0x7F], 2, Endian.little⟩, [], [], [], []⟩) ∧
    (∀ s, value 1 ⟨⟨0x05 :: sleb128 (-1), 0, Endian.little⟩, [], [], [], []⟩ ≠
      Except.ok (Value.byte (-1), s)) ∧
    sleb128 100 = [0xE4, 0x00] ∧
    value 1 ⟨⟨0x05 :: sleb128 100, 0, Endian.little⟩, [], [], [], []⟩ =
      Except.ok (Value.byte (-28), ⟨⟨[0x05, 0xE4, 0x00], 2, Endian.little⟩, [], [], [], []⟩) := by
  have h1 : sleb128 (-1) = [0x7F] := by decide
  have h2 : sleb128 100 = [0xE4, 0x00] := by decide
  have r1 := value_byte_of_rest 0 ⟨⟨[0x05, 0x7F], 0, Endian.little⟩, [], [], [], []⟩
    0x05 0x7F [] rfl (by decide)
  have r2 := value_byte_of_rest 0 ⟨⟨[0x05, 0xE4, 0x00], 0, Endian.little⟩, [], [], [], []⟩
    0x05 0xE4 [0x00] rfl (by decide)
  rw [h1, h2]
  refine ⟨rfl, r1, fun s hs => ?_, rfl, r2⟩
  rw [r1] at hs
  injection hs with hs
  injection hs with hv _
  injection hv with hv
  exact absurd hv (by decide)

/-- C17, amended: at a state whose rest is the tag `b` and `tail`,

* for the tags `char_`, `short_`, `int_` and `long_` the payload is the LEB128 integer the
  decoder reads after the tag (unsigned for `char_`, signed for the others) and the
  constant is that integer reduced to 16, 16, 32 and 64 bits (modulo `2^16` for `char_`,
  two's complement for the others; the decoder's result is already a 64-bit integer);
  the value joins the memo when the tag and the payload take more than two bytes;
* for the tag `byte` the payload is one raw byte `c`, not LEB128, and the constant is `c`
  read as a signed 8-bit integer;
* in particular the tag `char_` followed by the unsigned LEB128 encoding of `n < 2^63`
  gives `Char(n mod 2^16)`, the tags `short_`, `int_` and `long_` followed by the signed
  LEB128 encoding of `v`, for `-2^27 ≤ v < 2^31`, give `Short` of `v` reduced to 16 bits,
  `Int(v)` and `Long(v)`, and the tag `byte` followed by the byte of the 8-bit two's
  complement form of `v`, for `-128 ≤ v < 128`, gives `Byte(v)`. -/
theorem integer_literals_by_tag (fuel : Nat) (ds ds1 : Deserializer) (b : UInt8)
    (tail : List UInt8) (h : ds.rest = b :: tail) :
    (∀ n : Nat, b.toNat = tag.Value.char_.raw_value →
      get Decoder.unsigned_leb128 (ds.advanced 1) = Except.ok (n, ds1) →
      value (fuel + 1) ds = Except.ok (Value.char (n % 2 ^ 16),
        if ds1.source.position > ds.source.position + 2 then
          Memo.values.push (Value.char (n % 2 ^ 16)) ds1 else ds1)) ∧
    (∀ v : Int, b.toNat = tag.Value.short_.raw_value →
      get Decoder.signed_leb128 (ds.advanced 1) = Except.ok (v, ds1) →
      value (fuel + 1) ds = Except.ok (Value.short (two_complement 16 v),
        if ds1.source.position > ds.source.position + 2 then
          Memo.values.push (Value.short (two_complement 16 v)) ds1 else ds1)) ∧
    (∀ v : Int, b.toNat = tag.Value.int_.raw_value →
      get Decoder.signed_leb128 (ds.advanced 1) = Except.ok (v, ds1) →
      value (fuel + 1) ds = Except.ok (Value.int (two_complement 32 v),
        if ds1.source.position > ds.source.position + 2 then
          Memo.values.push (Value.int (two_complement 32 v)) ds1 else ds1)) ∧
    (∀ v : Int, b.toNat = tag.Value.long_.raw_value →
      get Decoder.signed_leb128 (ds.advanced 1) = Except.ok (v, ds1) →
      value (fuel + 1) ds = Except.ok (Value.long v,
        if ds1.source.position > ds.source.position + 2 then
          Memo.values.push (Value.long v) ds1 else ds1)) ∧
    (∀ (c : UInt8) (post : List UInt8), b.toNat = tag.Value.byte.raw_value →
      tail = c :: post →
      value (fuel + 1) ds =
        Except.ok (Value.byte (two_complement 8 (c.toNat : Int)), ds.advanced 2)) ∧
    (∀ (n : Nat) (post : List UInt8), b.toNat = tag.Value.char_.raw_value →
      tail = uleb128 n ++ post → n < 2 ^ 63 →
      value (fuel + 1) ds = Except.ok (Value.char (n % 2 ^ 16),
        if 2 ≤ (uleb128 n).length then
          Memo.values.push (Value.char (n % 2 ^ 16)) (ds.advanced (1 + (uleb128 n).length))
        else ds.advanced (1 + (uleb128 n).length))) ∧
    (∀ (v : Int) (post : List UInt8), b.toNat = tag.Value.short_.raw_value →
      tail = sleb128 v ++ post → -2 ^ 27 ≤ v → v < 2 ^ 31 →
      value (fuel + 1) ds = Except.ok (Value.short (two_complement 16 v),
        if 2 ≤ (sleb128 v).length then
          Memo.values.push (Value.short (two_complement 16 v))
            (ds.advanced (1 + (sleb128 v).length))
        else ds.advanced (1 + (sleb128 v).length))) ∧
    (∀ (v : Int) (post : List UInt8), b.toNat = tag.Value.int_.raw_value →
      tail = sleb128 v ++ post → -2 ^ 27 ≤ v → v < 2 ^ 31 →
      value (fuel + 1) ds = Except.ok (Value.int v,
        if 2 ≤ (sleb128 v).length then
          Memo.values.push (Value.int v) (ds.advanced (1 + (sleb128 v).length))
        else ds.advanced (1 + (sleb128 v).length))) ∧
    (∀ (v : Int) (post : List UInt8), b.toNat = tag.Value.long_.raw_value →
      tail = sleb128 v ++ post → -2 ^ 27 ≤ v → v < 2 ^ 31 →
      value (fuel + 1) ds = Except.ok (Value.long v,
        if 2 ≤ (sleb128 v).length then
          Memo.values.push (Value.long v) (ds.advanced (1 + (sleb128 v).length))
        else ds.advanced (1 + (sleb128 v).length))) ∧
    (∀ (v : Int) (post : List UInt8), b.toNat = tag.Value.byte.raw_value →
      tail = UInt8.ofNat (v % 256).toNat :: post → -128 ≤ v → v < 128 →
      value (fuel + 1) ds = Except.ok (Value.byte v, ds.advanced 2)) := by
  have h1 := rest_advanced_one ds b tail h
  refine ⟨fun n ht hn => value_char fuel ds ds1 b tail n h ht hn,
    fun v ht hv => value_short fuel ds ds1 b tail v h ht hv,
    fun v ht hv => value_int fuel ds ds1 b tail v h ht hv,
    fun v ht hv => value_long fuel ds ds1 b tail v h ht hv,
    fun c post ht hc => value_byte_of_rest fuel ds b c post (by rw [h, hc]) ht,
    fun n post ht hp hn => ?_, fun v post ht hp hlo hhi => ?_,
    fun v post ht hp hlo hhi => ?_, fun v post ht hp hlo hhi => ?_,
    fun v post ht hp hlo hhi => ?_⟩
  · rw [value_char fuel ds _ b tail n h ht
      (get_unsigned_leb128_of_rest (ds.advanced 1) n post (by rw [h1, hp]) hn),
      memoized_after]
  · rw [value_short fuel ds _ b tail v h ht
      (get_signed_leb128_of_rest (ds.advanced 1) v post (by rw [h1, hp]) hlo hhi),
      memoized_after]
  · rw [value_int fuel ds _ b tail v h ht
      (get_signed_leb128_of_rest (ds.advanced 1) v post (by rw [h1, hp]) hlo hhi),
      memoized_after,
      two_complement_of_range 32 v (by norm_num) (by norm_num; omega) (by norm_num; omega)]
  · rw [value_long fuel ds _ b tail v h ht
      (get_signed_leb128_of_rest (ds.advanced 1) v post (by rw [h1, hp]) hlo hhi),
      memoized_after]
  · have hc : two_complement 8 ((UInt8.ofNat (v % 256).toNat).toNat : Int) = v := by
      rw [Decoder.toNat_ofNat_of_lt _ (by omega)]
      unfold two_complement
      norm_num
      omega
    rw [value_byte_of_rest fuel ds b _ post (by rw [h, hp]) ht, hc]

/-- C17, amended, on `07 80 80 80 40` (the tag `int_` and the encoding of `-2^27`, which
joins the memo) and on `05 FF` (the tag `byte` and the raw byte of -1). -/
theorem integer_literals_by_tag_witness :
    value 1 ⟨⟨[0x07, 0x80, 0x80, 0x80, 0x40], 0, Endian.little⟩, [], [], [], []⟩ =
      Except.ok (Value.int (-134217728),
        ⟨⟨[0x07, 0x80, 0x80, 0x80, 0x40], 5, Endian.little⟩, [], [], [],
          [Value.int (-134217728)]⟩) ∧
    value 1 ⟨⟨[0x05, 0xFF], 0, Endian.little⟩, [], [], [], []⟩ =
      Except.ok (Value.byte (-1), ⟨⟨[0x05, 0xFF], 2, Endian.little⟩, [], [], [], []⟩) :=
  ⟨(integer_literals_by_tag 0 ⟨⟨[0x07, 0x80, 0x80, 0x80, 0x40], 0, Endian.little⟩, [], [], [], []⟩
      ⟨⟨[], 0, Endian.little⟩, [], [], [], []⟩ 0x07 [0x80, 0x80, 0x80, 0x40]
      rfl).2.2.2.2.2.2.2.1 (-134217728) [] (by decide) (by decide) (by decide) (by decide),
   (integer_literals_by_tag 0 ⟨⟨[0x05, 0xFF], 0, Endian.little⟩, [], [], [], []⟩
      ⟨⟨[], 0, Endian.little⟩, [], [], [], []⟩ 0x05 [0xFF]
      rfl).2.2.2.2.2.2.2.2.2 (-1) [] (by decide) (by decide) (by decide) (by decide)⟩

end Deserializer

/-! ## Normalization and the normal form -/

namespace Type_

/-- What `normalized` computes: the normal form, unless it meets a struct with an element
or a function with a parameter. -/
theorem normalized_eq : ∀ t : Type_, t.normalized =
    if t.normalizable then Except.ok t.normal_form
    else Except.error
      (Failure.undefined "std::transform writes through begin() of an empty vector")
  | predefined p => by simp [normalized, normalizable, normal_form]
  | numeric n => by simp [normalized, normalizable, normal_form]
  | array_value element size => by
    rw [normalized, normalized_eq element]
    by_cases h : element.normalizable <;> simp [normalizable, normal_form, h]
  | array_reference element nullable => by
    rw [normalized, normalized_eq element]
    by_cases h : element.normalizable <;> simp [normalizable, normal_form, h]
  | struct [] => by simp [normalized, normalizable, normal_form, normal_forms]
  | struct (e :: es) => by simp [normalized, normalizable]
  | reference name exact nullable => by simp [normalized, normalizable, normal_form]
  | var type => by
    rw [normalized, normalized_eq type]
    by_cases h : type.normalizable <;> simp [normalizable, normal_form, h]
  | function [] return_value => by
    rw [normalized, normalized_eq return_value]
    by_cases h : return_value.normalizable <;>
      simp [normalizable, normal_form, normal_forms, h]
  | function (p :: ps) return_value => by
    rw [normalized, normalized_eq return_value]
    by_cases h : return_value.normalizable <;> simp [normalizable, h]

mutual

theorem refinement_erased_normal_form : ∀ t : Type_, t.normal_form.refinement_erased = true
  | predefined p => by simp [normal_form, refinement_erased]
  | numeric n => by simp [normal_form, refinement_erased]
  | array_value element size => by
    simp [normal_form, refinement_erased, refinement_erased_normal_form element]
  | array_reference element nullable => by
    simp [normal_form, refinement_erased, refinement_erased_normal_form element]
  | struct elements => by
    simp [normal_form, refinement_erased, all_refinement_erased_normal_forms elements]
  | reference name exact nullable => by simp [normal_form, refinement_erased]
  | var type => by simp [normal_form, refinement_erased, refinement_erased_normal_form type]
  | function parameters return_value => by
    simp [normal_form, refinement_erased, all_refinement_erased_normal_forms parameters,
      refinement_erased_normal_form return_value]

theorem all_refinement_erased_normal_forms :
    ∀ ts : List Type_, all_refinement_erased (normal_forms ts) = true
  | [] => by simp [normal_forms, all_refinement_erased]
  | t :: ts => by
    simp [normal_forms, all_refinement_erased, refinement_erased_normal_form t,
      all_refinement_erased_normal_forms ts]

end

mutual

theorem reference_names_normal_form :
    ∀ t : Type_, t.normal_form.reference_names = t.reference_names
  | predefined p => by simp [normal_form, reference_names]
  | numeric n => by simp [normal_form, reference_names]
  | array_value element size => by
    simp [normal_form, reference_names, reference_names_normal_form element]
  | array_reference element nullable => by
    simp [normal_form, reference_names, reference_names_normal_form element]
  | struct elements => by
    simp [normal_form, reference_names, all_reference_names_normal_forms elements]
  | reference name exact nullable => by simp [normal_form, reference_names]
  | var type => by simp [normal_form, reference_names, reference_names_normal_form type]
  | function parameters return_value => by
    simp [normal_form, reference_names, all_reference_names_normal_forms parameters,
      reference_names_normal_form return_value]

theorem all_reference_names_normal_forms :
    ∀ ts : List Type_, all_reference_names (normal_forms ts) = all_reference_names ts
  | [] => by simp [normal_forms, all_reference_names]
  | t :: ts => by
    simp [normal_forms, all_reference_names, reference_names_normal_form t,
      all_reference_names_normal_forms ts]

end

theorem normal_forms_eq_map (ts : List Type_) : normal_forms ts = ts.map normal_form := by
  induction ts with
  | nil => rfl
  | cons t ts ih => simp [normal_forms, ih]

end Type_

/-! ## Equality of types -/

namespace Type_

mutual

/-- The comparison `operator==` of two types holds exactly of equal types. -/
theorem beq_iff : ∀ a b : Type_, a.beq b = true ↔ a = b
  | predefined p, b => by cases b <;> simp [beq]
  | numeric n, b => by cases b <;> simp [beq]
  | array_value e s, b => by cases b <;> simp [beq, beq_iff e]
  | array_reference e n, b => by cases b <;> simp [beq, beq_iff e]
  | struct es, b => by cases b <;> simp [beq, beq_all_iff es]
  | reference name e n, b => by cases b <;> simp [beq, and_assoc]
  | var t, b => by cases b <;> simp [beq, beq_iff t]
  | function ps rv, b => by cases b <;> simp [beq, beq_all_iff ps, beq_iff rv]

theorem beq_all_iff : ∀ as bs : List Type_, beq_all as bs = true ↔ as = bs
  | [], bs => by cases bs <;> simp [beq_all]
  | a :: as, bs => by cases bs <;> simp [beq_all, beq_iff a, beq_all_iff as]

end

theorem beq_self (a : Type_) : a.beq a = true := (beq_iff a a).2 rfl

theorem beq_eq_false_iff (a b : Type_) : a.beq b = false ↔ a ≠ b := by
  constructor
  · intro hb hab
    rw [(beq_iff a b).2 hab] at hb
    cases hb
  · intro hne
    cases hb : a.beq b
    · rfl
    · exact absurd ((beq_iff a b).1 hb) hne

end Type_

namespace Type_

theorem normalized_error (t : Type_) (f : Failure) (h : t.normalized = Except.error f) :
    f = Failure.undefined "std::transform writes through begin() of an empty vector" := by
  rw [normalized_eq t] at h
  by_cases hn : t.normalizable
  · rw [if_pos hn] at h
    cases h
  · rw [if_neg hn] at h
    injection h with h
    exact h.symm

/-- C21 (fails on the code): `normalized` returns the normal form of `t`, in which every
reference is not exact, nullable and keeps its name, and every array reference is
nullable, only if it meets no struct with an element and no function with a parameter;
on the other types, like the struct `{X!}` of one exact reference, it has no defined
result, since the normalized component is assigned through `begin()` of an empty vector.
The particular cases of the claim hold: a reference `(n, e, b)` normalizes to
`(n, false, true)`, an array reference of `x` to the nullable array reference of the
normalized `x` (when `x` normalizes), and numeric and predefined types to themselves. -/
theorem normalized_erases_refinement_unless_undefined (t x : Type_) (n : symbol.Top)
    (e b : Bool) (k : type.Numeric) (p : type.Predefined) :
    (t.normalized =
      if t.normalizable then Except.ok t.normal_form
      else Except.error
        (Failure.undefined "std::transform writes through begin() of an empty vector")) ∧
    t.normal_form.refinement_erased = true ∧
    t.normal_form.reference_names = t.reference_names ∧
    (reference n e b).normalized = Except.ok (reference n false true) ∧
    (array_reference x b).normalized =
      (x.normalized).map (fun x1 => array_reference x1 true) ∧
    (numeric k).normalized = Except.ok (numeric k) ∧
    (predefined p).normalized = Except.ok (predefined p) ∧
    (struct [reference n true false]).normalizable = false ∧
    (struct [reference n true false]).normalized = Except.error
      (Failure.undefined "std::transform writes through begin() of an empty vector") := by
  refine ⟨normalized_eq t, refinement_erased_normal_form t, reference_names_normal_form t,
    rfl, ?_, rfl, rfl, rfl, rfl⟩
  rw [normalized]
  cases x.normalized <;> rfl

/-- C22 (fails on the code): `normalized` has no defined result on a struct with at least
one element, nor on a function with at least one parameter: where the struct (the
function) of the normalized elements (parameters) is due, the normalized component is
assigned through `begin()` of an empty vector. Only the empty struct, the functions
without parameters and the vars are normalized componentwise. -/
theorem componentwise_normalization_is_undefined (e p rv t : Type_) (es ps : List Type_) :
    (struct (e :: es)).normalized = Except.error
      (Failure.undefined "std::transform writes through begin() of an empty vector") ∧
    (function (p :: ps) rv).normalized = Except.error
      (Failure.undefined "std::transform writes through begin() of an empty vector") ∧
    (struct []).normalized = Except.ok (struct []) ∧
    (function [] rv).normalized = (rv.normalized).map (fun rv1 => function [] rv1) ∧
    (var t).normalized = (t.normalized).map (fun t1 => var t1) := by
  refine ⟨rfl, ?_, rfl, ?_, ?_⟩
  · rw [normalized]
    cases h : rv.normalized with
    | error f => rw [normalized_error rv f h]
    | ok rv1 => rfl
  · rw [normalized]
    cases rv.normalized <;> rfl
  · rw [normalized]
    cases t.normalized <;> rfl

end Type_

/-! ## Indexing of types -/

namespace Type_

theorem element_at_struct (es : List Type_) (i : Nat) :
    (struct es).element_at i =
      if h : i < es.length then Except.ok (es.get ⟨i, h⟩)
      else Except.error Failure.out_of_range := by
  rw [element_at]
  by_cases h : i < es.length
  · rw [dif_pos h, List.get?_eq_get h]
  · rw [dif_neg h, List.get?_eq_none.2 (by omega)]

theorem element_at_path_cons (t : Type_) (i : Nat) (p : List Nat) :
    t.element_at_path (i :: p) = t.element_at i >>= fun u => u.element_at_path p := by
  rw [element_at_path]
  cases t.element_at i <;> rfl

theorem element_at_path_append : ∀ (p q : List Nat) (t : Type_),
    t.element_at_path (p ++ q) = t.element_at_path p >>= fun u => u.element_at_path q
  | [], q, t => rfl
  | i :: p, q, t => by
    rw [List.cons_append, element_at_path, element_at_path]
    cases h : t.element_at i with
    | error e => rfl
    | ok u => exact element_at_path_append p q u

theorem element_at_path_singleton (t : Type_) (i : Nat) :
    t.element_at_path [i] = t.element_at i := by
  rw [element_at_path]
  cases t.element_at i <;> rfl

/-- When `element_at` fails: with `std::out_of_range` on an array value or a struct whose
size the index reaches, with `std::domain_error` on every other type. -/
theorem element_at_error_iff (t : Type_) (i : Nat) (e : Failure) :
    t.element_at i = Except.error e ↔
      (e = Failure.out_of_range ∧
        ((∃ x s, t = array_value x s ∧ s ≤ i) ∨ (∃ es, t = struct es ∧ es.length ≤ i))) ∨
      (e = Failure.domain_error ∧ (∀ x s, t ≠ array_value x s) ∧ (∀ es, t ≠ struct es)) := by
  cases t with
  | array_value x s =>
    rw [element_at]
    by_cases h : i ≥ s
    · rw [if_pos h]
      constructor
      · intro he
        injection he with he
        exact Or.inl ⟨he.symm, Or.inl ⟨x, s, rfl, h⟩⟩
      · rintro (⟨he, _⟩ | ⟨_, hne, _⟩)
        · rw [he]
        · exact absurd rfl (hne x s)
    · rw [if_neg h]
      constructor
      · intro he
        cases he
      · rintro (⟨_, ⟨x1, s1, heq, hle⟩ | ⟨es, heq, _⟩⟩ | ⟨_, hne, _⟩)
        · injection heq with _ hs
          omega
        · cases heq
        · exact absurd rfl (hne x s)
  | struct es =>
    rw [element_at_struct]
    by_cases h : i < es.length
    · rw [dif_pos h]
      constructor
      · intro he
        cases he
      · rintro (⟨_, ⟨x1, s1, heq, _⟩ | ⟨es1, heq, hle⟩⟩ | ⟨_, _, hne⟩)
        · cases heq
        · injection heq with hes
          rw [← hes] at hle
          omega
        · exact absurd rfl (hne es)
    · rw [dif_neg h]
      constructor
      · intro he
        injection he with he
        exact Or.inl ⟨he.symm, Or.inr ⟨es, rfl, by omega⟩⟩
      · rintro (⟨he, _⟩ | ⟨_, _, hne⟩)
        · rw [he]
        · exact absurd rfl (hne es)
  | predefined _ =>
    simp [element_at]
    exact eq_comm
  | numeric _ =>
    simp [element_at]
    exact eq_comm
  | array_reference _ _ =>
    simp [element_at]
    exact eq_comm
  | reference _ _ _ =>
    simp [element_at]
    exact eq_comm
  | var _ =>
    simp [element_at]
    exact eq_comm
  | function _ _ =>
    simp [element_at]
    exact eq_comm

/-- A lookup fails exactly when one of its steps does, and with the failure of that step:
the path splits into a part that is resolved, to some type `u`, and an index at which
`element_at` fails on `u`. -/
theorem element_at_path_error_iff : ∀ (p : List Nat) (t : Type_) (e : Failure),
    t.element_at_path p = Except.error e ↔
      ∃ (p1 : List Nat) (i : Nat) (p2 : List Nat) (u : Type_),
        p = p1 ++ i :: p2 ∧ t.element_at_path p1 = Except.ok u ∧
        u.element_at i = Except.error e
  | [], t, e => by
    constructor
    · intro h
      cases h
    · rintro ⟨p1, i, p2, u, hp, _, _⟩
      cases p1 <;> cases hp
  | j :: p, t, e => by
    rw [element_at_path]
    cases hj : t.element_at j with
    | error f =>
      constructor
      · intro h
        simp only at h
        exact ⟨[], j, p, t, rfl, rfl, by rw [hj, h]⟩
      · rintro ⟨p1, i, p2, u, hp, h1, h2⟩
        cases p1 with
        | nil =>
          injection hp with hi _
          injection h1 with h1
          rw [← h1, ← hi, hj] at h2
          exact h2
        | cons k p1 =>
          injection hp with hk _
          rw [element_at_path, ← hk, hj] at h1
          cases h1
    | ok u0 =>
      simp only
      rw [element_at_path_error_iff p u0 e]
      constructor
      · rintro ⟨p1, i, p2, u, hp, h1, h2⟩
        refine ⟨j :: p1, i, p2, u, by rw [hp]; rfl, ?_, h2⟩
        rw [element_at_path, hj]
        exact h1
      · rintro ⟨p1, i, p2, u, hp, h1, h2⟩
        cases p1 with
        | nil =>
          injection hp with hi _
          injection h1 with h1
          rw [← h1, ← hi, hj] at h2
          cases h2
        | cons k p1 =>
          injection hp with hk hp
          rw [element_at_path, ← hk, hj] at h1
          exact ⟨p1, i, p2, u, hp, h1, h2⟩

end Type_

namespace Deserializer

theorem new_struct_type_cons (e : Type_) (es : List Type_) (ds : Deserializer) :
    new_struct_type (e :: es) ds = Except.error
      (Failure.undefined "std::transform writes through begin() of an empty vector") := rfl

end Deserializer

namespace Type_

/-- C23 (fails on the code): the deserializer builds a struct type from the sequence of
its element types with `Type(type::Struct{es})`, the constructor
`Struct(std::vector<Type> const&)`, which assigns the elements through `begin()` of the
empty vector `elements`: for a sequence with an element there is no defined result, and
no struct `{i32, f64}` is built from `0B 02 06 09`. On a struct type that holds the
elements `es` (as the constructor from a vector of `indirect<Type>` builds it),
`element_at(i)` is the `i`-th element for `i < n` and raises `std::out_of_range` for
`i ≥ n`, and `element_at_path([i])` is `element_at(i)`. -/
theorem struct_from_a_sequence_is_not_built :
    (∀ (e : Type_) (es : List Type_) (ds : Deserializer),
      Deserializer.new_struct_type (e :: es) ds = Except.error
        (Failure.undefined "std::transform writes through begin() of an empty vector")) ∧
    Deserializer.type_ 2 ⟨⟨[0x0B, 0x02, 0x06, 0x09], 0, Endian.little⟩, [], [], [], []⟩ =
      Except.error
        (Failure.undefined "std::transform writes through begin() of an empty vector") ∧
    (∀ (es : List Type_) (i : Nat), (struct es).element_at i =
      if h : i < es.length then Except.ok (es.get ⟨i, h⟩)
      else Except.error Failure.out_of_range) ∧
    (∀ (es : List Type_) (i : Nat),
      (struct es).element_at_path [i] = (struct es).element_at i) ∧
    (struct [i32, f64]).element_at 0 = Except.ok i32 ∧
    (struct [i32, f64]).element_at 1 = Except.ok f64 ∧
    (struct [i32, f64]).element_at_path [1] = Except.ok f64 ∧
    (struct [i32, f64]).element_at 2 = Except.error Failure.out_of_range :=
  ⟨fun e es ds => Deserializer.new_struct_type_cons e es ds, rfl,
    fun es i => element_at_struct es i,
    fun es i => element_at_path_singleton (struct es) i, rfl, rfl, rfl, rfl⟩

/-- C24: `element_at_path` is the left-to-right composition of `element_at`. The empty
path gives the receiver; the path `i :: p` gives the lookup of `p` in `element_at(i)`;
the path `p ++ q` gives the lookup of `q` in the result of the lookup of `p`; and a
lookup fails exactly when one of its steps fails, with the failure of that step, which
is `std::out_of_range` for an index that reaches the size of an array value or of a
struct and `std::domain_error` for a receiver that is neither. -/
theorem element_at_path_is_composition (t : Type_) :
    t.element_at_path [] = Except.ok t ∧
    (∀ (i : Nat) (p : List Nat),
      t.element_at_path (i :: p) = t.element_at i >>= fun u => u.element_at_path p) ∧
    (∀ p q : List Nat,
      t.element_at_path (p ++ q) = t.element_at_path p >>= fun u => u.element_at_path q) ∧
    (∀ (p : List Nat) (e : Failure), t.element_at_path p = Except.error e ↔
      ∃ (p1 : List Nat) (i : Nat) (p2 : List Nat) (u : Type_),
        p = p1 ++ i :: p2 ∧ t.element_at_path p1 = Except.ok u ∧
        u.element_at i = Except.error e) ∧
    (∀ (i : Nat) (e : Failure), t.element_at i = Except.error e ↔
      (e = Failure.out_of_range ∧
        ((∃ x s, t = array_value x s ∧ s ≤ i) ∨ (∃ es, t = struct es ∧ es.length ≤ i))) ∨
      (e = Failure.domain_error ∧ (∀ x s, t ≠ array_value x s) ∧ (∀ es, t ≠ struct es))) ∧
    (∀ (x : Type_) (s i : Nat), i < s → (array_value x s).element_at i = Except.ok x) :=
  ⟨rfl, fun i p => element_at_path_cons t i p, fun p q => element_at_path_append p q t,
    fun p e => element_at_path_error_iff p t e, fun i e => element_at_error_iff t i e,
    fun x s i h => by rw [element_at, if_neg (by omega)]⟩

/-- C24 on the array value `{i32, f64}[3]`: the path `[2, 1]` leads to `f64`, the path
`[3, 1]` fails at its first step and the path `[2, 1, 0]` at its last. -/
theorem element_at_path_is_composition_witness :
    (array_value (struct [i32, f64]) 3).element_at_path ([2] ++ [1]) = Except.ok f64 ∧
    (array_value (struct [i32, f64]) 3).element_at_path [3, 1] =
      Except.error Failure.out_of_range ∧
    (array_value (struct [i32, f64]) 3).element_at_path [2, 1, 0] =
      Except.error Failure.domain_error :=
  ⟨((element_at_path_is_composition (array_value (struct [i32, f64]) 3)).2.2.1 [2] [1]).trans
      rfl,
   ((element_at_path_is_composition (array_value (struct [i32, f64]) 3)).2.2.2.1 [3, 1]
      Failure.out_of_range).2 ⟨[], 3, [1], _, rfl, rfl, rfl⟩,
   ((element_at_path_is_composition (array_value (struct [i32, f64]) 3)).2.2.2.1 [2, 1, 0]
      Failure.domain_error).2 ⟨[2, 1], 0, [], f64, rfl, rfl, rfl⟩⟩

end Type_

/-! ## Numeric types and the classes of arrays -/

theorem to_array_class_cases (t : Type_) :
    to_array_class t = runtime.ObjectArray.name ∨ t = Type_.u1 ∨ t = Type_.u16 ∨
      t = Type_.i8 ∨ t = Type_.i16 ∨ t = Type_.i64 ∨ t = Type_.f32 ∨ t = Type_.f64 := by
  unfold to_array_class
  by_cases h1 : t.beq Type_.u1 = true
  · exact Or.inr (Or.inl ((Type_.beq_iff _ _).1 h1))
  by_cases h2 : t.beq Type_.u16 = true
  · exact Or.inr (Or.inr (Or.inl ((Type_.beq_iff _ _).1 h2)))
  by_cases h3 : t.beq Type_.i8 = true
  · exact Or.inr (Or.inr (Or.inr (Or.inl ((Type_.beq_iff _ _).1 h3))))
  by_cases h4 : t.beq Type_.i16 = true
  · exact Or.inr (Or.inr (Or.inr (Or.inr (Or.inl ((Type_.beq_iff _ _).1 h4)))))
  by_cases h5 : t.beq Type_.i32 = true
  · exact absurd h5 h3
  by_cases h6 : t.beq Type_.i64 = true
  · exact Or.inr (Or.inr (Or.inr (Or.inr (Or.inr (Or.inl ((Type_.beq_iff _ _).1 h6))))))
  by_cases h7 : t.beq Type_.f32 = true
  · exact Or.inr (Or.inr (Or.inr (Or.inr (Or.inr (Or.inr (Or.inl
      ((Type_.beq_iff _ _).1 h7)))))))
  by_cases h8 : t.beq Type_.f64 = true
  · exact Or.inr (Or.inr (Or.inr (Or.inr (Or.inr (Or.inr (Or.inr
      ((Type_.beq_iff _ _).1 h8)))))))
  rw [if_neg h1, if_neg h2, if_neg h3, if_neg h4, if_neg h5, if_neg h6, if_neg h7, if_neg h8]
  exact Or.inl rfl

theorem to_array_class_ne_int_array (t : Type_) :
    to_array_class t ≠ runtime.IntArray.name := by
  rcases to_array_class_cases t with h | h | h | h | h | h | h | h
  · rw [h]; decide
  all_goals rw [h]; decide

namespace Type_

/-- C25 (fails on the code): the class of an array reference is looked up in the table,
but the key `Type::i8()` of `ByteArray` is the type `i32` (the defect of `Type::i8()`),
and it is tested before the key `Type::i32()` of `IntArray`. So the array class of `i32`
is `ByteArray`, no element type has the array class `IntArray`, and the array class of
the signed integer type of 8 bits is `ObjectArray`. The other entries hold: `u1`, `u16`,
`i16`, `i64`, `f32` and `f64` give `BooleanArray`, `CharArray`, `ShortArray`,
`LongArray`, `FloatArray` and `DoubleArray`, and every type outside the table gives
`ObjectArray`, whatever the flag `b`. -/
theorem array_class_of_i32_is_byte_array (t : Type_) (b : Bool) :
    (array_reference i32 b).class_name = Except.ok runtime.ByteArray.name ∧
    runtime.ByteArray.name = ⟨std_string "scala.scalanative.runtime.ByteArray"⟩ ∧
    runtime.ByteArray.name ≠ runtime.IntArray.name ∧
    (array_reference t b).class_name ≠ Except.ok runtime.IntArray.name ∧
    (array_reference (numeric (type.Numeric.integer 8 true)) b).class_name =
      Except.ok runtime.ObjectArray.name ∧
    (array_reference u1 b).class_name = Except.ok runtime.BooleanArray.name ∧
    (array_reference u16 b).class_name = Except.ok runtime.CharArray.name ∧
    (array_reference i16 b).class_name = Except.ok runtime.ShortArray.name ∧
    (array_reference i64 b).class_name = Except.ok runtime.LongArray.name ∧
    (array_reference f32 b).class_name = Except.ok runtime.FloatArray.name ∧
    (array_reference f64 b).class_name = Except.ok runtime.DoubleArray.name ∧
    ((array_reference t b).class_name = Except.ok runtime.ObjectArray.name ∨ t = u1 ∨
      t = u16 ∨ t = i32 ∨ t = i16 ∨ t = i64 ∨ t = f32 ∨ t = f64) := by
  refine ⟨rfl, rfl, by decide, ?_, rfl, rfl, rfl, rfl, rfl, rfl, rfl, ?_⟩
  · intro h
    injection h with h
    exact to_array_class_ne_int_array t h
  · rcases to_array_class_cases t with h | h
    · exact Or.inl (congrArg Except.ok h)
    · exact Or.inr h

/-- C26 (fails on the code): `Type::i8()` is `Numeric::integer(32, true)`: a signed
integer type, but of bit width 32, the same type as `Type::i32()` and not the signed
integer type of 8 bits. -/
theorem i8_is_the_signed_integer_of_32_bits :
    i8 = numeric (type.Numeric.integer 32 true) ∧
    (type.Numeric.integer 32 true).is_integer = true ∧
    (type.Numeric.integer 32 true).is_signed = true ∧
    (type.Numeric.integer 32 true).bit_width = 32 ∧
    i8 = i32 ∧ i8.beq i32 = true ∧
    (type.Numeric.integer 8 true).bit_width = 8 ∧
    i8 ≠ numeric (type.Numeric.integer 8 true) := by
  refine ⟨rfl, by decide, by decide, by decide, rfl, by decide, by decide, ?_⟩
  intro h
  injection h with h
  exact absurd h (by decide)

end Type_

/-! ## Boxes -/

namespace Type_

theorem unboxed_of_not_reference (s : Type_) (h : ∀ n e b, s ≠ reference n e b) :
    s.unboxed = none := by
  cases s with
  | reference n e b => exact absurd rfl (h n e b)
  | _ => rfl

theorem unboxed_normal_form_of_not_reference (s : Type_) (h : ∀ n e b, s ≠ reference n e b) :
    s.normal_form.unboxed = none := by
  cases s with
  | reference n e b => exact absurd rfl (h n e b)
  | _ => simp [normal_form, unboxed]

theorem normalized_ok (s n : Type_) (h : s.normalized = Except.ok n) : n = s.normal_form := by
  rw [normalized_eq s] at h
  by_cases hn : s.normalizable
  · rw [if_pos hn] at h
    injection h with h
    exact h.symm
  · rw [if_neg hn] at h
    cases h

theorem is_box_of_ok (s t n : Type_) (h : s.normalized = Except.ok n) :
    s.is_box_of t = Except.ok (match n.unboxed with
      | some u => u.beq t
      | none => false) := by
  rw [is_box_of, h]
  simp only []
  cases n.unboxed <;> rfl

theorem is_box_of_error (s t : Type_) (f : Failure) (h : s.normalized = Except.error f) :
    s.is_box_of t = Except.error f := by
  rw [is_box_of, h]

theorem is_box_of_true_iff (s t : Type_) :
    s.is_box_of t = Except.ok true ↔ ∃ n, s.normalized = Except.ok n ∧ n.unboxed = some t := by
  cases h : s.normalized with
  | error f =>
    rw [is_box_of_error s t f h]
    constructor
    · intro hf
      cases hf
    · rintro ⟨n, hn, _⟩
      cases hn
  | ok n =>
    rw [is_box_of_ok s t n h]
    constructor
    · intro hb
      refine ⟨n, rfl, ?_⟩
      cases hu : n.unboxed with
      | none =>
        rw [hu] at hb
        cases hb
      | some u =>
        rw [hu] at hb
        injection hb with hb
        rw [(beq_iff u t).1 hb]
    · rintro ⟨n1, hn1, hu⟩
      injection hn1 with hn1
      rw [hn1, hu]
      exact congrArg Except.ok (beq_self t)

theorem is_box_of_false_iff (s t : Type_) :
    s.is_box_of t = Except.ok false ↔ ∃ n, s.normalized = Except.ok n ∧ n.unboxed ≠ some t := by
  cases h : s.normalized with
  | error f =>
    rw [is_box_of_error s t f h]
    constructor
    · intro hf
      cases hf
    · rintro ⟨n, hn, _⟩
      cases hn
  | ok n =>
    rw [is_box_of_ok s t n h]
    constructor
    · intro hb
      refine ⟨n, rfl, ?_⟩
      cases hu : n.unboxed with
      | none => exact fun hc => Option.noConfusion hc
      | some u =>
        rw [hu] at hb
        injection hb with hb
        intro hc
        injection hc with hc
        exact (beq_eq_false_iff u t).1 hb hc
    · rintro ⟨n1, hn1, hu⟩
      injection hn1 with hn1
      rw [hn1]
      cases hu1 : n1.unboxed with
      | none => rfl
      | some u =>
        rw [hu1] at hu
        exact congrArg Except.ok ((beq_eq_false_iff u t).2 (fun hc => hu (by rw [hc])))

theorem is_box_of_error_iff (s t : Type_) (f : Failure) :
    s.is_box_of t = Except.error f ↔ s.normalized = Except.error f := by
  cases h : s.normalized with
  | error f1 =>
    rw [is_box_of_error s t f1 h]
    constructor <;> intro hc <;> injection hc with hc <;> rw [hc]
  | ok n =>
    rw [is_box_of_ok s t n h]
    constructor <;> intro hc <;> cases hc

theorem is_box_of_reference (name : symbol.Top) (e b : Bool) (t : Type_) :
    (reference name e b).is_box_of t = Except.ok true ↔
      (reference name e b).unboxed = some t := by
  rw [is_box_of_true_iff]
  constructor
  · rintro ⟨n, hn, hu⟩
    injection hn with hn
    rw [← hn] at hu
    exact hu
  · intro hu
    exact ⟨reference name false true, rfl, hu⟩

theorem is_box_of_not_reference (s t : Type_) (h : ∀ n e b, s ≠ reference n e b) :
    s.is_box_of t ≠ Except.ok true := by
  rw [Ne, is_box_of_true_iff]
  rintro ⟨n, hn, hu⟩
  rw [normalized_ok s n hn, unboxed_normal_form_of_not_reference s h] at hu
  cases hu

end Type_

namespace Type_

/-- C27 (fails on the code): the reference named `java.lang.Byte` does not unbox to the
signed integer type of 8 bits. `unboxed()` returns `Type::i8()` for it, which is
`Numeric::integer(32, true)`: `java.lang.Byte` unboxes to the same type as
`java.lang.Integer`, it is a box of `i32` and no box of the integer type of 8 bits. The
rest of the table and `is_box_of` are as the claim says:

* `unboxed()` is absent on every type that is not a reference, and on a reference it
  depends on the name only.
* The references named `java.lang.Boolean`, `Character`, `Short`, `Integer`, `Long`,
  `Float` and `Double` unbox to `u1`, `u16`, `i16`, `i32`, `i64`, `f32` and `f64`;
  `scala.scalanative.unsafe.Ptr` unboxes to `pointer` and `scala.scalanative.unsafe.Size`
  to `size`; a name outside the table, like `java.lang.Object`, does not unbox.
* `s.is_box_of(t)` is `s.normalized().unboxed() == t`: it is true exactly when the
  normalized `s` unboxes to `t`, false exactly when it unboxes to another type or to
  none, and has a result exactly when `s.normalized()` has one. In particular a
  reference is a box of `t` exactly when it unboxes to `t`, and a type that is not a
  reference is a box of nothing. -/
theorem byte_unboxes_to_the_integer_of_32_bits (s t : Type_) (name : symbol.Top)
    (e b : Bool) :
    (reference ⟨std_string "java.lang.Byte"⟩ e b).unboxed =
      some (numeric (type.Numeric.integer 32 true)) ∧
    (reference ⟨std_string "java.lang.Byte"⟩ e b).unboxed ≠
      some (numeric (type.Numeric.integer 8 true)) ∧
    (type.Numeric.integer 32 true).bit_width = 32 ∧
    (type.Numeric.integer 8 true).bit_width = 8 ∧
    (reference ⟨std_string "java.lang.Byte"⟩ e b).unboxed =
      (reference ⟨std_string "java.lang.Integer"⟩ e b).unboxed ∧
    (reference ⟨std_string "java.lang.Byte"⟩ e b).is_box_of i32 = Except.ok true ∧
    (reference ⟨std_string "java.lang.Byte"⟩ e b).is_box_of
      (numeric (type.Numeric.integer 8 true)) = Except.ok false ∧
    ((∀ n e1 b1, s ≠ reference n e1 b1) → s.unboxed = none) ∧
    (∀ e1 b1 : Bool, (reference name e b).unboxed = (reference name e1 b1).unboxed) ∧
    (reference ⟨std_string "java.lang.Boolean"⟩ e b).unboxed = some u1 ∧
    (reference ⟨std_string "java.lang.Character"⟩ e b).unboxed = some u16 ∧
    (reference ⟨std_string "java.lang.Short"⟩ e b).unboxed = some i16 ∧
    (reference ⟨std_string "java.lang.Integer"⟩ e b).unboxed = some i32 ∧
    (reference ⟨std_string "java.lang.Long"⟩ e b).unboxed = some i64 ∧
    (reference ⟨std_string "java.lang.Float"⟩ e b).unboxed = some f32 ∧
    (reference ⟨std_string "java.lang.Double"⟩ e b).unboxed = some f64 ∧
    (reference ⟨std_string "scala.scalanative.unsafe.Ptr"⟩ e b).unboxed = some pointer ∧
    (reference ⟨std_string "scala.scalanative.unsafe.Size"⟩ e b).unboxed = some size ∧
    (reference ⟨std_string "java.lang.Object"⟩ e b).unboxed = none ∧
    (s.is_box_of t = Except.ok true ↔
      ∃ n, s.normalized = Except.ok n ∧ n.unboxed = some t) ∧
    (s.is_box_of t = Except.ok false ↔
      ∃ n, s.normalized = Except.ok n ∧ n.unboxed ≠ some t) ∧
    (∀ f : Failure, s.is_box_of t = Except.error f ↔ s.normalized = Except.error f) ∧
    ((reference name e b).is_box_of t = Except.ok true ↔
      (reference name e b).unboxed = some t) ∧
    ((∀ n e1 b1, s ≠ reference n e1 b1) → s.is_box_of t ≠ Except.ok true) := by
  have hne : (reference ⟨std_string "java.lang.Byte"⟩ e b).unboxed ≠
      some (numeric (type.Numeric.integer 8 true)) := by
    intro h
    injection h with h
    injection h with h
    exact absurd h (by decide)
  refine ⟨rfl, hne, by decide, by decide, rfl,
    (is_box_of_reference _ e b i32).2 rfl, ?_, unboxed_of_not_reference s, fun _ _ => rfl,
    rfl, rfl, rfl, rfl, rfl, rfl, rfl, rfl, rfl, rfl, is_box_of_true_iff s t,
    is_box_of_false_iff s t, fun f => is_box_of_error_iff s t f,
    is_box_of_reference name e b t, is_box_of_not_reference s t⟩
  exact (is_box_of_false_iff _ _).2 ⟨_, rfl, hne⟩

end Type_

namespace operation

theorem box_result_type_of_reference (name : symbol.Top) (e b r : Bool) (contents : Value)
    (h : (Type_.reference name e b).is_pointer_box = Except.ok r) :
    Box.result_type ⟨Type_.reference name e b, contents⟩ =
      Except.ok (Type_.reference name true r) := by
  simp only [Box.result_type, Type_.as_reference, h, Type_.class_name]

theorem box_result_type_of_not_reference (box : Box)
    (h : ∀ n e b, box.box_type ≠ Type_.reference n e b) :
    box.result_type = Except.error Failure.bad_optional_access := by
  obtain ⟨box_type, contents⟩ := box
  cases box_type with
  | reference n e b => exact absurd rfl (h n e b)
  | _ => rfl

/-- C28: the result type of a `Box` whose box type `b` is a reference is the reference to
`b.class_name()`, which is the name of `b`, exact, and nullable exactly when
`b.is_pointer_box()`, which holds exactly when `b` unboxes to `pointer`. (On a box type
that is not a reference, `as<type::Reference>().value()` throws.) -/
theorem box_result_type_is_the_exact_class (name : symbol.Top) (e b : Bool)
    (contents : Value) (box : Box) :
    (∃ r : Bool, (Type_.reference name e b).is_pointer_box = Except.ok r ∧
      (Type_.reference name e b).class_name = Except.ok name ∧
      Box.result_type ⟨Type_.reference name e b, contents⟩ =
        Except.ok (Type_.reference name true r) ∧
      (r = true ↔ (Type_.reference name e b).unboxed = some Type_.pointer)) ∧
    ((∀ n e1 b1, box.box_type ≠ Type_.reference n e1 b1) →
      box.result_type = Except.error Failure.bad_optional_access) := by
  refine ⟨?_, box_result_type_of_not_reference box⟩
  have hn : (Type_.reference name e b).normalized =
      Except.ok (Type_.reference name false true) := rfl
  have hr := Type_.is_box_of_ok (Type_.reference name e b) Type_.pointer _ hn
  refine ⟨_, hr, rfl, box_result_type_of_reference name e b _ contents hr, ?_⟩
  have ht := Type_.is_box_of_reference name e b Type_.pointer
  rw [hr] at ht
  constructor
  · intro h
    exact ht.1 (congrArg Except.ok h)
  · intro h
    have := ht.2 h
    injection this

/-- C28 on the boxes of type `scala.scalanative.unsafe.Ptr` (a pointer box: nullable),
`java.lang.Integer` (not nullable) and `i32` (not a reference). -/
theorem box_result_type_is_the_exact_class_witness :
    Box.result_type ⟨Type_.reference ⟨std_string "scala.scalanative.unsafe.Ptr"⟩ false false,
        Value.null⟩ =
      Except.ok (Type_.reference ⟨std_string "scala.scalanative.unsafe.Ptr"⟩ true true) ∧
    Box.result_type ⟨Type_.reference ⟨std_string "java.lang.Integer"⟩ false true,
        Value.int 1⟩ =
      Except.ok (Type_.reference ⟨std_string "java.lang.Integer"⟩ true false) ∧
    Box.result_type ⟨Type_.i32, Value.int 1⟩ = Except.error Failure.bad_optional_access :=
  ⟨rfl, rfl,
   (box_result_type_is_the_exact_class ⟨[]⟩ false false Value.null
      ⟨Type_.i32, Value.int 1⟩).2 (fun _ _ _ h => Type_.noConfusion h)⟩

end operation

/-! ## Reference types and types of known size -/

namespace Type_

/-- C29: `is_reference()` holds exactly of `null`, `unit`, the references and the array
references; it does not hold of `pointer`, `size`, `vararg`, `nothing`, `virtual`, nor
of any numeric type, array value, struct, var or function. -/
theorem is_reference_iff (t : Type_) :
    (t.is_reference = true ↔
      t = null ∨ t = unit ∨ (∃ n e b, t = reference n e b) ∨
        (∃ x b, t = array_reference x b)) ∧
    pointer.is_reference = false ∧ size.is_reference = false ∧
    vararg.is_reference = false ∧ nothing.is_reference = false ∧
    virtual_.is_reference = false ∧
    (∀ n, (numeric n).is_reference = false) ∧
    (∀ x s, (array_value x s).is_reference = false) ∧
    (∀ es, (struct es).is_reference = false) ∧
    (∀ x, (var x).is_reference = false) ∧
    (∀ ps rv, (function ps rv).is_reference = false) := by
  refine ⟨?_, rfl, rfl, rfl, rfl, rfl, fun _ => rfl, fun _ _ => rfl, fun _ => rfl,
    fun _ => rfl, fun _ _ => rfl⟩
  cases t with
  | predefined p => cases p <;> simp [is_reference, null, unit]
  | numeric n => simp [is_reference, null, unit]
  | array_value x s => simp [is_reference, null, unit]
  | array_reference x b => simp [is_reference, null, unit]
  | struct es => simp [is_reference, null, unit]
  | reference n e b => simp [is_reference, null, unit]
  | var x => simp [is_reference, null, unit]
  | function ps rv => simp [is_reference, null, unit]

theorem all_have_known_size_iff (es : List Type_) :
    all_have_known_size es = true ↔ ∀ x ∈ es, x.has_known_size = true := by
  induction es with
  | nil => simp [all_have_known_size]
  | cons e es ih => simp [all_have_known_size, ih]

theorem has_known_size_iff (t : Type_) :
    t.has_known_size = true ↔
      t = null ∨ t = pointer ∨ (∃ n, t = numeric n) ∨
      (∃ x s, t = array_value x s ∧ x.has_known_size = true) ∨
      (∃ es, t = struct es ∧ ∀ x ∈ es, x.has_known_size = true) ∨
      (∃ x, t = var x) ∨ (∃ ps rv, t = function ps rv) := by
  cases t with
  | predefined p => cases p <;> simp [has_known_size, null, pointer]
  | numeric n => simp [has_known_size, is_reference, null, pointer]
  | array_value x s => simp [has_known_size, null, pointer]
  | array_reference x b => simp [has_known_size, is_reference, null, pointer]
  | struct es => simp [has_known_size, all_have_known_size_iff, null, pointer]
  | reference n e b => simp [has_known_size, is_reference, null, pointer]
  | var x => simp [has_known_size, is_reference, null, pointer]
  | function ps rv => simp [has_known_size, is_reference, null, pointer]

/-- C30, the part that fails: `has_known_size()` is not the absence of references in the
structural closure. The types `size`, `vararg`, `nothing` and `virtual` are no reference
types and have no component, yet they have no known size; and the var of a reference
and the function with a reference as parameter or result have a known size, since
`has_known_size()` does not look into a var or a function. -/
theorem known_size_is_not_reference_freedom :
    size.closure_without_reference = true ∧ size.has_known_size = false ∧
    vararg.has_known_size = false ∧ nothing.has_known_size = false ∧
    virtual_.has_known_size = false ∧
    (var (reference ⟨[0x58]⟩ false true)).closure_without_reference = false ∧
    (var (reference ⟨[0x58]⟩ false true)).has_known_size = true ∧
    (function [unit] (reference ⟨[0x58]⟩ false true)).closure_without_reference = false ∧
    (function [unit] (reference ⟨[0x58]⟩ false true)).has_known_size = true := by
  decide

/-- C30, amended: `has_known_size()` holds exactly of `null` and `pointer`, of every
numeric type, of every var and every function (whatever their components), of the array
values whose element type has a known size and of the structs whose elements all have a
known size. It does not hold of `unit`, `size`, `vararg`, `nothing` and `virtual`, nor
of the references and array references. -/
theorem has_known_size_by_cases (t : Type_) :
    (t.has_known_size = true ↔
      t = null ∨ t = pointer ∨ (∃ n, t = numeric n) ∨
      (∃ x s, t = array_value x s ∧ x.has_known_size = true) ∨
      (∃ es, t = struct es ∧ ∀ x ∈ es, x.has_known_size = true) ∨
      (∃ x, t = var x) ∨ (∃ ps rv, t = function ps rv)) ∧
    unit.has_known_size = false ∧ size.has_known_size = false ∧
    vararg.has_known_size = false ∧ nothing.has_known_size = false ∧
    virtual_.has_known_size = false ∧
    (∀ n e b, (reference n e b).has_known_size = false) ∧
    (∀ x b, (array_reference x b).has_known_size = false) :=
  ⟨has_known_size_iff t, rfl, rfl, rfl, rfl, rfl, fun _ _ _ => rfl, fun _ _ => rfl⟩

/-- C30, amended, on the struct `{i32, ptr[2]}`, which has a known size, and on the
struct `{i32, unit}`, which has none. -/
theorem has_known_size_by_cases_witness :
    (struct [i32, array_value pointer 2]).has_known_size = true ∧
    ¬ (struct [i32, unit]).has_known_size = true :=
  ⟨(has_known_size_by_cases (struct [i32, array_value pointer 2])).1.2
      (Or.inr (Or.inr (Or.inr (Or.inr (Or.inl ⟨_, rfl, by decide⟩))))),
   fun h => by
    rcases (has_known_size_by_cases (struct [i32, unit])).1.1 h with
      h | h | ⟨_, h⟩ | ⟨_, _, h, _⟩ | ⟨es, h, hall⟩ | ⟨_, h⟩ | ⟨_, _, h⟩
    · exact Type_.noConfusion h
    · exact Type_.noConfusion h
    · exact Type_.noConfusion h
    · exact Type_.noConfusion h
    · injection h with h
      exact absurd (hall unit (by rw [← h]; simp)) (by decide)
    · exact Type_.noConfusion h
    · exact Type_.noConfusion h⟩

end Type_

/-! ## The encoding of numeric types -/

namespace type

namespace Numeric

theorem is_integer_eq (n : Numeric) : n.is_integer = n.raw_value.testBit 15 := by
  unfold is_integer
  rw [Nat.one_shiftLeft, Nat.and_two_pow]
  cases n.raw_value.testBit 15 <;> simp

theorem is_signed_eq (n : Numeric) : n.is_signed = n.raw_value.testBit 14 := by
  unfold is_signed
  rw [Nat.one_shiftLeft, Nat.and_two_pow]
  cases n.raw_value.testBit 14 <;> simp

theorem bit_width_eq (n : Numeric) (h : n.raw_value < 2 ^ 16) :
    n.bit_width = n.raw_value % 2 ^ 14 := by
  unfold bit_width
  apply Nat.eq_of_testBit_eq
  intro i
  rw [Nat.testBit_and, Nat.testBit_mod_two_pow]
  by_cases h16 : 16 ≤ i
  · rw [Nat.testBit_lt_two_pow
      (lt_of_lt_of_le h (Nat.pow_le_pow_right (by norm_num) h16))]
    simp
  · have hi : i < 16 := by omega
    have hm : Nat.testBit (2 ^ 32 - 1 - 0b11 <<< 14) i = decide (i < 14) := by
      interval_cases i <;> decide
    rw [hm, Bool.and_comm]

theorem raw_value_integer (w : Nat) (s : Bool) (h : w < 2 ^ 14) :
    (integer w s).raw_value = 2 ^ 15 + (if s then 2 ^ 14 else 0) + w := by
  unfold integer
  have h2 : w ||| 2 <<< 14 = 2 ^ 14 * 2 + w := by
    rw [Nat.mul_add_lt_is_or h, Nat.lor_comm]
    rfl
  have h3 : w ||| 3 <<< 14 = 2 ^ 14 * 3 + w := by
    rw [Nat.mul_add_lt_is_or h, Nat.lor_comm]
    rfl
  cases s
  · simp only [Bool.false_eq_true, if_false, h2]
    norm_num at h ⊢
    omega
  · simp only [if_true, h3]
    norm_num at h ⊢
    omega

theorem eq_iff_of_lt (a b : Numeric) (ha : a.raw_value < 2 ^ 16) (hb : b.raw_value < 2 ^ 16) :
    a = b ↔ a.is_integer = b.is_integer ∧ a.is_signed = b.is_signed ∧
      a.bit_width = b.bit_width := by
  constructor
  · intro h
    rw [h]
    exact ⟨rfl, rfl, rfl⟩
  · rintro ⟨h1, h2, h3⟩
    rw [is_integer_eq, is_integer_eq, Nat.testBit_to_div_mod, Nat.testBit_to_div_mod] at h1
    rw [is_signed_eq, is_signed_eq, Nat.testBit_to_div_mod, Nat.testBit_to_div_mod] at h2
    rw [bit_width_eq a ha, bit_width_eq b hb] at h3
    obtain ⟨x⟩ := a
    obtain ⟨y⟩ := b
    simp only at ha hb h1 h2 h3
    congr 1
    have e1 : (x / 2 ^ 15 % 2 = 1) ↔ (y / 2 ^ 15 % 2 = 1) := by
      simpa using h1
    have e2 : (x / 2 ^ 14 % 2 = 1) ↔ (y / 2 ^ 14 % 2 = 1) := by
      simpa using h2
    norm_num at ha hb h3 e1 e2
    omega

/-- C31: the 16-bit encoding of numeric types round-trips. For `w < 2^14`,
`Numeric::integer(w, s)` (whose precondition is `w < 2^14`) has the raw value
`2^15 + s * 2^14 + w`: bit 15 is set, bit 14 is `s` and the bits 0 to 13 hold `w`, so
`is_integer()` is true, `is_signed()` is `s` and `bit_width()` is `w`. For `w` in
`{32, 64}`, `Numeric::floating_point(w)` is a floating-point type of bit width `w`. And
two numeric types (raw values of 16 bits) are equal exactly when they agree on
`is_integer()`, `is_signed()` and `bit_width()`. -/
theorem numeric_encoding_round_trips (w : Nat) (s : Bool) (a b : Numeric) :
    (w < 2 ^ 14 →
      (integer w s).raw_value = 2 ^ 15 + (if s then 2 ^ 14 else 0) + w ∧
      (integer w s).raw_value.testBit 15 = true ∧
      (integer w s).raw_value.testBit 14 = s ∧
      (integer w s).raw_value % 2 ^ 14 = w ∧
      (integer w s).is_integer = true ∧ (integer w s).is_signed = s ∧
      (integer w s).bit_width = w) ∧
    ((w = 32 ∨ w = 64) →
      (floating_point w).is_floating_point = true ∧ (floating_point w).bit_width = w) ∧
    (a.raw_value < 2 ^ 16 → b.raw_value < 2 ^ 16 →
      (a = b ↔ a.is_integer = b.is_integer ∧ a.is_signed = b.is_signed ∧
        a.bit_width = b.bit_width)) := by
  refine ⟨fun h => ?_, fun h => ?_, eq_iff_of_lt a b⟩
  · have hraw := raw_value_integer w s h
    have hlt : (integer w s).raw_value < 2 ^ 16 := by
      rw [hraw]
      cases s <;> norm_num at h ⊢ <;> omega
    have h15 : (integer w s).raw_value.testBit 15 = true := by
      rw [Nat.testBit_to_div_mod, hraw]
      cases s <;> norm_num at h ⊢ <;> omega
    have h14 : (integer w s).raw_value.testBit 14 = s := by
      rw [Nat.testBit_to_div_mod, hraw]
      cases s <;> norm_num at h ⊢ <;> omega
    have hw : (integer w s).raw_value % 2 ^ 14 = w := by
      rw [hraw]
      cases s <;> norm_num at h ⊢ <;> omega
    refine ⟨hraw, h15, h14, hw, ?_, ?_, ?_⟩
    · rw [is_integer_eq, h15]
    · rw [is_signed_eq, h14]
    · rw [bit_width_eq _ hlt, hw]
  · rcases h with h | h <;> subst h <;> exact ⟨by decide, by decide⟩

/-- C31 on `integer(32, true)`, on `floating_point(64)` and on the types `u16` and
`i16`, which differ in signedness only. -/
theorem numeric_encoding_round_trips_witness :
    ((integer 32 true).raw_value = 2 ^ 15 + 2 ^ 14 + 32 ∧
      (integer 32 true).is_integer = true ∧ (integer 32 true).is_signed = true ∧
      (integer 32 true).bit_width = 32) ∧
    ((floating_point 64).is_floating_point = true ∧ (floating_point 64).bit_width = 64) ∧
    integer 16 false ≠ integer 16 true :=
  ⟨⟨((numeric_encoding_round_trips 32 true (integer 16 false) (integer 16 true)).1
        (by norm_num)).1,
      ((numeric_encoding_round_trips 32 true (integer 16 false) (integer 16 true)).1
        (by norm_num)).2.2.2.2.1,
      ((numeric_encoding_round_trips 32 true (integer 16 false) (integer 16 true)).1
        (by norm_num)).2.2.2.2.2.1,
      ((numeric_encoding_round_trips 32 true (integer 16 false) (integer 16 true)).1
        (by norm_num)).2.2.2.2.2.2⟩,
    (numeric_encoding_round_trips 64 true (integer 16 false) (integer 16 true)).2.1
      (Or.inr rfl),
    fun h => absurd
      (((numeric_encoding_round_trips 32 true (integer 16 false) (integer 16 true)).2.2
        (by decide) (by decide)).1 h).2.1 (by decide)⟩

end Numeric

end type

/-! ## Types and equality of values -/

namespace Value

mutual

/-- On values without `Zero` and without floating-point numbers, the comparison
`operator==` holds exactly of equal values. -/
theorem beq_iff_of_plain : ∀ a b : Value, a.plain = true → (a.beq b = true ↔ a = b)
  | null, b, _ => by cases b <;> simp [beq]
  | unit, b, _ => by cases b <;> simp [beq]
  | zero _, _, h => by simp [plain] at h
  | boolean _, b, _ => by cases b <;> simp [beq]
  | size _, b, _ => by cases b <;> simp [beq]
  | char _, b, _ => by cases b <;> simp [beq]
  | byte _, b, _ => by cases b <;> simp [beq]
  | short _, b, _ => by cases b <;> simp [beq]
  | int _, b, _ => by cases b <;> simp [beq]
  | long _, b, _ => by cases b <;> simp [beq]
  | float _, _, h => by simp [plain] at h
  | double _, _, h => by simp [plain] at h
  | array_value t es, b, h => by
    rw [plain] at h
    cases b <;> simp [beq, Type_.beq_iff, beq_all_iff_of_plain es _ h]
  | struct es, b, h => by
    rw [plain] at h
    cases b <;> simp [beq, beq_all_iff_of_plain es _ h]
  | byte_string _, b, _ => by cases b <;> simp [beq]
  | local_ _ _, b, _ => by
    cases b <;> simp [beq, Type_.beq_iff]
    exact And.comm
  | symbol _ _, b, _ => by
    cases b <;> simp [beq, Type_.beq_iff]
    exact And.comm
  | constant v, b, h => by
    rw [plain] at h
    cases b <;> simp [beq, beq_iff_of_plain v _ h]
  | string _, b, _ => by cases b <;> simp [beq]
  | virtual_ _, b, _ => by cases b <;> simp [beq]
  | class_of _, b, _ => by cases b <;> simp [beq]

theorem beq_all_iff_of_plain : ∀ as bs : List Value, all_plain as = true →
    (beq_all as bs = true ↔ as = bs)
  | [], bs, _ => by cases bs <;> simp [beq_all]
  | a :: as, bs, h => by
    rw [all_plain, Bool.and_eq_true] at h
    cases bs <;> simp [beq_all, beq_iff_of_plain a _ h.1, beq_all_iff_of_plain as _ h.2]

end

end Value

namespace Value

/-- C32 (fails on the code): a struct value with at least one element is neither built
from the sequence of its elements nor typed. `value::Struct(es)` assigns the elements
through `begin()` of the empty (reserved) vector `elements`, so the deserializer builds
no struct value from `0B 01 07 01`; and `value::Struct::type()` assigns the types of the
elements through `begin()` of an empty (reserved) vector. Only the empty struct value
has a type, the empty struct type. (The type of a local value is its explicit type.) -/
theorem struct_value_has_no_defined_type (e : Value) (es : List Value) (ds : Deserializer)
    (id : Local) (t : Type_) :
    Deserializer.new_struct_value (e :: es) ds = Except.error
      (Failure.undefined "std::transform writes through begin() of an empty vector") ∧
    Deserializer.value 2 ⟨⟨[0x0B, 0x01, 0x07, 0x01], 0, Endian.little⟩, [], [], [], []⟩ =
      Except.error
        (Failure.undefined "std::transform writes through begin() of an empty vector") ∧
    (struct (e :: es)).type = Except.error
      (Failure.undefined "std::transform writes through begin() of an empty vector") ∧
    (struct []).type = Except.ok (Type_.struct []) ∧
    (local_ id t).type = Except.ok t :=
  ⟨rfl, rfl, rfl, rfl, rfl⟩

/-- C33 (fails on the code): `value::Zero::operator==` returns `true` whatever the types,
so `Zero(t1) == Zero(t2)` holds for all `t1` and `t2`, for instance for `i32` and `i64`,
which differ. On the values that hold no `Zero` (and no floating-point number, which is
compared with `==`: a NaN differs from itself and the two zeros are equal), two values
are equal exactly when they are the same variant with equal payloads. -/
theorem zero_values_are_all_equal (t1 t2 : Type_) (a b : Value) (x y : Nat) :
    (zero t1).beq (zero t2) = true ∧
    (zero Type_.i32).beq (zero Type_.i64) = true ∧
    Type_.i32.beq Type_.i64 = false ∧ Type_.i32 ≠ Type_.i64 ∧
    (a.plain = true → (a.beq b = true ↔ a = b)) ∧
    (float x).beq (float y) = ieee_eq 8 23 x y ∧
    (double x).beq (double y) = ieee_eq 11 52 x y ∧
    (float 0x7FC00000).beq (float 0x7FC00000) = false ∧
    (float 0x80000000).beq (float 0) = true :=
  ⟨rfl, rfl, by decide, (Type_.beq_eq_false_iff _ _).1 (by decide), beq_iff_of_plain a b,
    rfl, rfl, by decide, by decide⟩

end Value

/-! ## The family of function pointers -/

namespace Type_

theorem unboxed_of_cfuncptr (s : Bytes) :
    unboxed_of_name (std_string "scala.scalanative.unsafe.CFuncPtr" ++ s) =
      if (List.range 22).any (fun i => s == std_string (toString i)) then some pointer
      else none := by
  have hne : ∀ lit : Bytes,
      (std_string "scala.scalanative.unsafe.CFuncPtr").take 27 ≠ lit.take 27 →
      std_string "scala.scalanative.unsafe.CFuncPtr" ++ s ≠ lit := by
    intro lit hlit h
    apply hlit
    rw [← h, List.take_append_of_le_length (by decide)]
  have hpre : (std_string "scala.scalanative.unsafe.CFuncPtr").isPrefixOf
      (std_string "scala.scalanative.unsafe.CFuncPtr" ++ s) = true :=
    List.isPrefixOf_iff_prefix.2 (List.prefix_append _ _)
  have hdrop : (std_string "scala.scalanative.unsafe.CFuncPtr" ++ s).drop 33 = s :=
    List.drop_left' (by decide)
  unfold unboxed_of_name
  rw [if_neg (hne _ (by decide)), if_neg (hne _ (by decide)), if_neg (hne _ (by decide)),
    if_neg (hne _ (by decide)), if_neg (hne _ (by decide)), if_neg (hne _ (by decide)),
    if_neg (hne _ (by decide)), if_neg (hne _ (by decide)), if_neg (hne _ (by decide)),
    if_neg (hne _ (by decide)), if_neg (hne _ (by decide)), if_neg (hne _ (by decide)),
    if_pos hpre, hdrop]

theorem unboxed_of_cfuncptr_iff (s : Bytes) :
    unboxed_of_name (std_string "scala.scalanative.unsafe.CFuncPtr" ++ s) = some pointer ↔
      ∃ N, N < 22 ∧ s = std_string (toString N) := by
  rw [unboxed_of_cfuncptr]
  by_cases h : (List.range 22).any (fun i => s == std_string (toString i)) = true
  · rw [if_pos h]
    simp only [List.any_eq_true, List.mem_range, beq_iff_eq] at h
    exact ⟨fun _ => h, fun _ => rfl⟩
  · rw [if_neg h]
    simp only [List.any_eq_true, List.mem_range, beq_iff_eq] at h
    exact ⟨fun hc => Option.noConfusion hc, fun hc => absurd hc h⟩

/-- C36 (fails on the code): the reference named `scala.scalanative.unsafe.CFuncPtr22`,
the member of arity 22 of the family, does not unbox. `unboxed()` compares the suffix
with the numerals of `i` for `i < 22`, that is of 0 to 21: a reference whose name is
`scala.scalanative.unsafe.CFuncPtr` followed by a suffix `s` unboxes to `pointer` exactly
when `s` is the decimal numeral of a number from 0 to 21, and to nothing otherwise. So the
members of arity 0 to 21 unbox to `pointer`, and the empty suffix, a leading zero as in
`01`, 23 or more and a suffix that is no numeral unbox to nothing, as the claim says; the
arity 22 is the one the loop misses. -/
theorem cfuncptr22_does_not_unbox (s : Bytes) (e b : Bool) (N : Nat) :
    std_string "scala.scalanative.unsafe.CFuncPtr22" =
      std_string "scala.scalanative.unsafe.CFuncPtr" ++ std_string (toString 22) ∧
    (reference ⟨std_string "scala.scalanative.unsafe.CFuncPtr22"⟩ e b).unboxed = none ∧
    (reference ⟨std_string "scala.scalanative.unsafe.CFuncPtr21"⟩ e b).unboxed =
      some pointer ∧
    ((reference ⟨std_string "scala.scalanative.unsafe.CFuncPtr" ++ s⟩ e b).unboxed =
        some pointer ↔ ∃ M, M < 22 ∧ s = std_string (toString M)) ∧
    ((reference ⟨std_string "scala.scalanative.unsafe.CFuncPtr" ++ s⟩ e b).unboxed = none ↔
        ¬ ∃ M, M < 22 ∧ s = std_string (toString M)) ∧
    (N < 22 →
      (reference ⟨std_string "scala.scalanative.unsafe.CFuncPtr" ++
        std_string (toString N)⟩ e b).unboxed = some pointer) ∧
    (reference ⟨std_string "scala.scalanative.unsafe.CFuncPtr0"⟩ e b).unboxed =
      some pointer ∧
    (reference ⟨std_string "scala.scalanative.unsafe.CFuncPtr"⟩ e b).unboxed = none ∧
    (reference ⟨std_string "scala.scalanative.unsafe.CFuncPtr01"⟩ e b).unboxed = none ∧
    (reference ⟨std_string "scala.scalanative.unsafe.CFuncPtr23"⟩ e b).unboxed = none ∧
    (reference ⟨std_string "scala.scalanative.unsafe.CFuncPtr100"⟩ e b).unboxed = none ∧
    (reference ⟨std_string "scala.scalanative.unsafe.CFuncPtrN"⟩ e b).unboxed = none := by
  refine ⟨by decide, rfl, rfl, unboxed_of_cfuncptr_iff s, ?_, fun h => ?_, rfl, rfl, rfl,
    rfl, rfl, rfl⟩
  · rw [← unboxed_of_cfuncptr_iff s]
    show unboxed_of_name _ = none ↔ ¬ unboxed_of_name _ = some pointer
    rw [unboxed_of_cfuncptr]
    split <;> simp
  · exact (unboxed_of_cfuncptr_iff _).2 ⟨N, h, rfl⟩

end Type_

/-! ## Operations: the operands of binary operations and comparisons -/

namespace Deserializer

/-- After the tag `binary`, `operation` reads an operator, a type and two values. -/
theorem operation_binary (fuel : Nat) (ds : Deserializer) (b : UInt8) (tail : List UInt8)
    (h : ds.rest = b :: tail) (ht : b.toNat = tag.Operation.binary.raw_value) :
    operation fuel ds =
      (binary_operator >>= fun callee => type_ fuel >>= fun operand_type =>
        value fuel >>= fun lhs => value fuel >>= fun rhs =>
          pure (Operation.binary_apply callee operand_type lhs rhs)) (ds.advanced 1) := by
  unfold operation
  rw [M.bind_apply, get_u8_of_rest ds b tail h, ht]
  rfl

/-- After the tag `compare`, `operation` reads an operator, a type and two values. -/
theorem operation_compare (fuel : Nat) (ds : Deserializer) (b : UInt8) (tail : List UInt8)
    (h : ds.rest = b :: tail) (ht : b.toNat = tag.Operation.compare.raw_value) :
    operation fuel ds =
      (comparison_operator >>= fun callee => type_ fuel >>= fun operand_type =>
        value fuel >>= fun lhs => value fuel >>= fun rhs =>
          pure (Operation.compare callee operand_type lhs rhs)) (ds.advanced 1) := by
  unfold operation
  rw [M.bind_apply, get_u8_of_rest ds b tail h, ht]
  rfl

/-- C37, the part that fails: `operation` returns a `BinaryApply` and a `Compare` whose
operands have other types than the operand type. From `09 00 06 07 01 08 01` it returns
the addition with operand type `i32` of `Int(1)`, of type `i32`, and `Long(1)`, of type
`i64`; from `0A 00 06 07 01 08 01` the comparison of the same operands. -/
theorem operands_need_not_have_the_operand_type :
    operation 2 ⟨⟨[0x09, 0x00, 0x06, 0x07, 0x01, 0x08, 0x01], 0, Endian.little⟩,
        [], [], [], []⟩ =
      Except.ok (Operation.binary_apply BinaryOperator.iadd Type_.i32 (Value.int 1)
        (Value.long 1),
        ⟨⟨[0x09, 0x00, 0x06, 0x07, 0x01, 0x08, 0x01], 7, Endian.little⟩, [], [], [], []⟩) ∧
    operation 2 ⟨⟨[0x0A, 0x00, 0x06, 0x07, 0x01, 0x08, 0x01], 0, Endian.little⟩,
        [], [], [], []⟩ =
      Except.ok (Operation.compare ComparisonOperator.ieq Type_.i32 (Value.int 1)
        (Value.long 1),
        ⟨⟨[0x0A, 0x00, 0x06, 0x07, 0x01, 0x08, 0x01], 7, Endian.little⟩, [], [], [], []⟩) ∧
    (Value.int 1).type = Except.ok Type_.i32 ∧
    (Value.long 1).type = Except.ok Type_.i64 ∧
    Type_.i64 ≠ Type_.i32 ∧
    operation.BinaryApply.result_type
      ⟨BinaryOperator.iadd, Type_.i32, Value.int 1, Value.long 1⟩ = Type_.i32 := by
  refine ⟨?_, ?_, rfl, rfl, (Type_.beq_eq_false_iff _ _).1 (by decide), rfl⟩
  · rw [operation_binary 2 ⟨⟨[0x09, 0x00, 0x06, 0x07, 0x01, 0x08, 0x01], 0, Endian.little⟩,
      [], [], [], []⟩ 0x09 [0x00, 0x06, 0x07, 0x01, 0x08, 0x01] rfl rfl]
    rfl
  · rw [operation_compare 2 ⟨⟨[0x0A, 0x00, 0x06, 0x07, 0x01, 0x08, 0x01], 0, Endian.little⟩,
      [], [], [], []⟩ 0x0A [0x00, 0x06, 0x07, 0x01, 0x08, 0x01] rfl rfl]
    rfl

/-- C37, amended: for every `BinaryApply` that `operation` returns, `result_type()` is
the operand type, and for every `Compare`, `result_type()` is `u1`. The operator, the
operand type and the two operands are read one after the other, by
`binary_operator()` (or `comparison_operator()`), `type()`, `value()` and `value()`, and
returned as they are read: nothing relates the types of the operands to the operand
type. -/
theorem binary_and_compare_are_returned_as_read (fuel : Nat) (ds : Deserializer) (b : UInt8)
    (tail : List UInt8) (h : ds.rest = b :: tail) :
    (b.toNat = tag.Operation.binary.raw_value →
      operation fuel ds =
        (binary_operator >>= fun callee => type_ fuel >>= fun operand_type =>
          value fuel >>= fun lhs => value fuel >>= fun rhs =>
            pure (Operation.binary_apply callee operand_type lhs rhs)) (ds.advanced 1)) ∧
    (b.toNat = tag.Operation.compare.raw_value →
      operation fuel ds =
        (comparison_operator >>= fun callee => type_ fuel >>= fun operand_type =>
          value fuel >>= fun lhs => value fuel >>= fun rhs =>
            pure (Operation.compare callee operand_type lhs rhs)) (ds.advanced 1)) ∧
    (∀ (callee : BinaryOperator) (operand_type : Type_) (lhs rhs : Value),
      operation.BinaryApply.result_type ⟨callee, operand_type, lhs, rhs⟩ = operand_type) ∧
    (∀ (callee : ComparisonOperator) (operand_type : Type_) (lhs rhs : Value),
      operation.Compare.result_type ⟨callee, operand_type, lhs, rhs⟩ = Type_.u1) :=
  ⟨operation_binary fuel ds b tail h, operation_compare fuel ds b tail h,
    fun _ _ _ _ => rfl, fun _ _ _ _ => rfl⟩

/-- C37, amended, on `09 11 06 02 02`: the bitwise `xor` with operand type `i32` of two
`null` values. -/
theorem binary_and_compare_are_returned_as_read_witness :
    operation 2 ⟨⟨[0x09, 0x11, 0x06, 0x02, 0x02], 0, Endian.little⟩, [], [], [], []⟩ =
      Except.ok (Operation.binary_apply BinaryOperator.xor_ Type_.i32 Value.null Value.null,
        ⟨⟨[0x09, 0x11, 0x06, 0x02, 0x02], 5, Endian.little⟩, [], [], [], []⟩) :=
  ((binary_and_compare_are_returned_as_read 2
      ⟨⟨[0x09, 0x11, 0x06, 0x02, 0x02], 0, Endian.little⟩, [], [], [], []⟩ 0x09
      [0x11, 0x06, 0x02, 0x02] rfl).1 rfl).trans rfl

end Deserializer

/-! ## Sets of attributes: the bitset -/

namespace AttributeSet

theorem test_iff (x i : Nat) : x &&& (1 <<< i) ≠ 0 ↔ x.testBit i = true := by
  rw [Nat.one_shiftLeft, Nat.and_two_pow]
  cases x.testBit i <;> simp

theorem kind_bit_lt (k : Attribute.Kind) : k.bit < 22 := by
  cases k <;> decide

theorem of_bit_of_ge (i : Nat) (h : 22 ≤ i) : Attribute.Kind.of_bit i = none := by
  obtain ⟨j, rfl⟩ : ∃ j, i = j + 22 := ⟨i - 22, by omega⟩
  rfl

theorem all_drop (i : Nat) (h : i < 22) :
    ∃ k, Attribute.Kind.of_bit i = some k ∧ k.bit = i ∧
      Attribute.Kind.all.drop i = k :: Attribute.Kind.all.drop (i + 1) := by
  interval_cases i <;> exact ⟨_, rfl, rfl, rfl⟩

theorem all_drop_of_ge (i : Nat) (h : 22 ≤ i) : Attribute.Kind.all.drop i = [] :=
  List.drop_eq_nil_of_le (by simpa [Attribute.Kind.all] using h)

theorem append_thin (s : AttributeSet) (k : Attribute.Kind) :
    s.append (Attribute.thin k) = { s with thin := s.thin ||| k.raw } := rfl

theorem append_fat_fat (s : AttributeSet) (a : Attribute) (h : a.is_thin = false) :
    (s.append a).thin = s.thin := by
  unfold append
  rw [h]
  simp only [Bool.false_eq_true, if_false]
  split
  · rfl
  · split <;> rfl

theorem testBit_append (s : AttributeSet) (a : Attribute) (j : Nat) :
    (s.append a).thin.testBit j = (s.thin.testBit j || (a.is_thin && a.kind.bit == j)) := by
  cases h : a.is_thin
  · rw [append_fat_fat s a h]
    simp
  · cases a with
    | thin k =>
      rw [append_thin]
      simp only [Attribute.kind, Attribute.Kind.raw, Nat.one_shiftLeft, Nat.testBit_or,
        Nat.testBit_two_pow, Bool.true_and]
      congr 1
    | _ => simp [Attribute.is_thin] at h

theorem testBit_foldl_append (source : List Attribute) : ∀ (s : AttributeSet) (j : Nat),
    (source.foldl append s).thin.testBit j =
      (s.thin.testBit j || source.any (fun a => a.is_thin && a.kind.bit == j)) := by
  induction source with
  | nil => intro s j; simp
  | cons a source ih =>
    intro s j
    rw [List.foldl_cons, ih, testBit_append, List.any_cons, Bool.or_assoc]

/-- The bits of a set built by insertions: the bits of the thin attributes inserted. -/
theorem testBit_contents_of (source : List Attribute) (j : Nat) :
    (contents_of source).thin.testBit j =
      source.any (fun a => a.is_thin && a.kind.bit == j) := by
  rw [contents_of, testBit_foldl_append]
  simp

theorem testBit_contents_of_lt (source : List Attribute) (j : Nat)
    (h : (contents_of source).thin.testBit j = true) : j < 22 := by
  rw [testBit_contents_of, List.any_eq_true] at h
  obtain ⟨a, _, ha⟩ := h
  rw [Bool.and_eq_true, beq_iff_eq] at ha
  rw [← ha.2]
  exact kind_bit_lt _

end AttributeSet

/-! ## Sets of attributes: the scan of the bitset -/

namespace AttributeSet

/-- The bits set among the 32 bits, counted from the bit `i` on, are the kinds from the
`i`-th on whose bit is set, when only bits of kinds are set. -/
theorem count_from (s : AttributeSet) (hs : ∀ j, s.thin.testBit j = true → j < 22) :
    ∀ n i : Nat, i + n = 32 →
      ((List.range' i n).filter (fun j => s.thin.testBit j)).length =
        ((Attribute.Kind.all.drop i).filter (fun k => s.thin.testBit k.bit)).length := by
  intro n
  induction n with
  | zero =>
    intro i hi
    rw [all_drop_of_ge i (by omega)]
    rfl
  | succ n ih =>
    intro i hi
    rw [List.range'_succ, List.filter_cons]
    by_cases hb : s.thin.testBit i = true
    · obtain ⟨k, _, hk, hdrop⟩ := all_drop i (hs i hb)
      rw [if_pos hb, hdrop, List.filter_cons, if_pos (by rw [hk]; exact hb),
        List.length_cons, List.length_cons, ih (i + 1) (by omega)]
    · rw [if_neg hb, ih (i + 1) (by omega)]
      by_cases hi22 : i < 22
      · obtain ⟨k, _, hk, hdrop⟩ := all_drop i hi22
        rw [hdrop, List.filter_cons, if_neg (by rw [hk]; exact hb)]
      · rw [all_drop_of_ge i (by omega), all_drop_of_ge (i + 1) (by omega)]

theorem thin_size_eq (s : AttributeSet) (hs : ∀ j, s.thin.testBit j = true → j < 22) :
    s.thin_size = s.thin_members.length := by
  unfold thin_size thin_members
  rw [List.length_map, List.range_eq_range', count_from s hs 32 0 rfl]
  rfl

/-- The scan finds the thin members, and leaves early only when none is left. -/
theorem elements_scan_eq (s : AttributeSet) (hs : ∀ j, s.thin.testBit j = true → j < 22) :
    ∀ (n i : Nat) (r : List Attribute), i + n = 32 →
      r.length + ((Attribute.Kind.all.drop i).filter
        (fun k => s.thin.testBit k.bit)).length = s.thin_size →
      s.elements_scan n i r = some (r ++ ((Attribute.Kind.all.drop i).filter
        (fun k => s.thin.testBit k.bit)).map Attribute.thin) := by
  intro n
  induction n with
  | zero =>
    intro i r hi _
    rw [all_drop_of_ge i (by omega)]
    simp [elements_scan]
  | succ n ih =>
    intro i r hi hinv
    rw [elements_scan]
    by_cases hb : s.thin.testBit i = true
    · obtain ⟨k, hof, hk, hdrop⟩ := all_drop i (hs i hb)
      rw [hdrop, List.filter_cons, if_pos (by rw [hk]; exact hb), List.length_cons] at hinv
      rw [if_pos ((test_iff _ _).2 hb), hof, hdrop, List.filter_cons,
        if_pos (by rw [hk]; exact hb)]
      simp only []
      by_cases hlen : (r ++ [Attribute.thin k]).length = s.thin_size
      · rw [if_pos hlen]
        have hnil : (Attribute.Kind.all.drop (i + 1)).filter
            (fun k => s.thin.testBit k.bit) = [] := by
          apply List.eq_nil_of_length_eq_zero
          rw [List.length_append, List.length_singleton] at hlen
          omega
        rw [hnil]
        rfl
      · rw [if_neg hlen, ih (i + 1) (r ++ [Attribute.thin k]) (by omega)
          (by rw [List.length_append, List.length_singleton]; omega)]
        simp
    · rw [if_neg (fun hc => hb ((test_iff _ _).1 hc))]
      by_cases hi22 : i < 22
      · obtain ⟨k, _, hk, hdrop⟩ := all_drop i hi22
        rw [hdrop, List.filter_cons, if_neg (by rw [hk]; exact hb)] at hinv
        rw [ih (i + 1) r (by omega) hinv, hdrop, List.filter_cons,
          if_neg (by rw [hk]; exact hb)]
      · rw [all_drop_of_ge i (by omega)] at hinv
        rw [ih (i + 1) r (by omega) (by rw [all_drop_of_ge (i + 1) (by omega)]; exact hinv),
          all_drop_of_ge i (by omega), all_drop_of_ge (i + 1) (by omega)]

/-- The elements of a set whose bits are bits of kinds: the thin members, then the fat
members. -/
theorem elements_eq (s : AttributeSet) (hs : ∀ j, s.thin.testBit j = true → j < 22) :
    s.elements = some (s.thin_members ++ s.fat) := by
  have h := elements_scan_eq s hs 32 0 [] rfl
    (by rw [thin_size_eq s hs]; simp [thin_members])
  rw [elements, h]
  rfl

theorem elements_contents_of (source : List Attribute) :
    (contents_of source).elements =
      some ((contents_of source).thin_members ++ (contents_of source).fat) :=
  elements_eq _ (testBit_contents_of_lt source)

end AttributeSet

/-! ## Sets of attributes: the fat members -/

namespace AttributeSet

theorem append_fat (s : AttributeSet) (a : Attribute) (h : a.is_thin = false) :
    s.append a =
      if s.first_of_kind a = some a then s else { s with fat := s.fat ++ [a] } := by
  unfold append first_of_kind
  rw [h]
  simp only [Bool.false_eq_true, if_false]
  cases hf : s.fat.find? (fun b => b.kind == a.kind) with
  | none => simp
  | some b =>
    simp only [Option.some.injEq]
    by_cases hb : b = a
    · rw [if_neg (by simp [hb]), if_pos hb]
    · rw [if_pos hb, if_neg hb]

theorem fat_append_thin (s : AttributeSet) (a : Attribute) (h : a.is_thin = true) :
    (s.append a).fat = s.fat := by
  unfold append
  rw [if_pos h]

theorem first_of_kind_mem (s : AttributeSet) (a b : Attribute)
    (h : s.first_of_kind a = some b) : b ∈ s.fat ∧ b.kind = a.kind := by
  unfold first_of_kind at h
  exact ⟨List.mem_of_find?_eq_some h, by simpa using List.find?_some h⟩

theorem first_of_kind_none (s : AttributeSet) (a : Attribute)
    (h : s.first_of_kind a = none) : ∀ b ∈ s.fat, b.kind ≠ a.kind := by
  unfold first_of_kind at h
  intro b hb hk
  have := List.find?_eq_none.1 h b hb
  simp [hk] at this

theorem mem_fat_append (s : AttributeSet) (a b : Attribute) :
    b ∈ (s.append a).fat ↔ b ∈ s.fat ∨ (b = a ∧ a.is_thin = false) := by
  cases h : a.is_thin
  · rw [append_fat s a h]
    by_cases hf : s.first_of_kind a = some a
    · rw [if_pos hf]
      constructor
      · exact Or.inl
      · rintro (hb | ⟨hb, _⟩)
        · exact hb
        · rw [hb]
          exact (first_of_kind_mem s a a hf).1
    · rw [if_neg hf]
      simp
  · rw [fat_append_thin s a h]
    simp

theorem mem_fat_foldl (source : List Attribute) : ∀ (s : AttributeSet) (b : Attribute),
    b ∈ (source.foldl append s).fat ↔ b ∈ s.fat ∨ (b ∈ source ∧ b.is_thin = false) := by
  induction source with
  | nil => intro s b; simp
  | cons a source ih =>
    intro s b
    rw [List.foldl_cons, ih, mem_fat_append, List.mem_cons]
    constructor
    · rintro ((h | ⟨h, ht⟩) | ⟨h, ht⟩)
      · exact Or.inl h
      · exact Or.inr ⟨Or.inl h, by rw [h]; exact ht⟩
      · exact Or.inr ⟨Or.inr h, ht⟩
    · rintro (h | ⟨h | h, ht⟩)
      · exact Or.inl (Or.inl h)
      · exact Or.inl (Or.inr ⟨h, by rw [← h]; exact ht⟩)
      · exact Or.inr ⟨h, ht⟩

/-- The fat members of a set built by insertions: the fat attributes inserted. -/
theorem mem_fat_contents_of (source : List Attribute) (b : Attribute) :
    b ∈ (contents_of source).fat ↔ b ∈ source ∧ b.is_thin = false := by
  rw [contents_of, mem_fat_foldl]
  simp

theorem of_bit_bit (k : Attribute.Kind) : Attribute.Kind.of_bit k.bit = some k := by
  cases k <;> rfl

theorem bit_injective (k k1 : Attribute.Kind) (h : k.bit = k1.bit) : k = k1 := by
  have h1 := of_bit_bit k
  rw [h, of_bit_bit k1] at h1
  injection h1 with h1
  exact h1.symm

theorem mem_all (k : Attribute.Kind) : k ∈ Attribute.Kind.all := by
  cases k <;> decide

/-- The thin members of a set built by insertions: the thin attributes inserted. -/
theorem mem_thin_members_contents_of (source : List Attribute) (k : Attribute.Kind) :
    Attribute.thin k ∈ (contents_of source).thin_members ↔ Attribute.thin k ∈ source := by
  unfold thin_members
  rw [List.mem_map]
  constructor
  · rintro ⟨k1, hk1, heq⟩
    injection heq with heq
    rw [heq, List.mem_filter, testBit_contents_of, List.any_eq_true] at hk1
    obtain ⟨_, a, ha, hthin⟩ := hk1
    rw [Bool.and_eq_true, beq_iff_eq] at hthin
    cases a with
    | thin k2 =>
      have : k2 = k := bit_injective _ _ hthin.2
      rw [← this]
      exact ha
    | _ => simp [Attribute.is_thin] at hthin
  · intro h
    refine ⟨k, ?_, rfl⟩
    rw [List.mem_filter, testBit_contents_of, List.any_eq_true]
    exact ⟨mem_all k, Attribute.thin k, h, by simp [Attribute.is_thin, Attribute.kind]⟩

/-- The thin members come in the strictly ascending order of their bits. -/
theorem thin_members_sorted (s : AttributeSet) :
    (s.thin_members.map (fun a => a.kind.bit)).Pairwise (fun x y => x < y) := by
  unfold thin_members
  rw [List.map_map]
  have hall : (Attribute.Kind.all.map (fun k => k.bit)).Pairwise (fun x y => x < y) := by
    decide
  have hfun : ((fun a : Attribute => a.kind.bit) ∘ Attribute.thin) = fun k => k.bit := rfl
  rw [hfun, List.pairwise_map] at *
  exact hall.filter _

theorem thin_members_thin (s : AttributeSet) : ∀ a ∈ s.thin_members, a.is_thin = true := by
  intro a ha
  unfold thin_members at ha
  rw [List.mem_map] at ha
  obtain ⟨k, _, rfl⟩ := ha
  rfl

/-- When no two fat attributes inserted have the same kind with different payloads, the
fat members are the fat attributes inserted, each once, in the order of their first
insertion. -/
theorem fat_foldl_eq (source : List Attribute) : ∀ (s : AttributeSet),
    (∀ a, a ∈ s.fat ∨ a ∈ source → ∀ b, b ∈ s.fat ∨ b ∈ source →
      a.is_thin = false → b.is_thin = false → a.kind = b.kind → a = b) →
    (∀ a ∈ s.fat, a.is_thin = false) →
    (source.foldl append s).fat = (source.filter (fun a => !a.is_thin)).foldl
      (fun members a => if a ∈ members then members else members ++ [a]) s.fat := by
  induction source with
  | nil => intro s _ _; rfl
  | cons a source ih =>
    intro s hclash hfat
    rw [List.foldl_cons, List.filter_cons]
    cases ha : a.is_thin
    · have hstep : (s.append a).fat = if a ∈ s.fat then s.fat else s.fat ++ [a] := by
        rw [append_fat s a ha]
        by_cases hf : s.first_of_kind a = some a
        · rw [if_pos hf, if_pos (first_of_kind_mem s a a hf).1]
        · rw [if_neg hf]
          have hnot : a ∉ s.fat := by
            intro hmem
            apply hf
            cases hfk : s.first_of_kind a with
            | none => exact absurd rfl (first_of_kind_none s a hfk a hmem)
            | some b =>
              have hb := first_of_kind_mem s a b hfk
              rw [hclash b (Or.inl hb.1) a (Or.inl hmem) (hfat b hb.1) ha hb.2]
          rw [if_neg hnot]
      simp only [Bool.not_false, if_true, List.foldl_cons]
      rw [← hstep]
      apply ih
      · intro x hx y hy
        apply hclash
        · rcases hx with hx | hx
          · rcases (mem_fat_append s a x).1 hx with h | ⟨h, _⟩
            · exact Or.inl h
            · exact Or.inr (by rw [h]; exact List.mem_cons_self _ _)
          · exact Or.inr (List.mem_cons_of_mem _ hx)
        · rcases hy with hy | hy
          · rcases (mem_fat_append s a y).1 hy with h | ⟨h, _⟩
            · exact Or.inl h
            · exact Or.inr (by rw [h]; exact List.mem_cons_self _ _)
          · exact Or.inr (List.mem_cons_of_mem _ hy)
      · intro x hx
        rcases (mem_fat_append s a x).1 hx with h | ⟨h, _⟩
        · exact hfat x h
        · rw [h]; exact ha
    · simp only [Bool.not_true, Bool.false_eq_true, if_false]
      have hfa := fat_append_thin s a ha
      rw [← hfa]
      apply ih
      · intro x hx y hy
        rw [hfa] at hx hy
        apply hclash
        · exact hx.imp id (List.mem_cons_of_mem _)
        · exact hy.imp id (List.mem_cons_of_mem _)
      · rw [hfa]
        exact hfat

theorem fat_contents_of_eq (source : List Attribute)
    (h : ∀ a ∈ source, ∀ b ∈ source, a.is_thin = false → b.is_thin = false →
      a.kind = b.kind → a = b) :
    (contents_of source).fat = first_insertions source := by
  rw [contents_of, first_insertions]
  apply fat_foldl_eq source ⟨0, []⟩
  · intro a ha b hb
    simp only [List.not_mem_nil, false_or] at ha hb
    exact h a ha b hb
  · intro a ha
    cases ha

end AttributeSet

namespace AttributeSet

theorem append_thin_twice (s : AttributeSet) (a : Attribute) (h : a.is_thin = true) :
    (s.append a).append a = s.append a := by
  cases a with
  | thin k =>
    rw [append_thin, append_thin]
    simp only [Nat.or_assoc, Nat.or_self]
  | _ => simp [Attribute.is_thin] at h

theorem append_fat_twice (s : AttributeSet) (a : Attribute) (h : a.is_thin = false) :
    (s.append a).append a = s.append a ↔
      s.first_of_kind a = none ∨ s.first_of_kind a = some a := by
  by_cases hf : s.first_of_kind a = some a
  · have hs : s.append a = s := by rw [append_fat s a h, if_pos hf]
    rw [hs, hs]
    exact ⟨fun _ => Or.inr hf, fun _ => rfl⟩
  · have hs : s.append a = { s with fat := s.fat ++ [a] } := by
      rw [append_fat s a h, if_neg hf]
    rw [hs, append_fat _ a h]
    cases hfk : s.first_of_kind a with
    | none =>
      have hfirst : first_of_kind { s with fat := s.fat ++ [a] } a = some a := by
        unfold first_of_kind at hfk ⊢
        simp only [List.find?_append, hfk, Option.none_or]
        simp
      rw [if_pos hfirst]
      exact ⟨fun _ => Or.inl rfl, fun _ => rfl⟩
    | some b =>
      have hba : b ≠ a := fun hc => hf (by rw [hfk, hc])
      have hfirst : first_of_kind { s with fat := s.fat ++ [a] } a = some b := by
        unfold first_of_kind at hfk ⊢
        simp only [List.find?_append, hfk]
        rfl
      rw [if_neg (by rw [hfirst]; exact fun hc => hba (Option.some.inj hc))]
      constructor
      · intro hc
        have := congrArg (fun x => x.fat.length) hc
        simp at this
      · rintro (hc | hc)
        · cases hc
        · exact absurd (Option.some.inj hc) hba

theorem contents_of_append (source : List Attribute) (a : Attribute) :
    (contents_of source).append a = contents_of (source ++ [a]) := by
  simp [contents_of, List.foldl_append]

/-- C34 (fails on the code): a second insertion is not always a no-op. `append` compares
a fat attribute with the first fat member of its kind only, and inserts it unless that
member is equal to it: after `Link("a")` and `Link("b")`, every `append(Link("b"))` adds
another `Link("b")`. For the rest the claim holds: the second insertion of a thin
attribute is a no-op; the second insertion of a fat attribute is a no-op exactly when
the set, before the first one, holds no fat member of its kind or holds the attribute as
the first member of its kind; and after an insertion into a set built by insertions the
attribute occurs in `elements()`. -/
theorem second_append_can_insert_again (s : AttributeSet) (a : Attribute)
    (source : List Attribute) :
    (contents_of [Attribute.link [0x61], Attribute.link [0x62]]).append
        (Attribute.link [0x62]) =
      ⟨0, [Attribute.link [0x61], Attribute.link [0x62], Attribute.link [0x62]]⟩ ∧
    ((contents_of [Attribute.link [0x61]]).append (Attribute.link [0x62])).append
        (Attribute.link [0x62]) ≠
      (contents_of [Attribute.link [0x61]]).append (Attribute.link [0x62]) ∧
    (((contents_of [Attribute.link [0x61]]).append (Attribute.link [0x62])).append
        (Attribute.link [0x62])).elements =
      some [Attribute.link [0x61], Attribute.link [0x62], Attribute.link [0x62]] ∧
    (a.is_thin = true → (s.append a).append a = s.append a) ∧
    (a.is_thin = false →
      ((s.append a).append a = s.append a ↔
        s.first_of_kind a = none ∨ s.first_of_kind a = some a)) ∧
    (∃ es, ((contents_of source).append a).elements = some es ∧ a ∈ es) := by
  refine ⟨by decide, by decide, by decide, append_thin_twice s a, append_fat_twice s a, ?_⟩
  rw [contents_of_append, elements_contents_of]
  refine ⟨_, rfl, ?_⟩
  rw [List.mem_append]
  cases h : a.is_thin
  · exact Or.inr ((mem_fat_contents_of _ a).2 ⟨by simp, h⟩)
  · cases a with
    | thin k => exact Or.inl ((mem_thin_members_contents_of _ k).2 (by simp))
    | _ => simp [Attribute.is_thin] at h

/-- C35 (fails on the code): `elements()` of a set built by insertions is the thin
attributes inserted, in the strictly ascending order of their bits, followed by the fat
members, none of which is thin; but the fat members are not the fat attributes in the
order of their first insertion: after `Link("a")`, `Link("b")` and `Link("b")` the
attribute `Link("b")` comes twice (the defect of `append`). They are so when no two fat
attributes inserted have the same kind with different payloads. -/
theorem elements_can_repeat_a_fat_attribute (source : List Attribute) :
    (contents_of source).elements =
      some ((contents_of source).thin_members ++ (contents_of source).fat) ∧
    (∀ k, Attribute.thin k ∈ (contents_of source).thin_members ↔
      Attribute.thin k ∈ source) ∧
    (∀ a ∈ (contents_of source).thin_members, a.is_thin = true) ∧
    ((contents_of source).thin_members.map (fun a => a.kind.bit)).Pairwise
      (fun x y => x < y) ∧
    (∀ a, a ∈ (contents_of source).fat ↔ a ∈ source ∧ a.is_thin = false) ∧
    ((∀ a ∈ source, ∀ b ∈ source, a.is_thin = false → b.is_thin = false →
        a.kind = b.kind → a = b) →
      (contents_of source).fat = first_insertions source) ∧
    (contents_of [Attribute.link [0x61], Attribute.thin Attribute.Kind.dyn,
        Attribute.link [0x62], Attribute.thin Attribute.Kind.may_inline,
        Attribute.link [0x62]]).elements =
      some [Attribute.thin Attribute.Kind.may_inline, Attribute.thin Attribute.Kind.dyn,
        Attribute.link [0x61], Attribute.link [0x62], Attribute.link [0x62]] ∧
    first_insertions [Attribute.link [0x61], Attribute.thin Attribute.Kind.dyn,
        Attribute.link [0x62], Attribute.thin Attribute.Kind.may_inline,
        Attribute.link [0x62]] =
      [Attribute.link [0x61], Attribute.link [0x62]] :=
  ⟨elements_contents_of source, mem_thin_members_contents_of source,
    thin_members_thin _, thin_members_sorted _, mem_fat_contents_of source,
    fat_contents_of_eq source, by decide, by decide⟩

/-- C40: for every set built from the empty set by insertions, `elements()` has `size()`
elements: `thin_size()`, the number of bits set, is the number of thin attributes that
`elements()` yields, and `fat_size()` the number of fat ones; and every kind whose bit is
set is among the elements, so the early exit of the scan drops none. The empty set is
`AttributeSet{}`, whose bitset is 0, and `contents_of` starts from it. -/
theorem size_is_the_number_of_elements (source : List Attribute) :
    ∃ es, (contents_of source).elements = some es ∧
      (contents_of source).size = es.length ∧
      (contents_of source).thin_size = (es.filter (fun a => a.is_thin)).length ∧
      (contents_of source).fat_size = (es.filter (fun a => !a.is_thin)).length ∧
      (∀ k : Attribute.Kind, (contents_of source).thin.testBit k.bit = true →
        Attribute.thin k ∈ es) := by
  have hthin : ∀ a ∈ (contents_of source).thin_members, a.is_thin = true :=
    thin_members_thin _
  have hfat : ∀ a ∈ (contents_of source).fat, a.is_thin = false :=
    fun a ha => ((mem_fat_contents_of source a).1 ha).2
  have hsize := thin_size_eq _ (testBit_contents_of_lt source)
  refine ⟨_, elements_contents_of source, ?_, ?_, ?_, ?_⟩
  · rw [size, fat_size, hsize, List.length_append]
  · rw [List.filter_append, List.filter_eq_self.2 hthin,
      List.filter_eq_nil_iff.2 (fun a ha => by rw [hfat a ha]; decide), List.append_nil, hsize]
  · rw [List.filter_append, List.filter_eq_nil_iff.2 (fun a ha => by rw [hthin a ha]; decide),
      List.filter_eq_self.2 (fun a ha => by rw [hfat a ha]; rfl), List.nil_append, fat_size]
  · intro k hk
    rw [List.mem_append]
    left
    unfold thin_members
    exact List.mem_map.2 ⟨k, List.mem_filter.2 ⟨mem_all k, hk⟩, rfl⟩

end AttributeSet

/-! ## The memos are append-only -/

namespace Deserializer

theorem AppendOnly.of_sim_appends {α : Type} {k : Nat} {m1 m2 : M α} (h : Sim k m1 m2) :
    AppendOnly m1 := by
  intro ds r ds1 hrun
  obtain ⟨C, E, _, hds1, _⟩ := h ds r ds1 hrun
  rw [hds1]
  exact memos_le_extend ds C.length E

theorem AppendOnly.pure_appends {α : Type} (a : α) : AppendOnly (pure a : M α) := by
  intro ds r ds1 hrun
  rw [M.pure_apply] at hrun
  injection hrun with hrun
  injection hrun with _ hds
  rw [← hds]
  exact memos_le_refl ds

theorem AppendOnly.bind_appends {α β : Type} {m : M α} {f : α → M β} (hm : AppendOnly m)
    (hf : ∀ a, AppendOnly (f a)) : AppendOnly (m >>= f) := by
  intro ds r ds1 hrun
  rw [M.bind_apply] at hrun
  cases hm1 : m ds with
  | error e => rw [hm1] at hrun; cases hrun
  | ok p =>
    obtain ⟨a, dsa⟩ := p
    rw [hm1] at hrun
    exact memos_le_trans (hm ds a dsa hm1) (hf a dsa r ds1 hrun)

theorem AppendOnly.get_appends {α : Type} (read : Decoder → Result α × Decoder) :
    AppendOnly (get read) := by
  intro ds r ds1 hrun
  unfold Deserializer.get at hrun
  cases hread : read ds.source with
  | mk res d =>
    rw [hread] at hrun
    cases res with
    | error e => cases hrun
    | ok a =>
      injection hrun with hrun
      injection hrun with _ hds
      rw [← hds]
      exact ⟨List.prefix_refl _, List.prefix_refl _, List.prefix_refl _, List.prefix_refl _⟩

theorem AppendOnly.sequence_loop_appends {α : Type} {decode : M α} (h : AppendOnly decode) :
    ∀ count, AppendOnly (sequence_loop decode count) := by
  intro count
  induction count with
  | zero => exact AppendOnly.pure_appends _
  | succ n ih =>
    rw [Deserializer.sequence_loop]
    exact AppendOnly.bind_appends h (fun _ => AppendOnly.bind_appends ih (fun _ => AppendOnly.pure_appends _))

theorem AppendOnly.sequence_appends {α : Type} {decode : M α} (h : AppendOnly decode) :
    AppendOnly (sequence decode) := by
  unfold Deserializer.sequence
  exact AppendOnly.bind_appends (AppendOnly.get_appends _) (fun n => AppendOnly.sequence_loop_appends h n)

theorem AppendOnly.optional_appends {α : Type} {decode : M α} (h : AppendOnly decode) :
    AppendOnly (optional decode) := by
  unfold Deserializer.optional
  refine AppendOnly.bind_appends (AppendOnly.of_sim_appends (sim_boolean 0)) (fun b => ?_)
  cases b
  · exact AppendOnly.pure_appends _
  · exact AppendOnly.bind_appends h (fun _ => AppendOnly.pure_appends _)

theorem AppendOnly.internable_appends {α : Type} (memo : Memo α) (hl : memo.Lawful) {decode : M α}
    (h : AppendOnly decode) : AppendOnly (internable memo decode) := by
  obtain ⟨entry, hentry⟩ := hl.1
  intro ds r ds1 hrun
  unfold Deserializer.internable at hrun
  by_cases hpeek : ds.source.peek = some (-1)
  · rw [if_pos hpeek] at hrun
    cases hleb : Decoder.unsigned_leb128 (Decoder.u8 ds.source).2 with
    | mk res d =>
      rw [hleb] at hrun
      cases res with
      | error e => cases hrun
      | ok i =>
        simp only [at_index] at hrun
        cases hget : (memo.get { ds with source := d }).get? i with
        | none => rw [hget] at hrun; cases hrun
        | some v =>
          rw [hget] at hrun
          injection hrun with hrun
          injection hrun with _ hds
          rw [← hds]
          exact ⟨List.prefix_refl _, List.prefix_refl _, List.prefix_refl _,
            List.prefix_refl _⟩
  · rw [if_neg hpeek] at hrun
    simp only [] at hrun
    cases hdec : decode ds with
    | error e => rw [hdec] at hrun; cases hrun
    | ok p =>
      obtain ⟨v, dsd⟩ := p
      rw [hdec] at hrun
      simp only [] at hrun
      have hle := h ds v dsd hdec
      split at hrun
      · injection hrun with hrun
        injection hrun with _ hds
        rw [← hds, hentry]
        exact memos_le_trans hle (memos_le_extend _ _ _)
      · injection hrun with hrun
        injection hrun with _ hds
        rw [← hds]
        exact hle

/-- An index into a memo keeps its element when the memo grows. -/
theorem get_of_initial_segment {α : Type} {l1 l2 : List α} (h : l1 <+: l2) (i : Nat) (v : α)
    (hv : l1.get? i = some v) : l2.get? i = some v := by
  obtain ⟨t, rfl⟩ := h
  have hi : i < l1.length := by
    by_contra hc
    rw [List.get?_eq_none.2 (by omega)] at hv
    cases hv
  rw [List.get?_eq_getElem?] at hv ⊢
  rw [List.getElem?_append_left hi]
  exact hv

/-- An element decoded inline over more than two bytes joins its memo after the entries
that its decoding appended. -/
theorem internable_nested_first {α : Type} (memo : Memo α) (hl : memo.Lawful)
    (hpush : ∀ v ds, memo.get (memo.push v ds) = memo.get ds ++ [v])
    {decode : M α} (h : AppendOnly decode) (ds ds1 : Deserializer) (v : α)
    (hfirst : ∀ tail, ds.rest ≠ 0xFF :: tail)
    (hlong : ds.source.position + 2 < ds1.source.position)
    (hrun : internable memo decode ds = Except.ok (v, ds1)) :
    ∃ nested, memo.get ds1 = memo.get ds ++ nested ++ [v] := by
  obtain ⟨entry, hentry⟩ := hl.1
  obtain ⟨dsd, hdec, hds1⟩ := internable_inline_inv memo decode ds ds1 v hfirst hrun
  obtain ⟨nested, hnested⟩ := hl.2.1 ds dsd (h ds v dsd hdec)
  by_cases hgt : dsd.source.position > ds.source.position + 2
  · rw [if_pos hgt] at hds1
    exact ⟨nested, by rw [hds1, hpush, ← hnested]⟩
  · rw [if_neg hgt] at hds1
    rw [hds1] at hlong
    omega

end Deserializer

namespace Deserializer

theorem AppendOnly.ite_appends {α : Type} {c : Prop} [Decidable c] {a b : M α} (ha : AppendOnly a)
    (hb : AppendOnly b) : AppendOnly (if c then a else b) := by
  by_cases h : c
  · rw [if_pos h]
    exact ha
  · rw [if_neg h]
    exact hb

theorem AppendOnly.fatal_error_appends {α : Type} (message : String) :
    AppendOnly (fatal_error message : M α) := by
  intro ds r ds1 hrun
  cases hrun

theorem AppendOnly.value_of_appends {α : Type} (o : Option α) : AppendOnly (value_of o) := by
  cases o with
  | none =>
    intro ds r ds1 hrun
    cases hrun
  | some a => exact AppendOnly.pure_appends a

/-- A symbol decoded inline over more than two bytes joins its memo after the entries
that the decoding of its parts appended. -/
theorem symbol_nested_first (fuel : Nat) (ds ds1 : Deserializer) (v : Symbol)
    (hfirst : ∀ tail, ds.rest ≠ 0xFF :: tail)
    (hlong : ds.source.position + 2 < ds1.source.position)
    (hrun : symbol fuel ds = Except.ok (v, ds1)) :
    ∃ nested, ds1.interned_symbols = ds.interned_symbols ++ nested ++ [v] := by
  cases fuel with
  | zero =>
    rw [symbol] at hrun
    cases hrun
  | succ fuel =>
    rw [symbol] at hrun
    refine internable_nested_first Memo.symbols Memo.lawful_symbols (fun _ _ => rfl) ?_ ds ds1 v hfirst
      hlong hrun
    repeat (with_reducible first
      | exact AppendOnly.pure_appends _
      | exact AppendOnly.get_appends _
      | exact AppendOnly.fatal_error_appends _
      | exact AppendOnly.value_of_appends _
      | exact AppendOnly.of_sim_appends (sim_boolean 0)
      | exact AppendOnly.of_sim_appends (sim_local 0)
      | exact AppendOnly.of_sim_appends (sim_string 0)
      | exact AppendOnly.of_sim_appends (sim_signature 0)
      | exact AppendOnly.of_sim_appends (sim_bytes 0)
      | exact AppendOnly.of_sim_appends (sim_new_struct_type 0 _)
      | exact AppendOnly.of_sim_appends (sim_new_function_type 0 _ _)
      | exact AppendOnly.of_sim_appends (sim_new_struct_value 0 _)
      | exact AppendOnly.of_sim_appends (sim_new_array_value 0 _ _)
      | exact AppendOnly.of_sim_appends (sim_symbol fuel fuel 0 (Or.inl (Nat.zero_le _)))
      | exact AppendOnly.of_sim_appends (sim_type fuel fuel 0 (Or.inl (Nat.zero_le _)))
      | exact AppendOnly.of_sim_appends (sim_value fuel fuel 0 (Or.inl (Nat.zero_le _)))
      | exact AppendOnly.sequence_appends
          (AppendOnly.of_sim_appends (sim_type fuel fuel 0 (Or.inl (Nat.zero_le _))))
      | exact AppendOnly.sequence_appends
          (AppendOnly.of_sim_appends (sim_value fuel fuel 0 (Or.inl (Nat.zero_le _))))
      | apply AppendOnly.bind_appends
      | apply AppendOnly.ite_appends
      | intro _)

/-- A type decoded inline over more than two bytes joins its memo after the entries
that the decoding of its parts appended. -/
theorem type_nested_first (fuel : Nat) (ds ds1 : Deserializer) (v : Type_)
    (hfirst : ∀ tail, ds.rest ≠ 0xFF :: tail)
    (hlong : ds.source.position + 2 < ds1.source.position)
    (hrun : type_ fuel ds = Except.ok (v, ds1)) :
    ∃ nested, ds1.interned_types = ds.interned_types ++ nested ++ [v] := by
  cases fuel with
  | zero =>
    rw [type_] at hrun
    cases hrun
  | succ fuel =>
    rw [type_] at hrun
    refine internable_nested_first Memo.types Memo.lawful_types (fun _ _ => rfl) ?_ ds ds1 v hfirst
      hlong hrun
    repeat (with_reducible first
      | exact AppendOnly.pure_appends _
      | exact AppendOnly.get_appends _
      | exact AppendOnly.fatal_error_appends _
      | exact AppendOnly.value_of_appends _
      | exact AppendOnly.of_sim_appends (sim_boolean 0)
      | exact AppendOnly.of_sim_appends (sim_local 0)
      | exact AppendOnly.of_sim_appends (sim_string 0)
      | exact AppendOnly.of_sim_appends (sim_signature 0)
      | exact AppendOnly.of_sim_appends (sim_bytes 0)
      | exact AppendOnly.of_sim_appends (sim_new_struct_type 0 _)
      | exact AppendOnly.of_sim_appends (sim_new_function_type 0 _ _)
      | exact AppendOnly.of_sim_appends (sim_new_struct_value 0 _)
      | exact AppendOnly.of_sim_appends (sim_new_array_value 0 _ _)
      | exact AppendOnly.of_sim_appends (sim_symbol fuel fuel 0 (Or.inl (Nat.zero_le _)))
      | exact AppendOnly.of_sim_appends (sim_type fuel fuel 0 (Or.inl (Nat.zero_le _)))
      | exact AppendOnly.of_sim_appends (sim_value fuel fuel 0 (Or.inl (Nat.zero_le _)))
      | exact AppendOnly.sequence_appends
          (AppendOnly.of_sim_appends (sim_type fuel fuel 0 (Or.inl (Nat.zero_le _))))
      | exact AppendOnly.sequence_appends
          (AppendOnly.of_sim_appends (sim_value fuel fuel 0 (Or.inl (Nat.zero_le _))))
      | apply AppendOnly.bind_appends
      | apply AppendOnly.ite_appends
      | intro _)

/-- A value decoded inline over more than two bytes joins its memo after the entries
that the decoding of its parts appended. -/
theorem value_nested_first (fuel : Nat) (ds ds1 : Deserializer) (v : Value)
    (hfirst : ∀ tail, ds.rest ≠ 0xFF :: tail)
    (hlong : ds.source.position + 2 < ds1.source.position)
    (hrun : value fuel ds = Except.ok (v, ds1)) :
    ∃ nested, ds1.interned_values = ds.interned_values ++ nested ++ [v] := by
  cases fuel with
  | zero =>
    rw [value] at hrun
    cases hrun
  | succ fuel =>
    rw [value] at hrun
    refine internable_nested_first Memo.values Memo.lawful_values (fun _ _ => rfl) ?_ ds ds1 v hfirst
      hlong hrun
    repeat (with_reducible first
      | exact AppendOnly.pure_appends _
      | exact AppendOnly.get_appends _
      | exact AppendOnly.fatal_error_appends _
      | exact AppendOnly.value_of_appends _
      | exact AppendOnly.of_sim_appends (sim_boolean 0)
      | exact AppendOnly.of_sim_appends (sim_local 0)
      | exact AppendOnly.of_sim_appends (sim_string 0)
      | exact AppendOnly.of_sim_appends (sim_signature 0)
      | exact AppendOnly.of_sim_appends (sim_bytes 0)
      | exact AppendOnly.of_sim_appends (sim_new_struct_type 0 _)
      | exact AppendOnly.of_sim_appends (sim_new_function_type 0 _ _)
      | exact AppendOnly.of_sim_appends (sim_new_struct_value 0 _)
      | exact AppendOnly.of_sim_appends (sim_new_array_value 0 _ _)
      | exact AppendOnly.of_sim_appends (sim_symbol fuel fuel 0 (Or.inl (Nat.zero_le _)))
      | exact AppendOnly.of_sim_appends (sim_type fuel fuel 0 (Or.inl (Nat.zero_le _)))
      | exact AppendOnly.of_sim_appends (sim_value fuel fuel 0 (Or.inl (Nat.zero_le _)))
      | exact AppendOnly.sequence_appends
          (AppendOnly.of_sim_appends (sim_type fuel fuel 0 (Or.inl (Nat.zero_le _))))
      | exact AppendOnly.sequence_appends
          (AppendOnly.of_sim_appends (sim_value fuel fuel 0 (Or.inl (Nat.zero_le _))))
      | apply AppendOnly.bind_appends
      | apply AppendOnly.ite_appends
      | intro _)

/-- C39: the four memos are append-only. Every run of `definition`, `instruction`,
`operation`, `next`, `type`, `value`, `symbol` and `string` that returns, and every run of
`sequence` and `optional` over a decoder of which this holds, leaves each memo with its
former contents as an initial segment. So an index that denotes an element of a memo
denotes the same element afterwards. And a symbol, type or value that is memoized (one
decoded inline over more than two bytes) is appended after the entries that the decoding
of its parts appended. -/
theorem interning_tables_are_append_only (fuel : Nat) (ds ds1 : Deserializer) :
    AppendOnly (definition fuel) ∧ AppendOnly (instruction fuel) ∧
    AppendOnly (operation fuel) ∧ AppendOnly (next fuel) ∧ AppendOnly (type_ fuel) ∧
    AppendOnly (value fuel) ∧ AppendOnly (symbol fuel) ∧ AppendOnly string ∧
    (∀ (α : Type) (decode : M α), AppendOnly decode →
      AppendOnly (sequence decode) ∧ AppendOnly (optional decode)) ∧
    (ds.memos_le ds1 → ∀ i : Nat,
      (∀ v, ds.interned_strings.get? i = some v → ds1.interned_strings.get? i = some v) ∧
      (∀ v, ds.interned_symbols.get? i = some v → ds1.interned_symbols.get? i = some v) ∧
      (∀ v, ds.interned_types.get? i = some v → ds1.interned_types.get? i = some v) ∧
      (∀ v, ds.interned_values.get? i = some v → ds1.interned_values.get? i = some v)) ∧
    ((∀ tail, ds.rest ≠ 0xFF :: tail) → ds.source.position + 2 < ds1.source.position →
      (∀ v, symbol fuel ds = Except.ok (v, ds1) →
        ∃ nested, ds1.interned_symbols = ds.interned_symbols ++ nested ++ [v]) ∧
      (∀ v, type_ fuel ds = Except.ok (v, ds1) →
        ∃ nested, ds1.interned_types = ds.interned_types ++ nested ++ [v]) ∧
      (∀ v, value fuel ds = Except.ok (v, ds1) →
        ∃ nested, ds1.interned_values = ds.interned_values ++ nested ++ [v])) :=
  ⟨AppendOnly.of_sim_appends (sim_definition fuel fuel 0 (Or.inl (Nat.zero_le _))),
    AppendOnly.of_sim_appends (sim_instruction fuel fuel 0 (Or.inl (Nat.zero_le _))),
    AppendOnly.of_sim_appends (sim_operation fuel fuel 0 (Or.inl (Nat.zero_le _))),
    AppendOnly.of_sim_appends (sim_next fuel fuel 0 (Or.inl (Nat.zero_le _))),
    AppendOnly.of_sim_appends (sim_type fuel fuel 0 (Or.inl (Nat.zero_le _))),
    AppendOnly.of_sim_appends (sim_value fuel fuel 0 (Or.inl (Nat.zero_le _))),
    AppendOnly.of_sim_appends (sim_symbol fuel fuel 0 (Or.inl (Nat.zero_le _))),
    AppendOnly.of_sim_appends (sim_string 0),
    fun _ _ h => ⟨AppendOnly.sequence_appends h, AppendOnly.optional_appends h⟩,
    fun h i => ⟨get_of_initial_segment h.1 i, get_of_initial_segment h.2.1 i, get_of_initial_segment h.2.2.1 i,
      get_of_initial_segment h.2.2.2 i⟩,
    fun hfirst hlong => ⟨fun v => symbol_nested_first fuel ds ds1 v hfirst hlong,
      fun v => type_nested_first fuel ds ds1 v hfirst hlong,
      fun v => value_nested_first fuel ds ds1 v hfirst hlong⟩⟩

/-- C39 on `0C 00 06`, decoded as a type when the memo of types holds `i64`: the function
type of three bytes is appended after `i64`, which the index 0 keeps denoting. -/
theorem interning_tables_are_append_only_witness :
    type_ 2 ⟨⟨[0x0C, 0x00, 0x06], 0, Endian.little⟩, [], [],
        [Type_.i64], []⟩ =
      Except.ok (Type_.function [] Type_.i32,
        ⟨⟨[0x0C, 0x00, 0x06], 3, Endian.little⟩, [], [],
          [Type_.i64, Type_.function [] Type_.i32], []⟩) ∧
    (∃ nested, [Type_.i64, Type_.function [] Type_.i32] = [Type_.i64] ++ nested ++
      [Type_.function [] Type_.i32]) ∧
    (∀ v, [Type_.i64].get? 0 = some v →
      [Type_.i64, Type_.function [] Type_.i32].get? 0 = some v) :=
  ⟨rfl,
   ((interning_tables_are_append_only 2
      ⟨⟨[0x0C, 0x00, 0x06], 0, Endian.little⟩, [], [], [Type_.i64], []⟩
      ⟨⟨[0x0C, 0x00, 0x06], 3, Endian.little⟩, [], [],
        [Type_.i64, Type_.function [] Type_.i32], []⟩).2.2.2.2.2.2.2.2.2.2
      (fun tail h => by cases h) (by decide)).2.1 _ rfl,
   ((interning_tables_are_append_only 2
      ⟨⟨[0x0C, 0x00, 0x06], 0, Endian.little⟩, [], [], [Type_.i64], []⟩
      ⟨⟨[0x0C, 0x00, 0x06], 3, Endian.little⟩, [], [],
        [Type_.i64, Type_.function [] Type_.i32], []⟩).2.2.2.2.2.2.2.2.2.1
      ⟨List.prefix_refl _, List.prefix_refl _, ⟨[Type_.function [] Type_.i32], rfl⟩,
        List.prefix_refl _⟩ 0).2.2.1⟩

end Deserializer

/-! ## Termination: the bound of the recursion is never reached

`Halts s k m`: from a state with fewer than `k` bytes left, `m` does not end with
`out_of_fuel`; and a run of `m` that succeeds has consumed at least `s` bytes. -/

namespace Deserializer

theorem Halts.mono_halts {α : Type} {s k s1 k1 : Nat} {m : M α} (h : Halts s k m) (hs : s1 ≤ s)
    (hk : k1 ≤ k) : Halts s1 k1 m := by
  intro ds
  refine ⟨fun hlt => (h ds).1 (by omega), fun r ds1 hrun => ?_⟩
  have := (h ds).2 r ds1 hrun
  omega

theorem Halts.pure_halts {α : Type} (k : Nat) (a : α) : Halts 0 k (pure a : M α) := by
  intro ds
  refine ⟨fun _ hc => (by cases hc), fun r ds1 hrun => ?_⟩
  rw [M.pure_apply] at hrun
  injection hrun with hrun
  injection hrun with _ hds
  rw [← hds]
  exact Nat.le_refl _

theorem Halts.fatal_error_halts {α : Type} (s k : Nat) (message : String) :
    Halts s k (fatal_error message : M α) := by
  intro ds
  exact ⟨fun _ hc => (by cases hc), fun r ds1 hrun => by cases hrun⟩

theorem Halts.out_of_fuel_halts {α : Type} (s : Nat) :
    Halts s 0 (M.fail Failure.out_of_fuel : M α) := by
  intro ds
  exact ⟨fun hlt => absurd hlt (Nat.not_lt_zero _), fun r ds1 hrun => (by cases hrun)⟩

theorem Halts.undefined_halts {α : Type} (s k : Nat) (what : String) :
    Halts s k (M.fail (Failure.undefined what) : M α) := by
  intro ds
  exact ⟨fun _ hc => (by cases hc), fun r ds1 hrun => by cases hrun⟩

theorem Halts.value_of_halts {α : Type} (k : Nat) (o : Option α) : Halts 0 k (value_of o) := by
  cases o with
  | none =>
    intro ds
    exact ⟨fun _ hc => (by cases hc), fun r ds1 hrun => by cases hrun⟩
  | some a => exact Halts.pure_halts k a

theorem Halts.precondition_halts (k : Nat) (c : Bool) (message : String) :
    Halts 0 k (precondition c message) := by
  unfold nir.precondition
  cases c
  · intro ds
    exact ⟨fun _ hc => (by cases hc), fun r ds1 hrun => by cases hrun⟩
  · exact Halts.pure_halts k ()

theorem Halts.ite_halts {α : Type} {s k : Nat} {c : Prop} [Decidable c] {a b : M α}
    (ha : Halts s k a) (hb : Halts s k b) : Halts s k (if c then a else b) := by
  by_cases h : c
  · rw [if_pos h]
    exact ha
  · rw [if_neg h]
    exact hb

theorem Halts.bind_halts {α β : Type} {k : Nat} {m : M α} {f : α → M β} (hm : Halts 0 k m)
    (hf : ∀ a, Halts 0 k (f a)) : Halts 0 k (m >>= f) := by
  intro ds
  rw [M.bind_apply]
  cases hm1 : m ds with
  | error e =>
    simp only []
    refine ⟨fun hlt => ?_, fun r ds1 hrun => by cases hrun⟩
    have := (hm ds).1 hlt
    rw [hm1] at this
    intro hc
    injection hc with hc
    exact this (by rw [hc])
  | ok p =>
    obtain ⟨a, dsa⟩ := p
    simp only []
    have hle := (hm ds).2 a dsa hm1
    refine ⟨fun hlt => (hf a dsa).1 (by omega), fun r ds1 hrun => ?_⟩
    have := (hf a dsa).2 r ds1 hrun
    omega

/-- A decoder that first consumes a byte leaves one level of recursion less to do. -/
theorem Halts.bind_strict_halts {α β : Type} {k : Nat} {m : M α} {f : α → M β}
    (hm : Halts 1 (k + 1) m) (hf : ∀ a, Halts 0 k (f a)) : Halts 1 (k + 1) (m >>= f) := by
  intro ds
  rw [M.bind_apply]
  cases hm1 : m ds with
  | error e =>
    simp only []
    refine ⟨fun hlt => ?_, fun r ds1 hrun => by cases hrun⟩
    have := (hm ds).1 hlt
    rw [hm1] at this
    intro hc
    injection hc with hc
    exact this (by rw [hc])
  | ok p =>
    obtain ⟨a, dsa⟩ := p
    simp only []
    have hle := (hm ds).2 a dsa hm1
    refine ⟨fun hlt => (hf a dsa).1 (by omega), fun r ds1 hrun => ?_⟩
    have := (hf a dsa).2 r ds1 hrun
    omega

theorem rest_length_of_source (ds : Deserializer) (d : Decoder) :
    Deserializer.rest { ds with source := d } = d.rest := rfl

/-- A read of the byte source never moves the cursor backwards. -/
theorem Halts.of_framed_halts {α : Type} (k : Nat) {read : Decoder → Result α × Decoder}
    (hf : Framed read) : Halts 0 k (get read) := by
  intro ds
  unfold Deserializer.get
  cases hread : read ds.source with
  | mk res d =>
    cases res with
    | error e => exact ⟨fun _ hc => (by cases hc), fun r ds1 hrun => by cases hrun⟩
    | ok a =>
      refine ⟨fun _ hc => (by cases hc), fun r ds1 hrun => ?_⟩
      injection hrun with hrun
      injection hrun with _ hds
      obtain ⟨C, _, hd, _⟩ := hf ds.source a d hread
      rw [← hds, rest_length_of_source, hd, Decoder.rest_advanced, List.length_drop]
      exact Nat.sub_le _ _

/-- A read that fails at the end of the source consumes at least one byte. -/
theorem Halts.of_framed_strict_halts {α : Type} (k : Nat) {read : Decoder → Result α × Decoder}
    (hf : Framed read) (hend : ∀ d : Decoder, d.rest = [] → ∃ e, (read d).1 = Except.error e) :
    Halts 1 k (get read) := by
  intro ds
  unfold Deserializer.get
  cases hread : read ds.source with
  | mk res d =>
    cases res with
    | error e => exact ⟨fun _ hc => (by cases hc), fun r ds1 hrun => by cases hrun⟩
    | ok a =>
      refine ⟨fun _ hc => (by cases hc), fun r ds1 hrun => ?_⟩
      injection hrun with hrun
      injection hrun with _ hds
      obtain ⟨C, hC, hd, hrep⟩ := hf ds.source a d hread
      have hne : C ≠ [] := by
        intro hnil
        subst hnil
        have hreplay := (hrep ⟨[], 0, ds.source.byte_order⟩ rfl).1 [] rfl
        obtain ⟨e, he⟩ := hend ⟨[], 0, ds.source.byte_order⟩ rfl
        rw [hreplay] at he
        cases he
      have hlen : 0 < C.length := List.length_pos.2 hne
      have hle : C.length ≤ ds.source.rest.length := hC.length_le
      rw [← hds, rest_length_of_source, hd, Decoder.rest_advanced, List.length_drop]
      show ds.source.rest.length - C.length + 1 ≤ ds.source.rest.length
      omega

end Deserializer

namespace Deserializer

theorem Halts.u8_halts (k : Nat) : Halts 1 k (get Decoder.u8) :=
  Halts.of_framed_strict_halts k Decoder.framed_u8 (fun d h =>
    ⟨_, by rw [Decoder.u8_of_end d (by simpa [Decoder.rest, List.drop_eq_nil_iff] using h)]⟩)

theorem Halts.unsigned_leb128_halts (k : Nat) : Halts 1 k (get Decoder.unsigned_leb128) :=
  Halts.of_framed_strict_halts k Decoder.framed_unsigned_leb128
    (fun d h => Decoder.unsigned_leb128_loop_end _ d 0 0 h)

theorem Halts.at_index_halts {α : Type} (k : Nat) (memo : Memo α) (i : Nat) :
    Halts 0 k (Deserializer.at_index memo i) := by
  intro ds
  unfold Deserializer.at_index
  cases (memo.get ds).get? i with
  | none => exact ⟨fun _ hc => (by cases hc), fun r ds1 hrun => (by cases hrun)⟩
  | some v =>
    refine ⟨fun _ hc => (by cases hc), fun r ds1 hrun => ?_⟩
    injection hrun with hrun
    injection hrun with _ hds
    rw [← hds]
    exact Nat.le_refl _

theorem Halts.push_back_halts {α : Type} (k : Nat) (memo : Memo α) (hl : memo.Lawful) (v : α) :
    Halts 0 k (Deserializer.push_back memo v) := by
  obtain ⟨entry, hentry⟩ := hl.1
  intro ds
  refine ⟨fun _ hc => (by cases hc), fun r ds1 hrun => ?_⟩
  unfold Deserializer.push_back at hrun
  injection hrun with hrun
  injection hrun with _ hds
  rw [← hds, hentry, rest_extend]
  exact Nat.le_refl _

/-- The bytes of an inline string: the cursor moves forward by the number of bytes read. -/
theorem Halts.string_bytes_halts (k n : Nat) :
    Halts 0 k (get (fun d => (Except.ok (Decoder.bytes n d).1, (Decoder.bytes n d).2))) := by
  intro ds
  refine ⟨fun _ hc => (by cases hc), fun r ds1 hrun => ?_⟩
  unfold Deserializer.get at hrun
  simp only [] at hrun
  injection hrun with hrun
  injection hrun with _ hds
  rw [← hds, rest_length_of_source]
  simp only [Decoder.bytes, Deserializer.rest, Decoder.rest, List.length_drop,
    List.length_take]
  omega

theorem Halts.sequence_loop_halts {α : Type} {k : Nat} {decode : M α} (h : Halts 0 k decode) :
    ∀ count, Halts 0 k (Deserializer.sequence_loop decode count) := by
  intro count
  induction count with
  | zero => exact Halts.pure_halts _ _
  | succ n ih =>
    rw [Deserializer.sequence_loop]
    exact Halts.bind_halts h (fun _ => Halts.bind_halts ih (fun _ => Halts.pure_halts _ _))

/-- A sequence consumes its count, and needs no more levels than its elements. -/
theorem Halts.sequence_halts {α : Type} {k : Nat} {decode : M α} (h : Halts 0 k decode) :
    Halts 1 (k + 1) (Deserializer.sequence decode) := by
  unfold Deserializer.sequence
  exact Halts.bind_strict_halts (Halts.unsigned_leb128_halts _) (fun n => Halts.sequence_loop_halts h n)

theorem Halts.sequence0_halts {α : Type} {k : Nat} {decode : M α} (h : Halts 0 k decode) :
    Halts 0 k (Deserializer.sequence decode) :=
  (Halts.sequence_halts h).mono_halts (Nat.zero_le _) (Nat.le_succ _)

theorem Halts.boolean_halts (k : Nat) : Halts 1 k Deserializer.boolean := by
  have h : Halts 1 (k + 1) Deserializer.boolean := by
    unfold Deserializer.boolean
    exact Halts.bind_strict_halts (Halts.u8_halts _) (fun _ => Halts.pure_halts _ _)
  exact h.mono_halts (Nat.le_refl _) (Nat.le_succ _)

/-- An optional element consumes its flag, and needs no more levels than the element. -/
theorem Halts.optional_halts {α : Type} {k : Nat} {decode : M α} (h : Halts 0 k decode) :
    Halts 1 (k + 1) (Deserializer.optional decode) := by
  unfold Deserializer.optional
  refine Halts.bind_strict_halts (Halts.boolean_halts _) (fun b => ?_)
  cases b
  · exact Halts.pure_halts _ _
  · exact Halts.bind_halts h (fun _ => Halts.pure_halts _ _)

theorem Halts.optional0_halts {α : Type} {k : Nat} {decode : M α} (h : Halts 0 k decode) :
    Halts 0 k (Deserializer.optional decode) :=
  (Halts.optional_halts h).mono_halts (Nat.zero_le _) (Nat.le_succ _)

/-- An element read through a memo: a back-reference takes no recursion, and an inline
element is read by `decode`. -/
theorem Halts.internable_halts {α : Type} {s k : Nat} (memo : Memo α) (hl : memo.Lawful)
    {decode : M α} (h : Halts s k decode) (hs : s ≤ 1) :
    Halts s k (Deserializer.internable memo decode) := by
  obtain ⟨entry, hentry⟩ := hl.1
  intro ds
  unfold Deserializer.internable
  by_cases hpeek : ds.source.peek = some (-1)
  · rw [if_pos hpeek]
    have hu8 := (Halts.u8_halts k ds).2
    cases hleb : Decoder.unsigned_leb128 (Decoder.u8 ds.source).2 with
    | mk res d =>
      cases res with
      | error e => exact ⟨fun _ hc => (by cases hc), fun r ds1 hrun => (by cases hrun)⟩
      | ok i =>
        simp only [Deserializer.at_index]
        cases (memo.get { ds with source := d }).get? i with
        | none => exact ⟨fun _ hc => (by cases hc), fun r ds1 hrun => (by cases hrun)⟩
        | some v =>
          refine ⟨fun _ hc => (by cases hc), fun r ds1 hrun => ?_⟩
          injection hrun with hrun
          injection hrun with _ hds
          rw [← hds, rest_length_of_source]
          have hne : ds.source.rest ≠ [] := by
            intro hnil
            rw [Decoder.peek_of_rest_nil ds.source hnil] at hpeek
            cases hpeek
          obtain ⟨b, tail, hbt⟩ := List.exists_cons_of_ne_nil hne
          have hu := Decoder.u8_of_drop ds.source b tail hbt
          rw [hu] at hleb
          obtain ⟨C, hC, hd, _⟩ := Decoder.framed_unsigned_leb128 _ i d hleb
          have hrest1 : Decoder.rest { ds.source with position := ds.source.position + 1 } =
              tail := by
            have := Decoder.rest_advanced ds.source 1
            rw [hbt] at this
            exact this
          rw [hd, Decoder.rest_advanced, List.length_drop, hrest1]
          show tail.length - C.length + s ≤ ds.source.rest.length
          rw [hbt, List.length_cons]
          omega
  · rw [if_neg hpeek]
    simp only []
    cases hdec : decode ds with
    | error e =>
      simp only []
      refine ⟨fun hlt => ?_, fun r ds1 hrun => (by cases hrun)⟩
      have := (h ds).1 hlt
      rw [hdec] at this
      exact this
    | ok p =>
      obtain ⟨v, dsd⟩ := p
      simp only []
      have hle := (h ds).2 v dsd hdec
      split
      · refine ⟨fun _ hc => (by cases hc), fun r ds1 hrun => ?_⟩
        injection hrun with hrun
        injection hrun with _ hds
        rw [← hds, hentry, rest_extend]
        exact hle
      · refine ⟨fun _ hc => (by cases hc), fun r ds1 hrun => ?_⟩
        injection hrun with hrun
        injection hrun with _ hds
        rw [← hds]
        exact hle

end Deserializer

/-! ### The decoders halt -/

namespace Deserializer

set_option maxRecDepth 8192

theorem halts_uint32 (k : Nat) : Halts 0 k uint32 := by
  unfold uint32
  repeat (with_reducible first
    | exact Halts.pure_halts _ _
    | exact Halts.fatal_error_halts _ _ _
    | exact Halts.undefined_halts _ _ _
    | exact Halts.value_of_halts _ _
    | exact Halts.precondition_halts _ _ _
    | exact Halts.of_framed_halts _ Decoder.framed_u8
    | exact Halts.of_framed_halts _ Decoder.framed_i8
    | exact Halts.of_framed_halts _ Decoder.framed_f32
    | exact Halts.of_framed_halts _ Decoder.framed_f64
    | exact Halts.of_framed_halts _ Decoder.framed_unsigned_leb128
    | exact Halts.of_framed_halts _ Decoder.framed_signed_leb128
    | exact Halts.string_bytes_halts _ _
    | exact Halts.at_index_halts _ _ _
    | exact Halts.push_back_halts _ _ Memo.lawful_strings _
    | apply Halts.bind_halts
    | apply Halts.ite_halts
    | intro _)

theorem halts_local (k : Nat) : Halts 0 k local_ := by
  unfold local_
  repeat (with_reducible first
    | exact Halts.pure_halts _ _
    | exact Halts.fatal_error_halts _ _ _
    | exact Halts.undefined_halts _ _ _
    | exact Halts.value_of_halts _ _
    | exact Halts.precondition_halts _ _ _
    | exact Halts.of_framed_halts _ Decoder.framed_u8
    | exact Halts.of_framed_halts _ Decoder.framed_i8
    | exact Halts.of_framed_halts _ Decoder.framed_f32
    | exact Halts.of_framed_halts _ Decoder.framed_f64
    | exact Halts.of_framed_halts _ Decoder.framed_unsigned_leb128
    | exact Halts.of_framed_halts _ Decoder.framed_signed_leb128
    | exact Halts.string_bytes_halts _ _
    | exact Halts.at_index_halts _ _ _
    | exact Halts.push_back_halts _ _ Memo.lawful_strings _
    | exact halts_uint32 _
    | apply Halts.bind_halts
    | apply Halts.ite_halts
    | intro _)

theorem halts_scope_identifier (k : Nat) : Halts 0 k scope_identifier := by
  unfold scope_identifier
  repeat (with_reducible first
    | exact Halts.pure_halts _ _
    | exact Halts.fatal_error_halts _ _ _
    | exact Halts.undefined_halts _ _ _
    | exact Halts.value_of_halts _ _
    | exact Halts.precondition_halts _ _ _
    | exact Halts.of_framed_halts _ Decoder.framed_u8
    | exact Halts.of_framed_halts _ Decoder.framed_i8
    | exact Halts.of_framed_halts _ Decoder.framed_f32
    | exact Halts.of_framed_halts _ Decoder.framed_f64
    | exact Halts.of_framed_halts _ Decoder.framed_unsigned_leb128
    | exact Halts.of_framed_halts _ Decoder.framed_signed_leb128
    | exact Halts.string_bytes_halts _ _
    | exact Halts.at_index_halts _ _ _
    | exact Halts.push_back_halts _ _ Memo.lawful_strings _
    | exact halts_uint32 _
    | exact halts_local _
    | apply Halts.bind_halts
    | apply Halts.ite_halts
    | intro _)

theorem halts_inline_string (k : Nat) : Halts 0 k inline_string := by
  unfold inline_string
  repeat (with_reducible first
    | exact Halts.pure_halts _ _
    | exact Halts.fatal_error_halts _ _ _
    | exact Halts.undefined_halts _ _ _
    | exact Halts.value_of_halts _ _
    | exact Halts.precondition_halts _ _ _
    | exact Halts.of_framed_halts _ Decoder.framed_u8
    | exact Halts.of_framed_halts _ Decoder.framed_i8
    | exact Halts.of_framed_halts _ Decoder.framed_f32
    | exact Halts.of_framed_halts _ Decoder.framed_f64
    | exact Halts.of_framed_halts _ Decoder.framed_unsigned_leb128
    | exact Halts.of_framed_halts _ Decoder.framed_signed_leb128
    | exact Halts.string_bytes_halts _ _
    | exact Halts.at_index_halts _ _ _
    | exact Halts.push_back_halts _ _ Memo.lawful_strings _
    | exact halts_uint32 _
    | exact halts_local _
    | exact halts_scope_identifier _
    | apply Halts.bind_halts
    | apply Halts.ite_halts
    | intro _)

/-- `string` consumes its tag and calls no recursive decoder. -/
theorem halts_string_strict (k : Nat) : Halts 1 k string := by
  have h : Halts 1 (k + 1) string := by
    unfold string
    refine Halts.bind_strict_halts (Halts.u8_halts _) (fun t => ?_)
    repeat (with_reducible first
      | exact Halts.pure_halts _ _
      | exact Halts.fatal_error_halts _ _ _
      | exact Halts.undefined_halts _ _ _
      | exact Halts.value_of_halts _ _
      | exact Halts.precondition_halts _ _ _
      | exact Halts.of_framed_halts _ Decoder.framed_u8
      | exact Halts.of_framed_halts _ Decoder.framed_i8
      | exact Halts.of_framed_halts _ Decoder.framed_f32
      | exact Halts.of_framed_halts _ Decoder.framed_f64
      | exact Halts.of_framed_halts _ Decoder.framed_unsigned_leb128
      | exact Halts.of_framed_halts _ Decoder.framed_signed_leb128
      | exact Halts.string_bytes_halts _ _
      | exact Halts.at_index_halts _ _ _
      | exact Halts.push_back_halts _ _ Memo.lawful_strings _
      | exact halts_uint32 _
      | exact halts_local _
      | exact halts_scope_identifier _
      | exact halts_inline_string _
      | apply Halts.bind_halts
      | apply Halts.ite_halts
      | intro _)
  exact h.mono_halts (Nat.le_refl _) (Nat.le_succ _)

theorem halts_string (k : Nat) : Halts 0 k string :=
  (halts_string_strict k).mono_halts (Nat.zero_le _) (Nat.le_refl _)

theorem halts_signature (k : Nat) : Halts 0 k signature := by
  unfold signature
  repeat (with_reducible first
    | exact Halts.pure_halts _ _
    | exact Halts.fatal_error_halts _ _ _
    | exact Halts.undefined_halts _ _ _
    | exact Halts.value_of_halts _ _
    | exact Halts.precondition_halts _ _ _
    | exact Halts.of_framed_halts _ Decoder.framed_u8
    | exact Halts.of_framed_halts _ Decoder.framed_i8
    | exact Halts.of_framed_halts _ Decoder.framed_f32
    | exact Halts.of_framed_halts _ Decoder.framed_f64
    | exact Halts.of_framed_halts _ Decoder.framed_unsigned_leb128
    | exact Halts.of_framed_halts _ Decoder.framed_signed_leb128
    | exact Halts.string_bytes_halts _ _
    | exact Halts.at_index_halts _ _ _
    | exact Halts.push_back_halts _ _ Memo.lawful_strings _
    | exact halts_uint32 _
    | exact halts_local _
    | exact halts_scope_identifier _
    | exact halts_inline_string _
    | exact halts_string _
    | exact (Halts.boolean_halts _).mono_halts (Nat.zero_le _) (Nat.le_refl _)
    | exact Halts.optional0_halts (halts_string _)
    | apply Halts.bind_halts
    | apply Halts.ite_halts
    | intro _)

theorem halts_transform_into_empty (k n : Nat) : Halts 0 k (transform_into_empty n) := by
  unfold transform_into_empty
  repeat (with_reducible first
    | exact Halts.pure_halts _ _
    | exact Halts.fatal_error_halts _ _ _
    | exact Halts.undefined_halts _ _ _
    | exact Halts.value_of_halts _ _
    | exact Halts.precondition_halts _ _ _
    | exact Halts.of_framed_halts _ Decoder.framed_u8
    | exact Halts.of_framed_halts _ Decoder.framed_i8
    | exact Halts.of_framed_halts _ Decoder.framed_f32
    | exact Halts.of_framed_halts _ Decoder.framed_f64
    | exact Halts.of_framed_halts _ Decoder.framed_unsigned_leb128
    | exact Halts.of_framed_halts _ Decoder.framed_signed_leb128
    | exact Halts.string_bytes_halts _ _
    | exact Halts.at_index_halts _ _ _
    | exact Halts.push_back_halts _ _ Memo.lawful_strings _
    | exact halts_uint32 _
    | exact halts_local _
    | exact halts_scope_identifier _
    | exact halts_inline_string _
    | exact halts_string _
    | exact (Halts.boolean_halts _).mono_halts (Nat.zero_le _) (Nat.le_refl _)
    | exact Halts.optional0_halts (halts_string _)
    | exact halts_signature _
    | apply Halts.bind_halts
    | apply Halts.ite_halts
    | intro _)

theorem halts_new_struct_type (k : Nat) (es : List Type_) : Halts 0 k (new_struct_type es) := by
  unfold new_struct_type
  repeat (with_reducible first
    | exact Halts.pure_halts _ _
    | exact Halts.fatal_error_halts _ _ _
    | exact Halts.undefined_halts _ _ _
    | exact Halts.value_of_halts _ _
    | exact Halts.precondition_halts _ _ _
    | exact Halts.of_framed_halts _ Decoder.framed_u8
    | exact Halts.of_framed_halts _ Decoder.framed_i8
    | exact Halts.of_framed_halts _ Decoder.framed_f32
    | exact Halts.of_framed_halts _ Decoder.framed_f64
    | exact Halts.of_framed_halts _ Decoder.framed_unsigned_leb128
    | exact Halts.of_framed_halts _ Decoder.framed_signed_leb128
    | exact Halts.string_bytes_halts _ _
    | exact Halts.at_index_halts _ _ _
    | exact Halts.push_back_halts _ _ Memo.lawful_strings _
    | exact halts_uint32 _
    | exact halts_local _
    | exact halts_scope_identifier _
    | exact halts_inline_string _
    | exact halts_string _
    | exact (Halts.boolean_halts _).mono_halts (Nat.zero_le _) (Nat.le_refl _)
    | exact Halts.optional0_halts (halts_string _)
    | exact halts_signature _
    | exact halts_transform_into_empty _ _
    | apply Halts.bind_halts
    | apply Halts.ite_halts
    | intro _)

theorem halts_new_function_type (k : Nat) (ps : List Type_) (rv : Type_) : Halts 0 k (new_function_type ps rv) := by
  unfold new_function_type
  repeat (with_reducible first
    | exact Halts.pure_halts _ _
    | exact Halts.fatal_error_halts _ _ _
    | exact Halts.undefined_halts _ _ _
    | exact Halts.value_of_halts _ _
    | exact Halts.precondition_halts _ _ _
    | exact Halts.of_framed_halts _ Decoder.framed_u8
    | exact Halts.of_framed_halts _ Decoder.framed_i8
    | exact Halts.of_framed_halts _ Decoder.framed_f32
    | exact Halts.of_framed_halts _ Decoder.framed_f64
    | exact Halts.of_framed_halts _ Decoder.framed_unsigned_leb128
    | exact Halts.of_framed_halts _ Decoder.framed_signed_leb128
    | exact Halts.string_bytes_halts _ _
    | exact Halts.at_index_halts _ _ _
    | exact Halts.push_back_halts _ _ Memo.lawful_strings _
    | exact halts_uint32 _
    | exact halts_local _
    | exact halts_scope_identifier _
    | exact halts_inline_string _
    | exact halts_string _
    | exact (Halts.boolean_halts _).mono_halts (Nat.zero_le _) (Nat.le_refl _)
    | exact Halts.optional0_halts (halts_string _)
    | exact halts_signature _
    | exact halts_transform_into_empty _ _
    | exact halts_new_struct_type _ _
    | apply Halts.bind_halts
    | apply Halts.ite_halts
    | intro _)

theorem halts_new_struct_value (k : Nat) (es : List Value) : Halts 0 k (new_struct_value es) := by
  unfold new_struct_value
  repeat (with_reducible first
    | exact Halts.pure_halts _ _
    | exact Halts.fatal_error_halts _ _ _
    | exact Halts.undefined_halts _ _ _
    | exact Halts.value_of_halts _ _
    | exact Halts.precondition_halts _ _ _
    | exact Halts.of_framed_halts _ Decoder.framed_u8
    | exact Halts.of_framed_halts _ Decoder.framed_i8
    | exact Halts.of_framed_halts _ Decoder.framed_f32
    | exact Halts.of_framed_halts _ Decoder.framed_f64
    | exact Halts.of_framed_halts _ Decoder.framed_unsigned_leb128
    | exact Halts.of_framed_halts _ Decoder.framed_signed_leb128
    | exact Halts.string_bytes_halts _ _
    | exact Halts.at_index_halts _ _ _
    | exact Halts.push_back_halts _ _ Memo.lawful_strings _
    | exact halts_uint32 _
    | exact halts_local _
    | exact halts_scope_identifier _
    | exact halts_inline_string _
    | exact halts_string _
    | exact (Halts.boolean_halts _).mono_halts (Nat.zero_le _) (Nat.le_refl _)
    | exact Halts.optional0_halts (halts_string _)
    | exact halts_signature _
    | exact halts_transform_into_empty _ _
    | exact halts_new_struct_type _ _
    | exact halts_new_function_type _ _ _
    | apply Halts.bind_halts
    | apply Halts.ite_halts
    | intro _)

theorem halts_new_array_value (k : Nat) (t : Type_) (es : List Value) : Halts 0 k (new_array_value t es) := by
  unfold new_array_value
  repeat (with_reducible first
    | exact Halts.pure_halts _ _
    | exact Halts.fatal_error_halts _ _ _
    | exact Halts.undefined_halts _ _ _
    | exact Halts.value_of_halts _ _
    | exact Halts.precondition_halts _ _ _
    | exact Halts.of_framed_halts _ Decoder.framed_u8
    | exact Halts.of_framed_halts _ Decoder.framed_i8
    | exact Halts.of_framed_halts _ Decoder.framed_f32
    | exact Halts.of_framed_halts _ Decoder.framed_f64
    | exact Halts.of_framed_halts _ Decoder.framed_unsigned_leb128
    | exact Halts.of_framed_halts _ Decoder.framed_signed_leb128
    | exact Halts.string_bytes_halts _ _
    | exact Halts.at_index_halts _ _ _
    | exact Halts.push_back_halts _ _ Memo.lawful_strings _
    | exact halts_uint32 _
    | exact halts_local _
    | exact halts_scope_identifier _
    | exact halts_inline_string _
    | exact halts_string _
    | exact (Halts.boolean_halts _).mono_halts (Nat.zero_le _) (Nat.le_refl _)
    | exact Halts.optional0_halts (halts_string _)
    | exact halts_signature _
    | exact halts_transform_into_empty _ _
    | exact halts_new_struct_type _ _
    | exact halts_new_function_type _ _ _
    | exact halts_new_struct_value _ _
    | apply Halts.bind_halts
    | apply Halts.ite_halts
    | intro _)

theorem halts_narrowed_sequence {α β : Type} (k : Nat) (as : α → Option β) (s : List α) :
    Halts 0 k (narrowed_sequence as s) := by
  cases s with
  | nil => exact Halts.pure_halts _ _
  | cons e s =>
    simp only [narrowed_sequence]
    exact Halts.bind_halts (Halts.value_of_halts _ _)
      (fun _ => Halts.bind_halts (halts_transform_into_empty _ _) (fun _ => Halts.pure_halts _ _))

theorem halts_bytes_loop (k : Nat) : ∀ count : Nat, Halts 0 k (bytes_loop count) := by
  intro count
  induction count with
  | zero => exact Halts.pure_halts _ _
  | succ n ih =>
    rw [bytes_loop]
    exact Halts.bind_halts (Halts.of_framed_halts _ Decoder.framed_i8)
      (fun _ => Halts.bind_halts ih (fun _ => Halts.pure_halts _ _))

theorem halts_bytes (k : Nat) : Halts 0 k bytes := by
  unfold bytes
  exact Halts.bind_halts (Halts.of_framed_halts _ Decoder.framed_unsigned_leb128)
    (fun n => halts_bytes_loop k n)

theorem halts_memory_order (k : Nat) : Halts 0 k memory_order := by
  unfold memory_order
  repeat (with_reducible first
    | exact Halts.pure_halts _ _
    | exact Halts.fatal_error_halts _ _ _
    | exact Halts.undefined_halts _ _ _
    | exact Halts.value_of_halts _ _
    | exact Halts.precondition_halts _ _ _
    | exact Halts.of_framed_halts _ Decoder.framed_u8
    | exact Halts.of_framed_halts _ Decoder.framed_i8
    | exact Halts.of_framed_halts _ Decoder.framed_f32
    | exact Halts.of_framed_halts _ Decoder.framed_f64
    | exact Halts.of_framed_halts _ Decoder.framed_unsigned_leb128
    | exact Halts.of_framed_halts _ Decoder.framed_signed_leb128
    | exact Halts.string_bytes_halts _ _
    | exact Halts.at_index_halts _ _ _
    | exact Halts.push_back_halts _ _ Memo.lawful_strings _
    | exact halts_uint32 _
    | exact halts_local _
    | exact halts_scope_identifier _
    | exact halts_inline_string _
    | exact halts_string _
    | exact (Halts.boolean_halts _).mono_halts (Nat.zero_le _) (Nat.le_refl _)
    | exact Halts.optional0_halts (halts_string _)
    | exact halts_signature _
    | exact halts_transform_into_empty _ _
    | exact halts_new_struct_type _ _
    | exact halts_new_function_type _ _ _
    | exact halts_new_struct_value _ _
    | exact halts_new_array_value _ _ _
    | exact halts_narrowed_sequence _ _ _
    | exact halts_bytes _
    | apply Halts.bind_halts
    | apply Halts.ite_halts
    | intro _)

theorem halts_binary_operator (k : Nat) : Halts 0 k binary_operator := by
  unfold binary_operator
  repeat (with_reducible first
    | exact Halts.pure_halts _ _
    | exact Halts.fatal_error_halts _ _ _
    | exact Halts.undefined_halts _ _ _
    | exact Halts.value_of_halts _ _
    | exact Halts.precondition_halts _ _ _
    | exact Halts.of_framed_halts _ Decoder.framed_u8
    | exact Halts.of_framed_halts _ Decoder.framed_i8
    | exact Halts.of_framed_halts _ Decoder.framed_f32
    | exact Halts.of_framed_halts _ Decoder.framed_f64
    | exact Halts.of_framed_halts _ Decoder.framed_unsigned_leb128
    | exact Halts.of_framed_halts _ Decoder.framed_signed_leb128
    | exact Halts.string_bytes_halts _ _
    | exact Halts.at_index_halts _ _ _
    | exact Halts.push_back_halts _ _ Memo.lawful_strings _
    | exact halts_uint32 _
    | exact halts_local _
    | exact halts_scope_identifier _
    | exact halts_inline_string _
    | exact halts_string _
    | exact (Halts.boolean_halts _).mono_halts (Nat.zero_le _) (Nat.le_refl _)
    | exact Halts.optional0_halts (halts_string _)
    | exact halts_signature _
    | exact halts_transform_into_empty _ _
    | exact halts_new_struct_type _ _
    | exact halts_new_function_type _ _ _
    | exact halts_new_struct_value _ _
    | exact halts_new_array_value _ _ _
    | exact halts_narrowed_sequence _ _ _
    | exact halts_bytes _
    | exact halts_memory_order _
    | apply Halts.bind_halts
    | apply Halts.ite_halts
    | intro _)

theorem halts_comparison_operator (k : Nat) : Halts 0 k comparison_operator := by
  unfold comparison_operator
  repeat (with_reducible first
    | exact Halts.pure_halts _ _
    | exact Halts.fatal_error_halts _ _ _
    | exact Halts.undefined_halts _ _ _
    | exact Halts.value_of_halts _ _
    | exact Halts.precondition_halts _ _ _
    | exact Halts.of_framed_halts _ Decoder.framed_u8
    | exact Halts.of_framed_halts _ Decoder.framed_i8
    | exact Halts.of_framed_halts _ Decoder.framed_f32
    | exact Halts.of_framed_halts _ Decoder.framed_f64
    | exact Halts.of_framed_halts _ Decoder.framed_unsigned_leb128
    | exact Halts.of_framed_halts _ Decoder.framed_signed_leb128
    | exact Halts.string_bytes_halts _ _
    | exact Halts.at_index_halts _ _ _
    | exact Halts.push_back_halts _ _ Memo.lawful_strings _
    | exact halts_uint32 _
    | exact halts_local _
    | exact halts_scope_identifier _
    | exact halts_inline_string _
    | exact halts_string _
    | exact (Halts.boolean_halts _).mono_halts (Nat.zero_le _) (Nat.le_refl _)
    | exact Halts.optional0_halts (halts_string _)
    | exact halts_signature _
    | exact halts_transform_into_empty _ _
    | exact halts_new_struct_type _ _
    | exact halts_new_function_type _ _ _
    | exact halts_new_struct_value _ _
    | exact halts_new_array_value _ _ _
    | exact halts_narrowed_sequence _ _ _
    | exact halts_bytes _
    | exact halts_memory_order _
    | exact halts_binary_operator _
    | apply Halts.bind_halts
    | apply Halts.ite_halts
    | intro _)

theorem halts_conversion_operator (k : Nat) : Halts 0 k conversion_operator := by
  unfold conversion_operator
  repeat (with_reducible first
    | exact Halts.pure_halts _ _
    | exact Halts.fatal_error_halts _ _ _
    | exact Halts.undefined_halts _ _ _
    | exact Halts.value_of_halts _ _
    | exact Halts.precondition_halts _ _ _
    | exact Halts.of_framed_halts _ Decoder.framed_u8
    | exact Halts.of_framed_halts _ Decoder.framed_i8
    | exact Halts.of_framed_halts _ Decoder.framed_f32
    | exact Halts.of_framed_halts _ Decoder.framed_f64
    | exact Halts.of_framed_halts _ Decoder.framed_unsigned_leb128
    | exact Halts.of_framed_halts _ Decoder.framed_signed_leb128
    | exact Halts.string_bytes_halts _ _
    | exact Halts.at_index_halts _ _ _
    | exact Halts.push_back_halts _ _ Memo.lawful_strings _
    | exact halts_uint32 _
    | exact halts_local _
    | exact halts_scope_identifier _
    | exact halts_inline_string _
    | exact halts_string _
    | exact (Halts.boolean_halts _).mono_halts (Nat.zero_le _) (Nat.le_refl _)
    | exact Halts.optional0_halts (halts_string _)
    | exact halts_signature _
    | exact halts_transform_into_empty _ _
    | exact halts_new_struct_type _ _
    | exact halts_new_function_type _ _ _
    | exact halts_new_struct_value _ _
    | exact halts_new_array_value _ _ _
    | exact halts_narrowed_sequence _ _ _
    | exact halts_bytes _
    | exact halts_memory_order _
    | exact halts_binary_operator _
    | exact halts_comparison_operator _
    | apply Halts.bind_halts
    | apply Halts.ite_halts
    | intro _)

theorem halts_linktime_condition (k : Nat) : Halts 0 k linktime_condition := by
  unfold linktime_condition
  exact Halts.fatal_error_halts _ _ _

theorem halts_attribute (k : Nat) : Halts 0 k attribute_ := by
  unfold attribute_
  repeat (with_reducible first
    | exact Halts.pure_halts _ _
    | exact Halts.fatal_error_halts _ _ _
    | exact Halts.undefined_halts _ _ _
    | exact Halts.value_of_halts _ _
    | exact Halts.precondition_halts _ _ _
    | exact Halts.of_framed_halts _ Decoder.framed_u8
    | exact Halts.of_framed_halts _ Decoder.framed_i8
    | exact Halts.of_framed_halts _ Decoder.framed_f32
    | exact Halts.of_framed_halts _ Decoder.framed_f64
    | exact Halts.of_framed_halts _ Decoder.framed_unsigned_leb128
    | exact Halts.of_framed_halts _ Decoder.framed_signed_leb128
    | exact Halts.string_bytes_halts _ _
    | exact Halts.at_index_halts _ _ _
    | exact Halts.push_back_halts _ _ Memo.lawful_strings _
    | exact halts_uint32 _
    | exact halts_local _
    | exact halts_scope_identifier _
    | exact halts_inline_string _
    | exact halts_string _
    | exact (Halts.boolean_halts _).mono_halts (Nat.zero_le _) (Nat.le_refl _)
    | exact Halts.optional0_halts (halts_string _)
    | exact halts_signature _
    | exact halts_transform_into_empty _ _
    | exact halts_new_struct_type _ _
    | exact halts_new_function_type _ _ _
    | exact halts_new_struct_value _ _
    | exact halts_new_array_value _ _ _
    | exact halts_narrowed_sequence _ _ _
    | exact halts_bytes _
    | exact halts_memory_order _
    | exact halts_binary_operator _
    | exact halts_comparison_operator _
    | exact halts_conversion_operator _
    | exact halts_linktime_condition _
    | apply Halts.bind_halts
    | apply Halts.ite_halts
    | intro _)

theorem halts_source_position (k : Nat) : Halts 0 k source_position := by
  unfold source_position
  repeat (with_reducible first
    | exact Halts.pure_halts _ _
    | exact Halts.fatal_error_halts _ _ _
    | exact Halts.undefined_halts _ _ _
    | exact Halts.value_of_halts _ _
    | exact Halts.precondition_halts _ _ _
    | exact Halts.of_framed_halts _ Decoder.framed_u8
    | exact Halts.of_framed_halts _ Decoder.framed_i8
    | exact Halts.of_framed_halts _ Decoder.framed_f32
    | exact Halts.of_framed_halts _ Decoder.framed_f64
    | exact Halts.of_framed_halts _ Decoder.framed_unsigned_leb128
    | exact Halts.of_framed_halts _ Decoder.framed_signed_leb128
    | exact Halts.string_bytes_halts _ _
    | exact Halts.at_index_halts _ _ _
    | exact Halts.push_back_halts _ _ Memo.lawful_strings _
    | exact halts_uint32 _
    | exact halts_local _
    | exact halts_scope_identifier _
    | exact halts_inline_string _
    | exact halts_string _
    | exact (Halts.boolean_halts _).mono_halts (Nat.zero_le _) (Nat.le_refl _)
    | exact Halts.optional0_halts (halts_string _)
    | exact halts_signature _
    | exact halts_transform_into_empty _ _
    | exact halts_new_struct_type _ _
    | exact halts_new_function_type _ _ _
    | exact halts_new_struct_value _ _
    | exact halts_new_array_value _ _ _
    | exact halts_narrowed_sequence _ _ _
    | exact halts_bytes _
    | exact halts_memory_order _
    | exact halts_binary_operator _
    | exact halts_comparison_operator _
    | exact halts_conversion_operator _
    | exact halts_linktime_condition _
    | exact halts_attribute _
    | apply Halts.bind_halts
    | apply Halts.ite_halts
    | intro _)

theorem halts_lexical_scope (k : Nat) : Halts 0 k lexical_scope := by
  unfold lexical_scope
  repeat (with_reducible first
    | exact Halts.pure_halts _ _
    | exact Halts.fatal_error_halts _ _ _
    | exact Halts.undefined_halts _ _ _
    | exact Halts.value_of_halts _ _
    | exact Halts.precondition_halts _ _ _
    | exact Halts.of_framed_halts _ Decoder.framed_u8
    | exact Halts.of_framed_halts _ Decoder.framed_i8
    | exact Halts.of_framed_halts _ Decoder.framed_f32
    | exact Halts.of_framed_halts _ Decoder.framed_f64
    | exact Halts.of_framed_halts _ Decoder.framed_unsigned_leb128
    | exact Halts.of_framed_halts _ Decoder.framed_signed_leb128
    | exact Halts.string_bytes_halts _ _
    | exact Halts.at_index_halts _ _ _
    | exact Halts.push_back_halts _ _ Memo.lawful_strings _
    | exact halts_uint32 _
    | exact halts_local _
    | exact halts_scope_identifier _
    | exact halts_inline_string _
    | exact halts_string _
    | exact (Halts.boolean_halts _).mono_halts (Nat.zero_le _) (Nat.le_refl _)
    | exact Halts.optional0_halts (halts_string _)
    | exact halts_signature _
    | exact halts_transform_into_empty _ _
    | exact halts_new_struct_type _ _
    | exact halts_new_function_type _ _ _
    | exact halts_new_struct_value _ _
    | exact halts_new_array_value _ _ _
    | exact halts_narrowed_sequence _ _ _
    | exact halts_bytes _
    | exact halts_memory_order _
    | exact halts_binary_operator _
    | exact halts_comparison_operator _
    | exact halts_conversion_operator _
    | exact halts_linktime_condition _
    | exact halts_attribute _
    | exact halts_source_position _
    | apply Halts.bind_halts
    | apply Halts.ite_halts
    | intro _)

theorem halts_local_name_loop (k : Nat) : ∀ (count : Nat) (r : List (Local × Bytes)),
    Halts 0 k (local_name_loop count r) := by
  intro count
  induction count with
  | zero => intro r; exact Halts.pure_halts _ _
  | succ n ih =>
    intro r
    rw [local_name_loop]
    exact Halts.bind_halts (halts_local k) (fun _ => Halts.bind_halts (halts_string k) (fun _ => ih _))

theorem halts_local_name (k : Nat) : Halts 0 k local_name := by
  unfold local_name
  exact Halts.bind_halts (Halts.of_framed_halts _ Decoder.framed_unsigned_leb128)
    (fun n => halts_local_name_loop k n [])

theorem halts_debug (k : Nat) : Halts 0 k debug := by
  unfold debug
  exact Halts.bind_halts (halts_local_name k)
    (fun _ => Halts.bind_halts (Halts.sequence0_halts (halts_lexical_scope k)) (fun _ => Halts.pure_halts _ _))

/-- `symbol` consumes at least its tag, and no level of its recursion is entered
without a byte consumed: the bound is not reached from a state with fewer bytes left. -/
theorem halts_symbol : ∀ fuel : Nat, Halts 1 fuel (symbol fuel) := by
  intro fuel
  induction fuel with
  | zero =>
    rw [symbol]
    exact Halts.out_of_fuel_halts _
  | succ fuel ih =>
    have hrec : Halts 0 fuel (symbol fuel) := ih.mono_halts (Nat.zero_le _) (Nat.le_refl _)
    rw [symbol]
    refine Halts.internable_halts Memo.symbols Memo.lawful_symbols ?_ (Nat.le_refl _)
    refine Halts.bind_strict_halts (Halts.u8_halts _) (fun t => ?_)
    repeat (with_reducible first
      | exact Halts.pure_halts _ _
      | exact Halts.fatal_error_halts _ _ _
      | exact Halts.undefined_halts _ _ _
      | exact Halts.value_of_halts _ _
      | exact Halts.precondition_halts _ _ _
      | exact Halts.of_framed_halts _ Decoder.framed_u8
      | exact Halts.of_framed_halts _ Decoder.framed_i8
      | exact Halts.of_framed_halts _ Decoder.framed_f32
      | exact Halts.of_framed_halts _ Decoder.framed_f64
      | exact Halts.of_framed_halts _ Decoder.framed_unsigned_leb128
      | exact Halts.of_framed_halts _ Decoder.framed_signed_leb128
      | exact Halts.string_bytes_halts _ _
      | exact Halts.at_index_halts _ _ _
      | exact Halts.push_back_halts _ _ Memo.lawful_strings _
      | exact halts_uint32 _
      | exact halts_local _
      | exact halts_scope_identifier _
      | exact halts_inline_string _
      | exact halts_string _
      | exact (Halts.boolean_halts _).mono_halts (Nat.zero_le _) (Nat.le_refl _)
      | exact Halts.optional0_halts (halts_string _)
      | exact halts_signature _
      | exact halts_transform_into_empty _ _
      | exact halts_new_struct_type _ _
      | exact halts_new_function_type _ _ _
      | exact halts_new_struct_value _ _
      | exact halts_new_array_value _ _ _
      | exact halts_narrowed_sequence _ _ _
      | exact halts_bytes _
      | exact halts_memory_order _
      | exact halts_binary_operator _
      | exact halts_comparison_operator _
      | exact halts_conversion_operator _
      | exact halts_linktime_condition _
      | exact halts_attribute _
      | exact halts_source_position _
      | exact halts_lexical_scope _
      | exact halts_debug _
      | exact Halts.sequence0_halts (halts_attribute _)
      | exact Halts.sequence0_halts (halts_uint32 _)
      | exact hrec
      | exact Halts.sequence0_halts hrec
      | apply Halts.bind_halts
      | apply Halts.ite_halts
      | intro _)

/-- `type` consumes at least its tag, and no level of its recursion is entered
without a byte consumed: the bound is not reached from a state with fewer bytes left. -/
theorem halts_type : ∀ fuel : Nat, Halts 1 fuel (type_ fuel) := by
  intro fuel
  induction fuel with
  | zero =>
    rw [type_]
    exact Halts.out_of_fuel_halts _
  | succ fuel ih =>
    have hrec : Halts 0 fuel (type_ fuel) := ih.mono_halts (Nat.zero_le _) (Nat.le_refl _)
    have hsym : Halts 0 fuel (symbol fuel) :=
      (halts_symbol fuel).mono_halts (Nat.zero_le _) (Nat.le_refl _)
    rw [type_]
    refine Halts.internable_halts Memo.types Memo.lawful_types ?_ (Nat.le_refl _)
    refine Halts.bind_strict_halts (Halts.u8_halts _) (fun t => ?_)
    repeat (with_reducible first
      | exact Halts.pure_halts _ _
      | exact Halts.fatal_error_halts _ _ _
      | exact Halts.undefined_halts _ _ _
      | exact Halts.value_of_halts _ _
      | exact Halts.precondition_halts _ _ _
      | exact Halts.of_framed_halts _ Decoder.framed_u8
      | exact Halts.of_framed_halts _ Decoder.framed_i8
      | exact Halts.of_framed_halts _ Decoder.framed_f32
      | exact Halts.of_framed_halts _ Decoder.framed_f64
      | exact Halts.of_framed_halts _ Decoder.framed_unsigned_leb128
      | exact Halts.of_framed_halts _ Decoder.framed_signed_leb128
      | exact Halts.string_bytes_halts _ _
      | exact Halts.at_index_halts _ _ _
      | exact Halts.push_back_halts _ _ Memo.lawful_strings _
      | exact halts_uint32 _
      | exact halts_local _
      | exact halts_scope_identifier _
      | exact halts_inline_string _
      | exact halts_string _
      | exact (Halts.boolean_halts _).mono_halts (Nat.zero_le _) (Nat.le_refl _)
      | exact Halts.optional0_halts (halts_string _)
      | exact halts_signature _
      | exact halts_transform_into_empty _ _
      | exact halts_new_struct_type _ _
      | exact halts_new_function_type _ _ _
      | exact halts_new_struct_value _ _
      | exact halts_new_array_value _ _ _
      | exact halts_narrowed_sequence _ _ _
      | exact halts_bytes _
      | exact halts_memory_order _
      | exact halts_binary_operator _
      | exact halts_comparison_operator _
      | exact halts_conversion_operator _
      | exact halts_linktime_condition _
      | exact halts_attribute _
      | exact halts_source_position _
      | exact halts_lexical_scope _
      | exact halts_debug _
      | exact Halts.sequence0_halts (halts_attribute _)
      | exact Halts.sequence0_halts (halts_uint32 _)
      | exact hrec
      | exact Halts.sequence0_halts hrec
      | exact hsym
      | apply Halts.bind_halts
      | apply Halts.ite_halts
      | intro _)

/-- `value` consumes at least its tag, and no level of its recursion is entered
without a byte consumed: the bound is not reached from a state with fewer bytes left. -/
theorem halts_value : ∀ fuel : Nat, Halts 1 fuel (value fuel) := by
  intro fuel
  induction fuel with
  | zero =>
    rw [value]
    exact Halts.out_of_fuel_halts _
  | succ fuel ih =>
    have hrec : Halts 0 fuel (value fuel) := ih.mono_halts (Nat.zero_le _) (Nat.le_refl _)
    have hsym : Halts 0 fuel (symbol fuel) :=
      (halts_symbol fuel).mono_halts (Nat.zero_le _) (Nat.le_refl _)
    have htype : Halts 0 fuel (type_ fuel) :=
      (halts_type fuel).mono_halts (Nat.zero_le _) (Nat.le_refl _)
    rw [value]
    refine Halts.internable_halts Memo.values Memo.lawful_values ?_ (Nat.le_refl _)
    refine Halts.bind_strict_halts (Halts.u8_halts _) (fun t => ?_)
    repeat (with_reducible first
      | exact Halts.pure_halts _ _
      | exact Halts.fatal_error_halts _ _ _
      | exact Halts.undefined_halts _ _ _
      | exact Halts.value_of_halts _ _
      | exact Halts.precondition_halts _ _ _
      | exact Halts.of_framed_halts _ Decoder.framed_u8
      | exact Halts.of_framed_halts _ Decoder.framed_i8
      | exact Halts.of_framed_halts _ Decoder.framed_f32
      | exact Halts.of_framed_halts _ Decoder.framed_f64
      | exact Halts.of_framed_halts _ Decoder.framed_unsigned_leb128
      | exact Halts.of_framed_halts _ Decoder.framed_signed_leb128
      | exact Halts.string_bytes_halts _ _
      | exact Halts.at_index_halts _ _ _
      | exact Halts.push_back_halts _ _ Memo.lawful_strings _
      | exact halts_uint32 _
      | exact halts_local _
      | exact halts_scope_identifier _
      | exact halts_inline_string _
      | exact halts_string _
      | exact (Halts.boolean_halts _).mono_halts (Nat.zero_le _) (Nat.le_refl _)
      | exact Halts.optional0_halts (halts_string _)
      | exact halts_signature _
      | exact halts_transform_into_empty _ _
      | exact halts_new_struct_type _ _
      | exact halts_new_function_type _ _ _
      | exact halts_new_struct_value _ _
      | exact halts_new_array_value _ _ _
      | exact halts_narrowed_sequence _ _ _
      | exact halts_bytes _
      | exact halts_memory_order _
      | exact halts_binary_operator _
      | exact halts_comparison_operator _
      | exact halts_conversion_operator _
      | exact halts_linktime_condition _
      | exact halts_attribute _
      | exact halts_source_position _
      | exact halts_lexical_scope _
      | exact halts_debug _
      | exact Halts.sequence0_halts (halts_attribute _)
      | exact Halts.sequence0_halts (halts_uint32 _)
      | exact hrec
      | exact Halts.sequence0_halts hrec
      | exact hsym
      | exact htype
      | apply Halts.bind_halts
      | apply Halts.ite_halts
      | intro _)

theorem halts_function_type (fuel : Nat) : Halts 0 fuel (function_type fuel) := by
  have hsym : Halts 0 fuel (symbol fuel) :=
    (halts_symbol fuel).mono_halts (Nat.zero_le _) (Nat.le_refl _)
  have htype : Halts 0 fuel (type_ fuel) :=
    (halts_type fuel).mono_halts (Nat.zero_le _) (Nat.le_refl _)
  have hvalue : Halts 0 fuel (value fuel) :=
    (halts_value fuel).mono_halts (Nat.zero_le _) (Nat.le_refl _)
  unfold function_type
  repeat (with_reducible first
    | exact Halts.pure_halts _ _
    | exact Halts.fatal_error_halts _ _ _
    | exact Halts.undefined_halts _ _ _
    | exact Halts.value_of_halts _ _
    | exact Halts.precondition_halts _ _ _
    | exact Halts.of_framed_halts _ Decoder.framed_u8
    | exact Halts.of_framed_halts _ Decoder.framed_i8
    | exact Halts.of_framed_halts _ Decoder.framed_f32
    | exact Halts.of_framed_halts _ Decoder.framed_f64
    | exact Halts.of_framed_halts _ Decoder.framed_unsigned_leb128
    | exact Halts.of_framed_halts _ Decoder.framed_signed_leb128
    | exact Halts.string_bytes_halts _ _
    | exact Halts.at_index_halts _ _ _
    | exact Halts.push_back_halts _ _ Memo.lawful_strings _
    | exact halts_uint32 _
    | exact halts_local _
    | exact halts_scope_identifier _
    | exact halts_inline_string _
    | exact halts_string _
    | exact (Halts.boolean_halts _).mono_halts (Nat.zero_le _) (Nat.le_refl _)
    | exact Halts.optional0_halts (halts_string _)
    | exact halts_signature _
    | exact halts_transform_into_empty _ _
    | exact halts_new_struct_type _ _
    | exact halts_new_function_type _ _ _
    | exact halts_new_struct_value _ _
    | exact halts_new_array_value _ _ _
    | exact halts_narrowed_sequence _ _ _
    | exact halts_bytes _
    | exact halts_memory_order _
    | exact halts_binary_operator _
    | exact halts_comparison_operator _
    | exact halts_conversion_operator _
    | exact halts_linktime_condition _
    | exact halts_attribute _
    | exact halts_source_position _
    | exact halts_lexical_scope _
    | exact halts_debug _
    | exact Halts.sequence0_halts (halts_attribute _)
    | exact Halts.sequence0_halts (halts_uint32 _)
    | exact hsym
    | exact htype
    | exact hvalue
    | exact Halts.sequence0_halts hsym
    | exact Halts.sequence0_halts hvalue
    | exact Halts.optional0_halts hsym
    | exact Halts.optional0_halts hvalue
    | apply Halts.bind_halts
    | apply Halts.ite_halts
    | intro _)

theorem halts_top_symbol (fuel : Nat) : Halts 0 fuel (top_symbol fuel) := by
  have hsym : Halts 0 fuel (symbol fuel) :=
    (halts_symbol fuel).mono_halts (Nat.zero_le _) (Nat.le_refl _)
  have htype : Halts 0 fuel (type_ fuel) :=
    (halts_type fuel).mono_halts (Nat.zero_le _) (Nat.le_refl _)
  have hvalue : Halts 0 fuel (value fuel) :=
    (halts_value fuel).mono_halts (Nat.zero_le _) (Nat.le_refl _)
  unfold top_symbol
  repeat (with_reducible first
    | exact Halts.pure_halts _ _
    | exact Halts.fatal_error_halts _ _ _
    | exact Halts.undefined_halts _ _ _
    | exact Halts.value_of_halts _ _
    | exact Halts.precondition_halts _ _ _
    | exact Halts.of_framed_halts _ Decoder.framed_u8
    | exact Halts.of_framed_halts _ Decoder.framed_i8
    | exact Halts.of_framed_halts _ Decoder.framed_f32
    | exact Halts.of_framed_halts _ Decoder.framed_f64
    | exact Halts.of_framed_halts _ Decoder.framed_unsigned_leb128
    | exact Halts.of_framed_halts _ Decoder.framed_signed_leb128
    | exact Halts.string_bytes_halts _ _
    | exact Halts.at_index_halts _ _ _
    | exact Halts.push_back_halts _ _ Memo.lawful_strings _
    | exact halts_uint32 _
    | exact halts_local _
    | exact halts_scope_identifier _
    | exact halts_inline_string _
    | exact halts_string _
    | exact (Halts.boolean_halts _).mono_halts (Nat.zero_le _) (Nat.le_refl _)
    | exact Halts.optional0_halts (halts_string _)
    | exact halts_signature _
    | exact halts_transform_into_empty _ _
    | exact halts_new_struct_type _ _
    | exact halts_new_function_type _ _ _
    | exact halts_new_struct_value _ _
    | exact halts_new_array_value _ _ _
    | exact halts_narrowed_sequence _ _ _
    | exact halts_bytes _
    | exact halts_memory_order _
    | exact halts_binary_operator _
    | exact halts_comparison_operator _
    | exact halts_conversion_operator _
    | exact halts_linktime_condition _
    | exact halts_attribute _
    | exact halts_source_position _
    | exact halts_lexical_scope _
    | exact halts_debug _
    | exact Halts.sequence0_halts (halts_attribute _)
    | exact Halts.sequence0_halts (halts_uint32 _)
    | exact hsym
    | exact htype
    | exact hvalue
    | exact Halts.sequence0_halts hsym
    | exact Halts.sequence0_halts hvalue
    | exact Halts.optional0_halts hsym
    | exact Halts.optional0_halts hvalue
    | exact halts_function_type fuel
    | apply Halts.bind_halts
    | apply Halts.ite_halts
    | intro _)

theorem halts_member_symbol (fuel : Nat) : Halts 0 fuel (member_symbol fuel) := by
  have hsym : Halts 0 fuel (symbol fuel) :=
    (halts_symbol fuel).mono_halts (Nat.zero_le _) (Nat.le_refl _)
  have htype : Halts 0 fuel (type_ fuel) :=
    (halts_type fuel).mono_halts (Nat.zero_le _) (Nat.le_refl _)
  have hvalue : Halts 0 fuel (value fuel) :=
    (halts_value fuel).mono_halts (Nat.zero_le _) (Nat.le_refl _)
  unfold member_symbol
  repeat (with_reducible first
    | exact Halts.pure_halts _ _
    | exact Halts.fatal_error_halts _ _ _
    | exact Halts.undefined_halts _ _ _
    | exact Halts.value_of_halts _ _
    | exact Halts.precondition_halts _ _ _
    | exact Halts.of_framed_halts _ Decoder.framed_u8
    | exact Halts.of_framed_halts _ Decoder.framed_i8
    | exact Halts.of_framed_halts _ Decoder.framed_f32
    | exact Halts.of_framed_halts _ Decoder.framed_f64
    | exact Halts.of_framed_halts _ Decoder.framed_unsigned_leb128
    | exact Halts.of_framed_halts _ Decoder.framed_signed_leb128
    | exact Halts.string_bytes_halts _ _
    | exact Halts.at_index_halts _ _ _
    | exact Halts.push_back_halts _ _ Memo.lawful_strings _
    | exact halts_uint32 _
    | exact halts_local _
    | exact halts_scope_identifier _
    | exact halts_inline_string _
    | exact halts_string _
    | exact (Halts.boolean_halts _).mono_halts (Nat.zero_le _) (Nat.le_refl _)
    | exact Halts.optional0_halts (halts_string _)
    | exact halts_signature _
    | exact halts_transform_into_empty _ _
    | exact halts_new_struct_type _ _
    | exact halts_new_function_type _ _ _
    | exact halts_new_struct_value _ _
    | exact halts_new_array_value _ _ _
    | exact halts_narrowed_sequence _ _ _
    | exact halts_bytes _
    | exact halts_memory_order _
    | exact halts_binary_operator _
    | exact halts_comparison_operator _
    | exact halts_conversion_operator _
    | exact halts_linktime_condition _
    | exact halts_attribute _
    | exact halts_source_position _
    | exact halts_lexical_scope _
    | exact halts_debug _
    | exact Halts.sequence0_halts (halts_attribute _)
    | exact Halts.sequence0_halts (halts_uint32 _)
    | exact hsym
    | exact htype
    | exact hvalue
    | exact Halts.sequence0_halts hsym
    | exact Halts.sequence0_halts hvalue
    | exact Halts.optional0_halts hsym
    | exact Halts.optional0_halts hvalue
    | exact halts_function_type fuel
    | exact halts_top_symbol fuel
    | apply Halts.bind_halts
    | apply Halts.ite_halts
    | intro _)

theorem halts_label_argument (fuel : Nat) : Halts 0 fuel (label_argument fuel) := by
  have hsym : Halts 0 fuel (symbol fuel) :=
    (halts_symbol fuel).mono_halts (Nat.zero_le _) (Nat.le_refl _)
  have htype : Halts 0 fuel (type_ fuel) :=
    (halts_type fuel).mono_halts (Nat.zero_le _) (Nat.le_refl _)
  have hvalue : Halts 0 fuel (value fuel) :=
    (halts_value fuel).mono_halts (Nat.zero_le _) (Nat.le_refl _)
  unfold label_argument
  repeat (with_reducible first
    | exact Halts.pure_halts _ _
    | exact Halts.fatal_error_halts _ _ _
    | exact Halts.undefined_halts _ _ _
    | exact Halts.value_of_halts _ _
    | exact Halts.precondition_halts _ _ _
    | exact Halts.of_framed_halts _ Decoder.framed_u8
    | exact Halts.of_framed_halts _ Decoder.framed_i8
    | exact Halts.of_framed_halts _ Decoder.framed_f32
    | exact Halts.of_framed_halts _ Decoder.framed_f64
    | exact Halts.of_framed_halts _ Decoder.framed_unsigned_leb128
    | exact Halts.of_framed_halts _ Decoder.framed_signed_leb128
    | exact Halts.string_bytes_halts _ _
    | exact Halts.at_index_halts _ _ _
    | exact Halts.push_back_halts _ _ Memo.lawful_strings _
    | exact halts_uint32 _
    | exact halts_local _
    | exact halts_scope_identifier _
    | exact halts_inline_string _
    | exact halts_string _
    | exact (Halts.boolean_halts _).mono_halts (Nat.zero_le _) (Nat.le_refl _)
    | exact Halts.optional0_halts (halts_string _)
    | exact halts_signature _
    | exact halts_transform_into_empty _ _
    | exact halts_new_struct_type _ _
    | exact halts_new_function_type _ _ _
    | exact halts_new_struct_value _ _
    | exact halts_new_array_value _ _ _
    | exact halts_narrowed_sequence _ _ _
    | exact halts_bytes _
    | exact halts_memory_order _
    | exact halts_binary_operator _
    | exact halts_comparison_operator _
    | exact halts_conversion_operator _
    | exact halts_linktime_condition _
    | exact halts_attribute _
    | exact halts_source_position _
    | exact halts_lexical_scope _
    | exact halts_debug _
    | exact Halts.sequence0_halts (halts_attribute _)
    | exact Halts.sequence0_halts (halts_uint32 _)
    | exact hsym
    | exact htype
    | exact hvalue
    | exact Halts.sequence0_halts hsym
    | exact Halts.sequence0_halts hvalue
    | exact Halts.optional0_halts hsym
    | exact Halts.optional0_halts hvalue
    | exact halts_function_type fuel
    | exact halts_top_symbol fuel
    | exact halts_member_symbol fuel
    | apply Halts.bind_halts
    | apply Halts.ite_halts
    | intro _)

/-- `next` consumes at least its tag, and no level of its recursion is entered
without a byte consumed: the bound is not reached from a state with fewer bytes left. -/
theorem halts_next : ∀ fuel : Nat, Halts 1 fuel (next fuel) := by
  intro fuel
  induction fuel with
  | zero =>
    rw [next]
    exact Halts.out_of_fuel_halts _
  | succ fuel ih =>
    have hrec : Halts 0 fuel (next fuel) := ih.mono_halts (Nat.zero_le _) (Nat.le_refl _)
    have hsym : Halts 0 fuel (symbol fuel) :=
      (halts_symbol fuel).mono_halts (Nat.zero_le _) (Nat.le_refl _)
    have htype : Halts 0 fuel (type_ fuel) :=
      (halts_type fuel).mono_halts (Nat.zero_le _) (Nat.le_refl _)
    have hvalue : Halts 0 fuel (value fuel) :=
      (halts_value fuel).mono_halts (Nat.zero_le _) (Nat.le_refl _)
    rw [next]
    refine Halts.bind_strict_halts (Halts.u8_halts _) (fun t => ?_)
    repeat (with_reducible first
      | exact Halts.pure_halts _ _
      | exact Halts.fatal_error_halts _ _ _
      | exact Halts.undefined_halts _ _ _
      | exact Halts.value_of_halts _ _
      | exact Halts.precondition_halts _ _ _
      | exact Halts.of_framed_halts _ Decoder.framed_u8
      | exact Halts.of_framed_halts _ Decoder.framed_i8
      | exact Halts.of_framed_halts _ Decoder.framed_f32
      | exact Halts.of_framed_halts _ Decoder.framed_f64
      | exact Halts.of_framed_halts _ Decoder.framed_unsigned_leb128
      | exact Halts.of_framed_halts _ Decoder.framed_signed_leb128
      | exact Halts.string_bytes_halts _ _
      | exact Halts.at_index_halts _ _ _
      | exact Halts.push_back_halts _ _ Memo.lawful_strings _
      | exact halts_uint32 _
      | exact halts_local _
      | exact halts_scope_identifier _
      | exact halts_inline_string _
      | exact halts_string _
      | exact (Halts.boolean_halts _).mono_halts (Nat.zero_le _) (Nat.le_refl _)
      | exact Halts.optional0_halts (halts_string _)
      | exact halts_signature _
      | exact halts_transform_into_empty _ _
      | exact halts_new_struct_type _ _
      | exact halts_new_function_type _ _ _
      | exact halts_new_struct_value _ _
      | exact halts_new_array_value _ _ _
      | exact halts_narrowed_sequence _ _ _
      | exact halts_bytes _
      | exact halts_memory_order _
      | exact halts_binary_operator _
      | exact halts_comparison_operator _
      | exact halts_conversion_operator _
      | exact halts_linktime_condition _
      | exact halts_attribute _
      | exact halts_source_position _
      | exact halts_lexical_scope _
      | exact halts_debug _
      | exact Halts.sequence0_halts (halts_attribute _)
      | exact Halts.sequence0_halts (halts_uint32 _)
      | exact hrec
      | exact Halts.sequence0_halts hrec
      | exact hsym
      | exact htype
      | exact hvalue
      | exact Halts.sequence0_halts hsym
      | exact Halts.sequence0_halts hvalue
      | exact Halts.optional0_halts hsym
      | exact Halts.optional0_halts hvalue
      | exact halts_function_type fuel
      | exact halts_top_symbol fuel
      | exact halts_member_symbol fuel
      | exact halts_label_argument fuel
      | exact Halts.sequence0_halts (halts_label_argument fuel)
      | apply Halts.bind_halts
      | apply Halts.ite_halts
      | intro _)

/-- `operation` consumes its tag, after which its operands are read with the bound `fuel`. -/
theorem halts_operation (fuel : Nat) : Halts 1 (fuel + 1) (operation fuel) := by
  have hsym : Halts 0 fuel (symbol fuel) :=
    (halts_symbol fuel).mono_halts (Nat.zero_le _) (Nat.le_refl _)
  have htype : Halts 0 fuel (type_ fuel) :=
    (halts_type fuel).mono_halts (Nat.zero_le _) (Nat.le_refl _)
  have hvalue : Halts 0 fuel (value fuel) :=
    (halts_value fuel).mono_halts (Nat.zero_le _) (Nat.le_refl _)
  unfold operation
  refine Halts.bind_strict_halts (Halts.u8_halts _) (fun t => ?_)
  repeat (with_reducible first
    | exact Halts.pure_halts _ _
    | exact Halts.fatal_error_halts _ _ _
    | exact Halts.undefined_halts _ _ _
    | exact Halts.value_of_halts _ _
    | exact Halts.precondition_halts _ _ _
    | exact Halts.of_framed_halts _ Decoder.framed_u8
    | exact Halts.of_framed_halts _ Decoder.framed_i8
    | exact Halts.of_framed_halts _ Decoder.framed_f32
    | exact Halts.of_framed_halts _ Decoder.framed_f64
    | exact Halts.of_framed_halts _ Decoder.framed_unsigned_leb128
    | exact Halts.of_framed_halts _ Decoder.framed_signed_leb128
    | exact Halts.string_bytes_halts _ _
    | exact Halts.at_index_halts _ _ _
    | exact Halts.push_back_halts _ _ Memo.lawful_strings _
    | exact halts_uint32 _
    | exact halts_local _
    | exact halts_scope_identifier _
    | exact halts_inline_string _
    | exact halts_string _
    | exact (Halts.boolean_halts _).mono_halts (Nat.zero_le _) (Nat.le_refl _)
    | exact Halts.optional0_halts (halts_string _)
    | exact halts_signature _
    | exact halts_transform_into_empty _ _
    | exact halts_new_struct_type _ _
    | exact halts_new_function_type _ _ _
    | exact halts_new_struct_value _ _
    | exact halts_new_array_value _ _ _
    | exact halts_narrowed_sequence _ _ _
    | exact halts_bytes _
    | exact halts_memory_order _
    | exact halts_binary_operator _
    | exact halts_comparison_operator _
    | exact halts_conversion_operator _
    | exact halts_linktime_condition _
    | exact halts_attribute _
    | exact halts_source_position _
    | exact halts_lexical_scope _
    | exact halts_debug _
    | exact Halts.sequence0_halts (halts_attribute _)
    | exact Halts.sequence0_halts (halts_uint32 _)
    | exact hsym
    | exact htype
    | exact hvalue
    | exact Halts.sequence0_halts hsym
    | exact Halts.sequence0_halts hvalue
    | exact Halts.optional0_halts hsym
    | exact Halts.optional0_halts hvalue
    | exact halts_function_type fuel
    | exact halts_top_symbol fuel
    | exact halts_member_symbol fuel
    | exact halts_label_argument fuel
    | exact Halts.sequence0_halts (halts_label_argument fuel)
    | apply Halts.bind_halts
    | apply Halts.ite_halts
    | intro _)

/-- `instruction` consumes its tag, after which its parts are read with the bound `fuel`. -/
theorem halts_instruction (fuel : Nat) : Halts 1 (fuel + 1) (instruction fuel) := by
  have hsym : Halts 0 fuel (symbol fuel) :=
    (halts_symbol fuel).mono_halts (Nat.zero_le _) (Nat.le_refl _)
  have htype : Halts 0 fuel (type_ fuel) :=
    (halts_type fuel).mono_halts (Nat.zero_le _) (Nat.le_refl _)
  have hvalue : Halts 0 fuel (value fuel) :=
    (halts_value fuel).mono_halts (Nat.zero_le _) (Nat.le_refl _)
  have hnext : Halts 0 fuel (next fuel) :=
    (halts_next fuel).mono_halts (Nat.zero_le _) (Nat.le_refl _)
  have hop : Halts 0 fuel (operation fuel) :=
    (halts_operation fuel).mono_halts (Nat.zero_le _) (Nat.le_succ _)
  unfold instruction
  refine Halts.bind_strict_halts (Halts.u8_halts _) (fun t => ?_)
  repeat (with_reducible first
    | exact Halts.pure_halts _ _
    | exact Halts.fatal_error_halts _ _ _
    | exact Halts.undefined_halts _ _ _
    | exact Halts.value_of_halts _ _
    | exact Halts.precondition_halts _ _ _
    | exact Halts.of_framed_halts _ Decoder.framed_u8
    | exact Halts.of_framed_halts _ Decoder.framed_i8
    | exact Halts.of_framed_halts _ Decoder.framed_f32
    | exact Halts.of_framed_halts _ Decoder.framed_f64
    | exact Halts.of_framed_halts _ Decoder.framed_unsigned_leb128
    | exact Halts.of_framed_halts _ Decoder.framed_signed_leb128
    | exact Halts.string_bytes_halts _ _
    | exact Halts.at_index_halts _ _ _
    | exact Halts.push_back_halts _ _ Memo.lawful_strings _
    | exact halts_uint32 _
    | exact halts_local _
    | exact halts_scope_identifier _
    | exact halts_inline_string _
    | exact halts_string _
    | exact (Halts.boolean_halts _).mono_halts (Nat.zero_le _) (Nat.le_refl _)
    | exact Halts.optional0_halts (halts_string _)
    | exact halts_signature _
    | exact halts_transform_into_empty _ _
    | exact halts_new_struct_type _ _
    | exact halts_new_function_type _ _ _
    | exact halts_new_struct_value _ _
    | exact halts_new_array_value _ _ _
    | exact halts_narrowed_sequence _ _ _
    | exact halts_bytes _
    | exact halts_memory_order _
    | exact halts_binary_operator _
    | exact halts_comparison_operator _
    | exact halts_conversion_operator _
    | exact halts_linktime_condition _
    | exact halts_attribute _
    | exact halts_source_position _
    | exact halts_lexical_scope _
    | exact halts_debug _
    | exact Halts.sequence0_halts (halts_attribute _)
    | exact Halts.sequence0_halts (halts_uint32 _)
    | exact hsym
    | exact htype
    | exact hvalue
    | exact Halts.sequence0_halts hsym
    | exact Halts.sequence0_halts hvalue
    | exact Halts.optional0_halts hsym
    | exact Halts.optional0_halts hvalue
    | exact halts_function_type fuel
    | exact halts_top_symbol fuel
    | exact halts_member_symbol fuel
    | exact halts_label_argument fuel
    | exact Halts.sequence0_halts (halts_label_argument fuel)
    | exact hnext
    | exact hop
    | exact Halts.sequence0_halts hnext
    | apply Halts.bind_halts
    | apply Halts.ite_halts
    | intro _)

/-- `definition` consumes its tag, after which its parts are read with the bound `fuel`. -/
theorem halts_definition (fuel : Nat) : Halts 1 (fuel + 1) (definition fuel) := by
  have hsym : Halts 0 fuel (symbol fuel) :=
    (halts_symbol fuel).mono_halts (Nat.zero_le _) (Nat.le_refl _)
  have htype : Halts 0 fuel (type_ fuel) :=
    (halts_type fuel).mono_halts (Nat.zero_le _) (Nat.le_refl _)
  have hvalue : Halts 0 fuel (value fuel) :=
    (halts_value fuel).mono_halts (Nat.zero_le _) (Nat.le_refl _)
  have hins : Halts 0 fuel (instruction fuel) :=
    (halts_instruction fuel).mono_halts (Nat.zero_le _) (Nat.le_succ _)
  unfold definition
  refine Halts.bind_strict_halts (Halts.u8_halts _) (fun t => ?_)
  repeat (with_reducible first
    | exact Halts.pure_halts _ _
    | exact Halts.fatal_error_halts _ _ _
    | exact Halts.undefined_halts _ _ _
    | exact Halts.value_of_halts _ _
    | exact Halts.precondition_halts _ _ _
    | exact Halts.of_framed_halts _ Decoder.framed_u8
    | exact Halts.of_framed_halts _ Decoder.framed_i8
    | exact Halts.of_framed_halts _ Decoder.framed_f32
    | exact Halts.of_framed_halts _ Decoder.framed_f64
    | exact Halts.of_framed_halts _ Decoder.framed_unsigned_leb128
    | exact Halts.of_framed_halts _ Decoder.framed_signed_leb128
    | exact Halts.string_bytes_halts _ _
    | exact Halts.at_index_halts _ _ _
    | exact Halts.push_back_halts _ _ Memo.lawful_strings _
    | exact halts_uint32 _
    | exact halts_local _
    | exact halts_scope_identifier _
    | exact halts_inline_string _
    | exact halts_string _
    | exact (Halts.boolean_halts _).mono_halts (Nat.zero_le _) (Nat.le_refl _)
    | exact Halts.optional0_halts (halts_string _)
    | exact halts_signature _
    | exact halts_transform_into_empty _ _
    | exact halts_new_struct_type _ _
    | exact halts_new_function_type _ _ _
    | exact halts_new_struct_value _ _
    | exact halts_new_array_value _ _ _
    | exact halts_narrowed_sequence _ _ _
    | exact halts_bytes _
    | exact halts_memory_order _
    | exact halts_binary_operator _
    | exact halts_comparison_operator _
    | exact halts_conversion_operator _
    | exact halts_linktime_condition _
    | exact halts_attribute _
    | exact halts_source_position _
    | exact halts_lexical_scope _
    | exact halts_debug _
    | exact Halts.sequence0_halts (halts_attribute _)
    | exact Halts.sequence0_halts (halts_uint32 _)
    | exact hsym
    | exact htype
    | exact hvalue
    | exact Halts.sequence0_halts hsym
    | exact Halts.sequence0_halts hvalue
    | exact Halts.optional0_halts hsym
    | exact Halts.optional0_halts hvalue
    | exact halts_function_type fuel
    | exact halts_top_symbol fuel
    | exact halts_member_symbol fuel
    | exact halts_label_argument fuel
    | exact Halts.sequence0_halts (halts_label_argument fuel)
    | exact Halts.sequence0_halts hins
    | apply Halts.bind_halts
    | apply Halts.ite_halts
    | intro _)

end Deserializer

/-! ### The loop over the definitions of a file halts -/

/-- The errors of `Header.decode` are exceptions. -/
theorem Header.decode_not_out_of_fuel (source : Decoder) :
    Header.decode source ≠ Except.error Failure.out_of_fuel := by
  intro h
  unfold Header.decode at h
  split at h
  split at h
  · cases h
  · split at h
    · cases h
    · split at h
      · cases h
      · cases h

/-- The loop does not use up a bound larger than the number of bytes left, when the
definitions are read with a bound of recursion that is not smaller than that number. -/
theorem File.read_definitions_halts (depth : Nat) : ∀ (fuel : Nat) (ds : Deserializer)
    (acc : List Definition), ds.rest.length < fuel → ds.rest.length ≤ depth →
    File.read_definitions depth fuel ds acc ≠ Except.error Failure.out_of_fuel := by
  intro fuel
  induction fuel with
  | zero => intro ds acc h; omega
  | succ fuel ih =>
    intro ds acc h hd
    rw [File.read_definitions]
    cases hempty : ds.source.is_empty with
    | true =>
      simp only [Bool.not_true, Bool.false_eq_true, if_false]
      intro hc
      cases hc
    | false =>
      simp only [Bool.not_false, if_true]
      obtain ⟨hfuel, hadv⟩ := Deserializer.halts_definition depth ds
      cases hdef : Deserializer.definition depth ds with
      | error e =>
        simp only []
        intro hc
        injection hc with hc
        rw [hc] at hdef
        exact hfuel (by omega) hdef
      | ok p =>
        obtain ⟨d, ds1⟩ := p
        simp only []
        have := hadv d ds1 hdef
        exact ih ds1 (acc ++ [d]) (by omega) (by omega)

/-- Decoding a file does not use up the bound of its loop, nor the bound of the recursion
of its definitions. -/
theorem File.from_contents_halts (contents : List UInt8) :
    File.from_contents contents ≠ Except.error Failure.out_of_fuel := by
  rw [File.from_contents_eq]
  cases hdr : Header.decode ⟨contents, 0, Endian.big⟩ with
  | error e =>
    simp only []
    intro hc
    injection hc with hc
    rw [hc] at hdr
    exact Header.decode_not_out_of_fuel _ hdr
  | ok p =>
    obtain ⟨header, d3⟩ := p
    obtain ⟨b4, b5, b6, b7, b8, b9, b10, b11, tail, _, _, hd3⟩ :=
      Header.decode_ok_inv contents header d3 hdr
    subst hd3
    simp only []
    have hlen : (⟨⟨contents, 12, Endian.little⟩, [], [], [], []⟩ : Deserializer).rest.length
        ≤ contents.length := by
      simp [Deserializer.rest, Decoder.rest]
    have := File.read_definitions_halts (contents.length + 1) (contents.length + 1)
      ⟨⟨contents, 12, Endian.little⟩, [], [], [], []⟩ [] (by omega) (by omega)
    cases hloop : File.read_definitions (contents.length + 1) (contents.length + 1)
        ⟨⟨contents, 12, Endian.little⟩, [], [], [], []⟩ [] with
    | error e =>
      simp only []
      intro hc
      injection hc with hc
      rw [hc] at hloop
      exact this hloop
    | ok q =>
      simp only []
      intro hc
      cases hc

/-- A file holds fewer definitions than bytes: twelve bytes of header, then at least one
byte for each definition. -/
theorem File.definitions_length_le (contents : List UInt8) (file : File) (ds : Deserializer)
    (h : File.from_contents contents = Except.ok (file, ds)) :
    file.definitions.length + 12 ≤ contents.length := by
  obtain ⟨_, hseq, _, hpos⟩ := File.from_contents_sound contents file ds h
  have := Deserializer.definitions_consume _ _ _ _ _ hseq
  simp only [] at this
  omega

namespace Deserializer

/-- C38: decoding terminates. The recursion of the C++ decoders is bounded in the model by
`fuel`, and a run that would go deeper ends with `Failure.out_of_fuel`. From a state with
fewer than `fuel` bytes left (one more for `definition`, `instruction` and `operation`,
which pass their bound on after their tag), no run of `definition`, `instruction`,
`operation`, `next`, `type_`, `value`, `symbol` or `string` ends at the bound, and a run
that returns has consumed one byte at least; so have `sequence` and `optional` of a decoder
that does not end at the bound and does not move the cursor back. Hence a bound larger than
the number of remaining bytes is never reached, which is the well-foundedness of the
recursion on that number. The loop of `File.from_contents`, bounded by the size of the
source plus one, does not end at its bound either, and a file that is decoded holds at most
as many definitions as the source has bytes after the twelve of the header. (A run that
ends with `Failure.undefined` counts as one that fails.) -/
theorem decoding_terminates (fuel : Nat) (contents : List UInt8) :
    Halts 1 (fuel + 1) (definition fuel) ∧ Halts 1 (fuel + 1) (instruction fuel) ∧
    Halts 1 (fuel + 1) (operation fuel) ∧ Halts 1 fuel (next fuel) ∧
    Halts 1 fuel (type_ fuel) ∧ Halts 1 fuel (value fuel) ∧ Halts 1 fuel (symbol fuel) ∧
    Halts 1 fuel string ∧
    (∀ (α : Type) (decode : M α), Halts 0 fuel decode →
      Halts 1 (fuel + 1) (sequence decode) ∧ Halts 1 (fuel + 1) (optional decode)) ∧
    (∀ (ds : Deserializer) (acc : List Definition), ds.rest.length ≤ fuel →
      File.read_definitions fuel (ds.rest.length + 1) ds acc ≠
        Except.error Failure.out_of_fuel) ∧
    File.from_contents contents ≠ Except.error Failure.out_of_fuel ∧
    (∀ file ds, File.from_contents contents = Except.ok (file, ds) →
      file.definitions.length + 12 ≤ contents.length) :=
  ⟨halts_definition fuel, halts_instruction fuel, halts_operation fuel, halts_next fuel,
    halts_type fuel, halts_value fuel, halts_symbol fuel, halts_string_strict fuel,
    fun _ _ h => ⟨Halts.sequence_halts h, Halts.optional_halts h⟩,
    fun ds acc h => File.read_definitions_halts fuel _ ds acc (Nat.lt_succ_self _) h,
    File.from_contents_halts contents,
    fun file ds h => File.definitions_length_le contents file ds h⟩

end Deserializer

/-! ## Encodings without back-references

A run of a decoder that succeeds can be replayed on an encoding of its result that takes
nothing from the memos: the bytes read from the source are kept, every back-reference is
replaced by such an encoding of the element it denotes, and every record of the string
table by the inline record of its string. -/

namespace Deserializer

theorem byte_order_extend (ds : Deserializer) (n : Nat) (E : Entries) :
    (ds.extend n E).source.byte_order = ds.source.byte_order := rfl

theorem Inlined.mono_inlined {α : Type} {bo : Endian} {s : Nat} {m : Nat → M α} {r : α}
    (h : Inlined bo (s + 1) m r) : Inlined bo s m r := by
  obtain ⟨C, hC⟩ := h
  exact ⟨C, fun n hn => hC n (by omega)⟩

/-- A state reached by a run that appended nothing but strings that are short enough and
elements that can be encoded. -/
theorem Inlinable.extend_inlinable {ds : Deserializer} (h : ds.Inlinable) (n : Nat)
    (E : Entries)
    (hs : ∀ s ∈ E.strings, s.length ≤ ds.source.position + n)
    (hsym : ∀ v ∈ E.symbols, Inlined ds.source.byte_order 0 symbol v)
    (hty : ∀ v ∈ E.types, Inlined ds.source.byte_order 0 type_ v)
    (hval : ∀ v ∈ E.values, Inlined ds.source.byte_order 0 value v) :
    (ds.extend n E).Inlinable := by
  obtain ⟨h1, h2, h3, h4⟩ := h
  refine ⟨fun s hmem => ?_, fun v hmem => ?_, fun v hmem => ?_, fun v hmem => ?_⟩
  · rcases List.mem_append.1 hmem with hm | hm
    · have := h1 s hm
      show s.length ≤ ds.source.position + n
      omega
    · exact hs s hm
  · rcases List.mem_append.1 hmem with hm | hm
    · exact h2 v hm
    · exact hsym v hm
  · rcases List.mem_append.1 hmem with hm | hm
    · exact h3 v hm
    · exact hty v hm
  · rcases List.mem_append.1 hmem with hm | hm
    · exact h4 v hm
    · exact hval v hm

theorem Inlinable.advance_inlinable {ds : Deserializer} (h : ds.Inlinable) (n : Nat) :
    (ds.extend n Entries.empty).Inlinable :=
  h.extend_inlinable n Entries.empty (fun _ hm => by cases hm) (fun _ hm => by cases hm)
    (fun _ hm => by cases hm) (fun _ hm => by cases hm)

theorem Inlines.mono_inlines {α : Type} {s : Nat} {m1 : M α} {m2 : Nat → M α}
    (h : Inlines (s + 1) m1 m2) : Inlines s m1 m2 := by
  intro ds r ds1 hrun
  obtain ⟨hext, hcond⟩ := h ds r ds1 hrun
  exact ⟨hext, fun hinv hpos => ⟨(hcond hinv hpos).1, (hcond hinv hpos).2.mono_inlined⟩⟩

theorem Inlines.pure_inlines {α : Type} (a : α) :
    Inlines 0 (pure a : M α) (fun _ => pure a) := by
  intro ds r ds1 hrun
  simp only [M.pure_apply, Except.ok.injEq, Prod.mk.injEq] at hrun
  obtain ⟨rfl, rfl⟩ := hrun
  refine ⟨⟨0, Entries.empty, (extend_zero_empty ds).symm⟩, fun hinv _ => ⟨hinv, [], ?_⟩⟩
  intro n _ ds2 post _ _
  refine ⟨Entries.empty, ?_⟩
  show (pure a : M α) ds2 = Except.ok (a, ds2.extend 0 Entries.empty)
  rw [extend_zero_empty]
  rfl

theorem Inlines.fail_inlines {α : Type} (s : Nat) (e : Failure) (m2 : Nat → M α) :
    Inlines s (M.fail e) m2 := by
  intro ds r ds1 hrun
  cases hrun

theorem Inlines.fatal_error_inlines {α : Type} (s : Nat) (msg : String) (m2 : Nat → M α) :
    Inlines s (nir.fatal_error msg) m2 := Inlines.fail_inlines s _ m2

theorem Inlines.value_of_inlines {α : Type} (o : Option α) :
    Inlines 0 (nir.value_of o) (fun _ => nir.value_of o) := by
  unfold nir.value_of
  cases o with
  | none => exact Inlines.fail_inlines 0 _ _
  | some a => exact Inlines.pure_inlines a

theorem Inlines.precondition_inlines (c : Bool) (msg : String) :
    Inlines 0 (nir.precondition c msg) (fun _ => nir.precondition c msg) := by
  unfold nir.precondition
  cases c
  · exact Inlines.fail_inlines 0 _ _
  · exact Inlines.pure_inlines ()

theorem Inlines.ite_inlines {α : Type} {s : Nat} {c : Prop} [Decidable c] {a1 b1 : M α}
    {a2 b2 : Nat → M α} (ha : Inlines s a1 a2) (hb : Inlines s b1 b2) :
    Inlines s (if c then a1 else b1) (fun n => if c then a2 n else b2 n) := by
  by_cases hc : c
  · simp only [if_pos hc]
    exact ha
  · simp only [if_neg hc]
    exact hb

/-- Sequencing: the encodings are put one after the other. -/
theorem Inlines.bind_inlines {α β : Type} {m1 : M α} {m2 : Nat → M α} {f1 : α → M β}
    {f2 : α → Nat → M β} (hm : Inlines 0 m1 m2) (hf : ∀ a, Inlines 0 (f1 a) (f2 a)) :
    Inlines 0 (m1 >>= f1) (fun n => m2 n >>= fun a => f2 a n) := by
  intro ds r ds1 hrun
  rw [M.bind_apply] at hrun
  cases hma : m1 ds with
  | error e => rw [hma] at hrun; cases hrun
  | ok p =>
    obtain ⟨a, dsa⟩ := p
    rw [hma] at hrun
    simp only at hrun
    obtain ⟨⟨n1, E1, hdsa⟩, hc1⟩ := hm ds a dsa hma
    obtain ⟨⟨n2, E2, hds1⟩, hc2⟩ := hf a dsa r ds1 hrun
    refine ⟨⟨n1 + n2, E1.append E2, by rw [hds1, hdsa, extend_extend]⟩, fun hinv hpos => ?_⟩
    have hposa : dsa.source.position < 2 ^ 63 := by
      rw [hds1, position_extend] at hpos
      omega
    obtain ⟨hinva, Ca, hCa⟩ := hc1 hinv hposa
    obtain ⟨hinv1, Cb, hCb⟩ := hc2 hinva hpos
    have hboa : dsa.source.byte_order = ds.source.byte_order := by rw [hdsa]; rfl
    rw [hboa] at hCb
    refine ⟨hinv1, Ca ++ Cb, fun n hn ds2 post hbo hrest => ?_⟩
    rw [List.length_append] at hn
    obtain ⟨Ea, hrun2a⟩ := hCa n (by omega) ds2 (Cb ++ post) hbo
      (by rw [hrest, List.append_assoc])
    have hrestb : (ds2.extend Ca.length Ea).rest = Cb ++ post := by
      rw [rest_extend, hrest, List.append_assoc]; simp
    obtain ⟨Eb, hrun2b⟩ := hCb n (by omega) (ds2.extend Ca.length Ea) post hbo hrestb
    refine ⟨Ea.append Eb, ?_⟩
    show (m2 n >>= fun a => f2 a n) ds2 = _
    rw [M.bind_ok _ _ _ _ _ hrun2a, hrun2b, extend_extend, List.length_append]

/-- A decoder that reads its tag first: the rest of it is read with one level of
recursion less. -/
theorem Inlines.after_tag_inlines {α : Type} {f1 : Nat → M α} {f2 : Nat → Nat → M α}
    (hf : ∀ t, Inlines 0 (f1 t) (f2 t)) :
    Inlines 1 (get Decoder.u8 >>= f1) (fun n => get Decoder.u8 >>= fun t => f2 t n) := by
  intro ds r ds1 hrun
  cases hrest : ds.rest with
  | nil =>
    obtain ⟨e, he⟩ := get_u8_of_end ds hrest
    rw [M.bind_error _ _ _ _ he] at hrun
    cases hrun
  | cons b tail =>
    have hget := get_u8_of_rest ds b tail hrest
    rw [M.bind_ok _ _ _ _ _ hget] at hrun
    obtain ⟨⟨n2, E2, hds1⟩, hc2⟩ := hf b.toNat (ds.advanced 1) r ds1 hrun
    have hadv : ds.advanced 1 = ds.extend 1 Entries.empty := by
      rw [extend_empty_source]; rfl
    refine ⟨⟨1 + n2, Entries.empty.append E2, by rw [hds1, hadv, extend_extend]⟩,
      fun hinv hpos => ?_⟩
    have hinva : (ds.advanced 1).Inlinable := by
      rw [hadv]
      exact hinv.advance_inlinable 1
    obtain ⟨hinv1, Cb, hCb⟩ := hc2 hinva hpos
    refine ⟨hinv1, b :: Cb, fun n hn ds2 post hbo hrest2 => ?_⟩
    rw [List.length_cons] at hn
    have hget2 := get_u8_of_rest ds2 b (Cb ++ post) (by rw [hrest2]; rfl)
    have hrestb : (ds2.advanced 1).rest = Cb ++ post := by
      rw [state_rest_advanced, hrest2]; rfl
    obtain ⟨Eb, hrun2b⟩ := hCb n (by omega) (ds2.advanced 1) post hbo hrestb
    refine ⟨Entries.empty.append Eb, ?_⟩
    have hadv2 : ds2.advanced 1 = ds2.extend 1 Entries.empty := by
      rw [extend_empty_source]; rfl
    show (get Decoder.u8 >>= fun t => f2 t n) ds2 = _
    rw [M.bind_ok _ _ _ _ _ hget2, hrun2b, hadv2, extend_extend, List.length_cons,
      Nat.add_comm 1]

/-- A framed read of the byte source keeps its bytes. -/
theorem Inlines.of_framed_inlines {α : Type} {read : Decoder → Result α × Decoder}
    (h : Framed read) : Inlines 0 (get read) (fun _ => get read) := by
  intro ds r ds1 hrun
  unfold Deserializer.get at hrun
  cases hread : read ds.source with
  | mk res d1 =>
    rw [hread] at hrun
    cases res with
    | error e => cases hrun
    | ok a =>
      simp only [Except.ok.injEq, Prod.mk.injEq] at hrun
      obtain ⟨rfl, rfl⟩ := hrun
      obtain ⟨C, hC, hd1, hrep⟩ := h ds.source a d1 hread
      have hshape : ({ ds with source := d1 } : Deserializer) =
          ds.extend C.length Entries.empty := by
        rw [extend_empty_source, hd1]
      refine ⟨⟨C.length, Entries.empty, hshape⟩, fun hinv _ => ⟨?_, C, ?_⟩⟩
      · rw [hshape]
        exact hinv.advance_inlinable _
      · intro n _ ds2 post hbo hrest
        refine ⟨Entries.empty, ?_⟩
        show get read ds2 = _
        unfold Deserializer.get
        rw [(hrep ds2.source hbo).1 post hrest, extend_empty_source]

end Deserializer

/-! ### Loops, options, the string table and `internable` -/

namespace Deserializer

theorem Inlines.boolean_inlines : Inlines 0 boolean (fun _ => boolean) := by
  unfold boolean
  exact Inlines.bind_inlines (Inlines.of_framed_inlines Decoder.framed_u8)
    (fun _ => Inlines.pure_inlines _)

theorem Inlines.optional_inlines {α : Type} {d1 : M α} {d2 : Nat → M α}
    (h : Inlines 0 d1 d2) : Inlines 0 (optional d1) (fun n => optional (d2 n)) := by
  unfold optional
  refine Inlines.bind_inlines Inlines.boolean_inlines (fun b => Inlines.ite_inlines ?_ ?_)
  · exact Inlines.bind_inlines h (fun _ => Inlines.pure_inlines _)
  · exact Inlines.pure_inlines _

theorem Inlines.sequence_loop_inlines {α : Type} {d1 : M α} {d2 : Nat → M α}
    (h : Inlines 0 d1 d2) :
    ∀ count : Nat, Inlines 0 (sequence_loop d1 count) (fun n => sequence_loop (d2 n) count) := by
  intro count
  induction count with
  | zero => exact Inlines.pure_inlines _
  | succ c ih =>
    show Inlines 0 (d1 >>= fun x => sequence_loop d1 c >>= fun xs => pure (x :: xs))
      (fun n => d2 n >>= fun x => sequence_loop (d2 n) c >>= fun xs => pure (x :: xs))
    exact Inlines.bind_inlines h
      (fun _ => Inlines.bind_inlines ih (fun _ => Inlines.pure_inlines _))

theorem Inlines.sequence_inlines {α : Type} {d1 : M α} {d2 : Nat → M α}
    (h : Inlines 0 d1 d2) : Inlines 0 (sequence d1) (fun n => sequence (d2 n)) := by
  unfold sequence
  exact Inlines.bind_inlines (Inlines.of_framed_inlines Decoder.framed_unsigned_leb128)
    (fun c => Inlines.sequence_loop_inlines h c)

/-! #### Runs of `string` -/

theorem bind_inv {α β : Type} (m : M α) (f : α → M β) (ds : Deserializer) (r : β)
    (ds1 : Deserializer) (h : (m >>= f) ds = Except.ok (r, ds1)) :
    ∃ a dsa, m ds = Except.ok (a, dsa) ∧ f a dsa = Except.ok (r, ds1) := by
  rw [M.bind_apply] at h
  cases hm : m ds with
  | error e => rw [hm] at h; cases h
  | ok p =>
    obtain ⟨a, dsa⟩ := p
    rw [hm] at h
    exact ⟨a, dsa, rfl, h⟩

theorem get_framed_inv {α : Type} {read : Decoder → Result α × Decoder} (hf : Framed read)
    (ds : Deserializer) (a : α) (ds1 : Deserializer)
    (h : get read ds = Except.ok (a, ds1)) : ∃ n, ds1 = ds.advanced n := by
  unfold Deserializer.get at h
  cases hread : read ds.source with
  | mk res d1 =>
    rw [hread] at h
    cases res with
    | error e => cases h
    | ok b =>
      simp only [Except.ok.injEq, Prod.mk.injEq] at h
      obtain ⟨_, rfl⟩ := h
      obtain ⟨C, _, hd1, _⟩ := hf ds.source b d1 hread
      exact ⟨C.length, by rw [hd1]; rfl⟩

/-- The bytes of an inline string, after its length. -/
theorem string_body_eq (n : Nat) (msg : String) (ds : Deserializer) :
    (get (fun d => (Except.ok (Decoder.bytes n d).1, (Decoder.bytes n d).2)) >>= fun r =>
      precondition (n == r.length) msg >>= fun _ => (pure r : M Bytes)) ds =
    if n = (ds.rest.take n).length then
      Except.ok (ds.rest.take n, ds.advanced n)
    else Except.error (Failure.abort msg) := by
  rw [M.bind_apply]
  unfold get
  simp only [Decoder.bytes]
  rw [M.bind_apply]
  unfold precondition
  by_cases hn : n = (List.take n (List.drop ds.source.position ds.source.source)).length
  · have hb : (n == (List.take n (List.drop ds.source.position ds.source.source)).length)
        = true := by simpa using hn
    rw [hb]
    simp only [if_true, M.pure_apply]
    rw [if_pos (by simpa [Deserializer.rest, Decoder.rest] using hn)]
    simp only [Deserializer.rest, Decoder.rest, Decoder.advanced, Deserializer.advanced]
    rw [← hn]
  · have hb : (n == (List.take n (List.drop ds.source.position ds.source.source)).length)
        = false := by simpa using hn
    rw [hb]
    simp only [Bool.false_eq_true, if_false, M.fail]
    rw [if_neg (by simpa [Deserializer.rest, Decoder.rest] using hn)]

theorem inline_string_inv (ds : Deserializer) (s : Bytes) (ds1 : Deserializer)
    (h : inline_string ds = Except.ok (s, ds1)) :
    ∃ n, ds1 = ds.advanced n ∧ s.length ≤ n := by
  unfold inline_string at h
  obtain ⟨c, dsa, hget, hbody⟩ := bind_inv _ _ _ _ _ h
  obtain ⟨n1, rfl⟩ := get_framed_inv Decoder.framed_unsigned_leb128 _ _ _ hget
  rw [string_body_eq] at hbody
  by_cases hc : c = ((ds.advanced n1).rest.take c).length
  · rw [if_pos hc] at hbody
    simp only [Except.ok.injEq, Prod.mk.injEq] at hbody
    obtain ⟨rfl, rfl⟩ := hbody
    exact ⟨n1 + c, by rw [state_advanced_advanced], by rw [← hc]; omega⟩
  · rw [if_neg hc] at hbody
    cases hbody

theorem at_index_inv {α : Type} (memo : Memo α) (i : Nat) (ds : Deserializer) (v : α)
    (ds1 : Deserializer) (h : at_index memo i ds = Except.ok (v, ds1)) :
    ds1 = ds ∧ (memo.get ds).get? i = some v := by
  unfold at_index at h
  cases hget : (memo.get ds).get? i with
  | none => rw [hget] at h; cases h
  | some w =>
    rw [hget] at h
    simp only [Except.ok.injEq, Prod.mk.injEq] at h
    exact ⟨h.2.symm, by rw [h.1]⟩

/-- What a run of `string` does to the state: the memos of symbols, types and values are
kept; either the string memo is kept too and the result is empty or no longer than a
memoized string, or the result is appended to the string memo and it is made of a part no
longer than a memoized string (or empty) and of bytes read from the source. -/
theorem string_run (ds : Deserializer) (s : Bytes) (ds1 : Deserializer)
    (h : string ds = Except.ok (s, ds1)) :
    ds1.interned_symbols = ds.interned_symbols ∧ ds1.interned_types = ds.interned_types ∧
    ds1.interned_values = ds.interned_values ∧
    ((ds1.interned_strings = ds.interned_strings ∧
        (s = [] ∨ ∃ m ∈ ds.interned_strings, s.length ≤ m.length)) ∨
      (ds1.interned_strings = ds.interned_strings ++ [s] ∧
        ∃ m tail, s = m ++ tail ∧
          (m = [] ∨ ∃ m0 ∈ ds.interned_strings, m.length ≤ m0.length) ∧
          ds.source.position + tail.length ≤ ds1.source.position)) := by
  unfold string at h
  obtain ⟨t, dsa, hget, h⟩ := bind_inv _ _ _ _ _ h
  obtain ⟨n0, rfl⟩ := get_framed_inv Decoder.framed_u8 _ _ _ hget
  split at h
  · simp only [M.pure_apply, Except.ok.injEq, Prod.mk.injEq] at h
    obtain ⟨rfl, rfl⟩ := h
    exact ⟨rfl, rfl, rfl, Or.inl ⟨rfl, Or.inl rfl⟩⟩
  split at h
  · obtain ⟨n, dsb, hgetn, h⟩ := bind_inv _ _ _ _ _ h
    obtain ⟨n1, rfl⟩ := get_framed_inv Decoder.framed_unsigned_leb128 _ _ _ hgetn
    obtain ⟨i, dsc, hgeti, h⟩ := bind_inv _ _ _ _ _ h
    obtain ⟨n2, rfl⟩ := get_framed_inv Decoder.framed_unsigned_leb128 _ _ _ hgeti
    obtain ⟨m, dsd, hat, h⟩ := bind_inv _ _ _ _ _ h
    obtain ⟨rfl, hm⟩ := at_index_inv _ _ _ _ _ hat
    simp only [M.pure_apply, Except.ok.injEq, Prod.mk.injEq] at h
    obtain ⟨rfl, rfl⟩ := h
    refine ⟨rfl, rfl, rfl, Or.inl ⟨rfl, Or.inr ⟨m, List.get?_mem hm, ?_⟩⟩⟩
    rw [List.length_take]
    exact Nat.min_le_right _ _
  split at h
  · obtain ⟨body, dsb, hin, h⟩ := bind_inv _ _ _ _ _ h
    obtain ⟨n1, rfl, hlen⟩ := inline_string_inv _ _ _ hin
    obtain ⟨u, dsc, hpush, h⟩ := bind_inv _ _ _ _ _ h
    simp only [push_back, Except.ok.injEq, Prod.mk.injEq] at hpush
    obtain ⟨_, rfl⟩ := hpush
    simp only [M.pure_apply, Except.ok.injEq, Prod.mk.injEq] at h
    obtain ⟨rfl, rfl⟩ := h
    refine ⟨rfl, rfl, rfl, Or.inr ⟨rfl, [], body, rfl, Or.inl rfl, ?_⟩⟩
    show ds.source.position + body.length ≤ ds.source.position + n0 + n1
    omega
  split at h
  · obtain ⟨n, dsb, hgetn, h⟩ := bind_inv _ _ _ _ _ h
    obtain ⟨n1, rfl⟩ := get_framed_inv Decoder.framed_unsigned_leb128 _ _ _ hgetn
    obtain ⟨i, dsc, hgeti, h⟩ := bind_inv _ _ _ _ _ h
    obtain ⟨n2, rfl⟩ := get_framed_inv Decoder.framed_unsigned_leb128 _ _ _ hgeti
    obtain ⟨m, dsd, hat, h⟩ := bind_inv _ _ _ _ _ h
    obtain ⟨rfl, hm⟩ := at_index_inv _ _ _ _ _ hat
    obtain ⟨tail, dse, hin, h⟩ := bind_inv _ _ _ _ _ h
    obtain ⟨n3, rfl, hlen⟩ := inline_string_inv _ _ _ hin
    obtain ⟨u, dsf, hpush, h⟩ := bind_inv _ _ _ _ _ h
    simp only [push_back, Except.ok.injEq, Prod.mk.injEq] at hpush
    obtain ⟨_, rfl⟩ := hpush
    simp only [M.pure_apply, Except.ok.injEq, Prod.mk.injEq] at h
    obtain ⟨rfl, rfl⟩ := h
    refine ⟨rfl, rfl, rfl, Or.inr ⟨rfl, m.take n, tail, rfl,
      Or.inr ⟨m, List.get?_mem hm, ?_⟩, ?_⟩⟩
    · rw [List.length_take]
      exact Nat.min_le_right _ _
    · show ds.source.position + tail.length ≤ ds.source.position + n0 + n1 + n2 + n3
      omega
  · cases h

/-- The inline record of a string decodes to it, whatever the memos. -/
theorem string_of_inserted (ds : Deserializer) (body post : List UInt8)
    (h : ds.rest = 0x02 :: (uleb128 body.length ++ body) ++ post)
    (hL : body.length < 2 ^ 63) :
    string ds = Except.ok (body,
      ds.extend (0x02 :: (uleb128 body.length ++ body)).length ⟨[body], [], [], []⟩) := by
  have h0 : ds.rest = 0x02 :: (uleb128 body.length ++ (body ++ post)) := by
    rw [h]; simp
  unfold string
  rw [M.bind_ok _ _ _ _ _ (get_u8_of_rest ds _ _ h0)]
  rw [if_neg (by decide), if_neg (by decide), if_pos (by decide)]
  have h1 : (ds.advanced 1).rest = uleb128 body.length ++ (body ++ post) := by
    rw [state_rest_advanced, h0]; rfl
  rw [M.bind_ok _ _ _ _ _ (inline_string_of_rest _ body post h1 hL)]
  simp only [M.bind_apply, push_back, Memo.strings, state_advanced_advanced, M.pure_apply,
    advanced, Decoder.advanced_advanced, Nat.add_assoc, extend, List.length_cons,
    List.length_append, List.append_nil, Nat.add_comm]

/-- A string is encoded by its inline record. -/
theorem inlines_string : Inlines 0 string (fun _ => string) := by
  intro ds s ds1 hrun
  obtain ⟨hsym, hty, hval, hstr⟩ := string_run ds s ds1 hrun
  obtain ⟨C0, E0, _, hext, _⟩ := sim_string 0 ds s ds1 hrun
  refine ⟨⟨C0.length, E0, hext⟩, fun hinv hpos => ?_⟩
  have hle : ds.source.position ≤ ds1.source.position := by
    rw [hext, position_extend]
    omega
  have hbo : ds1.source.byte_order = ds.source.byte_order := by rw [hext]; rfl
  obtain ⟨h1, h2, h3, h4⟩ := hinv
  have hslen : s.length ≤ ds1.source.position := by
    rcases hstr with ⟨_, rfl | ⟨m, hm, hlen⟩⟩ | ⟨_, m, tail, rfl, hmlen, htail⟩
    · exact Nat.zero_le _
    · have := h1 m hm
      omega
    · rw [List.length_append]
      rcases hmlen with rfl | ⟨m0, hm0, hlen⟩
      · simp only [List.length_nil]
        omega
      · have := h1 m0 hm0
        omega
  refine ⟨⟨fun x hx => ?_, by rw [hsym, hbo]; exact h2, by rw [hty, hbo]; exact h3,
    by rw [hval, hbo]; exact h4⟩, 0x02 :: (uleb128 s.length ++ s), ?_⟩
  · rcases hstr with ⟨heq, _⟩ | ⟨heq, _⟩
    · rw [heq] at hx
      have := h1 x hx
      omega
    · rw [heq] at hx
      rcases List.mem_append.1 hx with hx | hx
      · have := h1 x hx
        omega
      · rw [List.mem_singleton] at hx
        rw [hx]
        exact hslen
  · intro n _ ds2 post _ hrest
    exact ⟨_, string_of_inserted ds2 s post hrest (by omega)⟩

theorem inlines_signature : Inlines 0 signature (fun _ => signature) := by
  unfold signature
  exact Inlines.bind_inlines inlines_string (fun _ => Inlines.pure_inlines _)

end Deserializer

/-! ### Elements read through `internable` -/

namespace Deserializer

/-- A decoder defined by recursion on its bound, whose body reads with the bound lowered
by one. -/
theorem Inlines.shift_inlines {α : Type} {m1 : M α} {g : Nat → M α} (whole : Nat → M α)
    (hwhole : ∀ n, whole (n + 1) = g n) (h : Inlines 1 m1 g) : Inlines 0 m1 whole := by
  intro ds r ds1 hrun
  obtain ⟨hext, hcond⟩ := h ds r ds1 hrun
  refine ⟨hext, fun hinv hpos => ⟨(hcond hinv hpos).1, ?_⟩⟩
  obtain ⟨C, hC⟩ := (hcond hinv hpos).2
  refine ⟨C, fun n hn => ?_⟩
  cases n with
  | zero => omega
  | succ n =>
    rw [hwhole]
    exact hC n (by omega)

/-- A recursive decoder that reads its tag first. -/
theorem Inlines.tagged_inlines {α : Type} {f1 : Nat → M α} {f2 : Nat → Nat → M α}
    (whole : Nat → M α)
    (hwhole : ∀ n, whole (n + 1) = (get Decoder.u8 >>= fun t => f2 t n))
    (hf : ∀ t, Inlines 0 (f1 t) (f2 t)) : Inlines 0 (get Decoder.u8 >>= f1) whole :=
  Inlines.shift_inlines whole hwhole (Inlines.after_tag_inlines hf)

/-- An element read through `internable`: a back-reference is replaced by an encoding of
the memoized element, and an element read inline keeps its tag, followed by the encoding
of what its body read. -/
theorem Inlines.internable_inlines {α : Type} (memo : Memo α) (hl : memo.Lawful)
    {f1 : Nat → M α} {f2 : Nat → Nat → M α} (whole : Nat → M α)
    (hmem : ∀ (ds : Deserializer) (v : α), ds.Inlinable → v ∈ memo.get ds →
      Inlined ds.source.byte_order 0 whole v)
    (hpush : ∀ (ds : Deserializer) (v : α), ds.Inlinable →
      Inlined ds.source.byte_order 0 whole v → (memo.push v ds).Inlinable)
    (hwhole : ∀ n, whole (n + 1) = internable memo (get Decoder.u8 >>= fun t => f2 t n))
    (hf : ∀ t, Inlines 0 (f1 t) (f2 t)) :
    Inlines 0 (internable memo (get Decoder.u8 >>= f1)) whole := by
  obtain ⟨⟨entry, hentry⟩, _, hsame⟩ := hl
  intro ds r ds1 hrun
  cases hrest : ds.rest with
  | nil =>
    have hfirst : ∀ tail, ds.rest ≠ 0xFF :: tail := by
      intro tail hc
      rw [hrest] at hc
      cases hc
    obtain ⟨dsd, hdec, _⟩ := internable_inline_inv memo _ ds ds1 r hfirst hrun
    obtain ⟨e, he⟩ := get_u8_of_end ds hrest
    rw [M.bind_error _ _ _ _ he] at hdec
    cases hdec
  | cons b tail =>
    by_cases hb : b = 0xFF
    · subst hb
      unfold internable at hrun
      rw [if_pos (peek_ff ds.source _ hrest), Decoder.u8_of_drop ds.source 0xFF _ hrest] at hrun
      cases hleb : Decoder.unsigned_leb128 (ds.source.advanced 1) with
      | mk res d =>
        simp only [Decoder.advanced] at hleb hrun
        rw [hleb] at hrun
        cases res with
        | error e => cases hrun
        | ok i =>
          simp only at hrun
          obtain ⟨rfl, hget⟩ := at_index_inv memo i _ r ds1 hrun
          obtain ⟨C, _, hd, _⟩ := Decoder.framed_unsigned_leb128 _ i d hleb
          have hshape : ({ ds with source := d } : Deserializer) =
              ds.extend (1 + C.length) Entries.empty := by
            rw [extend_empty_source, hd]
            simp [Decoder.advanced, Nat.add_assoc]
          have hmemo : memo.get { ds with source := d } = memo.get ds :=
            hsame _ _ ⟨rfl, rfl, rfl, rfl⟩
          rw [hmemo] at hget
          refine ⟨⟨_, _, hshape⟩, fun hinv _ => ⟨?_, hmem ds r hinv (List.get?_mem hget)⟩⟩
          rw [hshape]
          exact hinv.advance_inlinable _
    · have hfirst : ∀ tail, ds.rest ≠ 0xFF :: tail := rest_ne_ff_of_cons ds b tail hrest hb
      obtain ⟨dsd, hdec, hds1⟩ := internable_inline_inv memo _ ds ds1 r hfirst hrun
      have hget := get_u8_of_rest ds b tail hrest
      rw [M.bind_ok _ _ _ _ _ hget] at hdec
      obtain ⟨⟨n2, E2, hdsd⟩, hc2⟩ := hf b.toNat (ds.advanced 1) r dsd hdec
      have hadv : ds.advanced 1 = ds.extend 1 Entries.empty := by
        rw [extend_empty_source]; rfl
      have hdsd2 : dsd = ds.extend (1 + n2) (Entries.empty.append E2) := by
        rw [hdsd, hadv, extend_extend]
      have hpos1 : ds1.source.position = dsd.source.position := by
        rw [hds1]
        split
        · rw [hentry]; rfl
        · rfl
      constructor
      · rw [hds1]
        split
        · exact ⟨_, _, by rw [hentry, hdsd2, extend_extend]⟩
        · exact ⟨_, _, hdsd2⟩
      intro hinv hpos
      have hinva : (ds.advanced 1).Inlinable := by
        rw [hadv]
        exact hinv.advance_inlinable 1
      rw [hpos1] at hpos
      obtain ⟨hinvd, Cb, hCb⟩ := hc2 hinva hpos
      have hinl : Inlined ds.source.byte_order 0 whole r := by
        refine ⟨b :: Cb, fun n hn ds2 post hbo hrest2 => ?_⟩
        rw [List.length_cons] at hn
        cases n with
        | zero => omega
        | succ n =>
          rw [hwhole]
          have hrest3 : ds2.rest = b :: (Cb ++ post) := by rw [hrest2]; rfl
          have hfirst2 : ∀ tail, ds2.rest ≠ 0xFF :: tail :=
            rest_ne_ff_of_cons ds2 b _ hrest3 hb
          have hget2 := get_u8_of_rest ds2 b (Cb ++ post) hrest3
          have hrestb : (ds2.advanced 1).rest = Cb ++ post := by
            rw [state_rest_advanced, hrest3]; rfl
          obtain ⟨Eb, hrun2b⟩ := hCb n (by omega) (ds2.advanced 1) post hbo hrestb
          have hadv2 : ds2.advanced 1 = ds2.extend 1 Entries.empty := by
            rw [extend_empty_source]; rfl
          have hdec2 : (get Decoder.u8 >>= fun t => f2 t n) ds2 =
              Except.ok (r, ds2.extend (b :: Cb).length (Entries.empty.append Eb)) := by
            rw [M.bind_ok _ _ _ _ _ hget2, hrun2b, hadv2, extend_extend, List.length_cons,
              Nat.add_comm 1]
          rw [internable_inline memo _ ds2 _ r hfirst2 hdec2]
          split
          · exact ⟨_, by rw [hentry, extend_extend, Nat.add_zero]⟩
          · exact ⟨_, rfl⟩
      refine ⟨?_, hinl⟩
      rw [hds1]
      split
      · refine hpush dsd r hinvd ?_
        rw [hdsd2, byte_order_extend]
        exact hinl
      · exact hinvd

theorem inlinable_push_symbol (ds : Deserializer) (v : Symbol) (h : ds.Inlinable)
    (hv : Inlined ds.source.byte_order 0 symbol v) : (Memo.symbols.push v ds).Inlinable := by
  obtain ⟨h1, h2, h3, h4⟩ := h
  refine ⟨h1, fun w hw => ?_, h3, h4⟩
  rcases List.mem_append.1 hw with hw | hw
  · exact h2 w hw
  · rw [List.mem_singleton] at hw
    rw [hw]
    exact hv

theorem inlinable_push_type (ds : Deserializer) (v : Type_) (h : ds.Inlinable)
    (hv : Inlined ds.source.byte_order 0 type_ v) : (Memo.types.push v ds).Inlinable := by
  obtain ⟨h1, h2, h3, h4⟩ := h
  refine ⟨h1, h2, fun w hw => ?_, h4⟩
  rcases List.mem_append.1 hw with hw | hw
  · exact h3 w hw
  · rw [List.mem_singleton] at hw
    rw [hw]
    exact hv

theorem inlinable_push_value (ds : Deserializer) (v : Value) (h : ds.Inlinable)
    (hv : Inlined ds.source.byte_order 0 value v) : (Memo.values.push v ds).Inlinable := by
  obtain ⟨h1, h2, h3, h4⟩ := h
  refine ⟨h1, h2, h3, fun w hw => ?_⟩
  rcases List.mem_append.1 hw with hw | hw
  · exact h4 w hw
  · rw [List.mem_singleton] at hw
    rw [hw]
    exact hv

end Deserializer

/-! ### Every decoder has encodings without back-references -/

namespace Deserializer

set_option maxRecDepth 8192

theorem inlines_uint32 : Inlines 0 uint32 (fun _ => uint32) := by
  unfold uint32
  repeat (with_reducible first
    | exact Inlines.pure_inlines _
    | exact Inlines.fatal_error_inlines _ _ _
    | exact Inlines.fail_inlines _ _ _
    | exact Inlines.value_of_inlines _
    | exact Inlines.precondition_inlines _ _
    | exact Inlines.of_framed_inlines Decoder.framed_u8
    | exact Inlines.of_framed_inlines Decoder.framed_i8
    | exact Inlines.of_framed_inlines Decoder.framed_f32
    | exact Inlines.of_framed_inlines Decoder.framed_f64
    | exact Inlines.of_framed_inlines Decoder.framed_unsigned_leb128
    | exact Inlines.of_framed_inlines Decoder.framed_signed_leb128
    | exact Inlines.boolean_inlines
    | exact inlines_string
    | exact inlines_signature
    | exact Inlines.optional_inlines inlines_string
    | apply Inlines.bind_inlines
    | apply Inlines.ite_inlines
    | intro _)

theorem inlines_local : Inlines 0 local_ (fun _ => local_) := by
  unfold local_
  repeat (with_reducible first
    | exact Inlines.pure_inlines _
    | exact Inlines.fatal_error_inlines _ _ _
    | exact Inlines.fail_inlines _ _ _
    | exact Inlines.value_of_inlines _
    | exact Inlines.precondition_inlines _ _
    | exact Inlines.of_framed_inlines Decoder.framed_u8
    | exact Inlines.of_framed_inlines Decoder.framed_i8
    | exact Inlines.of_framed_inlines Decoder.framed_f32
    | exact Inlines.of_framed_inlines Decoder.framed_f64
    | exact Inlines.of_framed_inlines Decoder.framed_unsigned_leb128
    | exact Inlines.of_framed_inlines Decoder.framed_signed_leb128
    | exact Inlines.boolean_inlines
    | exact inlines_string
    | exact inlines_signature
    | exact Inlines.optional_inlines inlines_string
    | exact inlines_uint32
    | apply Inlines.bind_inlines
    | apply Inlines.ite_inlines
    | intro _)

theorem inlines_scope_identifier : Inlines 0 scope_identifier (fun _ => scope_identifier) := by
  unfold scope_identifier
  repeat (with_reducible first
    | exact Inlines.pure_inlines _
    | exact Inlines.fatal_error_inlines _ _ _
    | exact Inlines.fail_inlines _ _ _
    | exact Inlines.value_of_inlines _
    | exact Inlines.precondition_inlines _ _
    | exact Inlines.of_framed_inlines Decoder.framed_u8
    | exact Inlines.of_framed_inlines Decoder.framed_i8
    | exact Inlines.of_framed_inlines Decoder.framed_f32
    | exact Inlines.of_framed_inlines Decoder.framed_f64
    | exact Inlines.of_framed_inlines Decoder.framed_unsigned_leb128
    | exact Inlines.of_framed_inlines Decoder.framed_signed_leb128
    | exact Inlines.boolean_inlines
    | exact inlines_string
    | exact inlines_signature
    | exact Inlines.optional_inlines inlines_string
    | exact inlines_uint32
    | exact inlines_local
    | apply Inlines.bind_inlines
    | apply Inlines.ite_inlines
    | intro _)

theorem inlines_transform_into_empty (n : Nat) :
    Inlines 0 (transform_into_empty n) (fun _ => transform_into_empty n) := by
  unfold transform_into_empty
  repeat (with_reducible first
    | exact Inlines.pure_inlines _
    | exact Inlines.fatal_error_inlines _ _ _
    | exact Inlines.fail_inlines _ _ _
    | exact Inlines.value_of_inlines _
    | exact Inlines.precondition_inlines _ _
    | exact Inlines.of_framed_inlines Decoder.framed_u8
    | exact Inlines.of_framed_inlines Decoder.framed_i8
    | exact Inlines.of_framed_inlines Decoder.framed_f32
    | exact Inlines.of_framed_inlines Decoder.framed_f64
    | exact Inlines.of_framed_inlines Decoder.framed_unsigned_leb128
    | exact Inlines.of_framed_inlines Decoder.framed_signed_leb128
    | exact Inlines.boolean_inlines
    | exact inlines_string
    | exact inlines_signature
    | exact Inlines.optional_inlines inlines_string
    | apply Inlines.bind_inlines
    | apply Inlines.ite_inlines
    | intro _)

theorem inlines_new_struct_type (es : List Type_) :
    Inlines 0 (new_struct_type es) (fun _ => new_struct_type es) := by
  unfold new_struct_type
  repeat (with_reducible first
    | exact Inlines.pure_inlines _
    | exact Inlines.fatal_error_inlines _ _ _
    | exact Inlines.fail_inlines _ _ _
    | exact Inlines.value_of_inlines _
    | exact Inlines.precondition_inlines _ _
    | exact Inlines.of_framed_inlines Decoder.framed_u8
    | exact Inlines.of_framed_inlines Decoder.framed_i8
    | exact Inlines.of_framed_inlines Decoder.framed_f32
    | exact Inlines.of_framed_inlines Decoder.framed_f64
    | exact Inlines.of_framed_inlines Decoder.framed_unsigned_leb128
    | exact Inlines.of_framed_inlines Decoder.framed_signed_leb128
    | exact Inlines.boolean_inlines
    | exact inlines_string
    | exact inlines_signature
    | exact Inlines.optional_inlines inlines_string
    | exact inlines_uint32
    | exact inlines_local
    | exact inlines_scope_identifier
    | exact inlines_transform_into_empty _
    | apply Inlines.bind_inlines
    | apply Inlines.ite_inlines
    | intro _)

theorem inlines_new_function_type (ps : List Type_) (rv : Type_) :
    Inlines 0 (new_function_type ps rv) (fun _ => new_function_type ps rv) := by
  unfold new_function_type
  repeat (with_reducible first
    | exact Inlines.pure_inlines _
    | exact Inlines.fatal_error_inlines _ _ _
    | exact Inlines.fail_inlines _ _ _
    | exact Inlines.value_of_inlines _
    | exact Inlines.precondition_inlines _ _
    | exact Inlines.of_framed_inlines Decoder.framed_u8
    | exact Inlines.of_framed_inlines Decoder.framed_i8
    | exact Inlines.of_framed_inlines Decoder.framed_f32
    | exact Inlines.of_framed_inlines Decoder.framed_f64
    | exact Inlines.of_framed_inlines Decoder.framed_unsigned_leb128
    | exact Inlines.of_framed_inlines Decoder.framed_signed_leb128
    | exact Inlines.boolean_inlines
    | exact inlines_string
    | exact inlines_signature
    | exact Inlines.optional_inlines inlines_string
    | exact inlines_uint32
    | exact inlines_local
    | exact inlines_scope_identifier
    | exact inlines_transform_into_empty _
    | exact inlines_new_struct_type _
    | apply Inlines.bind_inlines
    | apply Inlines.ite_inlines
    | intro _)

theorem inlines_new_struct_value (es : List Value) :
    Inlines 0 (new_struct_value es) (fun _ => new_struct_value es) := by
  unfold new_struct_value
  repeat (with_reducible first
    | exact Inlines.pure_inlines _
    | exact Inlines.fatal_error_inlines _ _ _
    | exact Inlines.fail_inlines _ _ _
    | exact Inlines.value_of_inlines _
    | exact Inlines.precondition_inlines _ _
    | exact Inlines.of_framed_inlines Decoder.framed_u8
    | exact Inlines.of_framed_inlines Decoder.framed_i8
    | exact Inlines.of_framed_inlines Decoder.framed_f32
    | exact Inlines.of_framed_inlines Decoder.framed_f64
    | exact Inlines.of_framed_inlines Decoder.framed_unsigned_leb128
    | exact Inlines.of_framed_inlines Decoder.framed_signed_leb128
    | exact Inlines.boolean_inlines
    | exact inlines_string
    | exact inlines_signature
    | exact Inlines.optional_inlines inlines_string
    | exact inlines_uint32
    | exact inlines_local
    | exact inlines_scope_identifier
    | exact inlines_transform_into_empty _
    | exact inlines_new_struct_type _
    | exact inlines_new_function_type _ _
    | apply Inlines.bind_inlines
    | apply Inlines.ite_inlines
    | intro _)

theorem inlines_new_array_value (t : Type_) (es : List Value) :
    Inlines 0 (new_array_value t es) (fun _ => new_array_value t es) := by
  unfold new_array_value
  repeat (with_reducible first
    | exact Inlines.pure_inlines _
    | exact Inlines.fatal_error_inlines _ _ _
    | exact Inlines.fail_inlines _ _ _
    | exact Inlines.value_of_inlines _
    | exact Inlines.precondition_inlines _ _
    | exact Inlines.of_framed_inlines Decoder.framed_u8
    | exact Inlines.of_framed_inlines Decoder.framed_i8
    | exact Inlines.of_framed_inlines Decoder.framed_f32
    | exact Inlines.of_framed_inlines Decoder.framed_f64
    | exact Inlines.of_framed_inlines Decoder.framed_unsigned_leb128
    | exact Inlines.of_framed_inlines Decoder.framed_signed_leb128
    | exact Inlines.boolean_inlines
    | exact inlines_string
    | exact inlines_signature
    | exact Inlines.optional_inlines inlines_string
    | exact inlines_uint32
    | exact inlines_local
    | exact inlines_scope_identifier
    | exact inlines_transform_into_empty _
    | exact inlines_new_struct_type _
    | exact inlines_new_function_type _ _
    | exact inlines_new_struct_value _
    | apply Inlines.bind_inlines
    | apply Inlines.ite_inlines
    | intro _)

theorem inlines_narrowed_sequence {α β : Type} (as : α → Option β) (s : List α) :
    Inlines 0 (narrowed_sequence as s) (fun _ => narrowed_sequence as s) := by
  cases s with
  | nil => exact Inlines.pure_inlines _
  | cons e s =>
    simp only [narrowed_sequence]
    exact Inlines.bind_inlines (Inlines.value_of_inlines _)
      (fun _ => Inlines.bind_inlines (inlines_transform_into_empty _)
        (fun _ => Inlines.pure_inlines _))

theorem inlines_bytes_loop : ∀ count : Nat,
    Inlines 0 (bytes_loop count) (fun _ => bytes_loop count) := by
  intro count
  induction count with
  | zero => exact Inlines.pure_inlines _
  | succ n ih =>
    rw [bytes_loop]
    exact Inlines.bind_inlines (Inlines.of_framed_inlines Decoder.framed_i8)
      (fun _ => Inlines.bind_inlines ih (fun _ => Inlines.pure_inlines _))

theorem inlines_bytes : Inlines 0 bytes (fun _ => bytes) := by
  unfold bytes
  exact Inlines.bind_inlines (Inlines.of_framed_inlines Decoder.framed_unsigned_leb128)
    (fun n => inlines_bytes_loop n)

theorem inlines_memory_order : Inlines 0 memory_order (fun _ => memory_order) := by
  unfold memory_order
  repeat (with_reducible first
    | exact Inlines.pure_inlines _
    | exact Inlines.fatal_error_inlines _ _ _
    | exact Inlines.fail_inlines _ _ _
    | exact Inlines.value_of_inlines _
    | exact Inlines.precondition_inlines _ _
    | exact Inlines.of_framed_inlines Decoder.framed_u8
    | exact Inlines.of_framed_inlines Decoder.framed_i8
    | exact Inlines.of_framed_inlines Decoder.framed_f32
    | exact Inlines.of_framed_inlines Decoder.framed_f64
    | exact Inlines.of_framed_inlines Decoder.framed_unsigned_leb128
    | exact Inlines.of_framed_inlines Decoder.framed_signed_leb128
    | exact Inlines.boolean_inlines
    | exact inlines_string
    | exact inlines_signature
    | exact Inlines.optional_inlines inlines_string
    | exact inlines_uint32
    | exact inlines_local
    | exact inlines_scope_identifier
    | exact inlines_transform_into_empty _
    | exact inlines_new_struct_type _
    | exact inlines_new_function_type _ _
    | exact inlines_new_struct_value _
    | exact inlines_new_array_value _ _
    | exact inlines_narrowed_sequence _ _
    | exact inlines_bytes
    | apply Inlines.bind_inlines
    | apply Inlines.ite_inlines
    | intro _)

theorem inlines_binary_operator : Inlines 0 binary_operator (fun _ => binary_operator) := by
  unfold binary_operator
  repeat (with_reducible first
    | exact Inlines.pure_inlines _
    | exact Inlines.fatal_error_inlines _ _ _
    | exact Inlines.fail_inlines _ _ _
    | exact Inlines.value_of_inlines _
    | exact Inlines.precondition_inlines _ _
    | exact Inlines.of_framed_inlines Decoder.framed_u8
    | exact Inlines.of_framed_inlines Decoder.framed_i8
    | exact Inlines.of_framed_inlines Decoder.framed_f32
    | exact Inlines.of_framed_inlines Decoder.framed_f64
    | exact Inlines.of_framed_inlines Decoder.framed_unsigned_leb128
    | exact Inlines.of_framed_inlines Decoder.framed_signed_leb128
    | exact Inlines.boolean_inlines
    | exact inlines_string
    | exact inlines_signature
    | exact Inlines.optional_inlines inlines_string
    | exact inlines_uint32
    | exact inlines_local
    | exact inlines_scope_identifier
    | exact inlines_transform_into_empty _
    | exact inlines_new_struct_type _
    | exact inlines_new_function_type _ _
    | exact inlines_new_struct_value _
    | exact inlines_new_array_value _ _
    | exact inlines_narrowed_sequence _ _
    | exact inlines_bytes
    | exact inlines_memory_order
    | apply Inlines.bind_inlines
    | apply Inlines.ite_inlines
    | intro _)

theorem inlines_comparison_operator : Inlines 0 comparison_operator (fun _ => comparison_operator) := by
  unfold comparison_operator
  repeat (with_reducible first
    | exact Inlines.pure_inlines _
    | exact Inlines.fatal_error_inlines _ _ _
    | exact Inlines.fail_inlines _ _ _
    | exact Inlines.value_of_inlines _
    | exact Inlines.precondition_inlines _ _
    | exact Inlines.of_framed_inlines Decoder.framed_u8
    | exact Inlines.of_framed_inlines Decoder.framed_i8
    | exact Inlines.of_framed_inlines Decoder.framed_f32
    | exact Inlines.of_framed_inlines Decoder.framed_f64
    | exact Inlines.of_framed_inlines Decoder.framed_unsigned_leb128
    | exact Inlines.of_framed_inlines Decoder.framed_signed_leb128
    | exact Inlines.boolean_inlines
    | exact inlines_string
    | exact inlines_signature
    | exact Inlines.optional_inlines inlines_string
    | exact inlines_uint32
    | exact inlines_local
    | exact inlines_scope_identifier
    | exact inlines_transform_into_empty _
    | exact inlines_new_struct_type _
    | exact inlines_new_function_type _ _
    | exact inlines_new_struct_value _
    | exact inlines_new_array_value _ _
    | exact inlines_narrowed_sequence _ _
    | exact inlines_bytes
    | exact inlines_memory_order
    | exact inlines_binary_operator
    | apply Inlines.bind_inlines
    | apply Inlines.ite_inlines
    | intro _)

theorem inlines_conversion_operator : Inlines 0 conversion_operator (fun _ => conversion_operator) := by
  unfold conversion_operator
  repeat (with_reducible first
    | exact Inlines.pure_inlines _
    | exact Inlines.fatal_error_inlines _ _ _
    | exact Inlines.fail_inlines _ _ _
    | exact Inlines.value_of_inlines _
    | exact Inlines.precondition_inlines _ _
    | exact Inlines.of_framed_inlines Decoder.framed_u8
    | exact Inlines.of_framed_inlines Decoder.framed_i8
    | exact Inlines.of_framed_inlines Decoder.framed_f32
    | exact Inlines.of_framed_inlines Decoder.framed_f64
    | exact Inlines.of_framed_inlines Decoder.framed_unsigned_leb128
    | exact Inlines.of_framed_inlines Decoder.framed_signed_leb128
    | exact Inlines.boolean_inlines
    | exact inlines_string
    | exact inlines_signature
    | exact Inlines.optional_inlines inlines_string
    | exact inlines_uint32
    | exact inlines_local
    | exact inlines_scope_identifier
    | exact inlines_transform_into_empty _
    | exact inlines_new_struct_type _
    | exact inlines_new_function_type _ _
    | exact inlines_new_struct_value _
    | exact inlines_new_array_value _ _
    | exact inlines_narrowed_sequence _ _
    | exact inlines_bytes
    | exact inlines_memory_order
    | exact inlines_binary_operator
    | exact inlines_comparison_operator
    | apply Inlines.bind_inlines
    | apply Inlines.ite_inlines
    | intro _)

theorem inlines_linktime_condition :
    Inlines 0 linktime_condition (fun _ => linktime_condition) := by
  unfold linktime_condition
  exact Inlines.fatal_error_inlines _ _ _

theorem inlines_attribute : Inlines 0 attribute_ (fun _ => attribute_) := by
  unfold attribute_
  repeat (with_reducible first
    | exact Inlines.pure_inlines _
    | exact Inlines.fatal_error_inlines _ _ _
    | exact Inlines.fail_inlines _ _ _
    | exact Inlines.value_of_inlines _
    | exact Inlines.precondition_inlines _ _
    | exact Inlines.of_framed_inlines Decoder.framed_u8
    | exact Inlines.of_framed_inlines Decoder.framed_i8
    | exact Inlines.of_framed_inlines Decoder.framed_f32
    | exact Inlines.of_framed_inlines Decoder.framed_f64
    | exact Inlines.of_framed_inlines Decoder.framed_unsigned_leb128
    | exact Inlines.of_framed_inlines Decoder.framed_signed_leb128
    | exact Inlines.boolean_inlines
    | exact inlines_string
    | exact inlines_signature
    | exact Inlines.optional_inlines inlines_string
    | exact inlines_uint32
    | exact inlines_local
    | exact inlines_scope_identifier
    | exact inlines_transform_into_empty _
    | exact inlines_new_struct_type _
    | exact inlines_new_function_type _ _
    | exact inlines_new_struct_value _
    | exact inlines_new_array_value _ _
    | exact inlines_narrowed_sequence _ _
    | exact inlines_bytes
    | exact inlines_memory_order
    | exact inlines_binary_operator
    | exact inlines_comparison_operator
    | exact inlines_conversion_operator
    | exact inlines_linktime_condition
    | apply Inlines.bind_inlines
    | apply Inlines.ite_inlines
    | intro _)

theorem inlines_source_position : Inlines 0 source_position (fun _ => source_position) := by
  unfold source_position
  repeat (with_reducible first
    | exact Inlines.pure_inlines _
    | exact Inlines.fatal_error_inlines _ _ _
    | exact Inlines.fail_inlines _ _ _
    | exact Inlines.value_of_inlines _
    | exact Inlines.precondition_inlines _ _
    | exact Inlines.of_framed_inlines Decoder.framed_u8
    | exact Inlines.of_framed_inlines Decoder.framed_i8
    | exact Inlines.of_framed_inlines Decoder.framed_f32
    | exact Inlines.of_framed_inlines Decoder.framed_f64
    | exact Inlines.of_framed_inlines Decoder.framed_unsigned_leb128
    | exact Inlines.of_framed_inlines Decoder.framed_signed_leb128
    | exact Inlines.boolean_inlines
    | exact inlines_string
    | exact inlines_signature
    | exact Inlines.optional_inlines inlines_string
    | exact inlines_uint32
    | exact inlines_local
    | exact inlines_scope_identifier
    | exact inlines_transform_into_empty _
    | exact inlines_new_struct_type _
    | exact inlines_new_function_type _ _
    | exact inlines_new_struct_value _
    | exact inlines_new_array_value _ _
    | exact inlines_narrowed_sequence _ _
    | exact inlines_bytes
    | exact inlines_memory_order
    | exact inlines_binary_operator
    | exact inlines_comparison_operator
    | exact inlines_conversion_operator
    | exact inlines_linktime_condition
    | exact inlines_attribute
    | apply Inlines.bind_inlines
    | apply Inlines.ite_inlines
    | intro _)

theorem inlines_lexical_scope : Inlines 0 lexical_scope (fun _ => lexical_scope) := by
  unfold lexical_scope
  repeat (with_reducible first
    | exact Inlines.pure_inlines _
    | exact Inlines.fatal_error_inlines _ _ _
    | exact Inlines.fail_inlines _ _ _
    | exact Inlines.value_of_inlines _
    | exact Inlines.precondition_inlines _ _
    | exact Inlines.of_framed_inlines Decoder.framed_u8
    | exact Inlines.of_framed_inlines Decoder.framed_i8
    | exact Inlines.of_framed_inlines Decoder.framed_f32
    | exact Inlines.of_framed_inlines Decoder.framed_f64
    | exact Inlines.of_framed_inlines Decoder.framed_unsigned_leb128
    | exact Inlines.of_framed_inlines Decoder.framed_signed_leb128
    | exact Inlines.boolean_inlines
    | exact inlines_string
    | exact inlines_signature
    | exact Inlines.optional_inlines inlines_string
    | exact inlines_uint32
    | exact inlines_local
    | exact inlines_scope_identifier
    | exact inlines_transform_into_empty _
    | exact inlines_new_struct_type _
    | exact inlines_new_function_type _ _
    | exact inlines_new_struct_value _
    | exact inlines_new_array_value _ _
    | exact inlines_narrowed_sequence _ _
    | exact inlines_bytes
    | exact inlines_memory_order
    | exact inlines_binary_operator
    | exact inlines_comparison_operator
    | exact inlines_conversion_operator
    | exact inlines_linktime_condition
    | exact inlines_attribute
    | exact inlines_source_position
    | apply Inlines.bind_inlines
    | apply Inlines.ite_inlines
    | intro _)

theorem inlines_local_name_loop : ∀ (count : Nat) (r : List (Local × Bytes)),
    Inlines 0 (local_name_loop count r) (fun _ => local_name_loop count r) := by
  intro count
  induction count with
  | zero => intro r; exact Inlines.pure_inlines _
  | succ n ih =>
    intro r
    rw [local_name_loop]
    exact Inlines.bind_inlines inlines_local
      (fun _ => Inlines.bind_inlines inlines_string (fun _ => ih _))

theorem inlines_local_name : Inlines 0 local_name (fun _ => local_name) := by
  unfold local_name
  exact Inlines.bind_inlines (Inlines.of_framed_inlines Decoder.framed_unsigned_leb128)
    (fun n => inlines_local_name_loop n [])

theorem inlines_debug : Inlines 0 debug (fun _ => debug) := by
  unfold debug
  exact Inlines.bind_inlines inlines_local_name
    (fun _ => Inlines.bind_inlines (Inlines.sequence_inlines inlines_lexical_scope)
      (fun _ => Inlines.pure_inlines _))

/-- What `symbol` returns has an encoding without back-references. -/
theorem inlines_symbol : ∀ fuel : Nat, Inlines 0 (symbol fuel) symbol := by
  intro fuel
  induction fuel with
  | zero =>
    rw [symbol]
    exact Inlines.fail_inlines _ _ _
  | succ fuel ih =>
    rw [symbol]
    refine Inlines.internable_inlines Memo.symbols Memo.lawful_symbols symbol
      (fun ds v h hv => h.2.1 v hv) inlinable_push_symbol
      (fun n => by rw [symbol]) (fun t => ?_)
    repeat (with_reducible first
      | exact Inlines.pure_inlines _
      | exact Inlines.fatal_error_inlines _ _ _
      | exact Inlines.fail_inlines _ _ _
      | exact Inlines.value_of_inlines _
      | exact Inlines.precondition_inlines _ _
      | exact Inlines.of_framed_inlines Decoder.framed_u8
      | exact Inlines.of_framed_inlines Decoder.framed_i8
      | exact Inlines.of_framed_inlines Decoder.framed_f32
      | exact Inlines.of_framed_inlines Decoder.framed_f64
      | exact Inlines.of_framed_inlines Decoder.framed_unsigned_leb128
      | exact Inlines.of_framed_inlines Decoder.framed_signed_leb128
      | exact Inlines.boolean_inlines
      | exact inlines_string
      | exact inlines_signature
      | exact Inlines.optional_inlines inlines_string
      | exact inlines_uint32
      | exact inlines_local
      | exact inlines_scope_identifier
      | exact inlines_transform_into_empty _
      | exact inlines_new_struct_type _
      | exact inlines_new_function_type _ _
      | exact inlines_new_struct_value _
      | exact inlines_new_array_value _ _
      | exact inlines_narrowed_sequence _ _
      | exact inlines_bytes
      | exact inlines_memory_order
      | exact inlines_binary_operator
      | exact inlines_comparison_operator
      | exact inlines_conversion_operator
      | exact inlines_linktime_condition
      | exact inlines_attribute
      | exact inlines_source_position
      | exact inlines_lexical_scope
      | exact inlines_debug
      | exact Inlines.sequence_inlines inlines_attribute
      | exact Inlines.sequence_inlines inlines_uint32
      | exact ih
      | exact Inlines.sequence_inlines ih
      | apply Inlines.bind_inlines
      | apply Inlines.ite_inlines
      | intro _)

/-- What `type` returns has an encoding without back-references. -/
theorem inlines_type : ∀ fuel : Nat, Inlines 0 (type_ fuel) type_ := by
  intro fuel
  induction fuel with
  | zero =>
    rw [type_]
    exact Inlines.fail_inlines _ _ _
  | succ fuel ih =>
    have hsym : Inlines 0 (symbol fuel) symbol := inlines_symbol fuel
    rw [type_]
    refine Inlines.internable_inlines Memo.types Memo.lawful_types type_
      (fun ds v h hv => h.2.2.1 v hv) inlinable_push_type
      (fun n => by rw [type_]) (fun t => ?_)
    repeat (with_reducible first
      | exact Inlines.pure_inlines _
      | exact Inlines.fatal_error_inlines _ _ _
      | exact Inlines.fail_inlines _ _ _
      | exact Inlines.value_of_inlines _
      | exact Inlines.precondition_inlines _ _
      | exact Inlines.of_framed_inlines Decoder.framed_u8
      | exact Inlines.of_framed_inlines Decoder.framed_i8
      | exact Inlines.of_framed_inlines Decoder.framed_f32
      | exact Inlines.of_framed_inlines Decoder.framed_f64
      | exact Inlines.of_framed_inlines Decoder.framed_unsigned_leb128
      | exact Inlines.of_framed_inlines Decoder.framed_signed_leb128
      | exact Inlines.boolean_inlines
      | exact inlines_string
      | exact inlines_signature
      | exact Inlines.optional_inlines inlines_string
      | exact inlines_uint32
      | exact inlines_local
      | exact inlines_scope_identifier
      | exact inlines_transform_into_empty _
      | exact inlines_new_struct_type _
      | exact inlines_new_function_type _ _
      | exact inlines_new_struct_value _
      | exact inlines_new_array_value _ _
      | exact inlines_narrowed_sequence _ _
      | exact inlines_bytes
      | exact inlines_memory_order
      | exact inlines_binary_operator
      | exact inlines_comparison_operator
      | exact inlines_conversion_operator
      | exact inlines_linktime_condition
      | exact inlines_attribute
      | exact inlines_source_position
      | exact inlines_lexical_scope
      | exact inlines_debug
      | exact Inlines.sequence_inlines inlines_attribute
      | exact Inlines.sequence_inlines inlines_uint32
      | exact ih
      | exact Inlines.sequence_inlines ih
      | exact hsym
      | apply Inlines.bind_inlines
      | apply Inlines.ite_inlines
      | intro _)

/-- What `value` returns has an encoding without back-references. -/
theorem inlines_value : ∀ fuel : Nat, Inlines 0 (value fuel) value := by
  intro fuel
  induction fuel with
  | zero =>
    rw [value]
    exact Inlines.fail_inlines _ _ _
  | succ fuel ih =>
    have hsym : Inlines 0 (symbol fuel) symbol := inlines_symbol fuel
    have htype : Inlines 0 (type_ fuel) type_ := inlines_type fuel
    rw [value]
    refine Inlines.internable_inlines Memo.values Memo.lawful_values value
      (fun ds v h hv => h.2.2.2 v hv) inlinable_push_value
      (fun n => by rw [value]) (fun t => ?_)
    repeat (with_reducible first
      | exact Inlines.pure_inlines _
      | exact Inlines.fatal_error_inlines _ _ _
      | exact Inlines.fail_inlines _ _ _
      | exact Inlines.value_of_inlines _
      | exact Inlines.precondition_inlines _ _
      | exact Inlines.of_framed_inlines Decoder.framed_u8
      | exact Inlines.of_framed_inlines Decoder.framed_i8
      | exact Inlines.of_framed_inlines Decoder.framed_f32
      | exact Inlines.of_framed_inlines Decoder.framed_f64
      | exact Inlines.of_framed_inlines Decoder.framed_unsigned_leb128
      | exact Inlines.of_framed_inlines Decoder.framed_signed_leb128
      | exact Inlines.boolean_inlines
      | exact inlines_string
      | exact inlines_signature
      | exact Inlines.optional_inlines inlines_string
      | exact inlines_uint32
      | exact inlines_local
      | exact inlines_scope_identifier
      | exact inlines_transform_into_empty _
      | exact inlines_new_struct_type _
      | exact inlines_new_function_type _ _
      | exact inlines_new_struct_value _
      | exact inlines_new_array_value _ _
      | exact inlines_narrowed_sequence _ _
      | exact inlines_bytes
      | exact inlines_memory_order
      | exact inlines_binary_operator
      | exact inlines_comparison_operator
      | exact inlines_conversion_operator
      | exact inlines_linktime_condition
      | exact inlines_attribute
      | exact inlines_source_position
      | exact inlines_lexical_scope
      | exact inlines_debug
      | exact Inlines.sequence_inlines inlines_attribute
      | exact Inlines.sequence_inlines inlines_uint32
      | exact ih
      | exact Inlines.sequence_inlines ih
      | exact hsym
      | exact htype
      | exact Inlines.sequence_inlines htype
      | apply Inlines.bind_inlines
      | apply Inlines.ite_inlines
      | intro _)

theorem inlines_function_type (fuel : Nat) :
    Inlines 0 (function_type fuel) (fun n => function_type n) := by
  have hsym : Inlines 0 (symbol fuel) symbol := inlines_symbol fuel
  have htype : Inlines 0 (type_ fuel) type_ := inlines_type fuel
  have hvalue : Inlines 0 (value fuel) value := inlines_value fuel
  unfold function_type
  repeat (with_reducible first
    | exact Inlines.pure_inlines _
    | exact Inlines.fatal_error_inlines _ _ _
    | exact Inlines.fail_inlines _ _ _
    | exact Inlines.value_of_inlines _
    | exact Inlines.precondition_inlines _ _
    | exact Inlines.of_framed_inlines Decoder.framed_u8
    | exact Inlines.of_framed_inlines Decoder.framed_i8
    | exact Inlines.of_framed_inlines Decoder.framed_f32
    | exact Inlines.of_framed_inlines Decoder.framed_f64
    | exact Inlines.of_framed_inlines Decoder.framed_unsigned_leb128
    | exact Inlines.of_framed_inlines Decoder.framed_signed_leb128
    | exact Inlines.boolean_inlines
    | exact inlines_string
    | exact inlines_signature
    | exact Inlines.optional_inlines inlines_string
    | exact inlines_uint32
    | exact inlines_local
    | exact inlines_scope_identifier
    | exact inlines_transform_into_empty _
    | exact inlines_new_struct_type _
    | exact inlines_new_function_type _ _
    | exact inlines_new_struct_value _
    | exact inlines_new_array_value _ _
    | exact inlines_narrowed_sequence _ _
    | exact inlines_bytes
    | exact inlines_memory_order
    | exact inlines_binary_operator
    | exact inlines_comparison_operator
    | exact inlines_conversion_operator
    | exact inlines_linktime_condition
    | exact inlines_attribute
    | exact inlines_source_position
    | exact inlines_lexical_scope
    | exact inlines_debug
    | exact Inlines.sequence_inlines inlines_attribute
    | exact Inlines.sequence_inlines inlines_uint32
    | exact hsym
    | exact htype
    | exact hvalue
    | exact Inlines.sequence_inlines hsym
    | exact Inlines.sequence_inlines htype
    | exact Inlines.sequence_inlines hvalue
    | exact Inlines.optional_inlines hsym
    | exact Inlines.optional_inlines hvalue
    | apply Inlines.bind_inlines
    | apply Inlines.ite_inlines
    | intro _)

theorem inlines_top_symbol (fuel : Nat) :
    Inlines 0 (top_symbol fuel) (fun n => top_symbol n) := by
  have hsym : Inlines 0 (symbol fuel) symbol := inlines_symbol fuel
  have htype : Inlines 0 (type_ fuel) type_ := inlines_type fuel
  have hvalue : Inlines 0 (value fuel) value := inlines_value fuel
  unfold top_symbol
  repeat (with_reducible first
    | exact Inlines.pure_inlines _
    | exact Inlines.fatal_error_inlines _ _ _
    | exact Inlines.fail_inlines _ _ _
    | exact Inlines.value_of_inlines _
    | exact Inlines.precondition_inlines _ _
    | exact Inlines.of_framed_inlines Decoder.framed_u8
    | exact Inlines.of_framed_inlines Decoder.framed_i8
    | exact Inlines.of_framed_inlines Decoder.framed_f32
    | exact Inlines.of_framed_inlines Decoder.framed_f64
    | exact Inlines.of_framed_inlines Decoder.framed_unsigned_leb128
    | exact Inlines.of_framed_inlines Decoder.framed_signed_leb128
    | exact Inlines.boolean_inlines
    | exact inlines_string
    | exact inlines_signature
    | exact Inlines.optional_inlines inlines_string
    | exact inlines_uint32
    | exact inlines_local
    | exact inlines_scope_identifier
    | exact inlines_transform_into_empty _
    | exact inlines_new_struct_type _
    | exact inlines_new_function_type _ _
    | exact inlines_new_struct_value _
    | exact inlines_new_array_value _ _
    | exact inlines_narrowed_sequence _ _
    | exact inlines_bytes
    | exact inlines_memory_order
    | exact inlines_binary_operator
    | exact inlines_comparison_operator
    | exact inlines_conversion_operator
    | exact inlines_linktime_condition
    | exact inlines_attribute
    | exact inlines_source_position
    | exact inlines_lexical_scope
    | exact inlines_debug
    | exact Inlines.sequence_inlines inlines_attribute
    | exact Inlines.sequence_inlines inlines_uint32
    | exact hsym
    | exact htype
    | exact hvalue
    | exact Inlines.sequence_inlines hsym
    | exact Inlines.sequence_inlines htype
    | exact Inlines.sequence_inlines hvalue
    | exact Inlines.optional_inlines hsym
    | exact Inlines.optional_inlines hvalue
    | exact inlines_function_type fuel
    | apply Inlines.bind_inlines
    | apply Inlines.ite_inlines
    | intro _)

theorem inlines_member_symbol (fuel : Nat) :
    Inlines 0 (member_symbol fuel) (fun n => member_symbol n) := by
  have hsym : Inlines 0 (symbol fuel) symbol := inlines_symbol fuel
  have htype : Inlines 0 (type_ fuel) type_ := inlines_type fuel
  have hvalue : Inlines 0 (value fuel) value := inlines_value fuel
  unfold member_symbol
  repeat (with_reducible first
    | exact Inlines.pure_inlines _
    | exact Inlines.fatal_error_inlines _ _ _
    | exact Inlines.fail_inlines _ _ _
    | exact Inlines.value_of_inlines _
    | exact Inlines.precondition_inlines _ _
    | exact Inlines.of_framed_inlines Decoder.framed_u8
    | exact Inlines.of_framed_inlines Decoder.framed_i8
    | exact Inlines.of_framed_inlines Decoder.framed_f32
    | exact Inlines.of_framed_inlines Decoder.framed_f64
    | exact Inlines.of_framed_inlines Decoder.framed_unsigned_leb128
    | exact Inlines.of_framed_inlines Decoder.framed_signed_leb128
    | exact Inlines.boolean_inlines
    | exact inlines_string
    | exact inlines_signature
    | exact Inlines.optional_inlines inlines_string
    | exact inlines_uint32
    | exact inlines_local
    | exact inlines_scope_identifier
    | exact inlines_transform_into_empty _
    | exact inlines_new_struct_type _
    | exact inlines_new_function_type _ _
    | exact inlines_new_struct_value _
    | exact inlines_new_array_value _ _
    | exact inlines_narrowed_sequence _ _
    | exact inlines_bytes
    | exact inlines_memory_order
    | exact inlines_binary_operator
    | exact inlines_comparison_operator
    | exact inlines_conversion_operator
    | exact inlines_linktime_condition
    | exact inlines_attribute
    | exact inlines_source_position
    | exact inlines_lexical_scope
    | exact inlines_debug
    | exact Inlines.sequence_inlines inlines_attribute
    | exact Inlines.sequence_inlines inlines_uint32
    | exact hsym
    | exact htype
    | exact hvalue
    | exact Inlines.sequence_inlines hsym
    | exact Inlines.sequence_inlines htype
    | exact Inlines.sequence_inlines hvalue
    | exact Inlines.optional_inlines hsym
    | exact Inlines.optional_inlines hvalue
    | exact inlines_function_type fuel
    | exact inlines_top_symbol fuel
    | apply Inlines.bind_inlines
    | apply Inlines.ite_inlines
    | intro _)

theorem inlines_label_argument (fuel : Nat) :
    Inlines 0 (label_argument fuel) (fun n => label_argument n) := by
  have hsym : Inlines 0 (symbol fuel) symbol := inlines_symbol fuel
  have htype : Inlines 0 (type_ fuel) type_ := inlines_type fuel
  have hvalue : Inlines 0 (value fuel) value := inlines_value fuel
  unfold label_argument
  repeat (with_reducible first
    | exact Inlines.pure_inlines _
    | exact Inlines.fatal_error_inlines _ _ _
    | exact Inlines.fail_inlines _ _ _
    | exact Inlines.value_of_inlines _
    | exact Inlines.precondition_inlines _ _
    | exact Inlines.of_framed_inlines Decoder.framed_u8
    | exact Inlines.of_framed_inlines Decoder.framed_i8
    | exact Inlines.of_framed_inlines Decoder.framed_f32
    | exact Inlines.of_framed_inlines Decoder.framed_f64
    | exact Inlines.of_framed_inlines Decoder.framed_unsigned_leb128
    | exact Inlines.of_framed_inlines Decoder.framed_signed_leb128
    | exact Inlines.boolean_inlines
    | exact inlines_string
    | exact inlines_signature
    | exact Inlines.optional_inlines inlines_string
    | exact inlines_uint32
    | exact inlines_local
    | exact inlines_scope_identifier
    | exact inlines_transform_into_empty _
    | exact inlines_new_struct_type _
    | exact inlines_new_function_type _ _
    | exact inlines_new_struct_value _
    | exact inlines_new_array_value _ _
    | exact inlines_narrowed_sequence _ _
    | exact inlines_bytes
    | exact inlines_memory_order
    | exact inlines_binary_operator
    | exact inlines_comparison_operator
    | exact inlines_conversion_operator
    | exact inlines_linktime_condition
    | exact inlines_attribute
    | exact inlines_source_position
    | exact inlines_lexical_scope
    | exact inlines_debug
    | exact Inlines.sequence_inlines inlines_attribute
    | exact Inlines.sequence_inlines inlines_uint32
    | exact hsym
    | exact htype
    | exact hvalue
    | exact Inlines.sequence_inlines hsym
    | exact Inlines.sequence_inlines htype
    | exact Inlines.sequence_inlines hvalue
    | exact Inlines.optional_inlines hsym
    | exact Inlines.optional_inlines hvalue
    | exact inlines_function_type fuel
    | exact inlines_top_symbol fuel
    | exact inlines_member_symbol fuel
    | apply Inlines.bind_inlines
    | apply Inlines.ite_inlines
    | intro _)

/-- What `next` returns has an encoding without back-references. -/
theorem inlines_next : ∀ fuel : Nat, Inlines 0 (next fuel) next := by
  intro fuel
  induction fuel with
  | zero =>
    rw [next]
    exact Inlines.fail_inlines _ _ _
  | succ fuel ih =>
    have hsym : Inlines 0 (symbol fuel) symbol := inlines_symbol fuel
    have htype : Inlines 0 (type_ fuel) type_ := inlines_type fuel
    have hvalue : Inlines 0 (value fuel) value := inlines_value fuel
    rw [next]
    refine Inlines.tagged_inlines next (fun n => by rw [next]) (fun t => ?_)
    repeat (with_reducible first
      | exact Inlines.pure_inlines _
      | exact Inlines.fatal_error_inlines _ _ _
      | exact Inlines.fail_inlines _ _ _
      | exact Inlines.value_of_inlines _
      | exact Inlines.precondition_inlines _ _
      | exact Inlines.of_framed_inlines Decoder.framed_u8
      | exact Inlines.of_framed_inlines Decoder.framed_i8
      | exact Inlines.of_framed_inlines Decoder.framed_f32
      | exact Inlines.of_framed_inlines Decoder.framed_f64
      | exact Inlines.of_framed_inlines Decoder.framed_unsigned_leb128
      | exact Inlines.of_framed_inlines Decoder.framed_signed_leb128
      | exact Inlines.boolean_inlines
      | exact inlines_string
      | exact inlines_signature
      | exact Inlines.optional_inlines inlines_string
      | exact inlines_uint32
      | exact inlines_local
      | exact inlines_scope_identifier
      | exact inlines_transform_into_empty _
      | exact inlines_new_struct_type _
      | exact inlines_new_function_type _ _
      | exact inlines_new_struct_value _
      | exact inlines_new_array_value _ _
      | exact inlines_narrowed_sequence _ _
      | exact inlines_bytes
      | exact inlines_memory_order
      | exact inlines_binary_operator
      | exact inlines_comparison_operator
      | exact inlines_conversion_operator
      | exact inlines_linktime_condition
      | exact inlines_attribute
      | exact inlines_source_position
      | exact inlines_lexical_scope
      | exact inlines_debug
      | exact Inlines.sequence_inlines inlines_attribute
      | exact Inlines.sequence_inlines inlines_uint32
      | exact ih
      | exact Inlines.sequence_inlines ih
      | exact hsym
      | exact htype
      | exact hvalue
      | exact Inlines.sequence_inlines hsym
      | exact Inlines.sequence_inlines htype
      | exact Inlines.sequence_inlines hvalue
      | exact Inlines.optional_inlines hsym
      | exact Inlines.optional_inlines hvalue
      | exact inlines_function_type fuel
      | exact inlines_top_symbol fuel
      | exact inlines_member_symbol fuel
      | exact inlines_label_argument fuel
      | exact Inlines.sequence_inlines (inlines_label_argument fuel)
      | apply Inlines.bind_inlines
      | apply Inlines.ite_inlines
      | intro _)

/-- What `operation` returns has an encoding without back-references. -/
theorem inlines_operation (fuel : Nat) : Inlines 1 (operation fuel) (fun n => operation n) := by
  have hsym : Inlines 0 (symbol fuel) symbol := inlines_symbol fuel
  have htype : Inlines 0 (type_ fuel) type_ := inlines_type fuel
  have hvalue : Inlines 0 (value fuel) value := inlines_value fuel
  unfold operation
  refine Inlines.after_tag_inlines (fun t => ?_)
  repeat (with_reducible first
    | exact Inlines.pure_inlines _
    | exact Inlines.fatal_error_inlines _ _ _
    | exact Inlines.fail_inlines _ _ _
    | exact Inlines.value_of_inlines _
    | exact Inlines.precondition_inlines _ _
    | exact Inlines.of_framed_inlines Decoder.framed_u8
    | exact Inlines.of_framed_inlines Decoder.framed_i8
    | exact Inlines.of_framed_inlines Decoder.framed_f32
    | exact Inlines.of_framed_inlines Decoder.framed_f64
    | exact Inlines.of_framed_inlines Decoder.framed_unsigned_leb128
    | exact Inlines.of_framed_inlines Decoder.framed_signed_leb128
    | exact Inlines.boolean_inlines
    | exact inlines_string
    | exact inlines_signature
    | exact Inlines.optional_inlines inlines_string
    | exact inlines_uint32
    | exact inlines_local
    | exact inlines_scope_identifier
    | exact inlines_transform_into_empty _
    | exact inlines_new_struct_type _
    | exact inlines_new_function_type _ _
    | exact inlines_new_struct_value _
    | exact inlines_new_array_value _ _
    | exact inlines_narrowed_sequence _ _
    | exact inlines_bytes
    | exact inlines_memory_order
    | exact inlines_binary_operator
    | exact inlines_comparison_operator
    | exact inlines_conversion_operator
    | exact inlines_linktime_condition
    | exact inlines_attribute
    | exact inlines_source_position
    | exact inlines_lexical_scope
    | exact inlines_debug
    | exact Inlines.sequence_inlines inlines_attribute
    | exact Inlines.sequence_inlines inlines_uint32
    | exact hsym
    | exact htype
    | exact hvalue
    | exact Inlines.sequence_inlines hsym
    | exact Inlines.sequence_inlines htype
    | exact Inlines.sequence_inlines hvalue
    | exact Inlines.optional_inlines hsym
    | exact Inlines.optional_inlines hvalue
    | exact inlines_function_type fuel
    | exact inlines_top_symbol fuel
    | exact inlines_member_symbol fuel
    | exact inlines_label_argument fuel
    | exact Inlines.sequence_inlines (inlines_label_argument fuel)
    | apply Inlines.bind_inlines
    | apply Inlines.ite_inlines
    | intro _)

/-- What `instruction` returns has an encoding without back-references. -/
theorem inlines_instruction (fuel : Nat) : Inlines 1 (instruction fuel) (fun n => instruction n) := by
  have hsym : Inlines 0 (symbol fuel) symbol := inlines_symbol fuel
  have htype : Inlines 0 (type_ fuel) type_ := inlines_type fuel
  have hvalue : Inlines 0 (value fuel) value := inlines_value fuel
  have hnext : Inlines 0 (next fuel) next := inlines_next fuel
  have hop : Inlines 0 (operation fuel) (fun n => operation n) :=
    (inlines_operation fuel).mono_inlines
  unfold instruction
  refine Inlines.after_tag_inlines (fun t => ?_)
  repeat (with_reducible first
    | exact Inlines.pure_inlines _
    | exact Inlines.fatal_error_inlines _ _ _
    | exact Inlines.fail_inlines _ _ _
    | exact Inlines.value_of_inlines _
    | exact Inlines.precondition_inlines _ _
    | exact Inlines.of_framed_inlines Decoder.framed_u8
    | exact Inlines.of_framed_inlines Decoder.framed_i8
    | exact Inlines.of_framed_inlines Decoder.framed_f32
    | exact Inlines.of_framed_inlines Decoder.framed_f64
    | exact Inlines.of_framed_inlines Decoder.framed_unsigned_leb128
    | exact Inlines.of_framed_inlines Decoder.framed_signed_leb128
    | exact Inlines.boolean_inlines
    | exact inlines_string
    | exact inlines_signature
    | exact Inlines.optional_inlines inlines_string
    | exact inlines_uint32
    | exact inlines_local
    | exact inlines_scope_identifier
    | exact inlines_transform_into_empty _
    | exact inlines_new_struct_type _
    | exact inlines_new_function_type _ _
    | exact inlines_new_struct_value _
    | exact inlines_new_array_value _ _
    | exact inlines_narrowed_sequence _ _
    | exact inlines_bytes
    | exact inlines_memory_order
    | exact inlines_binary_operator
    | exact inlines_comparison_operator
    | exact inlines_conversion_operator
    | exact inlines_linktime_condition
    | exact inlines_attribute
    | exact inlines_source_position
    | exact inlines_lexical_scope
    | exact inlines_debug
    | exact Inlines.sequence_inlines inlines_attribute
    | exact Inlines.sequence_inlines inlines_uint32
    | exact hsym
    | exact htype
    | exact hvalue
    | exact Inlines.sequence_inlines hsym
    | exact Inlines.sequence_inlines htype
    | exact Inlines.sequence_inlines hvalue
    | exact Inlines.optional_inlines hsym
    | exact Inlines.optional_inlines hvalue
    | exact inlines_function_type fuel
    | exact inlines_top_symbol fuel
    | exact inlines_member_symbol fuel
    | exact inlines_label_argument fuel
    | exact Inlines.sequence_inlines (inlines_label_argument fuel)
    | exact hnext
    | exact hop
    | exact Inlines.sequence_inlines hnext
    | apply Inlines.bind_inlines
    | apply Inlines.ite_inlines
    | intro _)

/-- What `definition` returns has an encoding without back-references. -/
theorem inlines_definition (fuel : Nat) : Inlines 1 (definition fuel) (fun n => definition n) := by
  have hsym : Inlines 0 (symbol fuel) symbol := inlines_symbol fuel
  have htype : Inlines 0 (type_ fuel) type_ := inlines_type fuel
  have hvalue : Inlines 0 (value fuel) value := inlines_value fuel
  have hins : Inlines 0 (instruction fuel) (fun n => instruction n) :=
    (inlines_instruction fuel).mono_inlines
  unfold definition
  refine Inlines.after_tag_inlines (fun t => ?_)
  repeat (with_reducible first
    | exact Inlines.pure_inlines _
    | exact Inlines.fatal_error_inlines _ _ _
    | exact Inlines.fail_inlines _ _ _
    | exact Inlines.value_of_inlines _
    | exact Inlines.precondition_inlines _ _
    | exact Inlines.of_framed_inlines Decoder.framed_u8
    | exact Inlines.of_framed_inlines Decoder.framed_i8
    | exact Inlines.of_framed_inlines Decoder.framed_f32
    | exact Inlines.of_framed_inlines Decoder.framed_f64
    | exact Inlines.of_framed_inlines Decoder.framed_unsigned_leb128
    | exact Inlines.of_framed_inlines Decoder.framed_signed_leb128
    | exact Inlines.boolean_inlines
    | exact inlines_string
    | exact inlines_signature
    | exact Inlines.optional_inlines inlines_string
    | exact inlines_uint32
    | exact inlines_local
    | exact inlines_scope_identifier
    | exact inlines_transform_into_empty _
    | exact inlines_new_struct_type _
    | exact inlines_new_function_type _ _
    | exact inlines_new_struct_value _
    | exact inlines_new_array_value _ _
    | exact inlines_narrowed_sequence _ _
    | exact inlines_bytes
    | exact inlines_memory_order
    | exact inlines_binary_operator
    | exact inlines_comparison_operator
    | exact inlines_conversion_operator
    | exact inlines_linktime_condition
    | exact inlines_attribute
    | exact inlines_source_position
    | exact inlines_lexical_scope
    | exact inlines_debug
    | exact Inlines.sequence_inlines inlines_attribute
    | exact Inlines.sequence_inlines inlines_uint32
    | exact hsym
    | exact htype
    | exact hvalue
    | exact Inlines.sequence_inlines hsym
    | exact Inlines.sequence_inlines htype
    | exact Inlines.sequence_inlines hvalue
    | exact Inlines.optional_inlines hsym
    | exact Inlines.optional_inlines hvalue
    | exact inlines_function_type fuel
    | exact inlines_top_symbol fuel
    | exact inlines_member_symbol fuel
    | exact inlines_label_argument fuel
    | exact Inlines.sequence_inlines (inlines_label_argument fuel)
    | exact Inlines.sequence_inlines hins
    | apply Inlines.bind_inlines
    | apply Inlines.ite_inlines
    | intro _)

end Deserializer

/-! ### The encoding of a file without back-references -/

theorem Deserializer.inlinable_initial (source : Decoder) :
    Deserializer.Inlinable ⟨source, [], [], [], []⟩ :=
  ⟨fun _ h => (by cases h), fun _ h => (by cases h), fun _ h => (by cases h),
    fun _ h => (by cases h)⟩

/-- The loop of `File.from_contents` on a source whose definitions can be read one after
another to its end. -/
theorem File.read_definitions_of_chain (depth : Nat) (contents : List UInt8) (n : Nat)
    (defs : List Definition) (ds0 ds : Deserializer) (h12 : ds0.source.position = 12)
    (hchain : Deserializer.sequence_loop (Deserializer.definition depth) n ds0 =
      Except.ok (defs, ds))
    (hsource : ds.source.source = contents) (hend : ds.source.position = contents.length) :
    File.read_definitions depth (contents.length + 1) ds0 [] = Except.ok (defs, ds) := by
  have hn := Deserializer.definitions_consume depth n ds0 defs ds hchain
  have hloop := File.read_definitions_of_sequence depth n ds0 [] defs ds
    (contents.length - n + 1) hchain
  rw [show contents.length - n + 1 + n = contents.length + 1 by omega] at hloop
  rw [hloop, File.read_definitions,
    (Deserializer.is_empty_iff ds.source).mpr (by rw [hsource]; exact hend)]
  simp

/-- A file that decodes has an encoding that takes nothing from the memos: the same
header, then bytes from which the same definitions are read whatever the memos hold at
the start. -/
theorem File.inlined_encoding (contents : List UInt8) (file : File) (final : Deserializer)
    (h : File.from_contents contents = Except.ok (file, final))
    (hsize : contents.length < 2 ^ 63) :
    ∃ inlined : List UInt8, inlined.take 12 = contents.take 12 ∧
      (∃ ds2, File.from_contents inlined = Except.ok (file, ds2)) ∧
      ∀ (strings : List Bytes) (symbols : List Symbol) (types : List Type_)
        (values : List Value),
        ∃ ds2, File.read_definitions (inlined.length + 1) (inlined.length + 1)
          ⟨⟨inlined, 12, Endian.little⟩, strings, symbols, types, values⟩ [] =
            Except.ok (file.definitions, ds2) := by
  obtain ⟨hheader, hseq, _, hpos⟩ := File.from_contents_sound contents file final h
  obtain ⟨b4, b5, b6, b7, b8, b9, b10, b11, tail, hcontents, hhdr, _⟩ :=
    Header.decode_ok_inv contents file.header _ hheader
  have hinl := (Deserializer.Inlines.sequence_loop_inlines
    (Deserializer.inlines_definition (contents.length + 1)).mono_inlines
    file.definitions.length) _ _ _ hseq
  obtain ⟨_, C, hC⟩ := hinl.2 (Deserializer.inlinable_initial _) (by rw [hpos]; exact hsize)
  have htake : contents.take 12 =
      [0x2E, 0x4E, 0x49, 0x52, b4, b5, b6, b7, b8, b9, b10, b11] := by
    rw [hcontents]; rfl
  have hlen : (contents.take 12 ++ C).length = 12 + C.length := by
    rw [htake]
    simp only [List.length_append, List.length_cons, List.length_nil]
  have hrest : ∀ (strings : List Bytes) (symbols : List Symbol) (types : List Type_)
      (values : List Value),
      Deserializer.rest ⟨⟨contents.take 12 ++ C, 12, Endian.little⟩, strings, symbols,
        types, values⟩ = C ++ [] := by
    intro strings symbols types values
    rw [htake]
    simp [Deserializer.rest, Decoder.rest]
  have hrun : ∀ (strings : List Bytes) (symbols : List Symbol) (types : List Type_)
      (values : List Value), ∃ ds2,
      Deserializer.sequence_loop
        (Deserializer.definition ((contents.take 12 ++ C).length + 1))
        file.definitions.length
        ⟨⟨contents.take 12 ++ C, 12, Endian.little⟩, strings, symbols, types, values⟩ =
        Except.ok (file.definitions, ds2) ∧
      ds2.source.source = contents.take 12 ++ C ∧
      ds2.source.position = (contents.take 12 ++ C).length := by
    intro strings symbols types values
    obtain ⟨E, hE⟩ := hC ((contents.take 12 ++ C).length + 1) (by rw [hlen]; omega)
      ⟨⟨contents.take 12 ++ C, 12, Endian.little⟩, strings, symbols, types, values⟩ [] rfl
      (hrest strings symbols types values)
    exact ⟨_, hE, rfl, by rw [hlen]; rfl⟩
  refine ⟨contents.take 12 ++ C, ?_, ?_, fun strings symbols types values => ?_⟩
  · rw [htake]; rfl
  · obtain ⟨ds2, hchain, _, hend⟩ := hrun [] [] [] []
    have hheader2 : Header.decode ⟨contents.take 12 ++ C, 0, Endian.big⟩ =
        Except.ok (file.header, ⟨contents.take 12 ++ C, 12, Endian.big⟩) := by
      rw [hhdr]
      exact (Header.decode_at_start _).2.1 b4 b5 b6 b7 b8 b9 b10 b11 C (by rw [htake]; rfl)
    exact ⟨ds2, File.from_contents_complete _ _ _ _ _ _ _ hheader2 hchain hend⟩
  · obtain ⟨ds2, hchain, hsource, hend⟩ := hrun strings symbols types values
    exact ⟨ds2, File.read_definitions_of_chain _ _ _ _ _ _ rfl hchain hsource hend⟩

namespace Deserializer

/-- C7: decoding does not depend on whether back-references are taken.

At one point: let an element (a symbol, a type or a value) be decoded inline from the
state `ds` (the byte at the cursor is not `FF`) over more than two bytes, the decode
ending in the state `ds1`. Then the element is memoized at the index
`i = length - 1` of the memo of its category, and in any state `later` with the same byte
order whose memos extend those of `ds1`, with any recursion bound that is no smaller,
decoding the back-reference `FF ULEB(i)` (for `i < 2^63`) and decoding the same inline
bytes again (the bytes `ds.consumed ds1`) return that element; the inline decode appends
the same entries to the memos again.

For a file: let `contents`, of fewer than `2^63` bytes, decode to `file`, taking whatever
back-references and records of the string table. Then there is an encoding `inlined` with
the same header that takes nothing from the memos, and it yields the same IR:
`File.from_contents inlined` returns `file`, and the loop of `File.from_contents` reads
the definitions of `file` from `inlined` whatever the four memos hold when it starts, so
that no element read from `inlined` comes from a memo. (In `inlined` every back-reference
and every record of the string table is replaced by an inline encoding; inlining some
references only, without renumbering the later ones, gives another IR, see
`inlining_one_reference_shifts_the_indices`.) -/
theorem inlined_encoding_yields_equal_ir (fuel fuel2 : Nat) (ds ds1 later : Deserializer)
    (contents : List UInt8) (file : File) (final : Deserializer) :
    (fuel ≤ fuel2 → (∀ tail, ds.rest ≠ 0xFF :: tail) →
      ds.source.position + 2 < ds1.source.position →
      later.source.byte_order = ds.source.byte_order → ds1.memos_le later →
      (∀ v, symbol fuel ds = Except.ok (v, ds1) →
        ds1.interned_symbols.get? (ds1.interned_symbols.length - 1) = some v ∧
        (∀ post, ds1.interned_symbols.length - 1 < 2 ^ 63 →
          later.rest = 0xFF :: (uleb128 (ds1.interned_symbols.length - 1) ++ post) →
          symbol fuel2 later = Except.ok (v,
            later.advanced (1 + (uleb128 (ds1.interned_symbols.length - 1)).length))) ∧
        ∃ E, ds1 = ds.extend (ds.consumed ds1).length E ∧
          ∀ post, later.rest = ds.consumed ds1 ++ post →
            symbol fuel2 later = Except.ok (v, later.extend (ds.consumed ds1).length E)) ∧
      (∀ v, type_ fuel ds = Except.ok (v, ds1) →
        ds1.interned_types.get? (ds1.interned_types.length - 1) = some v ∧
        (∀ post, ds1.interned_types.length - 1 < 2 ^ 63 →
          later.rest = 0xFF :: (uleb128 (ds1.interned_types.length - 1) ++ post) →
          type_ fuel2 later = Except.ok (v,
            later.advanced (1 + (uleb128 (ds1.interned_types.length - 1)).length))) ∧
        ∃ E, ds1 = ds.extend (ds.consumed ds1).length E ∧
          ∀ post, later.rest = ds.consumed ds1 ++ post →
            type_ fuel2 later = Except.ok (v, later.extend (ds.consumed ds1).length E)) ∧
      (∀ v, value fuel ds = Except.ok (v, ds1) →
        ds1.interned_values.get? (ds1.interned_values.length - 1) = some v ∧
        (∀ post, ds1.interned_values.length - 1 < 2 ^ 63 →
          later.rest = 0xFF :: (uleb128 (ds1.interned_values.length - 1) ++ post) →
          value fuel2 later = Except.ok (v,
            later.advanced (1 + (uleb128 (ds1.interned_values.length - 1)).length))) ∧
        ∃ E, ds1 = ds.extend (ds.consumed ds1).length E ∧
          ∀ post, later.rest = ds.consumed ds1 ++ post →
            value fuel2 later = Except.ok (v, later.extend (ds.consumed ds1).length E))) ∧
    (File.from_contents contents = Except.ok (file, final) → contents.length < 2 ^ 63 →
      ∃ inlined : List UInt8, inlined.take 12 = contents.take 12 ∧
        (∃ ds2, File.from_contents inlined = Except.ok (file, ds2)) ∧
        ∀ (strings : List Bytes) (symbols : List Symbol) (types : List Type_)
          (values : List Value),
          ∃ ds2, File.read_definitions (inlined.length + 1) (inlined.length + 1)
            ⟨⟨inlined, 12, Endian.little⟩, strings, symbols, types, values⟩ [] =
              Except.ok (file.definitions, ds2)) :=
  ⟨fun hfuel hfirst hlong hbo hlater =>
      back_reference_and_inline_bytes_decode_alike fuel fuel2 hfuel ds ds1 later hfirst hlong
        hbo hlater,
    fun h hsize => File.inlined_encoding contents file final h hsize⟩

set_option maxHeartbeats 2000000

/-- C7 on a file of 30 bytes: the header `2E 4E 49 52 00 00 00 01 00 00 00 02`, the record
`04 00 01 02 01 58 00 00 00 00` of a trait named "X", whose name is memoized at index 0,
and the record `04 00 FF 00 00 00 00 00` of a trait whose name is the back-reference to
index 0. It decodes to two traits named "X", and so does the file of 32 bytes in which the
back-reference is replaced by the inline bytes `01 02 01 58`; there is an encoding of the
two traits with the same header that takes nothing from the memos. At offset 22, after the
first record, the back-reference `FF 00` and the inline bytes decode to the same name. -/
theorem inlined_encoding_yields_equal_ir_witness :
    File.from_contents
        [0x2E, 0x4E, 0x49, 0x52, 0, 0, 0, 1, 0, 0, 0, 2, 4, 0, 1, 2, 1, 0x58, 0, 0, 0, 0,
          4, 0, 0xFF, 0, 0, 0, 0, 0] =
      Except.ok (⟨⟨1, 2, true⟩,
          [Definition.trait ⟨0, []⟩ ⟨[0x58]⟩ [] ⟨SourceFile.virtual_, 0, 0⟩,
            Definition.trait ⟨0, []⟩ ⟨[0x58]⟩ [] ⟨SourceFile.virtual_, 0, 0⟩]⟩,
        ⟨⟨[0x2E, 0x4E, 0x49, 0x52, 0, 0, 0, 1, 0, 0, 0, 2, 4, 0, 1, 2, 1, 0x58, 0, 0, 0, 0,
            4, 0, 0xFF, 0, 0, 0, 0, 0], 30, Endian.little⟩,
          [[0x58]], [Symbol.top ⟨[0x58]⟩], [], []⟩) ∧
    File.from_contents
        [0x2E, 0x4E, 0x49, 0x52, 0, 0, 0, 1, 0, 0, 0, 2, 4, 0, 1, 2, 1, 0x58, 0, 0, 0, 0,
          4, 0, 1, 2, 1, 0x58, 0, 0, 0, 0] =
      Except.ok (⟨⟨1, 2, true⟩,
          [Definition.trait ⟨0, []⟩ ⟨[0x58]⟩ [] ⟨SourceFile.virtual_, 0, 0⟩,
            Definition.trait ⟨0, []⟩ ⟨[0x58]⟩ [] ⟨SourceFile.virtual_, 0, 0⟩]⟩,
        ⟨⟨[0x2E, 0x4E, 0x49, 0x52, 0, 0, 0, 1, 0, 0, 0, 2, 4, 0, 1, 2, 1, 0x58, 0, 0, 0, 0,
            4, 0, 1, 2, 1, 0x58, 0, 0, 0, 0], 32, Endian.little⟩,
          [[0x58], [0x58]], [Symbol.top ⟨[0x58]⟩, Symbol.top ⟨[0x58]⟩], [], []⟩) ∧
    (∃ inlined : List UInt8,
      inlined.take 12 = [0x2E, 0x4E, 0x49, 0x52, 0, 0, 0, 1, 0, 0, 0, 2] ∧
      (∃ ds2, File.from_contents inlined = Except.ok (⟨⟨1, 2, true⟩,
          [Definition.trait ⟨0, []⟩ ⟨[0x58]⟩ [] ⟨SourceFile.virtual_, 0, 0⟩,
            Definition.trait ⟨0, []⟩ ⟨[0x58]⟩ [] ⟨SourceFile.virtual_, 0, 0⟩]⟩, ds2)) ∧
      ∀ (strings : List Bytes) (symbols : List Symbol) (types : List Type_)
        (values : List Value),
        ∃ ds2, File.read_definitions (inlined.length + 1) (inlined.length + 1)
          ⟨⟨inlined, 12, Endian.little⟩, strings, symbols, types, values⟩ [] =
            Except.ok ([Definition.trait ⟨0, []⟩ ⟨[0x58]⟩ [] ⟨SourceFile.virtual_, 0, 0⟩,
              Definition.trait ⟨0, []⟩ ⟨[0x58]⟩ [] ⟨SourceFile.virtual_, 0, 0⟩], ds2)) ∧
    symbol 2 ⟨⟨[0x2E, 0x4E, 0x49, 0x52, 0, 0, 0, 1, 0, 0, 0, 2, 4, 0, 1, 2, 1, 0x58, 0, 0, 0,
          0, 4, 0, 0xFF, 0, 0, 0, 0, 0], 24, Endian.little⟩,
        [[0x58]], [Symbol.top ⟨[0x58]⟩], [], []⟩ =
      Except.ok (Symbol.top ⟨[0x58]⟩,
        ⟨⟨[0x2E, 0x4E, 0x49, 0x52, 0, 0, 0, 1, 0, 0, 0, 2, 4, 0, 1, 2, 1, 0x58, 0, 0, 0, 0,
            4, 0, 0xFF, 0, 0, 0, 0, 0], 26, Endian.little⟩,
          [[0x58]], [Symbol.top ⟨[0x58]⟩], [], []⟩) := by
  have hheaderA : Header.decode
      ⟨[0x2E, 0x4E, 0x49, 0x52, 0, 0, 0, 1, 0, 0, 0, 2, 4, 0, 1, 2, 1, 0x58, 0, 0, 0, 0,
          4, 0, 0xFF, 0, 0, 0, 0, 0], 0, Endian.big⟩ =
      Except.ok (⟨1, 2, true⟩,
        ⟨[0x2E, 0x4E, 0x49, 0x52, 0, 0, 0, 1, 0, 0, 0, 2, 4, 0, 1, 2, 1, 0x58, 0, 0, 0, 0,
          4, 0, 0xFF, 0, 0, 0, 0, 0], 12, Endian.big⟩) :=
    (Header.decode_at_start _).2.1 0 0 0 1 0 0 0 2 _ rfl
  have hheaderB : Header.decode
      ⟨[0x2E, 0x4E, 0x49, 0x52, 0, 0, 0, 1, 0, 0, 0, 2, 4, 0, 1, 2, 1, 0x58, 0, 0, 0, 0,
          4, 0, 1, 2, 1, 0x58, 0, 0, 0, 0], 0, Endian.big⟩ =
      Except.ok (⟨1, 2, true⟩,
        ⟨[0x2E, 0x4E, 0x49, 0x52, 0, 0, 0, 1, 0, 0, 0, 2, 4, 0, 1, 2, 1, 0x58, 0, 0, 0, 0,
          4, 0, 1, 2, 1, 0x58, 0, 0, 0, 0], 12, Endian.big⟩) :=
    (Header.decode_at_start _).2.1 0 0 0 1 0 0 0 2 _ rfl
  have hA1 : definition 1
      ⟨⟨[0x2E, 0x4E, 0x49, 0x52, 0, 0, 0, 1, 0, 0, 0, 2, 4, 0, 1, 2, 1, 0x58, 0, 0, 0, 0,
          4, 0, 0xFF, 0, 0, 0, 0, 0], 12, Endian.little⟩,
        [], [], [], []⟩ =
      Except.ok (Definition.trait ⟨0, []⟩ ⟨[0x58]⟩ [] ⟨SourceFile.virtual_, 0, 0⟩,
        ⟨⟨[0x2E, 0x4E, 0x49, 0x52, 0, 0, 0, 1, 0, 0, 0, 2, 4, 0, 1, 2, 1, 0x58, 0, 0, 0, 0,
          4, 0, 0xFF, 0, 0, 0, 0, 0], 22, Endian.little⟩,
        [[0x58]], [Symbol.top ⟨[0x58]⟩], [], []⟩) := by
    rw [definition_trait 1
      ⟨⟨[0x2E, 0x4E, 0x49, 0x52, 0, 0, 0, 1, 0, 0, 0, 2, 4, 0, 1, 2, 1, 0x58, 0, 0, 0, 0,
          4, 0, 0xFF, 0, 0, 0, 0, 0], 12, Endian.little⟩,
        [], [], [], []⟩
      4 [0, 1, 2, 1, 0x58, 0, 0, 0, 0, 4, 0, 0xFF, 0, 0, 0, 0, 0] rfl rfl []
      ⟨⟨[0x2E, 0x4E, 0x49, 0x52, 0, 0, 0, 1, 0, 0, 0, 2, 4, 0, 1, 2, 1, 0x58, 0, 0, 0, 0,
          4, 0, 0xFF, 0, 0, 0, 0, 0], 14, Endian.little⟩,
        [], [], [], []⟩ (by rfl)
      ⟨[0x58]⟩
      ⟨⟨[0x2E, 0x4E, 0x49, 0x52, 0, 0, 0, 1, 0, 0, 0, 2, 4, 0, 1, 2, 1, 0x58, 0, 0, 0, 0,
          4, 0, 0xFF, 0, 0, 0, 0, 0], 18, Endian.little⟩,
        [[0x58]], [Symbol.top ⟨[0x58]⟩], [], []⟩ (by rfl) []
      ⟨⟨[0x2E, 0x4E, 0x49, 0x52, 0, 0, 0, 1, 0, 0, 0, 2, 4, 0, 1, 2, 1, 0x58, 0, 0, 0, 0,
          4, 0, 0xFF, 0, 0, 0, 0, 0], 19, Endian.little⟩,
        [[0x58]], [Symbol.top ⟨[0x58]⟩], [], []⟩ (by rfl)]
    rfl
  have hA2 : definition 1
      ⟨⟨[0x2E, 0x4E, 0x49, 0x52, 0, 0, 0, 1, 0, 0, 0, 2, 4, 0, 1, 2, 1, 0x58, 0, 0, 0, 0,
          4, 0, 0xFF, 0, 0, 0, 0, 0], 22, Endian.little⟩,
        [[0x58]], [Symbol.top ⟨[0x58]⟩], [], []⟩ =
      Except.ok (Definition.trait ⟨0, []⟩ ⟨[0x58]⟩ [] ⟨SourceFile.virtual_, 0, 0⟩,
        ⟨⟨[0x2E, 0x4E, 0x49, 0x52, 0, 0, 0, 1, 0, 0, 0, 2, 4, 0, 1, 2, 1, 0x58, 0, 0, 0, 0,
          4, 0, 0xFF, 0, 0, 0, 0, 0], 30, Endian.little⟩,
        [[0x58]], [Symbol.top ⟨[0x58]⟩], [], []⟩) := by
    rw [definition_trait 1
      ⟨⟨[0x2E, 0x4E, 0x49, 0x52, 0, 0, 0, 1, 0, 0, 0, 2, 4, 0, 1, 2, 1, 0x58, 0, 0, 0, 0,
          4, 0, 0xFF, 0, 0, 0, 0, 0], 22, Endian.little⟩,
        [[0x58]], [Symbol.top ⟨[0x58]⟩], [], []⟩
      4 [0, 0xFF, 0, 0, 0, 0, 0] rfl rfl []
      ⟨⟨[0x2E, 0x4E, 0x49, 0x52, 0, 0, 0, 1, 0, 0, 0, 2, 4, 0, 1, 2, 1, 0x58, 0, 0, 0, 0,
          4, 0, 0xFF, 0, 0, 0, 0, 0], 24, Endian.little⟩,
        [[0x58]], [Symbol.top ⟨[0x58]⟩], [], []⟩ (by rfl)
      ⟨[0x58]⟩
      ⟨⟨[0x2E, 0x4E, 0x49, 0x52, 0, 0, 0, 1, 0, 0, 0, 2, 4, 0, 1, 2, 1, 0x58, 0, 0, 0, 0,
          4, 0, 0xFF, 0, 0, 0, 0, 0], 26, Endian.little⟩,
        [[0x58]], [Symbol.top ⟨[0x58]⟩], [], []⟩ (by rfl) []
      ⟨⟨[0x2E, 0x4E, 0x49, 0x52, 0, 0, 0, 1, 0, 0, 0, 2, 4, 0, 1, 2, 1, 0x58, 0, 0, 0, 0,
          4, 0, 0xFF, 0, 0, 0, 0, 0], 27, Endian.little⟩,
        [[0x58]], [Symbol.top ⟨[0x58]⟩], [], []⟩ (by rfl)]
    rfl
  have hB1 : definition 1
      ⟨⟨[0x2E, 0x4E, 0x49, 0x52, 0, 0, 0, 1, 0, 0, 0, 2, 4, 0, 1, 2, 1, 0x58, 0, 0, 0, 0,
          4, 0, 1, 2, 1, 0x58, 0, 0, 0, 0], 12, Endian.little⟩,
        [], [], [], []⟩ =
      Except.ok (Definition.trait ⟨0, []⟩ ⟨[0x58]⟩ [] ⟨SourceFile.virtual_, 0, 0⟩,
        ⟨⟨[0x2E, 0x4E, 0x49, 0x52, 0, 0, 0, 1, 0, 0, 0, 2, 4, 0, 1, 2, 1, 0x58, 0, 0, 0, 0,
          4, 0, 1, 2, 1, 0x58, 0, 0, 0, 0], 22, Endian.little⟩,
        [[0x58]], [Symbol.top ⟨[0x58]⟩], [], []⟩) := by
    rw [definition_trait 1
      ⟨⟨[0x2E, 0x4E, 0x49, 0x52, 0, 0, 0, 1, 0, 0, 0, 2, 4, 0, 1, 2, 1, 0x58, 0, 0, 0, 0,
          4, 0, 1, 2, 1, 0x58, 0, 0, 0, 0], 12, Endian.little⟩,
        [], [], [], []⟩
      4 [0, 1, 2, 1, 0x58, 0, 0, 0, 0, 4, 0, 1, 2, 1, 0x58, 0, 0, 0, 0] rfl rfl []
      ⟨⟨[0x2E, 0x4E, 0x49, 0x52, 0, 0, 0, 1, 0, 0, 0, 2, 4, 0, 1, 2, 1, 0x58, 0, 0, 0, 0,
          4, 0, 1, 2, 1, 0x58, 0, 0, 0, 0], 14, Endian.little⟩,
        [], [], [], []⟩ (by rfl)
      ⟨[0x58]⟩
      ⟨⟨[0x2E, 0x4E, 0x49, 0x52, 0, 0, 0, 1, 0, 0, 0, 2, 4, 0, 1, 2, 1, 0x58, 0, 0, 0, 0,
          4, 0, 1, 2, 1, 0x58, 0, 0, 0, 0], 18, Endian.little⟩,
        [[0x58]], [Symbol.top ⟨[0x58]⟩], [], []⟩ (by rfl) []
      ⟨⟨[0x2E, 0x4E, 0x49, 0x52, 0, 0, 0, 1, 0, 0, 0, 2, 4, 0, 1, 2, 1, 0x58, 0, 0, 0, 0,
          4, 0, 1, 2, 1, 0x58, 0, 0, 0, 0], 19, Endian.little⟩,
        [[0x58]], [Symbol.top ⟨[0x58]⟩], [], []⟩ (by rfl)]
    rfl
  have hB2 : definition 1
      ⟨⟨[0x2E, 0x4E, 0x49, 0x52, 0, 0, 0, 1, 0, 0, 0, 2, 4, 0, 1, 2, 1, 0x58, 0, 0, 0, 0,
          4, 0, 1, 2, 1, 0x58, 0, 0, 0, 0], 22, Endian.little⟩,
        [[0x58]], [Symbol.top ⟨[0x58]⟩], [], []⟩ =
      Except.ok (Definition.trait ⟨0, []⟩ ⟨[0x58]⟩ [] ⟨SourceFile.virtual_, 0, 0⟩,
        ⟨⟨[0x2E, 0x4E, 0x49, 0x52, 0, 0, 0, 1, 0, 0, 0, 2, 4, 0, 1, 2, 1, 0x58, 0, 0, 0, 0,
          4, 0, 1, 2, 1, 0x58, 0, 0, 0, 0], 32, Endian.little⟩,
        [[0x58], [0x58]], [Symbol.top ⟨[0x58]⟩, Symbol.top ⟨[0x58]⟩], [], []⟩) := by
    rw [definition_trait 1
      ⟨⟨[0x2E, 0x4E, 0x49, 0x52, 0, 0, 0, 1, 0, 0, 0, 2, 4, 0, 1, 2, 1, 0x58, 0, 0, 0, 0,
          4, 0, 1, 2, 1, 0x58, 0, 0, 0, 0], 22, Endian.little⟩,
        [[0x58]], [Symbol.top ⟨[0x58]⟩], [], []⟩
      4 [0, 1, 2, 1, 0x58, 0, 0, 0, 0] rfl rfl []
      ⟨⟨[0x2E, 0x4E, 0x49, 0x52, 0, 0, 0, 1, 0, 0, 0, 2, 4, 0, 1, 2, 1, 0x58, 0, 0, 0, 0,
          4, 0, 1, 2, 1, 0x58, 0, 0, 0, 0], 24, Endian.little⟩,
        [[0x58]], [Symbol.top ⟨[0x58]⟩], [], []⟩ (by rfl)
      ⟨[0x58]⟩
      ⟨⟨[0x2E, 0x4E, 0x49, 0x52, 0, 0, 0, 1, 0, 0, 0, 2, 4, 0, 1, 2, 1, 0x58, 0, 0, 0, 0,
          4, 0, 1, 2, 1, 0x58, 0, 0, 0, 0], 28, Endian.little⟩,
        [[0x58], [0x58]], [Symbol.top ⟨[0x58]⟩, Symbol.top ⟨[0x58]⟩], [], []⟩ (by rfl) []
      ⟨⟨[0x2E, 0x4E, 0x49, 0x52, 0, 0, 0, 1, 0, 0, 0, 2, 4, 0, 1, 2, 1, 0x58, 0, 0, 0, 0,
          4, 0, 1, 2, 1, 0x58, 0, 0, 0, 0], 29, Endian.little⟩,
        [[0x58], [0x58]], [Symbol.top ⟨[0x58]⟩, Symbol.top ⟨[0x58]⟩], [], []⟩ (by rfl)]
    rfl
  have hseqA : sequence_loop (definition 1) 2
      ⟨⟨[0x2E, 0x4E, 0x49, 0x52, 0, 0, 0, 1, 0, 0, 0, 2, 4, 0, 1, 2, 1, 0x58, 0, 0, 0, 0,
          4, 0, 0xFF, 0, 0, 0, 0, 0], 12, Endian.little⟩, [], [], [], []⟩ =
      Except.ok ([Definition.trait ⟨0, []⟩ ⟨[0x58]⟩ [] ⟨SourceFile.virtual_, 0, 0⟩,
          Definition.trait ⟨0, []⟩ ⟨[0x58]⟩ [] ⟨SourceFile.virtual_, 0, 0⟩],
        ⟨⟨[0x2E, 0x4E, 0x49, 0x52, 0, 0, 0, 1, 0, 0, 0, 2, 4, 0, 1, 2, 1, 0x58, 0, 0, 0, 0,
          4, 0, 0xFF, 0, 0, 0, 0, 0], 30, Endian.little⟩,
          [[0x58]], [Symbol.top ⟨[0x58]⟩], [], []⟩) := by
    rw [sequence_loop_succ, hA1]
    simp only []
    rw [sequence_loop_succ, hA2]
    rfl
  have hseqB : sequence_loop (definition 1) 2
      ⟨⟨[0x2E, 0x4E, 0x49, 0x52, 0, 0, 0, 1, 0, 0, 0, 2, 4, 0, 1, 2, 1, 0x58, 0, 0, 0, 0,
          4, 0, 1, 2, 1, 0x58, 0, 0, 0, 0], 12, Endian.little⟩, [], [], [], []⟩ =
      Except.ok ([Definition.trait ⟨0, []⟩ ⟨[0x58]⟩ [] ⟨SourceFile.virtual_, 0, 0⟩,
          Definition.trait ⟨0, []⟩ ⟨[0x58]⟩ [] ⟨SourceFile.virtual_, 0, 0⟩],
        ⟨⟨[0x2E, 0x4E, 0x49, 0x52, 0, 0, 0, 1, 0, 0, 0, 2, 4, 0, 1, 2, 1, 0x58, 0, 0, 0, 0,
          4, 0, 1, 2, 1, 0x58, 0, 0, 0, 0], 32, Endian.little⟩,
          [[0x58], [0x58]], [Symbol.top ⟨[0x58]⟩, Symbol.top ⟨[0x58]⟩], [], []⟩) := by
    rw [sequence_loop_succ, hB1]
    simp only []
    rw [sequence_loop_succ, hB2]
    rfl
  have hA := File.from_contents_complete 1 _ _ _ 2 _ _ hheaderA hseqA rfl
  have hB := File.from_contents_complete 1 _ _ _ 2 _ _ hheaderB hseqB rfl
  have hfile := (inlined_encoding_yields_equal_ir 0 0 ⟨⟨[], 0, Endian.little⟩, [], [], [], []⟩
      ⟨⟨[], 0, Endian.little⟩, [], [], [], []⟩ ⟨⟨[], 0, Endian.little⟩, [], [], [], []⟩
      _ _ _).2 hA (by decide)
  exact ⟨hA, hB, hfile, by rfl⟩

/-- Inlining one reference only. The bytes `01 02 01 58`, `FF 00`, `01 02 01 59`, `FF 01`
decode, one symbol after the other, to the names X, X, Y, Y. With the first
back-reference replaced by the inline bytes `01 02 01 58` and the second one kept, they
decode to X, X, Y, X: the second inline X is memoized again, at index 1, so the index 1
no longer denotes Y. An encoding that inlines a reference has to renumber the references
that follow, or to inline them all, as the encoding of `inlined_encoding_yields_equal_ir`
does. -/
theorem inlining_one_reference_shifts_the_indices :
    (symbol 2 ⟨⟨[1, 2, 1, 0x58, 0xFF, 0, 1, 2, 1, 0x59, 0xFF, 1], 0, Endian.little⟩,
        [], [], [], []⟩ =
      Except.ok (Symbol.top ⟨[0x58]⟩,
        ⟨⟨[1, 2, 1, 0x58, 0xFF, 0, 1, 2, 1, 0x59, 0xFF, 1], 4, Endian.little⟩,
          [[0x58]], [Symbol.top ⟨[0x58]⟩], [], []⟩) ∧
    symbol 2 ⟨⟨[1, 2, 1, 0x58, 0xFF, 0, 1, 2, 1, 0x59, 0xFF, 1], 4, Endian.little⟩,
        [[0x58]], [Symbol.top ⟨[0x58]⟩], [], []⟩ =
      Except.ok (Symbol.top ⟨[0x58]⟩,
        ⟨⟨[1, 2, 1, 0x58, 0xFF, 0, 1, 2, 1, 0x59, 0xFF, 1], 6, Endian.little⟩,
          [[0x58]], [Symbol.top ⟨[0x58]⟩], [], []⟩) ∧
    symbol 2 ⟨⟨[1, 2, 1, 0x58, 0xFF, 0, 1, 2, 1, 0x59, 0xFF, 1], 6, Endian.little⟩,
        [[0x58]], [Symbol.top ⟨[0x58]⟩], [], []⟩ =
      Except.ok (Symbol.top ⟨[0x59]⟩,
        ⟨⟨[1, 2, 1, 0x58, 0xFF, 0, 1, 2, 1, 0x59, 0xFF, 1], 10, Endian.little⟩,
          [[0x58], [0x59]], [Symbol.top ⟨[0x58]⟩, Symbol.top ⟨[0x59]⟩], [], []⟩) ∧
    symbol 2 ⟨⟨[1, 2, 1, 0x58, 0xFF, 0, 1, 2, 1, 0x59, 0xFF, 1], 10, Endian.little⟩,
        [[0x58], [0x59]], [Symbol.top ⟨[0x58]⟩, Symbol.top ⟨[0x59]⟩], [], []⟩ =
      Except.ok (Symbol.top ⟨[0x59]⟩,
        ⟨⟨[1, 2, 1, 0x58, 0xFF, 0, 1, 2, 1, 0x59, 0xFF, 1], 12, Endian.little⟩,
          [[0x58], [0x59]], [Symbol.top ⟨[0x58]⟩, Symbol.top ⟨[0x59]⟩], [], []⟩)) ∧
    (symbol 2 ⟨⟨[1, 2, 1, 0x58, 1, 2, 1, 0x58, 1, 2, 1, 0x59, 0xFF, 1], 4, Endian.little⟩,
        [[0x58]], [Symbol.top ⟨[0x58]⟩], [], []⟩ =
      Except.ok (Symbol.top ⟨[0x58]⟩,
        ⟨⟨[1, 2, 1, 0x58, 1, 2, 1, 0x58, 1, 2, 1, 0x59, 0xFF, 1], 8, Endian.little⟩,
          [[0x58], [0x58]], [Symbol.top ⟨[0x58]⟩, Symbol.top ⟨[0x58]⟩], [], []⟩) ∧
    symbol 2 ⟨⟨[1, 2, 1, 0x58, 1, 2, 1, 0x58, 1, 2, 1, 0x59, 0xFF, 1], 8, Endian.little⟩,
        [[0x58], [0x58]], [Symbol.top ⟨[0x58]⟩, Symbol.top ⟨[0x58]⟩], [], []⟩ =
      Except.ok (Symbol.top ⟨[0x59]⟩,
        ⟨⟨[1, 2, 1, 0x58, 1, 2, 1, 0x58, 1, 2, 1, 0x59, 0xFF, 1], 12, Endian.little⟩,
          [[0x58], [0x58], [0x59]],
          [Symbol.top ⟨[0x58]⟩, Symbol.top ⟨[0x58]⟩, Symbol.top ⟨[0x59]⟩], [], []⟩) ∧
    symbol 2 ⟨⟨[1, 2, 1, 0x58, 1, 2, 1, 0x58, 1, 2, 1, 0x59, 0xFF, 1], 12, Endian.little⟩,
        [[0x58], [0x58], [0x59]],
        [Symbol.top ⟨[0x58]⟩, Symbol.top ⟨[0x58]⟩, Symbol.top ⟨[0x59]⟩], [], []⟩ =
      Except.ok (Symbol.top ⟨[0x58]⟩,
        ⟨⟨[1, 2, 1, 0x58, 1, 2, 1, 0x58, 1, 2, 1, 0x59, 0xFF, 1], 14, Endian.little⟩,
          [[0x58], [0x58], [0x59]],
          [Symbol.top ⟨[0x58]⟩, Symbol.top ⟨[0x58]⟩, Symbol.top ⟨[0x59]⟩], [], []⟩)) :=
  ⟨⟨by rfl, by rfl, by rfl, by rfl⟩, ⟨by rfl, by rfl, by rfl⟩⟩

end Deserializer

end nir
